import Mathlib

/-!
A shallow embedding of the `screw` command-line binder.

The definitions below follow `src/screw.go`.  Go strings are byte strings; a model
string is the list of its bytes, each byte written as a character.  Every `*Option`
of a context lives in the context's `options` store and is named by its position
there; an identifier outside the store plays the role of a nil `*Option`.

Functions of the source that mutate their receiver return the new state; the state is
returned together with the error (if any), because in Go the mutations made before an
error is returned stay visible.
-/

set_option autoImplicit false

namespace screw

/-- Go `string`: the list of its bytes. -/
abbrev Str := List Char

/-- Outcomes other than a normal return: the errors built in `screw.go`, the error of the
value coercion, a run-time panic, and process termination through `os.Exit`. -/
inductive Err
  /-- The error of `unknownOptionError(optionName)`. -/
  | unknownOption (optionName : Str)
  /-- The error of `unknownOptionErrorShort(optionName, arg)`. -/
  | unknownOptionShort (optionName : Str) (arg : Str)
  /-- The error `Illegal character set` of `parseShort`. -/
  | illegalCharacterSet
  /-- The error of `errOnce(optionName)`. -/
  | once (optionName : Str)
  /-- The error `fail option` of `parseOneOption`. -/
  | failOption
  /-- The error `Unknown subcommand` of `parseOneOption`. -/
  | unknownSubcommand (arg : Str)
  /-- The error returned by `setBase` when the text does not fit the destination. -/
  | coercion (val : Str)
  /-- The error `ErrUnsupportedType`. -/
  | unsupportedType
  /-- The error `ErrOptionName` with the name and the offending byte. -/
  | optionName (name : Str) (ch : Char)
  /-- The error `ErrDuplicateOptions` for a short or long name, with the aliases of the owner. -/
  | duplicateOptions (name : Str) (owner : Str)
  /-- The error `ErrDuplicateOptions` for an `env=` name. -/
  | duplicateEnv (name : Str)
  /-- The error `ErrDuplicateOptions` for an `args=` name. -/
  | duplicateArgs (name : Str)
  /-- The error `ErrUnsupported` with the clause and the directive. -/
  | unsupported (opt : Str) (tag : Str)
  /-- The error `ErrNotFoundName` with the directive. -/
  | notFoundName (tag : Str)
  /-- The error `Illegal command line option` of `parseTagAndSetOption`. -/
  | illegalCommandLineOption (opt : Str)
  /-- A run-time panic (index out of range, nil dereference, reflection on a zero Value). -/
  | panic
  /-- Process termination by `os.Exit(code)`. -/
  | exit (code : Nat)
  /-- The iteration bound of a model loop was reached. -/
  | outOfFuel
  deriving DecidableEq, Repr

/-- The `reflect.Value` of a destination, with the value it currently holds.  `invalid`
is the zero `reflect.Value` (an `Option` built without a destination). -/
inductive Pointer
  | invalid
  | bool (b : Bool)
  | str (s : Str)
  | int (n : Int)
  | bools (xs : List Bool)
  | strs (xs : List Str)
  | ints (xs : List Int)
  deriving DecidableEq, Repr

/-- The part of `reflect.Kind` that the binder distinguishes. -/
inductive Kind
  | Invalid | Bool | String | Int | Slice
  deriving DecidableEq, Repr

/-- Go `reflect.Value.Kind`. -/
def Pointer.Kind : Pointer → Kind
  | .invalid => .Invalid
  | .bool _ => .Bool
  | .str _ => .String
  | .int _ => .Int
  | .bools _ => .Slice
  | .strs _ => .Slice
  | .ints _ => .Slice

/-- Go `reflect.Value.IsZero`; it panics (`none`) on the zero Value.  A slice is zero when
it is nil, which is how the empty list is read. -/
def Pointer.IsZero : Pointer → Option Bool
  | .invalid => none
  | .bool b => some (!b)
  | .str s => some s.isEmpty
  | .int n => some (decide (n = 0))
  | .bools xs => some xs.isEmpty
  | .strs xs => some xs.isEmpty
  | .ints xs => some xs.isEmpty

/-- The test `_, isBool := pointer.Interface().(bool)`; `Interface` panics (`none`) on
the zero Value. -/
def Pointer.isBool : Pointer → Option Bool
  | .invalid => none
  | .bool _ => some true
  | _ => some false

/-- The test `_, isBoolSlice := pointer.Interface().([]bool)`; `Interface` panics
(`none`) on the zero Value. -/
def Pointer.isBoolSlice : Pointer → Option Bool
  | .invalid => none
  | .bools _ => some true
  | _ => some false

/-- Modelled from the spec: `resetValue` is not among the source files.  The write
semantics of the spec say that a destination holding its declared default "resets" so
that a sequence "starts empty": the destination takes the zero value of its type. -/
def resetValue : Pointer → Pointer
  | .invalid => .invalid
  | .bool _ => .bool false
  | .str _ => .str []
  | .int _ => .int 0
  | .bools _ => .bools []
  | .strs _ => .strs []
  | .ints _ => .ints []

/-- Modelled from the spec: the boolean texts accepted by the Value Coercion, which is
not among the source files.  The spec fixes `"true"` and `"false"`; the other spellings
are those of Go's `strconv.ParseBool`. -/
def parseBool (s : Str) : Option Bool :=
  if s = "true".toList ∨ s = "1".toList ∨ s = "t".toList ∨ s = "T".toList
      ∨ s = "TRUE".toList ∨ s = "True".toList then some true
  else if s = "false".toList ∨ s = "0".toList ∨ s = "f".toList ∨ s = "F".toList
      ∨ s = "FALSE".toList ∨ s = "False".toList then some false
  else none

/-- Value of a run of decimal digits, most significant first. -/
def parseDigits : Str → Nat → Option Nat
  | [], acc => some acc
  | d :: ds, acc =>
    if '0' ≤ d ∧ d ≤ '9' then parseDigits ds (acc * 10 + (d.toNat - '0'.toNat)) else none

/-- Modelled from the spec: the integer texts accepted by the Value Coercion, which is
not among the source files: an optional sign and at least one decimal digit.  The width
of the Go integer type is not modelled. -/
def parseInt : Str → Option Int
  | [] => none
  | '-' :: ds => if ds = [] then none else (parseDigits ds 0).map (fun n => - (n : Int))
  | '+' :: ds => if ds = [] then none else (parseDigits ds 0).map (fun n => (n : Int))
  | ds => (parseDigits ds 0).map (fun n => (n : Int))

/-- Modelled from the spec: `setBase` (the Value Coercion) is not among the source
files.  Per the spec it "converts a string token into a primitive/slice destination
type" and "reports type-mismatch failures": a scalar is replaced by the converted text,
a sequence gets the converted text appended, and a text that does not convert leaves
the destination as it is and returns an error. -/
def setBase (val : Str) : Pointer → Pointer × Option Err
  | .invalid => (.invalid, some .unsupportedType)
  | .bool b =>
    match parseBool val with
    | some v => (.bool v, none)
    | none => (.bool b, some (.coercion val))
  | .str _ => (.str val, none)
  | .int n =>
    match parseInt val with
    | some v => (.int v, none)
    | none => (.int n, some (.coercion val))
  | .bools xs =>
    match parseBool val with
    | some v => (.bools (xs ++ [v]), none)
    | none => (.bools xs, some (.coercion val))
  | .strs xs => (.strs (xs ++ [val]), none)
  | .ints xs =>
    match parseInt val with
    | some v => (.ints (xs ++ [v]), none)
    | none => (.ints xs, some (.coercion val))

/-- Go type `Option` (one descriptor).  `fn` says whether `option.fn.IsValid()`, and
`fnCalls` records the arguments the callback has been called with, oldest first. -/
structure Opt where
  pointer : Pointer
  fn : Bool
  fnCalls : List Str
  usage : Str
  showDefValue : Str
  index : Nat
  envName : Str
  argsName : Str
  greedy : Bool
  once : Bool
  cmdSet : Bool
  showShort : List Str
  showLong : List Str
  deriving DecidableEq, Repr

/-- Go type `unparsedArg`. -/
structure unparsedArg where
  arg : Str
  index : Nat
  deriving DecidableEq, Repr

/-- What has been written to the output sink `c.w`. -/
inductive Output
  /-- The help text rendered by `printHelpMessage`. -/
  | help
  /-- The line printed by `showVersion`. -/
  | version (v : Str)
  deriving DecidableEq, Repr

/-- Go type `Screw` (one parsing context), together with the `usage` text of the
`Subcommand` that wraps it.  `hasRoot` says whether `c.root != nil`; `options` is the
store of the context's `*Option` values; `shortAndLong` maps a name to the position of
its descriptor in the store, the first entry for a name being the map's entry;
`envAndArgs` lists the positions of the environment/positional descriptors; `w` is
what has been written to the output sink; `subMain` says whether
`c.subMain.IsValid()` and `subMainCalls` counts its calls; `structAddr` is the method
set of `c.structAddr` (each method with its number of parameters), or `none` for the
zero Value. -/
structure Screw where
  hasRoot : Bool
  shortAndLong : List (Str × Nat)
  options : List Opt
  checkEnv : List Str
  checkArgs : List Str
  envAndArgs : List Nat
  args : List Str
  unparsedArgs : List unparsedArg
  about : Str
  version : Str
  subMain : Bool
  subMainCalls : Nat
  exit : Bool
  subcommand : List (Str × Screw)
  usage : Str
  isSetSubcommand : List Str
  procName : Str
  currSubcommandFieldName : Str
  fieldName : Str
  w : List Output
  structAddr : Option (List (Str × Nat))

/-- The map access `m[name]` of `shortAndLong`: the position stored under `name`. -/
def mapGet (name : Str) : List (Str × Nat) → Option Nat
  | [] => none
  | (k, v) :: m => if k = name then some v else mapGet name m

/-- The test `_, ok := c.shortAndLong[name]`: whether `name` is a key of the registry. -/
def Screw.isKey (c : Screw) (name : Str) : Bool :=
  (mapGet name c.shortAndLong).isSome

/-- The lookup `option, _ = c.shortAndLong[name]` with the test `option == nil`: the
position of the descriptor and the descriptor, or `none` when the name is no key or the
entry is nil. -/
def Screw.getOption (c : Screw) (name : Str) : Option (Nat × Opt) :=
  match mapGet name c.shortAndLong with
  | none => none
  | some id =>
    match c.options[id]? with
    | none => none
    | some o => some (id, o)

/-- The effect on the context of a mutation of the descriptor at position `id`. -/
def Screw.setOpt (c : Screw) (id : Nat) (o : Opt) : Screw :=
  { c with options := c.options.set id o }

/-- Go `strings.Index(arg, "=")` and `strings.IndexByte(arg, '=')`: the position of the
first `=`, or `none` for the result `-1`. -/
def indexEq : Str → Option Nat
  | [] => none
  | a :: rest => if a = '=' then some 0 else (indexEq rest).map (· + 1)

/-- Go `strings.HasPrefix(value, "-")`. -/
def hasDashPrefix : Str → Bool
  | a :: _ => a = '-'
  | [] => false

/-- Source `Option.onceResetValue`.  `IsZero` is evaluated only when a default is
declared, and panics on the zero Value. -/
def onceResetValue (o : Opt) : Opt × Option Err :=
  if o.showDefValue.length > 0 then
    match o.pointer.IsZero with
    | none => (o, some .panic)
    | some z =>
      if !z && !o.cmdSet then ({ o with pointer := resetValue o.pointer, cmdSet := true }, none)
      else ({ o with cmdSet := true }, none)
  else ({ o with cmdSet := true }, none)

/-- The order key computed by `setValueAndIndex`:
`uint64(index) << 31 | uint64(lowIndex)`, in 64-bit arithmetic. -/
def orderKey (index : Nat) (lowIndex : Nat) : Nat :=
  ((index % 2 ^ 64) <<< 31) % 2 ^ 64 ||| (lowIndex % 2 ^ 64)

/-- Source `setValueAndIndex`.  With a callback the value is handed to the callback and
the destination is not touched. -/
def setValueAndIndex (val : Str) (option : Opt) (index : Nat) (lowIndex : Nat) :
    Opt × Option Err :=
  match onceResetValue option with
  | (o, some e) => (o, some e)
  | (o, none) =>
    let o := { o with index := orderKey index lowIndex }
    if o.fn then ({ o with fnCalls := o.fnCalls ++ [val] }, none)
    else
      match setBase val o.pointer with
      | (p, e) => ({ o with pointer := p }, e)

/-- Source `setBoolAndBoolSliceDefval`: the value to use, or `none` when
`pointer.Interface()` panics on the zero Value. -/
def setBoolAndBoolSliceDefval (pointer : Pointer) (value : Str) : Option Str :=
  if value = [] then
    if pointer.Kind = .Bool then some "true".toList
    else
      match pointer.isBoolSlice with
      | none => none
      | some true => some "true".toList
      | some false => some value
  else some value

/-- Source `Screw.parseEqualValue`: the value and the descriptor, or the error. -/
def parseEqualValue (c : Screw) (arg : Str) : Except Err (Str × Nat × Opt) :=
  match indexEq arg with
  | none => .error (.unknownOption arg)
  | some pos =>
    match c.getOption (arg.take pos) with
    | none => .error (.unknownOption arg)
    | some (id, o) => .ok (arg.drop (pos + 1), id, o)

/-- Source `checkOnce`: the error to return, if any.  `IsZero` is evaluated only for a
once-marked descriptor, and panics on the zero Value. -/
def checkOnce (arg : Str) (option : Opt) : Option Err :=
  if option.once then
    match option.pointer.IsZero with
    | none => some .panic
    | some z => if !z then some (.once arg) else none
  else none

/-- Source `Screw.isRegisterOptions`; `none` is the panic of the slice expression
`arg[num:end]` when `num > end`. -/
def isRegisterOptions (c : Screw) (arg : Str) : Option Bool :=
  let num := 0
  let num := if arg.length > 0 ∧ arg[0]? = some '-' then num + 1 else num
  let num := if arg.length > 1 ∧ arg[1]? = some '-' then num + 1 else num
  let end_ := match indexEq arg with
    | some e => e
    | none => arg.length
  if num ≤ end_ then some (c.isKey ((arg.take end_).drop num)) else none

/-- Source `Screw.findFallbackOpt`: the result, the cursor, and whether the call
panicked. -/
def findFallbackOpt (c : Screw) (value : Str) (index : Nat) : Bool × Nat × Option Err :=
  if hasDashPrefix value then
    match isRegisterOptions c value with
    | none => (false, index, some .panic)
    | some true => (true, index - 1, none)
    | some false => (false, index, none)
  else (false, index, none)

/-- The `for` loop of `parseLong` (lines 333-363), entered with the cursor on the
option token.  `fuel` bounds the number of iterations. -/
def parseLongLoop (arg : Str) (id : Nat) : Nat → Screw → Nat → Screw × Nat × Option Err
  | 0, c, index => (c, index, some .outOfFuel)
  | fuel + 1, c, index =>
    let index := index + 1
    if index ≥ c.args.length then (c, index, none)
    else
      let value := c.args.getD index []
      match findFallbackOpt c value index with
      | (_, index, some e) => (c, index, some e)
      | (true, index, none) => (c, index, none)
      | (false, index, none) =>
        match c.options[id]? with
        | none => (c, index, some .panic)
        | some option =>
          match checkOnce arg option with
          | some e => (c, index, some e)
          | none =>
            match setValueAndIndex value option index 0 with
            | (o, some e) => (c.setOpt id o, index, some e)
            | (o, none) =>
              if !o.greedy then (c.setOpt id o, index, none)
              else parseLongLoop arg id fuel (c.setOpt id o) index

/-- Source `Screw.parseLong`.  The loop runs at most once per remaining token. -/
def parseLong (c : Screw) (arg : Str) (index : Nat) : Screw × Nat × Option Err :=
  let found : Except Err (Str × Nat × Opt) :=
    match c.getOption arg with
    | some (id, o) => .ok ([], id, o)
    | none => parseEqualValue c arg
  match found with
  | .error e => (c, index, some e)
  | .ok (value, id, option) =>
    if arg.length = 1 then (c, index, some (.unknownOption arg))
    else
      match setBoolAndBoolSliceDefval option.pointer value with
      | none => (c, index, some .panic)
      | some value =>
        if value.length > 0 then
          match checkOnce arg option with
          | some e => (c, index, some e)
          | none =>
            match setValueAndIndex value option index 0 with
            | (o, e) => (c.setOpt id o, index, e)
        else if index + 1 ≥ c.args.length then (c, index, none)
        else parseLongLoop arg id c.args.length c index

/-- The `=` detection at the head of the range loop of `parseShort` (lines 449-459):
the new `findEqual` and `shortIndex`, or `none` for the index-out-of-range panic of
`value[shortIndex+1:][0]` on an empty slice. -/
def shortEqual (value : Str) (shortIndex : Nat) : Option (Bool × Nat) :=
  if (value.drop shortIndex).length > 0 ∧ (value.drop (shortIndex + 1)).length > 0 then
    let first : Bool × Nat :=
      if (value.drop shortIndex).head? = some '=' then (true, shortIndex + 1)
      else (false, shortIndex)
    match (value.drop (first.2 + 1)).head? with
    | none => none
    | some b => if b = '=' then some (true, first.2 + 2) else some first
  else some (false, shortIndex)

/-- How the `getchar` loop of `parseShort` is left: by a `return` or by `break getchar`. -/
inductive Leave
  | ret
  | brk
  deriving DecidableEq, Repr

/-- The `getchar` loop of `parseShort` (lines 461-514) for the descriptor at position
`id`; `isB` is `isBoolSlice || isBool`.  `fuel` bounds the number of iterations. -/
def getchar (id : Nat) (isB : Bool) (findEqual : Bool) :
    Nat → Screw → Str → Nat → Nat → Screw × Nat × Leave × Option Err
  | 0, c, _, _, index => (c, index, .ret, some .outOfFuel)
  | fuel + 1, c, value, shortIndex, index =>
    let next : Screw → Screw × Nat × Leave × Option Err := fun c =>
      if index + 1 ≥ c.args.length then (c, index, .ret, none)
      else
        let value := c.args.getD (index + 1) []
        match findFallbackOpt c value (index + 1) with
        | (_, index, some e) => (c, index, .ret, some e)
        | (true, index, none) => (c, index, .ret, none)
        | (false, index, none) => getchar id isB findEqual fuel c value 0 index
    if (value.drop shortIndex).length > 0 then
      match c.options[id]? with
      | none => (c, index, .ret, some .panic)
      | some option =>
        let val := value.drop shortIndex
        let val := if isB then "true".toList else val
        let val := if findEqual then value.drop shortIndex else val
        match checkOnce (value.drop shortIndex) option with
        | some e => (c, index, .ret, some e)
        | none =>
          match setValueAndIndex val option index shortIndex with
          | (o, some e) => (c.setOpt id o, index, .ret, some e)
          | (o, none) =>
            if findEqual then (c.setOpt id o, index, .ret, none)
            else if isB then (c.setOpt id o, index, .brk, none)
            else if !o.greedy then (c.setOpt id o, index, .ret, none)
            else next (c.setOpt id o)
    else next c

/-- The range loop of `parseShort` (lines 427-516) from byte position `i` on, `rest`
being the bytes of `arg` from that position.  A byte of a non-ASCII rune decodes to a
rune that is at least `utf8.RuneSelf`. -/
def parseShortRange (arg : Str) :
    List Char → Nat → Screw → Nat → Bool → Screw × Nat × Option Err
  | [], _, c, index, find =>
    if find then (c, index, none) else (c, index, some (.unknownOptionShort arg arg))
  | a :: rest, i, c, index, _ =>
    if a.toNat ≥ 128 then (c, index, some .illegalCharacterSet)
    else
      match c.getOption [a] with
      | none => (c, index, some (.unknownOptionShort [a] arg))
      | some (id, option) =>
        match option.pointer.isBoolSlice, option.pointer.isBool with
        | some isBoolSlice, some isBool =>
          let shortIndex := if !(isBoolSlice || isBool) then i + 1 else i
          match shortEqual arg shortIndex with
          | none => (c, index, some .panic)
          | some (findEqual, shortIndex) =>
            match getchar id (isBoolSlice || isBool) findEqual (c.args.length + 1) c arg
                shortIndex index with
            | (c, index, _, some e) => (c, index, some e)
            | (c, index, .ret, none) => (c, index, none)
            | (c, index, .brk, none) => parseShortRange arg rest (i + 1) c index true
        | _, _ => (c, index, some .panic)

/-- Source `Screw.parseShort`. -/
def parseShort (c : Screw) (arg : Str) (index : Nat) : Screw × Nat × Option Err :=
  parseShortRange arg arg 0 c index false

/-- The option that `genHelpMessage` registers for help. -/
def helpOption : Opt :=
  { pointer := .invalid, fn := false, fnCalls := [],
    usage := "print the help information".toList, showDefValue := [], index := 0,
    envName := [], argsName := [], greedy := false, once := false, cmdSet := false,
    showShort := ["h".toList], showLong := ["help".toList] }

/-- The option that `genHelpMessage` registers for the version. -/
def versionOption : Opt :=
  { pointer := .invalid, fn := false, fnCalls := [],
    usage := "print version information".toList, showDefValue := [], index := 0,
    envName := [], argsName := [], greedy := false, once := false, cmdSet := false,
    showShort := ["v".toList], showLong := ["version".toList] }

/-- The map update `c.shortAndLong[name] = &Option ...` with a fresh descriptor. -/
def Screw.addOption (c : Screw) (name : Str) (o : Opt) : Screw :=
  { c with shortAndLong := (name, c.options.length) :: c.shortAndLong,
           options := c.options ++ [o] }

/-- The effect of `genHelpMessage` on the context (lines 595-601); the collected `Help`
value is handed to the external renderer and is not modelled. -/
def genHelpMessage (c : Screw) : Screw :=
  let c := if (c.getOption "h".toList).isNone && (c.getOption "help".toList).isNone
    then c.addOption "h".toList helpOption else c
  let c := if (c.getOption "v".toList).isNone && (c.getOption "version".toList).isNone
    then c.addOption "v".toList versionOption else c
  c

/-- Source `Screw.printHelpMessage`, the renderer writing without error. -/
def printHelpMessage (c : Screw) : Screw :=
  let c := genHelpMessage c
  { c with w := c.w ++ [.help] }

/-- Source `Screw.Usage`. -/
def Usage (c : Screw) : Screw × Option Err :=
  let c := printHelpMessage c
  if c.exit then (c, some (.exit 0)) else (c, none)

/-- Source `Screw.showVersion`. -/
def showVersion (c : Screw) : Screw × Option Err :=
  let c := { c with w := c.w ++ [.version c.version] }
  if c.exit then (c, some (.exit 0)) else (c, none)

/-- Source `Screw.getOptionAndSet`. -/
def getOptionAndSet (c : Screw) (arg : Str) (index : Nat) (numMinuses : Nat) :
    Screw × Nat × Option Err :=
  if (arg = "h".toList ∨ arg = "help".toList) ∧ !c.isKey arg then
    match Usage c with
    | (c, e) => (c, index, e)
  else if (arg = "v".toList ∨ arg = "version".toList) ∧ !c.isKey arg then
    match showVersion c with
    | (c, e) => (c, index, e)
  else if numMinuses = 2 then parseLong c arg index
  else if numMinuses = 1 then parseShort c arg index
  else (c, index, none)

/-- The map access `c.subcommand[arg]`. -/
def subGet (name : Str) : List (Str × Screw) → Option Screw
  | [] => none
  | (k, v) :: m => if k = name then some v else subGet name m

/-- The effect on the map `c.subcommand` of a mutation of the child stored under `name`. -/
def subSet (name : Str) (child : Screw) : List (Str × Screw) → List (Str × Screw)
  | [] => []
  | (k, v) :: m => if k = name then (k, child) :: m else (k, v) :: subSet name child m

/-- The map `c.getRoot().isSetSubcommand` as seen from `c`: the own map of a root
context, and otherwise the map `rootSet` of the root. -/
def getRootSet (c : Screw) (rootSet : List Str) : List Str :=
  if c.hasRoot then rootSet else c.isSetSubcommand

/-- The update `c.getRoot().isSetSubcommand[arg] = struct` as seen from `c`. -/
def recordSubcommand (c : Screw) (rootSet : List Str) (arg : Str) : Screw × List Str :=
  if c.hasRoot then (c, arg :: rootSet)
  else ({ c with isSetSubcommand := arg :: c.isSetSubcommand }, rootSet)

/-- The append `c.unparsedArgs = append(c.unparsedArgs, unparsedArg ...)`. -/
def Screw.appendUnparsed (c : Screw) (arg : Str) (index : Nat) : Screw :=
  { c with unparsedArgs := c.unparsedArgs ++ [{ arg := arg, index := index }] }

/-- Source `Screw.parseOneOption`.  `bindChild` is `bindStruct` on a child context,
given the map of the root; the result carries the context, the map of the root, the
cursor and the error. -/
def parseOneOption (bindChild : Screw → List Str → Screw × List Str × Option Err)
    (c : Screw) (rootSet : List Str) (index : Nat) :
    Screw × List Str × Nat × Option Err :=
  match c.args[index]? with
  | none => (c, rootSet, index, some .panic)
  | some arg =>
    if arg.length = 0 then (c, rootSet, index, some .failOption)
    else if arg.head? ≠ some '-' then
      if c.subcommand.length > 0 then
        match subGet arg c.subcommand with
        | none =>
          if c.envAndArgs.length = 0 then (c, rootSet, index, some (.unknownSubcommand arg))
          else
            -- the name is recorded, then `newScrew` (nil) is dereferenced
            match recordSubcommand c rootSet arg with
            | (c, rootSet) => (c, rootSet, index, some .panic)
        | some newScrew =>
          match recordSubcommand c rootSet arg with
          | (c, rootSet) =>
            let c := if !c.hasRoot then
              { c with currSubcommandFieldName := newScrew.fieldName } else c
            let newScrew := { newScrew with args := c.args.drop (index + 1) }
            let c := { c with args := [] }
            match bindChild newScrew (getRootSet c rootSet) with
            | (newScrew, set, some e) =>
              let c := { c with subcommand := subSet arg newScrew c.subcommand }
              let c := if c.hasRoot then c else { c with isSetSubcommand := set }
              (c, if c.hasRoot then set else rootSet, index, some e)
            | (newScrew, set, none) =>
              let newScrew := if newScrew.subMain then
                { newScrew with subMainCalls := newScrew.subMainCalls + 1 } else newScrew
              let c := { c with subcommand := subSet arg newScrew c.subcommand }
              let c := if c.hasRoot then c else { c with isSetSubcommand := set }
              (c.appendUnparsed arg index, if c.hasRoot then set else rootSet, index, none)
      else (c.appendUnparsed arg index, rootSet, index, none)
    else if arg = "-".toList then (c.appendUnparsed arg index, rootSet, index, none)
    else
      let numMinuses := if arg[1]? = some '-' then 2 else 1
      match getOptionAndSet c (arg.drop numMinuses) index numMinuses with
      | (c, index, e) => (c, rootSet, index, e)

/-- The part of `Option.setEnvAndArgs` for a sequence destination (lines 392-400): the
entries of `unparsedArgs` are written one after the other, errors of the write being
dropped, as long as the kind of the destination is `Slice`. -/
def setArgsSlice : List unparsedArg → Opt → Opt × List unparsedArg
  | [], o => (o, [])
  | value :: rest, o =>
    if o.pointer.Kind = .Slice then
      setArgsSlice rest (setValueAndIndex value.arg o value.index 0).1
    else (o, value :: rest)

/-- Source `Option.setEnvAndArgs` for the descriptor at position `id`; `env` is
`os.LookupEnv`.  A position outside the store is a nil receiver. -/
def setEnvAndArgs (env : Str → Option Str) (c : Screw) (id : Nat) : Screw × Option Err :=
  match c.options[id]? with
  | none => (c, some .panic)
  | some o =>
    let viaEnv : Option Str := if o.envName.length > 0 then env o.envName else none
    match viaEnv with
    | some v =>
      let v := if o.pointer.Kind = .Bool then
        (if v ≠ "false".toList then "true".toList else v) else v
      match setValueAndIndex v o 0 0 with
      | (o, e) => (c.setOpt id o, e)
    | none =>
      if o.argsName.length > 0 then
        match c.unparsedArgs with
        | [] => (c, none)
        | value :: rest =>
          if o.pointer.Kind = .Slice then
            match setArgsSlice (value :: rest) o with
            | (o, left) => ({ c.setOpt id o with unparsedArgs := left }, none)
          else
            match setValueAndIndex value.arg o value.index 0 with
            | (o, some e) => (c.setOpt id o, some e)
            | (o, none) => ({ c.setOpt id o with unparsedArgs := rest }, none)
      else (c, none)

/-- The loop of `bindEnvAndArgs` over the descriptors `ids`. -/
def bindEnvAndArgsLoop (env : Str → Option Str) : List Nat → Screw → Screw × Option Err
  | [], c => (c, none)
  | id :: ids, c =>
    match setEnvAndArgs env c id with
    | (c, some e) => (c, some e)
    | (c, none) => bindEnvAndArgsLoop env ids c

/-- Source `Screw.bindEnvAndArgs`. -/
def bindEnvAndArgs (env : Str → Option Str) (c : Screw) : Screw × Option Err :=
  bindEnvAndArgsLoop env c.envAndArgs c

/-- The `for` loop of `bindStruct` from cursor `i` on.  `fuel` bounds the number of
iterations. -/
def bindLoop (bindChild : Screw → List Str → Screw × List Str × Option Err) :
    Nat → Screw → List Str → Nat → Screw × List Str × Option Err
  | 0, c, rootSet, i =>
    if i < c.args.length then (c, rootSet, some .outOfFuel) else (c, rootSet, none)
  | fuel + 1, c, rootSet, i =>
    if i < c.args.length then
      match parseOneOption bindChild c rootSet i with
      | (c, rootSet, _, some e) => (c, rootSet, some e)
      | (c, rootSet, i, none) => bindLoop bindChild fuel c rootSet (i + 1)
    else (c, rootSet, none)

/-- Source `Screw.bindStruct` with the nesting depth of subcommand dispatch bounded by
`depth`; `rootSet` is the map `isSetSubcommand` of the root for a child context. -/
def bindStructDepth (env : Str → Option Str) :
    Nat → Screw → List Str → Screw × List Str × Option Err
  | 0, c, rootSet => (c, rootSet, some .outOfFuel)
  | depth + 1, c, rootSet =>
    match bindLoop (bindStructDepth env depth) c.args.length c rootSet 0 with
    | (c, rootSet, some e) => (c, rootSet, some e)
    | (c, rootSet, none) =>
      match bindEnvAndArgs env c with
      | (c, e) => (c, rootSet, e)

/-- Source `Screw.bindStruct` on a root context.  Every subcommand dispatch hands the
child a strictly shorter argument vector, so the nesting depth is at most the length of
the vector. -/
def bindStruct (env : Str → Option Str) (c : Screw) : Screw × Option Err :=
  match bindStructDepth env (c.args.length + 1) c c.isSetSubcommand with
  | (c, _, e) => (c, e)

/-- Source `New`; the output sink starts empty. -/
def New (args : List Str) : Screw :=
  { hasRoot := false, shortAndLong := [], options := [], checkEnv := [], checkArgs := [],
    envAndArgs := [], args := args, unparsedArgs := [], about := [], version := [],
    subMain := false, subMainCalls := 0, exit := true, subcommand := [], usage := [],
    isSetSubcommand := [], procName := [], currSubcommandFieldName := [], fieldName := [],
    w := [], structAddr := none }

/-- The descriptor that `parseTagAndSetOption` starts from (line 736) for a destination
`v` with default text `def`, before any clause is applied. -/
def newOption (usage : Str) (v : Pointer) (defVal : Str) : Opt :=
  { pointer := v, fn := false, fnCalls := [], usage := usage, showDefValue := defVal,
    index := 0, envName := [], argsName := [], greedy := false, once := false,
    cmdSet := false, showShort := [], showLong := [] }

/-- The destination of the descriptor registered under `name`, if any. -/
def Screw.pointerOf (c : Screw) (name : Str) : Option Pointer :=
  (c.getOption name).map (fun p => p.2.pointer)

/-- The byte test of `checkOptionName` (line 147). -/
def isNameByte (c : Char) : Bool :=
  decide (('a' ≤ c ∧ c ≤ 'z') ∨ ('A' ≤ c ∧ c ≤ 'Z') ∨ ('0' ≤ c ∧ c ≤ '9') ∨ c = '-' ∨ c = '_')

/-- Source `checkOptionName`: the offending byte (or the zero byte) and whether the
name is legal. -/
def checkOptionName : Str → Char × Bool
  | [] => (Char.ofNat 0, true)
  | c :: rest => if isNameByte c then checkOptionName rest else (c, false)

/-- Every key of the registry passed `checkOptionName`, as it does after registration
through `setOption` (line 194). -/
def Screw.legalNames (c : Screw) : Bool :=
  c.shortAndLong.all (fun p => (checkOptionName p.1).2)

/-- One explicit write of `val` to the descriptor at position `id`, with the order key
of token position `index` and sub-position `lowIndex`: the context after the write and
the error of the write. -/
def Screw.write (c : Screw) (id : Nat) (val : Str) (index : Nat) (lowIndex : Nat) :
    Screw × Option Err :=
  match c.options[id]? with
  | none => (c, some .panic)
  | some o =>
    match setValueAndIndex val o index lowIndex with
    | (o, e) => (c.setOpt id o, e)

/-- Example context: the registry of a struct with the fields
`Name string` tagged `--name` and `Other string` tagged `--other`, as left by
registration, with argument vector `args` and exit-on-error disabled. -/
def exNameOther (args : List Str) : Screw :=
  { New args with
    shortAndLong := [("name".toList, 0), ("other".toList, 1)],
    options := [{ newOption [] (.str []) [] with showLong := ["name".toList] },
                { newOption [] (.str []) [] with showLong := ["other".toList] }],
    exit := false }

/-- The environment in which no variable is set. -/
def noEnv : Str → Option Str := fun _ => none

/-- Example context: the registry of a struct with the field `File string` tagged
`-f;--file`, as left by registration, with argument vector `args` and exit-on-error
disabled. -/
def exFile (args : List Str) : Screw :=
  { New args with
    shortAndLong := [("f".toList, 0), ("file".toList, 0)],
    options := [{ newOption [] (.str []) [] with
                  showShort := ["f".toList], showLong := ["file".toList] }],
    exit := false }

/-- Example context: the registry of a struct with the field `Debug bool` tagged
`-d;--debug`, as left by registration, with argument vector `args` and exit-on-error
disabled. -/
def exDebug (args : List Str) : Screw :=
  { New args with
    shortAndLong := [("d".toList, 0), ("debug".toList, 0)],
    options := [{ newOption [] (.bool false) [] with
                  showShort := ["d".toList], showLong := ["debug".toList] }],
    exit := false }

/-- The child binder that is never reached in a context without subcommands. -/
def noChild : Screw → List Str → Screw × List Str × Option Err :=
  fun c rs => (c, rs, some .outOfFuel)

/-- The descriptor of `exDebug`. -/
def exDebugOption : Opt :=
  { newOption [] (.bool false) [] with
    showShort := ["d".toList], showLong := ["debug".toList] }

/-- Example context: the registry of a struct with the field `Level int` tagged
`-l;--level;once` and no default, as left by registration, with argument vector `args`
and exit-on-error disabled. -/
def exLevel (args : List Str) : Screw :=
  { New args with
    shortAndLong := [("l".toList, 0), ("level".toList, 0)],
    options := [{ newOption [] (.int 0) [] with
                  once := true, showShort := ["l".toList], showLong := ["level".toList] }],
    exit := false }

/-- Example context: the registry of a struct with the field `Mode string` tagged
`--mode;once` with the declared default `fast`, as left by registration (the default is
applied to the destination at registration time), with argument vector `args` and
exit-on-error disabled. -/
def exMode (args : List Str) : Screw :=
  { New args with
    shortAndLong := [("mode".toList, 0)],
    options := [{ newOption [] (.str "fast".toList) "fast".toList with
                  once := true, showLong := ["mode".toList] }],
    exit := false }

/-- Two descriptors agree on what the parsers branch on: the once and greedy marks and
the boolean tests of the destination. -/
def Opt.sameShape (o o2 : Opt) : Prop :=
  o2.once = o.once ∧ o2.greedy = o.greedy ∧ o2.pointer.isBool = o.pointer.isBool
    ∧ o2.pointer.isBoolSlice = o.pointer.isBoolSlice

/-- Two contexts have the same registry and argument vector, and their descriptors
agree position by position on what the parsers branch on. -/
def Screw.sameShape (c c2 : Screw) : Prop :=
  c2.shortAndLong = c.shortAndLong ∧ c2.args = c.args
    ∧ ∀ (id : Nat) (o : Opt), c.options[id]? = some o →
        ∃ o2, c2.options[id]? = some o2 ∧ o.sameShape o2

/-- The writes that claim C1 ascribes to a bundle of flags: `true` is written to the
descriptor of each flag in turn, the flag at byte position `i` of the token getting
the sub-position `i`. -/
def writeFlags (index : Nat) : List Char → Nat → Screw → Screw
  | [], _, c => c
  | b :: bs, i, c =>
    match c.getOption [b] with
    | some (id, _) => writeFlags index bs (i + 1) (c.write id "true".toList index i).1
    | none => c

/-- Example context: the registry of a struct with the fields `A bool` tagged `-a`,
`B bool` tagged `-b` and `C string` tagged `-c`, as left by registration, with
argument vector `args` and exit-on-error disabled. -/
def exBundle (args : List Str) : Screw :=
  { New args with
    shortAndLong := [("a".toList, 0), ("b".toList, 1), ("c".toList, 2)],
    options := [{ newOption [] (.bool false) [] with showShort := ["a".toList] },
                { newOption [] (.bool false) [] with showShort := ["b".toList] },
                { newOption [] (.str []) [] with showShort := ["c".toList] }],
    exit := false }

/-- Example context: the registry of a struct with the fields `B bool` tagged
`-b;once` and `C []string` tagged `-c;greedy`, as left by registration, with argument
vector `args` and exit-on-error disabled. -/
def exGreedyOnce (args : List Str) : Screw :=
  { New args with
    shortAndLong := [("b".toList, 0), ("c".toList, 1)],
    options := [{ newOption [] (.bool false) [] with
                  once := true, showShort := ["b".toList] },
                { newOption [] (.strs []) [] with
                  greedy := true, showShort := ["c".toList] }],
    exit := false }

/-- The writes that claim C5 ascribes to a greedy option: the tokens are written to the
descriptor at position `id` one after the other, the first of them with the order key
of token position `index + 1`; a failing write ends the run.  The result carries the
context, the position of the last token handled, and the error of the failing write. -/
def writeTokens (id : Nat) : List Str → Nat → Screw → Screw × Nat × Option Err
  | [], index, c => (c, index, none)
  | t :: ts, index, c =>
    match c.write id t (index + 1) 0 with
    | (c2, some e) => (c2, index + 1, some e)
    | (c2, none) => writeTokens id ts (index + 1) c2

/-- Example context: the registry of a struct with the fields `Header []string` tagged
`-H;--header;greedy`, `Other string` tagged `--other` and `Verbose []bool` tagged
`-v;greedy`, as left by registration, with argument vector `args` and exit-on-error
disabled. -/
def exHeader (args : List Str) : Screw :=
  { New args with
    shortAndLong := [("H".toList, 0), ("header".toList, 0), ("other".toList, 1),
                     ("v".toList, 2)],
    options := [{ newOption [] (.strs []) [] with
                  greedy := true, showShort := ["H".toList], showLong := ["header".toList] },
                { newOption [] (.str []) [] with showLong := ["other".toList] },
                { newOption [] (.bools []) [] with
                  greedy := true, showShort := ["v".toList] }],
    exit := false }

/-- The descriptor of `Header` in `exHeader`. -/
def exHeaderOption : Opt :=
  { newOption [] (.strs []) [] with
    greedy := true, showShort := ["H".toList], showLong := ["header".toList] }

/-- The environment that holds exactly the variables listed in `vars`. -/
def envOf (vars : List (Str × Str)) : Str → Option Str :=
  fun name => (vars.find? (fun p => p.1 = name)).map (fun p => p.2)

/-- Example context: the registry of a struct with the fields `Name string` tagged
`--name;env=NAME` and `Debug bool` tagged `env=DEBUG`, as left by registration, with
argument vector `args` and exit-on-error disabled. -/
def exEnv (args : List Str) : Screw :=
  { New args with
    shortAndLong := [("name".toList, 0)],
    options := [{ newOption [] (.str []) [] with
                  showLong := ["name".toList], envName := "NAME".toList },
                { newOption [] (.bool false) [] with envName := "DEBUG".toList }],
    envAndArgs := [0, 1],
    checkEnv := ["DEBUG".toList, "NAME".toList],
    exit := false }

/-- Example context: the registry of a struct with the single field `Mode string`
tagged `env=MODE;args=mode`, as left by registration (each of the two clauses appends
the descriptor to `envAndArgs`), with argument vector `args` and exit-on-error
disabled. -/
def exDual (args : List Str) : Screw :=
  { New args with
    options := [{ newOption [] (.str []) [] with
                  envName := "MODE".toList, argsName := "mode".toList }],
    envAndArgs := [0, 0],
    checkEnv := ["MODE".toList],
    checkArgs := ["mode".toList],
    exit := false }

/-- Example context: the registry of a struct with the fields `First string` tagged
`args=first` and `Rest []string` tagged `args=rest`, as left by registration, with
argument vector `args` and exit-on-error disabled. -/
def exPositional (args : List Str) : Screw :=
  { New args with
    options := [{ newOption [] (.str []) [] with argsName := "first".toList },
                { newOption [] (.strs []) [] with argsName := "rest".toList }],
    envAndArgs := [0, 1],
    checkArgs := ["rest".toList, "first".toList],
    exit := false }

/-- The context `exPositional` after a main loop that left the tokens `x`, `y`, `z` in
the unparsed list. -/
def exPositionalXYZ : Screw :=
  { exPositional [] with
    unparsedArgs := [⟨"x".toList, 0⟩, ⟨"y".toList, 1⟩, ⟨"z".toList, 2⟩] }

/-- The context `exDual` after a main loop that left the token `x` in the unparsed
list. -/
def exDualX : Screw :=
  { exDual [] with unparsedArgs := [⟨"x".toList, 0⟩] }

/-- Example context: the registry of a struct with the single field `Count int` tagged
`args=count`, as left by registration, after a main loop that left the token `x` in the
unparsed list. -/
def exCountX : Screw :=
  { New [] with
    options := [{ newOption [] (.int 0) [] with argsName := "count".toList }],
    envAndArgs := [0],
    checkArgs := ["count".toList],
    unparsedArgs := [⟨"x".toList, 0⟩],
    exit := false }

/-- Go `strings.Split(s, sep)` for a one-byte separator. -/
def splitOnByte (sep : Char) : Str → List Str
  | [] => [[]]
  | a :: rest =>
    if a = sep then [] :: splitOnByte sep rest
    else
      match splitOnByte sep rest with
      | [] => [[a]]
      | x :: xs => (a :: x) :: xs

/-- Go `strings.TrimLeft(opt, " ")`. -/
def trimLeftSpace : Str → Str
  | [] => []
  | a :: rest => if a = ' ' then trimLeftSpace rest else a :: rest

/-- The table `asciiSpace` of package `strings`: the ASCII white space. -/
def isSpaceByte (a : Char) : Bool :=
  a = ' ' ∨ a = '\t' ∨ a = '\n' ∨ a = '\r' ∨ a.toNat = 11 ∨ a.toNat = 12

/-- The bytes `a b` are the UTF-8 encoding of a white-space rune (`unicode.IsSpace`) of
two bytes: U+0085 or U+00A0. -/
def isSpace2 (a b : Char) : Bool :=
  a.toNat = 0xC2 ∧ (b.toNat = 0x85 ∨ b.toNat = 0xA0)

/-- The bytes `a b c` are the UTF-8 encoding of a white-space rune (`unicode.IsSpace`)
of three bytes: U+1680, U+2000 to U+200A, U+2028, U+2029, U+202F, U+205F or U+3000. -/
def isSpace3 (a b c : Char) : Bool :=
  (a.toNat = 0xE1 ∧ b.toNat = 0x9A ∧ c.toNat = 0x80)
    ∨ (a.toNat = 0xE2 ∧ b.toNat = 0x80
        ∧ ((0x80 ≤ c.toNat ∧ c.toNat ≤ 0x8A) ∨ c.toNat = 0xA8 ∨ c.toNat = 0xA9
            ∨ c.toNat = 0xAF))
    ∨ (a.toNat = 0xE2 ∧ b.toNat = 0x81 ∧ c.toNat = 0x9F)
    ∨ (a.toNat = 0xE3 ∧ b.toNat = 0x80 ∧ c.toNat = 0x80)

/-- The number of bytes of the white-space rune that the text starts with (the rune that
`utf8.DecodeRuneInString` reads there satisfies `unicode.IsSpace`), and 0 if it starts
with none. -/
def spaceWidth : Str → Nat
  | [] => 0
  | a :: rest =>
    if isSpaceByte a then 1
    else
      match rest with
      | [] => 0
      | b :: rest2 =>
        if isSpace2 a b then 2
        else
          match rest2 with
          | [] => 0
          | c :: _ => if isSpace3 a b c then 3 else 0

/-- The number of bytes of the white-space rune that the text ends with (the rune that
`utf8.DecodeLastRuneInString` reads there satisfies `unicode.IsSpace`), and 0 if it
ends with none; the argument is the text reversed. -/
def spaceWidthEnd : Str → Nat
  | [] => 0
  | c :: rest =>
    if isSpaceByte c then 1
    else
      match rest with
      | [] => 0
      | b :: rest2 =>
        if isSpace2 b c then 2
        else
          match rest2 with
          | [] => 0
          | a :: _ => if isSpace3 a b c then 3 else 0

/-- Removal of the white-space runes at the head of the text, `width` giving the number
of bytes of the rune at the head.  Every round removes at least one byte, so that the
length of the text bounds the number of rounds. -/
def dropSpaces (width : Str → Nat) : Nat → Str → Str
  | 0, s => s
  | fuel + 1, s => if width s = 0 then s else dropSpaces width fuel (s.drop (width s))

/-- Go `strings.TrimSpace` on a byte string: the white-space runes of Unicode, in their
UTF-8 encoding, are removed at the start and then at the end.  A byte that is not part
of a valid encoding is the rune U+FFFD for Go and is no white space. -/
def trimSpace (s : Str) : Str :=
  (dropSpaces spaceWidthEnd s.length (dropSpaces spaceWidth s.length s).reverse).reverse

/-- Go `strings.ToLower` on ASCII text. -/
def toLower (s : Str) : Str :=
  s.map (fun a => if 'A' ≤ a ∧ a ≤ 'Z' then Char.ofNat (a.toNat + 32) else a)

/-- Go `strings.HasPrefix(s, pre)`. -/
def hasPrefix (s : Str) (pre : Str) : Bool :=
  pre.isPrefixOf s

/-- Go `strings.Join(parts, ",")`. -/
def joinComma : List Str → Str
  | [] => []
  | [x] => x
  | x :: y :: rest => x ++ ',' :: joinComma (y :: rest)

/-- The functions of the repository that `screw.go` calls and that are not among the
source files.  They are parameters of the registration functions: what is proved about
registration holds for every choice of them. -/
structure Missing where
  gnuOptionName : Str → Except Err Str
  envOptionName : Str → Except Err Str
  setDefaultValue : Str → Pointer → Pointer × Option Err

/-- Source `Screw.showShortAndLong`. -/
def showShortAndLong (v : Opt) : Str :=
  joinComma (v.showShort.map (fun s => '-' :: s) ++ v.showLong.map (fun s => '-' :: '-' :: s))

/-- Source `Screw.setOption` with `m = c.shortAndLong`, for the descriptor at position
`id`.  A nil entry under the name makes `showShortAndLong` panic. -/
def setOption (c : Screw) (name : Str) (id : Nat) (long : Bool) : Screw × Option Err :=
  match checkOptionName name with
  | (ch, false) => (c, some (.optionName name ch))
  | (_, true) =>
    match mapGet name c.shortAndLong with
    | some j =>
      match c.options[j]? with
      | none => (c, some .panic)
      | some o =>
        (c, some (.duplicateOptions
          (if long then '-' :: '-' :: name else '-' :: name) (showShortAndLong o)))
    | none => ({ c with shortAndLong := (name, id) :: c.shortAndLong }, none)

/-- The bits of `flags` in `parseTagAndSetOption`, under the names of the constants. -/
structure TagFlags where
  isShort : Bool
  isLong : Bool
  isEnv : Bool
  isArgs : Bool
  deriving DecidableEq, Repr

/-- A mutation of the descriptor under construction, at position `id`. -/
def Screw.modifyOpt (c : Screw) (id : Nat) (g : Opt → Opt) : Screw :=
  match c.options[id]? with
  | some o => c.setOpt id (g o)
  | none => c

/-- The check after the `switch` of `parseTagAndSetOption` (lines 838-840). -/
def illegalDash (opt : Str) (name : Str) : Option Err :=
  if hasPrefix opt "-".toList ∧ name.length = 0 then some (.illegalCommandLineOption opt)
  else none

/-- The case `callback` of the `switch` of `parseTagAndSetOption` (lines 754-763). -/
def tagCallback (id : Nat) (c : Screw) (flags : TagFlags) (opt : Str) :
    Screw × TagFlags × Option Err :=
  let funcName := if hasPrefix opt "callback=".toList then opt.drop 9 else "Parse".toList
  match c.structAddr with
  | none => (c, flags, some .panic)
  | some methods =>
    match (methods.find? (fun m => m.1 = funcName)).map (fun m => m.2) with
    | none => (c, flags, some .panic)
    | some numIn =>
      if numIn ≠ 1 then (c, flags, some .panic)
      else (c.modifyOpt id (fun o => { o with fn := true }), flags, illegalDash opt [])

/-- The cases `--name` and `long` of the `switch` (lines 766-780). -/
def tagLong (h : Missing) (fieldName : Str) (id : Nat) (c : Screw) (flags : TagFlags)
    (opt : Str) : Screw × TagFlags × Option Err :=
  let named : Except Err Str :=
    if hasPrefix opt "--".toList then .ok (opt.drop 2) else h.gnuOptionName fieldName
  match named with
  | .error e => (c, flags, some e)
  | .ok name =>
    match setOption c name id true with
    | (c, some e) => (c, flags, some e)
    | (c, none) =>
      (c.modifyOpt id (fun o => { o with showLong := o.showLong ++ [name] }),
        { flags with isShort := true }, illegalDash opt name)

/-- The cases `-name` and `short` of the `switch` (lines 782-797); `name[0]` panics on
an empty derived name. -/
def tagShort (h : Missing) (fieldName : Str) (id : Nat) (c : Screw) (flags : TagFlags)
    (opt : Str) : Screw × TagFlags × Option Err :=
  let named : Except Err Str :=
    if hasPrefix opt "-".toList then .ok (opt.drop 1)
    else
      match h.gnuOptionName fieldName with
      | .error e => .error e
      | .ok [] => .error .panic
      | .ok (a :: _) => .ok [a]
  match named with
  | .error e => (c, flags, some e)
  | .ok name =>
    match setOption c name id false with
    | (c, some e) => (c, flags, some e)
    | (c, none) =>
      (c.modifyOpt id (fun o => { o with showShort := o.showShort ++ [name] }),
        { flags with isLong := true }, illegalDash opt name)

/-- The cases `env` and `env=NAME` of the `switch` (lines 802-818). -/
def tagEnv (h : Missing) (fieldName : Str) (id : Nat) (c : Screw) (flags : TagFlags)
    (opt : Str) : Screw × TagFlags × Option Err :=
  let named : Except Err Str :=
    if opt = "env".toList then h.envOptionName fieldName else .ok (opt.drop 4)
  match named with
  | .error e => (c, flags, some e)
  | .ok name =>
    let flags := { flags with isEnv := true }
    let c := c.modifyOpt id (fun o => { o with envName := name })
    if name ∈ c.checkEnv then (c, flags, some (.duplicateEnv name))
    else
      ({ c with envAndArgs := c.envAndArgs ++ [id], checkEnv := name :: c.checkEnv },
        flags, illegalDash opt name)

/-- The case `args=NAME` of the `switch` (lines 819-832); after a short or long clause
the clause is skipped by `continue`. -/
def tagArgs (id : Nat) (c : Screw) (flags : TagFlags) (opt : Str) :
    Screw × TagFlags × Option Err :=
  if flags.isShort ∨ flags.isLong then (c, flags, none)
  else
    let flags := { flags with isArgs := true }
    let c := c.modifyOpt id (fun o => { o with argsName := opt.drop 5 })
    if opt.drop 5 ∈ c.checkArgs then (c, flags, some (.duplicateArgs (opt.drop 5)))
    else
      ({ c with checkArgs := opt.drop 5 :: c.checkArgs, envAndArgs := c.envAndArgs ++ [id] },
        flags, illegalDash opt [])

/-- One iteration of the loop of `parseTagAndSetOption` (lines 751-840) on the clause
`opt`, already trimmed and not empty, for the descriptor at position `id`; `tag` is the
whole directive.  `none` in the last component means that the loop goes on. -/
def parseTagClause (h : Missing) (tag : Str) (fieldName : Str) (id : Nat) (c : Screw)
    (flags : TagFlags) (opt : Str) : Screw × TagFlags × Option Err :=
  if hasPrefix opt "callback".toList then tagCallback id c flags opt
  else if hasPrefix opt "--".toList ∨ hasPrefix opt "long".toList then
    tagLong h fieldName id c flags opt
  else if hasPrefix opt "-".toList ∨ hasPrefix opt "short".toList then
    tagShort h fieldName id c flags opt
  else if hasPrefix opt "greedy".toList then
    (c.modifyOpt id (fun o => { o with greedy := true }), flags, illegalDash opt [])
  else if hasPrefix opt "once".toList then
    (c.modifyOpt id (fun o => { o with once := true }), flags, illegalDash opt [])
  else if opt = "env".toList ∨ hasPrefix opt "env=".toList then
    tagEnv h fieldName id c flags opt
  else if hasPrefix opt "args=".toList then tagArgs id c flags opt
  else (c, flags, some (.unsupported opt tag))

/-- The loop of `parseTagAndSetOption` over the clauses of the directive. -/
def parseTagLoop (h : Missing) (tag : Str) (fieldName : Str) (id : Nat) :
    List Str → Screw → TagFlags → Screw × TagFlags × Option Err
  | [], c, flags => (c, flags, none)
  | opt :: rest, c, flags =>
    if (trimLeftSpace opt).length = 0 then parseTagLoop h tag fieldName id rest c flags
    else
      match parseTagClause h tag fieldName id c flags (trimLeftSpace opt) with
      | (c, flags, some e) => (c, flags, some e)
      | (c, flags, none) => parseTagLoop h tag fieldName id rest c flags

/-- Source `Screw.parseTagAndSetOption` (`screw` is called `tag` here).  The descriptor
under construction takes the next free position of the store. -/
def parseTagAndSetOption (h : Missing) (c : Screw) (tag : Str) (usage : Str) (defVal : Str)
    (fieldName : Str) (v : Pointer) : Screw × Option Err :=
  let id := c.options.length
  let c := { c with options := c.options ++ [newOption usage v defVal] }
  match parseTagLoop h tag fieldName id (splitOnByte ';' tag) c ⟨false, false, false, false⟩ with
  | (c, _, some e) => (c, some e)
  | (c, flags, none) =>
    if !flags.isShort ∧ !flags.isLong ∧ !flags.isEnv ∧ !flags.isArgs then
      (c, some (.notFoundName tag))
    else (c, none)

/-- What `registerCore` reads of a `reflect.StructField`: the name, the values of the
tags `screw`, `usage` and `default`, and whether the field is visited (exported or
anonymous). -/
structure StructField where
  name : Str
  tag : Str
  usage : Str
  defVal : Str
  visited : Bool
  deriving DecidableEq, Repr

/-- The `reflect.Value` that `registerCore` walks, pointers followed: a destination, or
a struct with the method set of its address and its fields. -/
inductive GoValue
  | basic (p : Pointer)
  | struct (methods : List (Str × Nat)) (fields : List (StructField × GoValue))

/-- The variable `emptyField`. -/
def emptyField : StructField :=
  { name := [], tag := [], usage := [], defVal := [], visited := true }

/-- The name that `parseSubcommandTag` takes from the clauses of the directive (lines
705-713): the first clause that yields a non-empty name decides. -/
def subcommandName (fieldName : Str) : List Str → Option Str
  | [] => none
  | opt :: rest =>
    let name : Str :=
      if hasPrefix opt "subcommand=".toList then opt.drop 11
      else if opt = "subcommand".toList then toLower fieldName
      else []
    if name ≠ [] then some name else subcommandName fieldName rest

/-- The assignment `c.subcommand[name] = child`. -/
def subPut (name : Str) (child : Screw) (m : List (Str × Screw)) : List (Str × Screw) :=
  (name, child) :: m.filter (fun p => p.1 ≠ name)

/-- Source `Screw.parseSubcommandTag`: the name and the new child context, which the
caller stores under the name in `c.subcommand`. -/
def parseSubcommandTag (tag : Str) (methods : List (Str × Nat)) (usage : Str)
    (fieldName : Str) : Option (Str × Screw) :=
  match subcommandName fieldName (splitOnByte ';' tag) with
  | none => none
  | some name =>
    some (name, { New [] with
                  procName := name, hasRoot := true, usage := usage, fieldName := fieldName,
                  subMain := (methods.find? (fun m => m.1 = "SubMain".toList)).isSome })

/-- The part of `registerCore` for a value that is not a struct (lines 868-905). -/
def registerBasic (h : Missing) (c : Screw) (p : Pointer) (sf : StructField) :
    Screw × Option Err :=
  let defVal := trimSpace sf.defVal
  match (if defVal.length > 0 then h.setDefaultValue defVal p else (p, none)) with
  | (_, some e) => (c, some e)
  | (p, none) =>
    if sf.tag.length = 0 ∧ sf.usage.length = 0 then (c, none)
    else if hasPrefix sf.tag "version=".toList then ({ c with version := sf.tag.drop 8 }, none)
    else if hasPrefix sf.tag "about=".toList then ({ c with about := sf.tag.drop 6 }, none)
    else if sf.usage.length > 0 ∧ sf.tag.length = 0 then
      match toLower sf.name with
      | [] => (c, some .panic)
      | a :: rest =>
        parseTagAndSetOption h c
          (if (a :: rest).length > 1 then '-' :: a :: ";--".toList ++ (a :: rest) else ['-', a])
          sf.usage defVal sf.name p
    else parseTagAndSetOption h c sf.tag sf.usage defVal sf.name p

mutual

/-- Source `Screw.registerCore`.  For a struct field with a subcommand clause the walk
continues in the new child context, which sits in `c.subcommand` under its name. -/
def registerCore (h : Missing) (c : Screw) : GoValue → StructField → Screw × Option Err
  | .basic p, sf => registerBasic h c p sf
  | .struct methods fields, sf =>
    match (if sf.tag.length ≠ 0 then parseSubcommandTag sf.tag methods sf.usage sf.name
           else none) with
    | some (name, newScrew) =>
      match registerFields h { newScrew with structAddr := some methods } fields with
      | (newScrew, e) => ({ c with subcommand := subPut name newScrew c.subcommand }, e)
    | none => registerFields h { c with structAddr := some methods } fields

/-- The loop of `registerCore` over the fields of a struct (lines 909-921). -/
def registerFields (h : Missing) (c : Screw) :
    List (StructField × GoValue) → Screw × Option Err
  | [] => (c, none)
  | (sf, v) :: rest =>
    if !sf.visited then registerFields h c rest
    else
      match registerCore h c v sf with
      | (c, some e) => (c, some e)
      | (c, none) => registerFields h c rest

end

/-- Source `Screw.register` for a non-nil pointer to `v`. -/
def register (h : Missing) (c : Screw) (v : GoValue) : Screw × Option Err :=
  registerCore h c v emptyField

/-- Go `strings.ToUpper` on ASCII text. -/
def toUpper (s : Str) : Str :=
  s.map (fun a => if 'a' ≤ a ∧ a ≤ 'z' then Char.ofNat (a.toNat - 32) else a)

/-- Modelled from the spec: one choice of the functions that are not among the source
files, used in the examples: a bare `long` or `short` clause derives its name "by
lower-casing the field identifier", a bare `env` clause "from an upper-cased
identifier", and a default is applied to the destination by the Value Coercion. -/
def exMissing : Missing :=
  { gnuOptionName := fun fieldName => .ok (toLower fieldName),
    envOptionName := fun fieldName => .ok (toUpper fieldName),
    setDefaultValue := fun defVal p => setBase defVal p }

/-- A visited struct field with the given name and `screw` directive, without `usage`
and `default` tags. -/
def field (name : String) (tag : String) : StructField :=
  { name := name.toList, tag := tag.toList, usage := [], defVal := [], visited := true }

/-- Example struct: `Name string` tagged `--name`. -/
def exStructName : GoValue :=
  .struct [] [(field "Name" "--name", .basic (.str []))]

/-- Example struct: `N bool` tagged `-n` followed by `Name string` tagged `--name;--n`. -/
def exStructClash : GoValue :=
  .struct [] [(field "N" "-n", .basic (.bool false)),
              (field "Name" "--name;--n", .basic (.str []))]

/-- Example struct: the fields of `exStructClash` in the other order. -/
def exStructClashRev : GoValue :=
  .struct [] [(field "Name" "--name;--n", .basic (.str [])),
              (field "N" "-n", .basic (.bool false))]

/-- An explicit name clause of a directive: `--name` when `long`, otherwise `-name`. -/
structure NameClause where
  long : Bool
  name : Str
  deriving DecidableEq, Repr

/-- The text of a name clause. -/
def NameClause.text (cl : NameClause) : Str :=
  if cl.long then '-' :: '-' :: cl.name else '-' :: cl.name

/-- The name of the clause is not empty and legal, and a short name does not start with
`-` (the text `--x` is the long clause of `x`). -/
def NameClause.wellFormed (cl : NameClause) : Bool :=
  decide (cl.name ≠ []) && (checkOptionName cl.name).2
    && (cl.long || decide (cl.name.head? ≠ some '-'))

/-- The clauses joined by `;` into a directive. -/
def joinSemi : List Str → Str
  | [] => []
  | [x] => x
  | x :: y :: rest => x ++ ';' :: joinSemi (y :: rest)

/-- A struct field whose directive consists of explicit name clauses only. -/
structure NamedField where
  name : Str
  usage : Str
  defVal : Str
  clauses : List NameClause
  dest : Pointer

/-- The field as `registerCore` sees it. -/
def NamedField.toField (f : NamedField) : StructField × GoValue :=
  ({ name := f.name, tag := joinSemi (f.clauses.map NameClause.text), usage := f.usage,
     defVal := f.defVal, visited := true }, .basic f.dest)

/-- The value of the destination once the declared default, if there is one, has been
applied at registration time. -/
def NamedField.registered (h : Missing) (f : NamedField) : Pointer :=
  if (trimSpace f.defVal).length > 0 then (h.setDefaultValue (trimSpace f.defVal) f.dest).1
  else f.dest

/-- The names declared by the fields, in declaration order. -/
def declaredNames : List NamedField → List Str
  | [] => []
  | f :: fs => f.clauses.map (fun cl => cl.name) ++ declaredNames fs

/-- The descriptor after the name clauses have been applied to it. -/
def applyNames : List NameClause → Opt → Opt
  | [], o => o
  | cl :: rest, o =>
    applyNames rest
      (if cl.long then { o with showLong := o.showLong ++ [cl.name] }
       else { o with showShort := o.showShort ++ [cl.name] })

/-- The flags after the name clauses have been applied. -/
def applyFlags : List NameClause → TagFlags → TagFlags
  | [], flags => flags
  | cl :: rest, flags =>
    applyFlags rest
      (if cl.long then { flags with isShort := true } else { flags with isLong := true })

/-- The descriptor that registration builds for a field of explicit name clauses. -/
def fieldDescriptor (h : Missing) (f : NamedField) : Opt :=
  applyNames f.clauses (newOption f.usage (f.registered h) (trimSpace f.defVal))

/-- The context after the fields of explicit name clauses have been registered one
after the other: each field takes the next position of the store and each of its names
is entered into the registry with that position. -/
def registerNamed (h : Missing) : Screw → List NamedField → Screw
  | c, [] => c
  | c, f :: fs =>
    registerNamed h
      { c with shortAndLong :=
                 (f.clauses.map (fun cl => (cl.name, c.options.length))).reverse ++ c.shortAndLong,
               options := c.options ++ [fieldDescriptor h f] } fs

/-- Example fields: `File string` tagged `-f;--file` with default `a.txt`, and
`Debug bool` tagged `--debug`. -/
def exNamedFields : List NamedField :=
  [ { name := "File".toList, usage := [], defVal := "a.txt".toList,
      clauses := [⟨false, "f".toList⟩, ⟨true, "file".toList⟩], dest := .str [] },
    { name := "Debug".toList, usage := [], defVal := [],
      clauses := [⟨true, "debug".toList⟩], dest := .bool false } ]

/-- Example struct: `File string` tagged `-f;--file`, `Add struct` tagged
`subcommand=add` with the field `Name string` tagged `--name`, and `Remove struct`
tagged `subcommand=remove`. -/
def exStructSub : GoValue :=
  .struct [] [(field "File" "-f;--file", .basic (.str [])),
              (field "Add" "subcommand=add",
                .struct [] [(field "Name" "--name", .basic (.str []))]),
              (field "Remove" "subcommand=remove", .struct [] [])]

/-- Example struct: the fields of `exStructSub` followed by `Path string` tagged
`args=path`. -/
def exStructSubPos : GoValue :=
  .struct [] [(field "File" "-f;--file", .basic (.str [])),
              (field "Add" "subcommand=add",
                .struct [] [(field "Name" "--name", .basic (.str []))]),
              (field "Remove" "subcommand=remove", .struct [] []),
              (field "Path" "args=path", .basic (.str []))]

/-- Example context: the child context of the subcommand `add` of `exStructSub`, as
left by registration. -/
def exAddChild : Screw :=
  { New [] with
    hasRoot := true, procName := "add".toList, fieldName := "Add".toList,
    structAddr := some [],
    shortAndLong := [("name".toList, 0)],
    options := [{ newOption [] (.str []) [] with showLong := ["name".toList] }] }

/-- Example context: the child context of the subcommand `remove` of `exStructSub`, as
left by registration. -/
def exRemoveChild : Screw :=
  { New [] with
    hasRoot := true, procName := "remove".toList, fieldName := "Remove".toList,
    structAddr := some [] }

/-- Example context: `exStructSub` registered into `New args`
(see `exSub_registered`). -/
def exSub (args : List Str) : Screw :=
  { New args with
    structAddr := some [],
    shortAndLong := [("file".toList, 0), ("f".toList, 0)],
    options := [{ newOption [] (.str []) [] with
                  showShort := ["f".toList], showLong := ["file".toList] }],
    subcommand := [("remove".toList, exRemoveChild), ("add".toList, exAddChild)] }

/-- Example context: `exStructSubPos` registered into `New args`
(see `exSubPos_registered`). -/
def exSubPos (args : List Str) : Screw :=
  { exSub args with
    options := [{ newOption [] (.str []) [] with
                  showShort := ["f".toList], showLong := ["file".toList] },
                { newOption [] (.str []) [] with argsName := "path".toList }],
    checkArgs := ["path".toList], envAndArgs := [1] }

/-- Example context: `exStructName` registered into `New args`
(see `exNameNoExit_registered`), after `SetExit(false)`. -/
def exNameNoExit (args : List Str) : Screw :=
  { New args with
    exit := false, structAddr := some [],
    shortAndLong := [("name".toList, 0)],
    options := [{ newOption [] (.str []) [] with showLong := ["name".toList] }] }

/-- The descriptor is a flag for `parseShort`: its destination is a boolean or a
sequence of booleans (`isBoolSlice || isBool`). -/
def isFlag (o : Opt) : Bool :=
  decide (o.pointer.isBool = some true ∨ o.pointer.isBoolSlice = some true)

/-- The names that the range loop of `parseShort` may look up in the bytes `b :: rest`
of a short token: the byte `b`, and the names of `rest` when `b` is a registered flag
that is not followed by `=` (every other case leaves the loop at `b`). -/
def shortNames (c : Screw) : List Char → List Str
  | [] => []
  | b :: rest =>
    [b] :: (match c.getOption [b] with
      | some (_, o) =>
        if isFlag o = true ∧ rest.head? ≠ some '=' then shortNames c rest else []
      | none => [])

/-- The names that `parseOneOption` may look up for the token `tok`: for `--a` the text
`a` (`parseLong`, line 307) and its part before the first `=` (`parseEqualValue`); for
`-a` the names of `shortNames`; none for a token that does not start with `-`. -/
def tokenNames (c : Screw) : Str → List Str
  | '-' :: '-' :: a => [a, a.take ((indexEq a).getD a.length)]
  | '-' :: a => shortNames c a
  | _ => []

/-- What a step of the parser that does not resolve to the descriptor at position `id`
keeps: the descriptor itself; the names of the registry that lead to `id` (none is
added); the single-byte names that are flags (none is added); and the tokens of the
argument vector (none is added). -/
def Screw.keeps (id : Nat) (c c2 : Screw) : Prop :=
  c2.options[id]? = c.options[id]?
    ∧ (∀ n : Str, mapGet n c2.shortAndLong = some id → mapGet n c.shortAndLong = some id)
    ∧ (∀ (b : Char) (i : Nat) (ob : Opt), c2.getOption [b] = some (i, ob) →
        isFlag ob = true → ∃ o0, c.getOption [b] = some (i, o0) ∧ isFlag o0 = true)
    ∧ (∀ tok ∈ c2.args, tok ∈ c.args)

/-- No token of the argument vector of `c` can be resolved to the descriptor at
position `id`. -/
def Screw.noTokenFor (id : Nat) (c : Screw) : Prop :=
  ∀ tok ∈ c.args, ∀ n ∈ tokenNames c tok, mapGet n c.shortAndLong ≠ some id

/-- Whether `setEnvAndArgs` on the descriptor at position `id` of `c` assigns an
unparsed token as positional value (lines 382-408 are reached with a non-empty list). -/
def assignedHere (env : Str → Option Str) (c : Screw) (id : Nat) : Bool :=
  match c.options[id]? with
  | none => false
  | some o =>
    ((if o.envName.length > 0 then env o.envName else none).isNone
      && decide (o.argsName.length > 0)) && !c.unparsedArgs.isEmpty

/-- Whether the loop of `bindEnvAndArgs` over `ids`, started in `c`, assigns an unparsed
token as positional value to the descriptor at position `id`. -/
def assignsPositional (env : Str → Option Str) (id : Nat) : List Nat → Screw → Bool
  | [], _ => false
  | j :: ids, c =>
    (decide (j = id) && assignedHere env c id)
      || (match setEnvAndArgs env c j with
          | (c2, none) => assignsPositional env id ids c2
          | (_, some _) => false)

/-- Example context: the fields `exNamedFields` registered into `New args`
(see `exDefault_registered`): `File` holds its declared default `a.txt`. -/
def exDefault (args : List Str) : Screw :=
  { New args with
    structAddr := some [],
    shortAndLong := [("debug".toList, 1), ("file".toList, 0), ("f".toList, 0)],
    options := [{ newOption [] (.str "a.txt".toList) "a.txt".toList with
                  showShort := ["f".toList], showLong := ["file".toList] },
                { newOption [] (.bool false) [] with showLong := ["debug".toList] }] }

/-- The loop of `GetIndex` over `c.envAndArgs` (lines 184-188); `none` is the
dereference of a nil descriptor. -/
def getIndexArgs (c : Screw) (optName : Str) : List Nat → Option Nat
  | [] => some 0
  | id :: ids =>
    match c.options[id]? with
    | none => none
    | some o => if o.argsName = optName then some o.index else getIndexArgs c optName ids

/-- Source `Screw.GetIndex`; `none` is the dereference of a nil descriptor. -/
def Screw.GetIndex (c : Screw) (optName : Str) : Option Nat :=
  match mapGet optName c.shortAndLong with
  | some id => c.options[id]?.map (fun o => o.index)
  | none => if optName ∈ c.checkArgs then getIndexArgs c optName c.envAndArgs else some 0

/-- The errors that a write attempt can end with: a once-violation (`checkOnce`), a
rejection by the Value Coercion or its unsupported type (`setBase`), and a fault. -/
def Err.fromWrite : Err → Bool
  | .once _ => true
  | .coercion _ => true
  | .unsupportedType => true
  | .panic => true
  | _ => false

/-- The token without its leading dashes, of which at most two are removed. -/
def stripDashes : Str → Str
  | '-' :: '-' :: r => r
  | '-' :: r => r
  | r => r

/-- The text of a token between its (at most two) leading dashes and its first `=`. -/
def fallbackName (tok : Str) : Str :=
  (stripDashes tok).takeWhile (fun a => a ≠ '=')

/-- Example context: the field `Name string` with the directive `args=x;--name`
registered into `New args` by `parseTagAndSetOption`, after `SetExit(false)`. -/
def exArgsThenName (args : List Str) : Screw :=
  { (parseTagAndSetOption exMissing (New args) "args=x;--name".toList [] [] "Name".toList
      (.str [])).1 with exit := false }

/-- Every descriptor of `c` is still in `c2`, at the same position, and a descriptor
that was marked written (`cmdSet`) in `c` is still marked written in `c2`. -/
def Screw.marksKept (c c2 : Screw) : Prop :=
  ∀ (id : Nat) (o : Opt), c.options[id]? = some o →
    ∃ o2, c2.options[id]? = some o2 ∧ (o.cmdSet = true → o2.cmdSet = true)

/-- Successive writes through `setValueAndIndex` to one descriptor, oldest first: each
entry is the value with the two parts of its order key.  The first write that returns an
error ends the sequence. -/
def writeAll : List (Str × Nat × Nat) → Opt → Opt × Option Err
  | [], o => (o, none)
  | v :: rest, o =>
    match setValueAndIndex v.1 o v.2.1 v.2.2 with
    | (o, some e) => (o, some e)
    | (o, none) => writeAll rest o

/-- Example context: the field `Header []string` with the directive `-H;--header` and
the default `x`, which the destination holds, registered into `New args` by
`parseTagAndSetOption`, after `SetExit(false)`. -/
def exHeaders (args : List Str) : Screw :=
  { (parseTagAndSetOption exMissing (New args) "-H;--header".toList [] "x".toList
      "Header".toList (.strs ["x".toList])).1 with exit := false }

/-- Example context: the field of `exHeaders` with the directive `-H;--header;callback`,
the struct having the one-argument method `Parse`. -/
def exHeadersCallback (args : List Str) : Screw :=
  { (parseTagAndSetOption exMissing { New args with structAddr := some [("Parse".toList, 1)] }
      "-H;--header;callback".toList [] "x".toList "Header".toList (.strs ["x".toList])).1
    with exit := false }

/-- Example context: the field of `exHeaders` with the directive `-H;env=HDR`. -/
def exHeadersEnv (args : List Str) : Screw :=
  { (parseTagAndSetOption exMissing (New args) "-H;env=HDR".toList [] "x".toList
      "Header".toList (.strs ["x".toList])).1 with exit := false }

/-- The token `--name=v`. -/
def inlineToken (name v : Str) : Str := '-' :: '-' :: (name ++ '=' :: v)

/-- The descriptor of `exHeaders`. -/
def exHeaderOpt : Opt :=
  { newOption [] (.strs ["x".toList]) "x".toList with
    showShort := ["H".toList], showLong := ["header".toList] }

/-- Example fields: `N int` tagged `-n` with the default `abc`, which the coercion
rejects. -/
def exBadDefault : List NamedField :=
  [ { name := "N".toList, usage := [], defVal := "abc".toList,
      clauses := [⟨false, "n".toList⟩], dest := .int 0 } ]

/-- The context `c2` is the context `c` after one write of the text `val`, which the
coercion reads as the boolean `v`, to the descriptor `o` registered under `name` at
position `id`: the argument vector, the registry and every other descriptor are those
of `c`, and the destination looked up under `name` in `c2` holds `v`; if `o` has a
callback, the callback has received `val` instead. -/
def Screw.boolWritten (c c2 : Screw) (name : Str) (id : Nat) (o : Opt) (val : Str)
    (v : Bool) : Prop :=
  c2.args = c.args ∧ c2.shortAndLong = c.shortAndLong
    ∧ (∀ j : Nat, j ≠ id → c2.options[j]? = c.options[j]?)
    ∧ (o.fn = false → c2.pointerOf name = some (.bool v))
    ∧ (o.fn = true →
        (c2.getOption name).map (fun p => p.2.fnCalls) = some (o.fnCalls ++ [val]))

/-- Example context: the registry of a struct with the field `Debug bool` tagged
`-d;--debug` and the default `true`, which the destination holds, as left by
registration, with argument vector `args` and exit-on-error disabled. -/
def exDebugOn (args : List Str) : Screw :=
  { New args with
    shortAndLong := [("d".toList, 0), ("debug".toList, 0)],
    options := [{ newOption [] (.bool true) "true".toList with
                  showShort := ["d".toList], showLong := ["debug".toList] }],
    exit := false }

/-- One occurrence of an option together with its value on the command line. -/
inductive Occ
  /-- The token `--name=v`. -/
  | inline (name v : Str)
  /-- The token `--name` followed by the token `v`. -/
  | long (name v : Str)
  /-- The token `-x` followed by the token `v`. -/
  | short (x : Char) (v : Str)
  deriving DecidableEq, Repr

/-- The name under which the occurrence addresses its option. -/
def Occ.name : Occ → Str
  | .inline n _ => n
  | .long n _ => n
  | .short x _ => [x]

/-- The value that the occurrence gives to its option. -/
def Occ.value : Occ → Str
  | .inline _ v => v
  | .long _ v => v
  | .short _ v => v

/-- The tokens of the occurrence. -/
def Occ.tokens : Occ → List Str
  | .inline n v => [inlineToken n v]
  | .long n v => ['-' :: '-' :: n, v]
  | .short x v => [['-', x], v]

/-- The position of the token that holds the value, for an occurrence that starts at
position `i`. -/
def Occ.valueAt : Occ → Nat → Nat
  | .inline _ _, i => i
  | .long _ _, i => i + 1
  | .short _ _, i => i + 1

/-- The token `v` is not taken for an option by the fallback check: it does not start
with `-`, or its text between the leading dashes and the first `=` is no key. -/
def Screw.isValueToken (c : Screw) (v : Str) : Bool :=
  !(hasDashPrefix v && c.isKey (fallbackName v))

/-- The occurrence addresses a registered option that is not once-marked, and the value
is not empty where the parser needs it so (`--name=v`, `-x v`).  For the forms with the
value in the next token, the long name is not a single character, the short name is
not `-`, the option is neither greedy nor a boolean or a boolean sequence, and the
value is not taken for an option by the fallback check. -/
def Occ.ok (c : Screw) (occ : Occ) : Bool :=
  match c.getOption occ.name with
  | none => false
  | some (_, o) =>
    !o.once &&
      (match occ with
        | .inline _ v => decide (v ≠ [])
        | .long n v =>
          decide (n.length ≠ 1) && !o.greedy && (o.pointer.isBool == some false)
            && (o.pointer.isBoolSlice == some false) && c.isValueToken v
        | .short x v =>
          decide (x ≠ '-') && decide (v ≠ []) && !o.greedy
            && (o.pointer.isBool == some false)
            && (o.pointer.isBoolSlice == some false) && c.isValueToken v)

/-- The writes that the occurrences, the first of which starts at position `i`, stand
for: the position of the descriptor, the value, and the two parts of the order key. -/
def occWrites (c : Screw) : List Occ → Nat → List (Nat × Str × Nat × Nat)
  | [], _ => []
  | occ :: rest, i =>
    match c.getOption occ.name with
    | some (j, _) =>
      (j, occ.value, occ.valueAt i, 0) :: occWrites c rest (i + occ.tokens.length)
    | none => occWrites c rest (i + occ.tokens.length)

/-- Successive writes to the descriptors of a context, oldest first; the first write
that returns an error ends the sequence. -/
def writeSeq : List (Nat × Str × Nat × Nat) → Screw → Screw × Option Err
  | [], c => (c, none)
  | w :: rest, c =>
    match c.write w.1 w.2.1 w.2.2.1 w.2.2.2 with
    | (c, some e) => (c, some e)
    | (c, none) => writeSeq rest c

/-- The writes of the list that go to the descriptor at position `id`. -/
def writesTo (id : Nat) (ws : List (Nat × Str × Nat × Nat)) : List (Str × Nat × Nat) :=
  (ws.filter (fun w => w.1 = id)).map (fun w => w.2)

/-- The write that the environment step makes to the descriptor `o` at position `id`,
once for every time `id` is listed in `ids`: the value of the variable of `o`, if `o`
has an environment name and the variable is set, read as `true` or `false` for a boolean
destination. -/
def envWrites (env : Str → Option Str) (o : Opt) (ids : List Nat) (id : Nat) :
    List (Str × Nat × Nat) :=
  if o.envName.length > 0 then
    match env o.envName with
    | some v =>
      List.replicate (ids.count id)
        (if o.pointer.Kind = .Bool then
          (if v ≠ "false".toList then "true".toList else v) else v, 0, 0)
    | none => []
  else []

/-- The descriptor of `exHeadersEnv`. -/
def exHeaderEnvOpt : Opt :=
  { newOption [] (.strs ["x".toList]) "x".toList with
    showShort := ["H".toList], envName := "HDR".toList }

/-! Supporting lemmas and the theorems of the claims. -/

theorem mapGet_mem {name : Str} {id : Nat} {m : List (Str × Nat)}
    (h : mapGet name m = some id) : (name, id) ∈ m := by
  induction m with
  | nil => simp [mapGet] at h
  | cons p m ih =>
    obtain ⟨k, v⟩ := p
    by_cases hk : k = name
    · simp [mapGet, hk] at h
      simp [hk, h]
    · simp [mapGet, hk] at h
      exact List.mem_cons_of_mem _ (ih h)

theorem getOption_isKey {c : Screw} {name : Str} {id : Nat} {o : Opt}
    (h : c.getOption name = some (id, o)) : c.isKey name = true := by
  unfold Screw.getOption at h
  unfold Screw.isKey
  cases hm : mapGet name c.shortAndLong with
  | none => simp [hm] at h
  | some v => simp

theorem getOption_get {c : Screw} {name : Str} {id : Nat} {o : Opt}
    (h : c.getOption name = some (id, o)) : c.options[id]? = some o := by
  unfold Screw.getOption at h
  cases hm : mapGet name c.shortAndLong with
  | none => simp [hm] at h
  | some v =>
    simp only [hm] at h
    cases ho : c.options[v]? with
    | none => simp [ho] at h
    | some o2 =>
      simp only [ho, Option.some.injEq, Prod.mk.injEq] at h
      obtain ⟨h1, h2⟩ := h
      subst h1 h2
      exact ho

theorem isKey_legal {c : Screw} {name : Str} (hl : c.legalNames = true)
    (h : c.isKey name = true) : (checkOptionName name).2 = true := by
  unfold Screw.isKey at h
  cases hm : mapGet name c.shortAndLong with
  | none => simp [hm] at h
  | some v =>
    have hmem := mapGet_mem hm
    unfold Screw.legalNames at hl
    rw [List.all_eq_true] at hl
    exact hl _ hmem

theorem legal_forall {name : Str} (h : (checkOptionName name).2 = true) :
    ∀ a ∈ name, isNameByte a = true := by
  induction name with
  | nil => simp
  | cons a rest ih =>
    intro b hb
    by_cases ha : isNameByte a = true
    · simp only [checkOptionName, ha, if_true] at h
      rcases List.mem_cons.mp hb with rfl | hb
      · exact ha
      · exact ih h b hb
    · simp [checkOptionName, ha] at h

theorem isNameByte_ne_eq {a : Char} (h : isNameByte a = true) : a ≠ '=' := by
  rintro rfl
  revert h
  decide

theorem indexEq_append {n : Str} (v : Str) (hn : '=' ∉ n) :
    indexEq (n ++ '=' :: v) = some n.length := by
  induction n with
  | nil => simp [indexEq]
  | cons a rest ih =>
    have ha : a ≠ '=' := fun h => hn (by simp [h])
    have hr : '=' ∉ rest := fun h => hn (List.mem_cons_of_mem _ h)
    simp [indexEq, ha, ih hr]

theorem legal_no_eq {name : Str} (h : (checkOptionName name).2 = true) : '=' ∉ name :=
  fun hmem => isNameByte_ne_eq (legal_forall h _ hmem) rfl

theorem getOption_none_of_eq {c : Screw} {s : Str} (hl : c.legalNames = true)
    (hs : '=' ∈ s) : c.getOption s = none := by
  cases h : c.getOption s with
  | none => rfl
  | some p =>
    obtain ⟨id, o⟩ := p
    exact absurd hs (legal_no_eq (isKey_legal hl (getOption_isKey h)))

theorem getOption_setOpt {c : Screw} {name : Str} {id : Nat} {o o2 : Opt}
    (h : c.getOption name = some (id, o)) :
    (c.setOpt id o2).getOption name = some (id, o2) := by
  have hget := getOption_get h
  unfold Screw.getOption at h ⊢
  cases hm : mapGet name c.shortAndLong with
  | none => simp [hm] at h
  | some v =>
    simp only [hm] at h
    cases ho : c.options[v]? with
    | none => simp [ho] at h
    | some o3 =>
      simp only [ho, Option.some.injEq, Prod.mk.injEq] at h
      obtain ⟨h1, _⟩ := h
      subst h1
      have hlt : v < c.options.length := by
        rcases List.getElem?_eq_some_iff.mp ho with ⟨hlt, _⟩
        exact hlt
      simp [Screw.setOpt, hm, hlt]

theorem write_eq {c : Screw} {id : Nat} {o : Opt} (val : Str) (index low : Nat)
    (h : c.options[id]? = some o) :
    c.write id val index low =
      (c.setOpt id (setValueAndIndex val o index low).1, (setValueAndIndex val o index low).2) := by
  simp [Screw.write, h]

theorem setValueAndIndex_str {o : Opt} {s : Str} (val : Str) (index low : Nat)
    (hp : o.pointer = .str s) (hfn : o.fn = false) :
    (setValueAndIndex val o index low).1.pointer = .str val
      ∧ (setValueAndIndex val o index low).2 = none := by
  unfold setValueAndIndex onceResetValue
  by_cases hd : o.showDefValue.length > 0
  · by_cases hz : (!s.isEmpty && !o.cmdSet) = true
    · simp [hd, hp, Pointer.IsZero, hz, hfn, resetValue, setBase]
    · simp [hd, hp, Pointer.IsZero, hz, hfn, resetValue, setBase]
  · simp [hd, hp, hfn, setBase]

theorem checkOnce_not_once {o : Opt} (arg : Str) (h : o.once = false) :
    checkOnce arg o = none := by
  simp [checkOnce, h]

theorem setBool_nonempty (p : Pointer) {v : Str} (hv : v ≠ []) :
    setBoolAndBoolSliceDefval p v = some v := by
  simp [setBoolAndBoolSliceDefval, hv]

theorem parseLong_eq_write (c : Screw) (n v : Str) (index : Nat)
    (hlegal : c.legalNames = true) (hn : '=' ∉ n) (hv : v ≠ [])
    (honce : ∀ id o, c.getOption n = some (id, o) → o.once = false) :
    parseLong c (n ++ '=' :: v) index =
      match c.getOption n with
      | some (id, _) => ((c.write id v index 0).1, index, (c.write id v index 0).2)
      | none => (c, index, some (.unknownOption (n ++ '=' :: v))) := by
  have hwhole : c.getOption (n ++ '=' :: v) = none :=
    getOption_none_of_eq hlegal (by simp)
  have hlen : ¬ (n.length + (v.length + 1) = 1) := by
    cases v with
    | nil => exact absurd rfl hv
    | cons a w => simp; omega
  cases hreg : c.getOption n with
  | none =>
    simp [parseLong, hwhole, parseEqualValue, indexEq_append v hn, hreg]
  | some p =>
    obtain ⟨id, o⟩ := p
    have hv2 : 0 < v.length := List.length_pos.mpr hv
    simp [parseLong, hwhole, parseEqualValue, indexEq_append v hn, hreg, hlen,
      setBool_nonempty _ hv, hv2, checkOnce_not_once _ (honce id o hreg),
      write_eq v index 0 (getOption_get hreg)]

/-- Claim C3: for a long token `--n=v` with `v` non-empty and `n` free of `=`, in a
registry of legal names: when `n` is registered and not once-marked, `parseLong`
performs exactly the write of `v` (everything after the first `=`) to the descriptor
of `n` and leaves the cursor where it is, so that a string destination then holds
exactly `v`; when `n` is not registered, `parseLong` returns the unknown-long-option
error for the whole text and changes nothing. -/
theorem C3_parseLong_equals (c : Screw) (n v : Str) (index : Nat)
    (hlegal : c.legalNames = true) (hn : '=' ∉ n) (hv : v ≠ [])
    (honce : ∀ id o, c.getOption n = some (id, o) → o.once = false) :
    (parseLong c (n ++ '=' :: v) index =
      match c.getOption n with
      | some (id, _) => ((c.write id v index 0).1, index, (c.write id v index 0).2)
      | none => (c, index, some (.unknownOption (n ++ '=' :: v))))
    ∧ (∀ id o s, c.getOption n = some (id, o) → o.pointer = .str s → o.fn = false →
        (parseLong c (n ++ '=' :: v) index).1.pointerOf n = some (.str v)
          ∧ (parseLong c (n ++ '=' :: v) index).2 = (index, none)) := by
  have hmain := parseLong_eq_write c n v index hlegal hn hv honce
  refine ⟨hmain, ?_⟩
  intro id o s hreg hp hfn
  rw [hmain]
  simp only [hreg, write_eq v index 0 (getOption_get hreg)]
  have hs := setValueAndIndex_str v index 0 hp hfn
  simp [Screw.pointerOf, getOption_setOpt hreg, hs.1, hs.2]

/-- Witness for C3: with `name` registered on a string destination, `--name=a=b`
writes `a=b` and leaves the cursor on the token. -/
theorem C3_parseLong_equals_witness :
    (parseLong (exNameOther ["--name=a=b".toList]) "name=a=b".toList 0).1.pointerOf
        "name".toList = some (.str "a=b".toList)
      ∧ (parseLong (exNameOther ["--name=a=b".toList]) "name=a=b".toList 0).2 = (0, none) :=
  (C3_parseLong_equals (exNameOther ["--name=a=b".toList]) "name".toList "a=b".toList 0
    (by decide) (by decide) (by decide)
    (by
      intro id o h
      have h0 : (exNameOther ["--name=a=b".toList]).getOption "name".toList
          = some (0, { newOption [] (.str []) [] with showLong := ["name".toList] }) := by
        decide
      rw [h0] at h
      cases h
      rfl)).2 0 { newOption [] (.str []) [] with showLong := ["name".toList] } []
    (by decide) rfl rfl

theorem isNameByte_lt {a : Char} (h : isNameByte a = true) : a.toNat < 128 := by
  unfold isNameByte at h
  simp only [decide_eq_true_eq] at h
  have e1 : ∀ x y : Char, x ≤ y ↔ x.toNat ≤ y.toNat := fun x y => Iff.rfl
  simp only [e1] at h
  rcases h with h | h | h | h | h
  · have : ('z' : Char).toNat = 122 := by decide
    omega
  · have : ('Z' : Char).toNat = 90 := by decide
    omega
  · have : ('9' : Char).toNat = 57 := by decide
    omega
  · subst h; decide
  · subst h; decide

theorem getElem?_append_cons (pre : List Str) (tok : Str) (post : List Str) :
    (pre ++ tok :: post)[pre.length]? = some tok := by
  rw [List.getElem?_append_right (Nat.le_refl _)]
  simp

theorem parseOneOption_long (bc : Screw → List Str → Screw × List Str × Option Err)
    (c : Screw) (rs : List Str) (index : Nat) (a : Str)
    (h : c.args[index]? = some ('-' :: '-' :: a)) :
    parseOneOption bc c rs index =
      ((getOptionAndSet c a index 2).1, rs, (getOptionAndSet c a index 2).2) := by
  simp [parseOneOption, h]

theorem parseOneOption_short (bc : Screw → List Str → Screw × List Str × Option Err)
    (c : Screw) (rs : List Str) (index : Nat) (x : Char) (a : Str)
    (h : c.args[index]? = some ('-' :: x :: a)) (hx : x ≠ '-') :
    parseOneOption bc c rs index =
      ((getOptionAndSet c (x :: a) index 1).1, rs, (getOptionAndSet c (x :: a) index 1).2) := by
  simp [parseOneOption, h, hx]

theorem getOptionAndSet_long_key (c : Screw) (arg : Str) (index : Nat)
    (h : c.isKey arg = true) : getOptionAndSet c arg index 2 = parseLong c arg index := by
  simp [getOptionAndSet, h]

theorem getOptionAndSet_short_key (c : Screw) (arg : Str) (index : Nat)
    (h : c.isKey arg = true) : getOptionAndSet c arg index 1 = parseShort c arg index := by
  simp [getOptionAndSet, h]

theorem getOptionAndSet_long_eq (c : Screw) (arg : Str) (index : Nat)
    (h : '=' ∈ arg) : getOptionAndSet c arg index 2 = parseLong c arg index := by
  have h1 : arg ≠ ['h'] := by rintro rfl; revert h; decide
  have h2 : arg ≠ ['h', 'e', 'l', 'p'] := by rintro rfl; revert h; decide
  have h3 : arg ≠ ['v'] := by rintro rfl; revert h; decide
  have h4 : arg ≠ ['v', 'e', 'r', 's', 'i', 'o', 'n'] := by rintro rfl; revert h; decide
  simp [getOptionAndSet, h1, h2, h3, h4]

theorem getOptionAndSet_short_eq (c : Screw) (arg : Str) (index : Nat)
    (h : '=' ∈ arg) : getOptionAndSet c arg index 1 = parseShort c arg index := by
  have h1 : arg ≠ ['h'] := by rintro rfl; revert h; decide
  have h2 : arg ≠ ['h', 'e', 'l', 'p'] := by rintro rfl; revert h; decide
  have h3 : arg ≠ ['v'] := by rintro rfl; revert h; decide
  have h4 : arg ≠ ['v', 'e', 'r', 's', 'i', 'o', 'n'] := by rintro rfl; revert h; decide
  simp [getOptionAndSet, h1, h2, h3, h4]

theorem setBool_other {p : Pointer} (hb : p.isBool = some false)
    (hs : p.isBoolSlice = some false) : setBoolAndBoolSliceDefval p [] = some [] := by
  cases p <;> simp_all [setBoolAndBoolSliceDefval, Pointer.isBool, Pointer.isBoolSlice,
    Pointer.Kind]

theorem parseLong_bare_last (c : Screw) (name : Str) (index id : Nat) (o : Opt)
    (hreg : c.getOption name = some (id, o)) (hlen : name.length ≠ 1)
    (hb : o.pointer.isBool = some false) (hs : o.pointer.isBoolSlice = some false)
    (hlast : c.args.length ≤ index + 1) :
    parseLong c name index = (c, index, none) := by
  simp [parseLong, hreg, hlen, setBool_other hb hs, hlast]

theorem parseShort_single_last (c : Screw) (f : Char) (index id : Nat) (o : Opt)
    (hreg : c.getOption [f] = some (id, o)) (hf : f.toNat < 128)
    (hb : o.pointer.isBool = some false) (hs : o.pointer.isBoolSlice = some false)
    (hlast : c.args.length ≤ index + 1) :
    parseShort c [f] index = (c, index, none) := by
  have hf2 : ¬ (128 ≤ f.toNat) := by omega
  simp [parseShort, parseShortRange, hreg, hf2, hb, hs, shortEqual, getchar, hlast]

/-- Claim C8, as amended: when the token of a registered non-boolean option without
inline value (`--name` with a name that is not a single character, or `-f`) is the last
token of the argument vector, `parseOneOption` returns no error and leaves the whole
context, the destination included, and the cursor unchanged. -/
theorem C8_missing_value_no_error (bc : Screw → List Str → Screw × List Str × Option Err)
    (c : Screw) (rs : List Str) (pre : List Str) (tok name : Str) (id : Nat) (o : Opt)
    (hlegal : c.legalNames = true)
    (hreg : c.getOption name = some (id, o))
    (hb : o.pointer.isBool = some false) (hs : o.pointer.isBoolSlice = some false)
    (htok : (tok = '-' :: '-' :: name ∧ name.length ≠ 1)
      ∨ (∃ f, f ≠ '-' ∧ name = [f] ∧ tok = ['-', f]))
    (hargs : c.args = pre ++ [tok]) :
    parseOneOption bc c rs pre.length = (c, rs, pre.length, none) := by
  have hget : c.args[pre.length]? = some tok := by
    rw [hargs]; exact getElem?_append_cons pre tok []
  have hlast : c.args.length ≤ pre.length + 1 := by simp [hargs]
  have hkey := getOption_isKey hreg
  rcases htok with ⟨rfl, hlen⟩ | ⟨f, hf, rfl, rfl⟩
  · rw [parseOneOption_long bc c rs _ name hget, getOptionAndSet_long_key c name _ hkey,
      parseLong_bare_last c name _ id o hreg hlen hb hs hlast]
  · have hlt : f.toNat < 128 :=
      isNameByte_lt (legal_forall (isKey_legal hlegal hkey) f (by simp))
    rw [parseOneOption_short bc c rs _ f [] hget hf, getOptionAndSet_short_key c [f] _ hkey,
      parseShort_single_last c f _ id o hreg hlt hb hs hlast]

/-- Witness for C8 as amended: `-f` as the only token, `f` registered on a string
destination. -/
theorem C8_missing_value_no_error_witness :
    parseOneOption (fun c rs => (c, rs, none)) (exFile ["-f".toList]) [] 0
      = (exFile ["-f".toList], [], 0, none) :=
  C8_missing_value_no_error (fun c rs => (c, rs, none)) (exFile ["-f".toList]) [] []
    "-f".toList "f".toList 0
    { newOption [] (.str []) [] with showShort := ["f".toList], showLong := ["file".toList] }
    (by decide) (by decide) (by decide) (by decide)
    (Or.inr ⟨'f', by decide, rfl, rfl⟩) rfl

/-- Counterexample to C8 as stated: with `file` registered on a string destination,
binding the vector `--file` (and likewise `-f`) returns no error and leaves the
destination unwritten. -/
theorem C8_counterexample :
    (bindStruct noEnv (exFile ["--file".toList])).2 = none
      ∧ (bindStruct noEnv (exFile ["--file".toList])).1.pointerOf "file".toList
          = some (.str [])
      ∧ (bindStruct noEnv (exFile ["-f".toList])).2 = none
      ∧ (bindStruct noEnv (exFile ["-f".toList])).1.pointerOf "f".toList = some (.str []) := by
  decide

theorem setValueAndIndex_bool {o : Opt} {b v : Bool} (val : Str) (index low : Nat)
    (hp : o.pointer = .bool b) (hval : parseBool val = some v) :
    (setValueAndIndex val o index low).2 = none
      ∧ (o.fn = false → (setValueAndIndex val o index low).1.pointer = .bool v) := by
  unfold setValueAndIndex onceResetValue
  by_cases hd : o.showDefValue.length > 0 <;> by_cases hz : (b && !o.cmdSet) = true <;>
    by_cases hfn : o.fn = true <;>
    simp [hd, hp, Pointer.IsZero, hz, hfn, resetValue, setBase, hval]

theorem eq_pair_none {α : Type} {r : α × Option Err} (h : r.2 = none) : r = (r.1, none) := by
  cases r with
  | mk a e => simp at h; simp [h]

theorem parseShort_bool_bare (c : Screw) (d : Char) (index id : Nat) (o : Opt) (b : Bool)
    (hreg : c.getOption [d] = some (id, o)) (hd : d.toNat < 128)
    (hp : o.pointer = .bool b) (honce : o.once = false) :
    parseShort c [d] index
      = (c.setOpt id (setValueAndIndex "true".toList o index 0).1, index, none) := by
  have hd2 : ¬ (128 ≤ d.toNat) := by omega
  have hw := eq_pair_none
    (setValueAndIndex_bool (o := o) (v := true) "true".toList index 0 hp (by decide)).1
  have hget := getOption_get hreg
  generalize (setValueAndIndex "true".toList o index 0).1 = o2 at hw ⊢
  simp only [String.toList] at hw
  simp [parseShort, parseShortRange, hreg, hd2, hp, Pointer.isBool, Pointer.isBoolSlice,
    shortEqual, getchar, hget, checkOnce_not_once _ honce, hw]

theorem parseShort_bool_eq (c : Screw) (d : Char) (v : Str) (index id : Nat) (o : Opt)
    (b : Bool) (hreg : c.getOption [d] = some (id, o)) (hd : d.toNat < 128)
    (hde : d ≠ '=') (hv : v ≠ [])
    (hp : o.pointer = .bool b) (honce : o.once = false) :
    parseShort c (d :: '=' :: v) index
      = (c.setOpt id (setValueAndIndex v o index 2).1, index,
          (setValueAndIndex v o index 2).2) := by
  have hd2 : ¬ (128 ≤ d.toNat) := by omega
  have hget := getOption_get hreg
  have hv2 : 0 < v.length := List.length_pos.mpr hv
  cases hsv : setValueAndIndex v o index 2 with
  | mk o2 e =>
    cases e <;>
    simp [parseShort, parseShortRange, hreg, hd2, hp, Pointer.isBool, Pointer.isBoolSlice,
      shortEqual, getchar, hget, checkOnce_not_once _ honce, hsv, hde, hv2]

theorem parseLong_bool_bare (c : Screw) (name : Str) (index id : Nat) (o : Opt) (b : Bool)
    (hreg : c.getOption name = some (id, o)) (hlen : name.length ≠ 1)
    (hp : o.pointer = .bool b) (honce : o.once = false) :
    parseLong c name index
      = (c.setOpt id (setValueAndIndex "true".toList o index 0).1, index, none) := by
  have hw := eq_pair_none
    (setValueAndIndex_bool (o := o) (v := true) "true".toList index 0 hp (by decide)).1
  generalize (setValueAndIndex "true".toList o index 0).1 = o2 at hw ⊢
  simp only [String.toList] at hw
  simp [parseLong, hreg, hlen, setBoolAndBoolSliceDefval, hp, Pointer.Kind,
    checkOnce_not_once _ honce, hw]

/-- Claim C4 fails on the code: with `f` registered on a string destination, binding
the single token `-f=x` panics (index out of range in the second `=` test), `-f=x=y`
writes `y` instead of `x=y`, and `-fa=b` writes `b` instead of `a=b`; only a value of
two or more characters without a further `=` is written whole, as `-f=xy` shows. -/
theorem C4_inline_value_divergence :
    (bindStruct noEnv (exFile ["-f=x".toList])).2 = some .panic
      ∧ (bindStruct noEnv (exFile ["-f=x=y".toList])).1.pointerOf "f".toList
          = some (.str "y".toList)
      ∧ (bindStruct noEnv (exFile ["-fa=b".toList])).1.pointerOf "f".toList
          = some (.str "b".toList)
      ∧ (bindStruct noEnv (exFile ["-f=xy".toList])).1.pointerOf "f".toList
          = some (.str "xy".toList) := by
  decide

/-- Claim C6 fails on the code: with the once-marked integer option `level`, binding
`--level 0 --level 2` returns no error and leaves 2 in the destination, because
`checkOnce` looks at whether the destination is zero; and binding `-l 1 -l 2` returns
a once-violation that names the value `2`, not the option.  The long form with a
non-zero first value, `--level 1 --level 2`, gives the violation naming `level`. -/
theorem C6_once_twice_divergence :
    (bindStruct noEnv
        (exLevel ["--level".toList, "0".toList, "--level".toList, "2".toList])).2 = none
      ∧ (bindStruct noEnv
          (exLevel ["--level".toList, "0".toList, "--level".toList, "2".toList])).1.pointerOf
          "level".toList = some (.int 2)
      ∧ (bindStruct noEnv
          (exLevel ["-l".toList, "1".toList, "-l".toList, "2".toList])).2
          = some (.once "2".toList)
      ∧ (bindStruct noEnv
          (exLevel ["--level".toList, "1".toList, "--level".toList, "2".toList])).2
          = some (.once "level".toList) := by
  decide

/-- Claim C7 fails on the code: with the once-marked option `mode` whose declared
default `fast` is in the destination and which has not been written from the command
line, binding the single occurrence `--mode slow` returns the once-violation and the
destination keeps the default. -/
theorem C7_default_counts_against_once :
    (exMode ["--mode".toList, "slow".toList]).options.map (fun o => o.cmdSet) = [false]
      ∧ (bindStruct noEnv (exMode ["--mode".toList, "slow".toList])).2
          = some (.once "mode".toList)
      ∧ (bindStruct noEnv (exMode ["--mode".toList, "slow".toList])).1.pointerOf
          "mode".toList = some (.str "fast".toList) := by
  decide

theorem setBase_shape (val : Str) (p : Pointer) :
    (setBase val p).1.isBool = p.isBool ∧ (setBase val p).1.isBoolSlice = p.isBoolSlice := by
  cases p with
  | invalid => simp [setBase]
  | bool b => cases h : parseBool val <;> simp [setBase, h, Pointer.isBool, Pointer.isBoolSlice]
  | str s => simp [setBase, Pointer.isBool, Pointer.isBoolSlice]
  | int n => cases h : parseInt val <;> simp [setBase, h, Pointer.isBool, Pointer.isBoolSlice]
  | bools xs =>
    cases h : parseBool val <;> simp [setBase, h, Pointer.isBool, Pointer.isBoolSlice]
  | strs xs => simp [setBase, Pointer.isBool, Pointer.isBoolSlice]
  | ints xs =>
    cases h : parseInt val <;> simp [setBase, h, Pointer.isBool, Pointer.isBoolSlice]

theorem resetValue_shape (p : Pointer) :
    (resetValue p).isBool = p.isBool ∧ (resetValue p).isBoolSlice = p.isBoolSlice := by
  cases p <;> simp [resetValue, Pointer.isBool, Pointer.isBoolSlice]

theorem onceResetValue_shape (o : Opt) : o.sameShape (onceResetValue o).1 := by
  unfold onceResetValue Opt.sameShape
  split
  · split
    · simp
    · split <;> simp [resetValue_shape]
  · simp

theorem optShape_trans {o1 o2 o3 : Opt} (h1 : o1.sameShape o2) (h2 : o2.sameShape o3) :
    o1.sameShape o3 := by
  unfold Opt.sameShape at *
  obtain ⟨a1, a2, a3, a4⟩ := h1
  obtain ⟨b1, b2, b3, b4⟩ := h2
  exact ⟨b1.trans a1, b2.trans a2, b3.trans a3, b4.trans a4⟩

theorem setValueAndIndex_shape (val : Str) (o : Opt) (index low : Nat) :
    o.sameShape (setValueAndIndex val o index low).1 := by
  have h1 := onceResetValue_shape o
  unfold setValueAndIndex
  cases hr : onceResetValue o with
  | mk o1 e =>
    rw [hr] at h1
    simp only at h1
    cases e with
    | some e => simpa using h1
    | none =>
      simp only
      split
      · exact optShape_trans h1 (by simp [Opt.sameShape])
      · exact optShape_trans h1 (by simp [Opt.sameShape, setBase_shape])

theorem optShape_refl (o : Opt) : o.sameShape o := by
  simp [Opt.sameShape]

theorem ctxShape_refl (c : Screw) : c.sameShape c :=
  ⟨rfl, rfl, fun _ o h => ⟨o, h, optShape_refl o⟩⟩

theorem ctxShape_trans {c1 c2 c3 : Screw} (h1 : c1.sameShape c2)
    (h2 : c2.sameShape c3) : c1.sameShape c3 := by
  obtain ⟨a1, a2, a3⟩ := h1
  obtain ⟨b1, b2, b3⟩ := h2
  refine ⟨b1.trans a1, b2.trans a2, ?_⟩
  intro id o ho
  obtain ⟨o2, ho2, hs2⟩ := a3 id o ho
  obtain ⟨o3, ho3, hs3⟩ := b3 id o2 ho2
  exact ⟨o3, ho3, optShape_trans hs2 hs3⟩

theorem ctxShape_setOpt {c : Screw} {id : Nat} {o o2 : Opt}
    (h : c.options[id]? = some o) (hs : o.sameShape o2) : c.sameShape (c.setOpt id o2) := by
  refine ⟨rfl, rfl, ?_⟩
  intro j oj hj
  by_cases hji : id = j
  · subst hji
    have hlt : id < c.options.length := (List.getElem?_eq_some_iff.mp h).1
    rw [h] at hj
    cases hj
    exact ⟨o2, by simp [Screw.setOpt, hlt], hs⟩
  · exact ⟨oj, by simp [Screw.setOpt, List.getElem?_set_ne hji, hj], optShape_refl oj⟩

theorem ctxShape_write (c : Screw) (id : Nat) (val : Str) (index low : Nat) :
    c.sameShape (c.write id val index low).1 := by
  unfold Screw.write
  cases h : c.options[id]? with
  | none => exact ctxShape_refl c
  | some o => exact ctxShape_setOpt h (setValueAndIndex_shape val o index low)

theorem ctxShape_getOption {c c2 : Screw} {name : Str} {id : Nat} {o : Opt}
    (hs : c.sameShape c2) (h : c.getOption name = some (id, o)) :
    ∃ o2, c2.getOption name = some (id, o2) ∧ o.sameShape o2 := by
  obtain ⟨a1, _, a3⟩ := hs
  obtain ⟨o2, ho2, hsh⟩ := a3 id o (getOption_get h)
  refine ⟨o2, ?_, hsh⟩
  unfold Screw.getOption at h ⊢
  rw [a1]
  cases hm : mapGet name c.shortAndLong with
  | none => simp [hm] at h
  | some v =>
    simp only [hm] at h
    cases ho : c.options[v]? with
    | none => simp [ho] at h
    | some o3 =>
      simp only [ho, Option.some.injEq, Prod.mk.injEq] at h
      obtain ⟨h1, _⟩ := h
      subst h1
      simp [ho2]

theorem isRegisterOptions_congr {c c2 : Screw} (h : c2.shortAndLong = c.shortAndLong)
    (arg : Str) : isRegisterOptions c2 arg = isRegisterOptions c arg := by
  simp [isRegisterOptions, Screw.isKey, h]

theorem findFallbackOpt_congr {c c2 : Screw} (h : c2.shortAndLong = c.shortAndLong)
    (value : Str) (index : Nat) :
    findFallbackOpt c2 value index = findFallbackOpt c value index := by
  simp [findFallbackOpt, isRegisterOptions_congr h]

theorem setValueAndIndex_flag {o : Opt} (index low : Nat)
    (hflag : o.pointer.isBool = some true ∨ o.pointer.isBoolSlice = some true) :
    (setValueAndIndex "true".toList o index low).2 = none := by
  have hpb : parseBool ['t', 'r', 'u', 'e'] = some true := by decide
  unfold setValueAndIndex onceResetValue
  cases hp : o.pointer with
  | invalid => simp [hp, Pointer.isBool, Pointer.isBoolSlice] at hflag
  | bool b =>
    by_cases hd : o.showDefValue.length > 0 <;> by_cases hz : (b && !o.cmdSet) = true <;>
      by_cases hfn : o.fn = true <;>
      simp [hd, hp, Pointer.IsZero, hz, hfn, resetValue, setBase, hpb]
  | bools xs =>
    by_cases hd : o.showDefValue.length > 0 <;>
      by_cases hz : (!xs.isEmpty && !o.cmdSet) = true <;>
      by_cases hfn : o.fn = true <;>
      simp [hd, hp, Pointer.IsZero, hz, hfn, resetValue, setBase, hpb]
  | str s => simp [hp, Pointer.isBool, Pointer.isBoolSlice] at hflag
  | int n => simp [hp, Pointer.isBool, Pointer.isBoolSlice] at hflag
  | strs xs => simp [hp, Pointer.isBool, Pointer.isBoolSlice] at hflag
  | ints xs => simp [hp, Pointer.isBool, Pointer.isBoolSlice] at hflag

theorem flag_tests {p : Pointer}
    (hflag : p.isBool = some true ∨ p.isBoolSlice = some true) :
    ∃ x y, p.isBoolSlice = some x ∧ p.isBool = some y ∧ (x || y) = true := by
  cases p <;> simp_all [Pointer.isBool, Pointer.isBoolSlice]

theorem drop_succ_of_drop {arg : Str} {i : Nat} {b : Char} {rest : Str}
    (h : arg.drop i = b :: rest) : arg.drop (i + 1) = rest := by
  have : arg.drop (i + 1) = (arg.drop i).drop 1 := by
    rw [List.drop_drop]
  rw [this, h]
  rfl

theorem parseShortRange_flag (arg : Str) (b : Char) (rest : Str) (i : Nat) (c : Screw)
    (index : Nat) (find : Bool) (id : Nat) (o : Opt)
    (hdrop : arg.drop i = b :: rest) (hrne : rest ≠ []) (hrest : rest.head? ≠ some '=')
    (hb128 : b.toNat < 128) (hbe : b ≠ '=')
    (hreg : c.getOption [b] = some (id, o))
    (hflag : o.pointer.isBool = some true ∨ o.pointer.isBoolSlice = some true)
    (honce : o.once = false) :
    parseShortRange arg (b :: rest) i c index find
      = parseShortRange arg rest (i + 1) (c.write id "true".toList index i).1 index true := by
  have hd2 : ¬ (128 ≤ b.toNat) := by omega
  have hget := getOption_get hreg
  obtain ⟨x, y, hx, hy, hxy⟩ := flag_tests hflag
  have hdrop1 := drop_succ_of_drop hdrop
  have hw := eq_pair_none (setValueAndIndex_flag (o := o) index i hflag)
  have hrl : 0 < rest.length := List.length_pos.mpr hrne
  rw [write_eq _ index i hget]
  generalize (setValueAndIndex "true".toList o index i).1 = o2 at hw ⊢
  simp only [String.toList] at hw
  cases rest with
  | nil => exact absurd rfl hrne
  | cons r rest2 =>
    have hr : r ≠ '=' := by
      intro h
      exact hrest (by simp [h])
    rw [parseShortRange]
    simp [hd2, hreg, hx, hy, hxy, shortEqual, hdrop, hdrop1, hbe, hr, getchar, hget,
      checkOnce_not_once _ honce, hw]

theorem getchar_next (id : Nat) (isB findEqual : Bool) (fuel : Nat) (c : Screw)
    (value : Str) (shortIndex index : Nat) (t : Str)
    (hdrop : value.drop shortIndex = [])
    (ht : c.args[index + 1]? = some t)
    (hfb : findFallbackOpt c t (index + 1) = (false, index + 1, none)) :
    getchar id isB findEqual (fuel + 1) c value shortIndex index
      = getchar id isB findEqual fuel c t 0 (index + 1) := by
  have hlt : index + 1 < c.args.length := (List.getElem?_eq_some_iff.mp ht).1
  have hnl : ¬ (c.args.length ≤ index + 1) := by omega
  rw [getchar]
  simp [hdrop, hnl, ht, hfb]

theorem getchar_write_ret (id : Nat) (fuel : Nat) (c : Screw)
    (value : Str) (shortIndex index : Nat) (o : Opt)
    (hdrop : value.drop shortIndex ≠ [])
    (hget : c.options[id]? = some o)
    (honce : o.once = false) (hgreedy : o.greedy = false) :
    getchar id false false (fuel + 1) c value shortIndex index
      = ((c.write id (value.drop shortIndex) index shortIndex).1, index, .ret,
          (c.write id (value.drop shortIndex) index shortIndex).2) := by
  have hl : 0 < (value.drop shortIndex).length := List.length_pos.mpr hdrop
  have hsh := (setValueAndIndex_shape (value.drop shortIndex) o index shortIndex).2.1
  rw [write_eq _ index shortIndex hget, getchar]
  cases hsv : setValueAndIndex (value.drop shortIndex) o index shortIndex with
  | mk o2 e =>
    rw [hsv] at hsh
    simp only at hsh
    simp only [List.length_drop] at hl
    cases e <;>
    simp [hl, hget, checkOnce_not_once _ honce, hsv, hsh, hgreedy]

theorem parseShortRange_value_next (arg : Str) (cch : Char) (i : Nat) (c : Screw)
    (index : Nat) (find : Bool) (id : Nat) (o : Opt) (t : Str)
    (hdrop : arg.drop i = [cch]) (h128 : cch.toNat < 128)
    (hreg : c.getOption [cch] = some (id, o))
    (hnb : o.pointer.isBool = some false) (hnbs : o.pointer.isBoolSlice = some false)
    (honce : o.once = false) (hgreedy : o.greedy = false)
    (ht : c.args[index + 1]? = some t) (htne : t ≠ [])
    (hfb : findFallbackOpt c t (index + 1) = (false, index + 1, none)) :
    parseShortRange arg [cch] i c index find
      = ((c.write id t (index + 1) 0).1, index + 1, (c.write id t (index + 1) 0).2) := by
  have hd2 : ¬ (128 ≤ cch.toNat) := by omega
  have hget := getOption_get hreg
  have hdrop1 := drop_succ_of_drop hdrop
  have hlt : index + 1 < c.args.length := (List.getElem?_eq_some_iff.mp ht).1
  obtain ⟨n, hn⟩ : ∃ n, c.args.length = n + 1 := ⟨c.args.length - 1, by omega⟩
  have hse : shortEqual arg (i + 1) = some (false, i + 1) := by
    simp [shortEqual, hdrop1]
  have hg : getchar id false false (c.args.length + 1) c arg (i + 1) index
      = ((c.write id t (index + 1) 0).1, index + 1, .ret, (c.write id t (index + 1) 0).2) := by
    rw [getchar_next id false false _ c arg (i + 1) index t hdrop1 ht hfb, hn,
      getchar_write_ret id n c t 0 (index + 1) o (by simpa using htne) hget honce hgreedy]
    simp
  rw [parseShortRange]
  simp only [hd2, if_false, hreg, hnb, hnbs, Bool.or_self, Bool.not_false, if_true, hse, hg]
  cases (c.write id t (index + 1) 0).2 <;> rfl

theorem key_byte {c : Screw} {a : Char} {id : Nat} {o : Opt} (hl : c.legalNames = true)
    (h : c.getOption [a] = some (id, o)) : a.toNat < 128 ∧ a ≠ '=' := by
  have hb : isNameByte a = true :=
    legal_forall (isKey_legal hl (getOption_isKey h)) a (by simp)
  exact ⟨isNameByte_lt hb, isNameByte_ne_eq hb⟩

theorem parseShortRange_bundle (arg : Str) (c0 : Screw) (index : Nat) (cch : Char)
    (idc : Nat) (oc : Opt) (t : Str)
    (hlegal : c0.legalNames = true)
    (hc : c0.getOption [cch] = some (idc, oc))
    (hnb : oc.pointer.isBool = some false) (hnbs : oc.pointer.isBoolSlice = some false)
    (honce : oc.once = false) (hgreedy : oc.greedy = false)
    (ht : c0.args[index + 1]? = some t) (htne : t ≠ [])
    (hfb : findFallbackOpt c0 t (index + 1) = (false, index + 1, none)) :
    ∀ (bs : List Char) (i : Nat) (c : Screw) (find : Bool),
      c0.sameShape c → arg.drop i = bs ++ [cch] →
      (∀ b ∈ bs, ∃ id o, c0.getOption [b] = some (id, o)
        ∧ (o.pointer.isBool = some true ∨ o.pointer.isBoolSlice = some true)
        ∧ o.once = false) →
      parseShortRange arg (bs ++ [cch]) i c index find
        = (((writeFlags index bs i c).write idc t (index + 1) 0).1, index + 1,
            ((writeFlags index bs i c).write idc t (index + 1) 0).2) := by
  intro bs
  induction bs with
  | nil =>
    intro i c find hs hdrop _
    obtain ⟨oc2, hc2, hsh⟩ := ctxShape_getOption hs hc
    obtain ⟨s1, s2, s3, s4⟩ := hsh
    have hfb2 : findFallbackOpt c t (index + 1) = (false, index + 1, none) := by
      rw [findFallbackOpt_congr hs.1]; exact hfb
    have ht2 : c.args[index + 1]? = some t := by rw [hs.2.1]; exact ht
    simpa [writeFlags] using
      parseShortRange_value_next arg cch i c index find idc oc2 t (by simpa using hdrop)
        (key_byte hlegal hc).1 hc2 (s3.trans hnb) (s4.trans hnbs) (s1.trans honce)
        (s2.trans hgreedy) ht2 htne hfb2
  | cons b bs ih =>
    intro i c find hs hdrop hbs
    obtain ⟨id, o, hb, hflag, hbonce⟩ := hbs b (by simp)
    obtain ⟨o2, hb2, hsh⟩ := ctxShape_getOption hs hb
    obtain ⟨s1, s2, s3, s4⟩ := hsh
    have hflag2 : o2.pointer.isBool = some true ∨ o2.pointer.isBoolSlice = some true := by
      rw [s3, s4]; exact hflag
    have hrest : (bs ++ [cch]).head? ≠ some '=' := by
      cases bs with
      | nil =>
        simp only [List.nil_append, List.head?_cons, ne_eq, Option.some.injEq]
        exact (key_byte hlegal hc).2
      | cons b2 bs2 =>
        obtain ⟨id3, o3, hb3, _, _⟩ := hbs b2 (by simp)
        simp only [List.cons_append, List.head?_cons, ne_eq, Option.some.injEq]
        exact (key_byte hlegal hb3).2
    have hstep := parseShortRange_flag arg b (bs ++ [cch]) i c index find id o2
      (by simpa using hdrop) (by simp) hrest (key_byte hlegal hb).1 (key_byte hlegal hb).2
      hb2 hflag2 (s1.trans hbonce)
    have hdrop2 : arg.drop (i + 1) = bs ++ [cch] :=
      drop_succ_of_drop (by simpa using hdrop)
    rw [List.cons_append, hstep,
      ih (i + 1) _ true (ctxShape_trans hs (ctxShape_write c id _ index i)) hdrop2
        (fun b3 hb3 => hbs b3 (List.mem_cons_of_mem _ hb3))]
    simp [writeFlags, hb2]

theorem write_frame (c : Screw) (id j : Nat) (val : Str) (index low : Nat) (h : id ≠ j) :
    (c.write id val index low).1.options[j]? = c.options[j]? := by
  unfold Screw.write
  cases hget : c.options[id]? with
  | none => rfl
  | some o => simp [Screw.setOpt, List.getElem?_set_ne h]

theorem writeFlags_frame (c0 : Screw) (index : Nat) (idc : Nat) (oc : Opt)
    (hoc : c0.options[idc]? = some oc)
    (hnb : oc.pointer.isBool = some false) (hnbs : oc.pointer.isBoolSlice = some false) :
    ∀ (bs : List Char) (i : Nat) (c : Screw), c0.sameShape c →
      (∀ b ∈ bs, ∃ id o, c0.getOption [b] = some (id, o)
        ∧ (o.pointer.isBool = some true ∨ o.pointer.isBoolSlice = some true)
        ∧ o.once = false) →
      (writeFlags index bs i c).options[idc]? = c.options[idc]? := by
  intro bs
  induction bs with
  | nil => intro i c _ _; rfl
  | cons b bs ih =>
    intro i c hs hbs
    obtain ⟨id, o, hb, hflag, _⟩ := hbs b (by simp)
    obtain ⟨o2, hb2, _⟩ := ctxShape_getOption hs hb
    have hne : id ≠ idc := by
      rintro rfl
      have := getOption_get hb
      rw [hoc] at this
      cases this
      rcases hflag with h | h
      · rw [hnb] at h; cases h
      · rw [hnbs] at h; cases h
    simp only [writeFlags, hb2]
    rw [ih (i + 1) _ (ctxShape_trans hs (ctxShape_write c id _ index i))
      (fun b3 hb3 => hbs b3 (List.mem_cons_of_mem _ hb3))]
    exact write_frame c id idc _ index i hne

theorem writeFlags_shape (index : Nat) :
    ∀ (bs : List Char) (i : Nat) (c : Screw), c.sameShape (writeFlags index bs i c) := by
  intro bs
  induction bs with
  | nil => intro i c; exact ctxShape_refl c
  | cons b bs ih =>
    intro i c
    simp only [writeFlags]
    cases h : c.getOption [b] with
    | none => exact ctxShape_refl c
    | some p =>
      obtain ⟨id, o⟩ := p
      exact ctxShape_trans (ctxShape_write c id _ index i) (ih (i + 1) _)

/-- Claim C1, as amended: for a short token made of flags `b1..bk` (`k ≥ 0`, each a
registered boolean or boolean-sequence option that is not once-marked) followed by `c`,
a registered option that is neither boolean nor once-marked nor greedy, in a registry of
legal names, and for a following token `t` that is non-empty and not recognised by the
fallback check, `parseShort` performs exactly the writes of `true` to each flag in
order and then the write of `t` to `c`, and leaves the cursor on `t`; when `c` has a
string destination and no callback the destination then holds exactly `t` and no error
is returned. -/
theorem C1_bundle_then_value (c : Screw) (index : Nat) (bs : List Char) (cch : Char)
    (idc : Nat) (oc : Opt) (t : Str)
    (hlegal : c.legalNames = true)
    (hbs : ∀ b ∈ bs, ∃ id o, c.getOption [b] = some (id, o)
      ∧ (o.pointer.isBool = some true ∨ o.pointer.isBoolSlice = some true)
      ∧ o.once = false)
    (hc : c.getOption [cch] = some (idc, oc))
    (hnb : oc.pointer.isBool = some false) (hnbs : oc.pointer.isBoolSlice = some false)
    (honce : oc.once = false) (hgreedy : oc.greedy = false)
    (ht : c.args[index + 1]? = some t) (htne : t ≠ [])
    (hfb : findFallbackOpt c t (index + 1) = (false, index + 1, none)) :
    parseShort c (bs ++ [cch]) index
        = (((writeFlags index bs 0 c).write idc t (index + 1) 0).1, index + 1,
            ((writeFlags index bs 0 c).write idc t (index + 1) 0).2)
      ∧ ∀ s, oc.pointer = .str s → oc.fn = false →
          (parseShort c (bs ++ [cch]) index).1.pointerOf [cch] = some (.str t)
            ∧ (parseShort c (bs ++ [cch]) index).2 = (index + 1, none) := by
  have hmain := parseShortRange_bundle (bs ++ [cch]) c index cch idc oc t hlegal hc hnb hnbs
    honce hgreedy ht htne hfb bs 0 c false (ctxShape_refl c) rfl hbs
  refine ⟨hmain, ?_⟩
  intro s hp hfn
  have hfr := writeFlags_frame c index idc oc (getOption_get hc) hnb hnbs bs 0 c
    (ctxShape_refl c) hbs
  rw [getOption_get hc] at hfr
  obtain ⟨oc2, hc2, _⟩ := ctxShape_getOption (writeFlags_shape index bs 0 c) hc
  have hoc2 : oc2 = oc := by
    have := getOption_get hc2
    rw [hfr] at this
    cases this
    rfl
  subst hoc2
  have hsv := setValueAndIndex_str t (index + 1) 0 hp hfn
  unfold parseShort
  rw [hmain, write_eq t (index + 1) 0 hfr]
  simp [Screw.pointerOf, getOption_setOpt hc2, hsv.1, hsv.2]

/-- Witness for C1 as amended: `-abc hello` with `a`, `b` boolean and `c` a string sets
`a` and `b` to true and `c` to `hello`, with the cursor on `hello` and no error. -/
theorem C1_bundle_then_value_witness :
    ((parseShort (exBundle ["-abc".toList, "hello".toList]) "abc".toList 0).1.pointerOf
          "c".toList = some (.str "hello".toList)
        ∧ (parseShort (exBundle ["-abc".toList, "hello".toList]) "abc".toList 0).2
          = (1, none))
      ∧ (parseShort (exBundle ["-abc".toList, "hello".toList]) "abc".toList 0).1.pointerOf
          "a".toList = some (.bool true)
      ∧ (parseShort (exBundle ["-abc".toList, "hello".toList]) "abc".toList 0).1.pointerOf
          "b".toList = some (.bool true) :=
  ⟨(C1_bundle_then_value (exBundle ["-abc".toList, "hello".toList]) 0 ['a', 'b'] 'c' 2
      { newOption [] (.str []) [] with showShort := ["c".toList] } "hello".toList
      (by decide)
      (by
        intro b hb
        simp only [List.mem_cons, List.mem_singleton, List.not_mem_nil, or_false] at hb
        rcases hb with rfl | rfl
        · exact ⟨0, { newOption [] (.bool false) [] with showShort := ["a".toList] },
            by decide, Or.inl rfl, rfl⟩
        · exact ⟨1, { newOption [] (.bool false) [] with showShort := ["b".toList] },
            by decide, Or.inl rfl, rfl⟩)
      (by decide) rfl rfl rfl rfl (by decide) (by decide) (by decide)).2 [] rfl rfl,
    by decide, by decide⟩

/-- Counterexample to C1 as stated: with the greedy option `c` (not boolean, not
once-marked), `-c x y` writes both `x` and `y` and leaves the cursor two tokens further;
and with the once-marked boolean flag `b`, the bundle `-bbc x` returns a once-violation
at the second `b`. -/
theorem C1_counterexample :
    (parseShort (exGreedyOnce ["-c".toList, "x".toList, "y".toList]) "c".toList 0).2
        = (2, none)
      ∧ (parseShort (exGreedyOnce ["-c".toList, "x".toList, "y".toList])
          "c".toList 0).1.pointerOf "c".toList = some (.strs ["x".toList, "y".toList])
      ∧ (parseShort (exGreedyOnce ["-bbc".toList, "x".toList]) "bbc".toList 0).2
        = (0, some (.once "bc".toList)) := by
  decide

theorem drop_succ_of_drop_cons {α : Type} {l : List α} {i : Nat} {b : α} {rest : List α}
    (h : l.drop i = b :: rest) : l.drop (i + 1) = rest ∧ l[i]? = some b := by
  constructor
  · have : l.drop (i + 1) = (l.drop i).drop 1 := by
      rw [List.drop_drop]
    rw [this, h]
    rfl
  · have : (l.drop i)[0]? = l[i]? := by
      rw [List.getElem?_drop]
      simp
    rw [← this, h]
    simp

theorem getchar_write_greedy (id : Nat) (fuel : Nat) (c : Screw)
    (value : Str) (shortIndex index : Nat) (o : Opt)
    (hdrop : value.drop shortIndex ≠ [])
    (hget : c.options[id]? = some o)
    (honce : o.once = false) (hgreedy : o.greedy = true) :
    getchar id false false (fuel + 1) c value shortIndex index
      = match c.write id (value.drop shortIndex) index shortIndex with
        | (c2, some e) => (c2, index, .ret, some e)
        | (c2, none) => getchar id false false (fuel + 1) c2 [] 0 index := by
  have hl : 0 < (value.drop shortIndex).length := List.length_pos.mpr hdrop
  have hsh := (setValueAndIndex_shape (value.drop shortIndex) o index shortIndex).2.1
  rw [write_eq _ index shortIndex hget]
  cases hsv : setValueAndIndex (value.drop shortIndex) o index shortIndex with
  | mk o2 e =>
    rw [hsv] at hsh
    simp only at hsh
    simp only [List.length_drop] at hl
    cases e with
    | some e =>
      rw [getchar]
      simp [hl, hget, checkOnce_not_once _ honce, hsv]
    | none =>
      simp only
      conv_lhs => rw [getchar]
      conv_rhs => rw [getchar]
      simp [hl, hget, checkOnce_not_once _ honce, hsv, hsh, hgreedy]

theorem write_args (c : Screw) (id : Nat) (val : Str) (index low : Nat) :
    (c.write id val index low).1.args = c.args :=
  (ctxShape_write c id val index low).2.1

theorem getchar_greedy (c0 : Screw) (id : Nat) (o0 : Opt) (rest : List Str)
    (hget0 : c0.options[id]? = some o0) (honce : o0.once = false)
    (hgreedy : o0.greedy = true)
    (hrest : rest = [] ∨ ∃ r rest2, rest = r :: rest2
      ∧ ∀ i, findFallbackOpt c0 r i = (true, i - 1, none)) :
    ∀ (ts : List Str) (fuel : Nat) (c : Screw) (value : Str) (shortIndex index : Nat),
      c0.sameShape c → value.drop shortIndex = [] →
      c.args.drop (index + 1) = ts ++ rest → ts.length < fuel →
      (∀ t ∈ ts, t ≠ [] ∧ ∀ i, findFallbackOpt c0 t i = (false, i, none)) →
      getchar id false false fuel c value shortIndex index
        = ((writeTokens id ts index c).1, (writeTokens id ts index c).2.1, .ret,
            (writeTokens id ts index c).2.2) := by
  intro ts
  induction ts with
  | nil =>
    intro fuel c value shortIndex index hs hdrop hargs hfuel _
    obtain ⟨f, rfl⟩ : ∃ f, fuel = f + 1 := ⟨fuel - 1, by simp at hfuel; omega⟩
    rw [getchar]
    simp only [hdrop, List.length_nil, gt_iff_lt, Nat.lt_irrefl, if_false, writeTokens]
    rcases hrest with rfl | ⟨r, rest2, rfl, hr⟩
    · have hlen : c.args.length ≤ index + 1 := by
        have := congrArg List.length hargs
        simp at this
        omega
      simp [hlen]
    · obtain ⟨_, hidx⟩ := drop_succ_of_drop_cons (by simpa using hargs)
      have hlt : index + 1 < c.args.length := (List.getElem?_eq_some_iff.mp hidx).1
      have hnl : ¬ (c.args.length ≤ index + 1) := by omega
      have hfb : findFallbackOpt c r (index + 1) = (true, index, none) := by
        rw [findFallbackOpt_congr hs.1, hr]
        simp
      simp [hnl, hidx, hfb]
  | cons t ts ih =>
    intro fuel c value shortIndex index hs hdrop hargs hfuel hts
    obtain ⟨f, rfl⟩ : ∃ f, fuel = f + 1 := ⟨fuel - 1, by simp at hfuel; omega⟩
    obtain ⟨f2, rfl⟩ : ∃ f2, f = f2 + 1 := ⟨f - 1, by simp at hfuel; omega⟩
    obtain ⟨hdrop2, hidx⟩ := drop_succ_of_drop_cons (by simpa using hargs)
    obtain ⟨htne, htfb⟩ := hts t (by simp)
    have hfb : findFallbackOpt c t (index + 1) = (false, index + 1, none) := by
      rw [findFallbackOpt_congr hs.1, htfb]
    obtain ⟨o, hget, hsh⟩ := hs.2.2 id o0 hget0
    obtain ⟨s1, s2, _, _⟩ := hsh
    rw [getchar_next id false false _ c value shortIndex index t hdrop hidx hfb,
      getchar_write_greedy id f2 c t 0 (index + 1) o (by simpa using htne) hget
        (s1.trans honce) (s2.trans hgreedy)]
    simp only [List.drop_zero, writeTokens]
    cases hw : c.write id t (index + 1) 0 with
    | mk c2 e =>
      have hc2 : c2 = (c.write id t (index + 1) 0).1 := by rw [hw]
      cases e with
      | some e => rfl
      | none =>
        simp only
        have hs2 : c0.sameShape c2 := by
          rw [hc2]
          exact ctxShape_trans hs (ctxShape_write c id t (index + 1) 0)
        have hargs2 : c2.args.drop (index + 1 + 1) = ts ++ rest := by
          rw [hc2, write_args]
          exact hdrop2
        exact ih (f2 + 1) c2 [] 0 (index + 1) hs2 rfl hargs2
          (by simp at hfuel; omega) (fun t2 ht2 => hts t2 (List.mem_cons_of_mem _ ht2))

theorem parseLongLoop_greedy (arg : Str) (c0 : Screw) (id : Nat) (o0 : Opt)
    (rest : List Str)
    (hget0 : c0.options[id]? = some o0) (honce : o0.once = false)
    (hgreedy : o0.greedy = true)
    (hrest : rest = [] ∨ ∃ r rest2, rest = r :: rest2
      ∧ ∀ i, findFallbackOpt c0 r i = (true, i - 1, none)) :
    ∀ (ts : List Str) (fuel : Nat) (c : Screw) (index : Nat),
      c0.sameShape c →
      c.args.drop (index + 1) = ts ++ rest → ts.length < fuel →
      (∀ t ∈ ts, t ≠ [] ∧ ∀ i, findFallbackOpt c0 t i = (false, i, none)) →
      parseLongLoop arg id fuel c index
        = if (writeTokens id ts index c).2.2 = none ∧ rest = [] then
            ((writeTokens id ts index c).1, (writeTokens id ts index c).2.1 + 1, none)
          else writeTokens id ts index c := by
  intro ts
  induction ts with
  | nil =>
    intro fuel c index hs hargs hfuel _
    obtain ⟨f, rfl⟩ : ∃ f, fuel = f + 1 := ⟨fuel - 1, by simp at hfuel; omega⟩
    rw [parseLongLoop]
    simp only [writeTokens, true_and]
    rcases hrest with rfl | ⟨r, rest2, rfl, hr⟩
    · have hlen : c.args.length ≤ index + 1 := by
        have := congrArg List.length hargs
        simp at this
        omega
      simp [hlen]
    · obtain ⟨_, hidx⟩ := drop_succ_of_drop_cons (by simpa using hargs)
      have hlt : index + 1 < c.args.length := (List.getElem?_eq_some_iff.mp hidx).1
      have hnl : ¬ (c.args.length ≤ index + 1) := by omega
      have hfb : findFallbackOpt c r (index + 1) = (true, index, none) := by
        rw [findFallbackOpt_congr hs.1, hr]
        simp
      simp [hnl, hidx, hfb]
  | cons t ts ih =>
    intro fuel c index hs hargs hfuel hts
    obtain ⟨f, rfl⟩ : ∃ f, fuel = f + 1 := ⟨fuel - 1, by simp at hfuel; omega⟩
    obtain ⟨hdrop2, hidx⟩ := drop_succ_of_drop_cons (by simpa using hargs)
    obtain ⟨_, htfb⟩ := hts t (by simp)
    have hlt : index + 1 < c.args.length := (List.getElem?_eq_some_iff.mp hidx).1
    have hnl : ¬ (c.args.length ≤ index + 1) := by omega
    have hfb : findFallbackOpt c t (index + 1) = (false, index + 1, none) := by
      rw [findFallbackOpt_congr hs.1, htfb]
    obtain ⟨o, hget, hsh⟩ := hs.2.2 id o0 hget0
    obtain ⟨s1, s2, _, _⟩ := hsh
    have hshape := (setValueAndIndex_shape t o (index + 1) 0).2.1
    rw [parseLongLoop]
    simp only [writeTokens, write_eq t (index + 1) 0 hget]
    cases hsv : setValueAndIndex t o (index + 1) 0 with
    | mk o2 e =>
      rw [hsv] at hshape
      simp only at hshape
      cases e with
      | some e =>
        simp [hnl, hidx, hfb, hget, checkOnce_not_once _ (s1.trans honce), hsv]
      | none =>
        have hs2 : c0.sameShape (c.setOpt id o2) :=
          ctxShape_trans hs (ctxShape_setOpt hget (by
            have := setValueAndIndex_shape t o (index + 1) 0
            rw [hsv] at this
            exact this))
        have hargs2 : (c.setOpt id o2).args.drop (index + 1 + 1) = ts ++ rest := hdrop2
        have hih := ih f (c.setOpt id o2) (index + 1) hs2 hargs2
          (by simp at hfuel; omega) (fun t2 ht2 => hts t2 (List.mem_cons_of_mem _ ht2))
        simp [hnl, hidx, hfb, hget, checkOnce_not_once _ (s1.trans honce), hsv, hshape,
          s2.trans hgreedy, hih]

theorem writeTokens_shape (id : Nat) :
    ∀ (ts : List Str) (index : Nat) (c : Screw), c.sameShape (writeTokens id ts index c).1 := by
  intro ts
  induction ts with
  | nil => intro index c; exact ctxShape_refl c
  | cons t ts ih =>
    intro index c
    simp only [writeTokens]
    have hw := ctxShape_write c id t (index + 1) 0
    cases h : c.write id t (index + 1) 0 with
    | mk c2 e =>
      rw [h] at hw
      cases e with
      | some e => exact hw
      | none => exact ctxShape_trans hw (ih (index + 1) c2)

theorem writeTokens_index (id : Nat) :
    ∀ (ts : List Str) (index : Nat) (c : Screw), (writeTokens id ts index c).2.2 = none →
      (writeTokens id ts index c).2.1 = index + ts.length := by
  intro ts
  induction ts with
  | nil => intro index c _; rfl
  | cons t ts ih =>
    intro index c
    simp only [writeTokens]
    cases h : c.write id t (index + 1) 0 with
    | mk c2 e =>
      cases e with
      | some e => simp
      | none =>
        intro hn
        have := ih (index + 1) c2 hn
        simp only [List.length_cons]
        omega

theorem setValueAndIndex_strs {o : Opt} {xs : List Str} (val : Str) (index low : Nat)
    (hp : o.pointer = .strs xs) (hfn : o.fn = false) (hdef : o.showDefValue = []) :
    setValueAndIndex val o index low
      = ({ o with cmdSet := true, index := orderKey index low,
                  pointer := .strs (xs ++ [val]) }, none) := by
  simp [setValueAndIndex, onceResetValue, hdef, hfn, hp, setBase]

theorem writeTokens_strs (id : Nat) :
    ∀ (ts : List Str) (index : Nat) (c : Screw) (o : Opt) (xs : List Str),
      c.options[id]? = some o → o.pointer = .strs xs → o.fn = false →
      o.showDefValue = [] →
      (writeTokens id ts index c).2.2 = none
        ∧ ∃ o2, (writeTokens id ts index c).1.options[id]? = some o2
          ∧ o2.pointer = .strs (xs ++ ts) := by
  intro ts
  induction ts with
  | nil =>
    intro index c o xs hget hp _ _
    exact ⟨rfl, o, hget, by simpa using hp⟩
  | cons t ts ih =>
    intro index c o xs hget hp hfn hdef
    have hlt : id < c.options.length := (List.getElem?_eq_some_iff.mp hget).1
    simp only [writeTokens, write_eq t (index + 1) 0 hget,
      setValueAndIndex_strs t (index + 1) 0 hp hfn hdef]
    have := ih (index + 1)
      (c.setOpt id { o with cmdSet := true, index := orderKey (index + 1) 0,
                            pointer := .strs (xs ++ [t]) })
      { o with cmdSet := true, index := orderKey (index + 1) 0,
               pointer := .strs (xs ++ [t]) }
      (xs ++ [t]) (by simp [Screw.setOpt, hlt]) rfl hfn hdef
    simpa using this

theorem parseShort_greedy (c : Screw) (h : Char) (index id : Nat) (o : Opt)
    (ts rest : List Str)
    (hreg : c.getOption [h] = some (id, o)) (h128 : h.toNat < 128)
    (hnb : o.pointer.isBool = some false) (hnbs : o.pointer.isBoolSlice = some false)
    (honce : o.once = false) (hgreedy : o.greedy = true)
    (hargs : c.args.drop (index + 1) = ts ++ rest)
    (hts : ∀ t ∈ ts, t ≠ [] ∧ ∀ i, findFallbackOpt c t i = (false, i, none))
    (hrest : rest = [] ∨ ∃ r rest2, rest = r :: rest2
      ∧ ∀ i, findFallbackOpt c r i = (true, i - 1, none)) :
    parseShort c [h] index = writeTokens id ts index c := by
  have hd2 : ¬ (128 ≤ h.toNat) := by omega
  have hlen : ts.length < c.args.length + 1 := by
    have := congrArg List.length hargs
    simp at this
    omega
  have hg := getchar_greedy c id o rest (getOption_get hreg) honce hgreedy hrest ts
    (c.args.length + 1) c [h] 1 index (ctxShape_refl c) rfl hargs hlen hts
  have hse : shortEqual [h] (0 + 1) = some (false, 0 + 1) := by
    simp [shortEqual]
  unfold parseShort
  rw [parseShortRange]
  simp only [hd2, if_false, hreg, hnb, hnbs, Bool.or_self, Bool.not_false, if_true, hse, hg]
  cases hw : writeTokens id ts index c with
  | mk c2 r =>
    obtain ⟨i2, e⟩ := r
    cases e <;> rfl

theorem parseLong_greedy (c : Screw) (name : Str) (index id : Nat) (o : Opt)
    (ts rest : List Str)
    (hreg : c.getOption name = some (id, o)) (hlen : name.length ≠ 1)
    (hnb : o.pointer.isBool = some false) (hnbs : o.pointer.isBoolSlice = some false)
    (honce : o.once = false) (hgreedy : o.greedy = true)
    (hargs : c.args.drop (index + 1) = ts ++ rest)
    (hts : ∀ t ∈ ts, t ≠ [] ∧ ∀ i, findFallbackOpt c t i = (false, i, none))
    (hrest : rest = [] ∨ ∃ r rest2, rest = r :: rest2
      ∧ ∀ i, findFallbackOpt c r i = (true, i - 1, none)) :
    parseLong c name index
      = if (writeTokens id ts index c).2.2 = none ∧ rest = [] ∧ ts ≠ [] then
          ((writeTokens id ts index c).1, (writeTokens id ts index c).2.1 + 1, none)
        else writeTokens id ts index c := by
  have hl := congrArg List.length hargs
  simp only [List.length_drop, List.length_append] at hl
  by_cases hempty : ts = [] ∧ rest = []
  · obtain ⟨rfl, rfl⟩ := hempty
    have hlast : c.args.length ≤ index + 1 := by simp at hl; omega
    simp [parseLong, hreg, hlen, setBool_other hnb hnbs, hlast, writeTokens]
  · have hnl : ¬ (c.args.length ≤ index + 1) := by
      intro hle
      apply hempty
      have h0 : ts.length + rest.length = 0 := by omega
      exact ⟨List.length_eq_zero.mp (by omega), List.length_eq_zero.mp (by omega)⟩
    have hfuel : ts.length < c.args.length := by omega
    have hloop := parseLongLoop_greedy name c id o rest (getOption_get hreg) honce hgreedy
      hrest ts c.args.length c index (ctxShape_refl c) hargs hfuel hts
    have hcond : ((writeTokens id ts index c).2.2 = none ∧ rest = [] ∧ ts ≠ [])
        ↔ ((writeTokens id ts index c).2.2 = none ∧ rest = []) := by
      constructor
      · rintro ⟨a, b, _⟩; exact ⟨a, b⟩
      · rintro ⟨a, b⟩
        exact ⟨a, b, fun h => hempty ⟨h, b⟩⟩
    simp only [parseLong, hreg, hlen, if_false, setBool_other hnb hnbs, List.length_nil,
      gt_iff_lt, Nat.lt_irrefl, ge_iff_le, hnl, hloop, hcond]

/-- Claim C5, as amended: for a greedy option that is not once-marked and whose
destination is not boolean or a boolean sequence, given as `-H` or as `--name` with a
name that is not a single character, followed by tokens `ts` that are non-empty and not
recognised by the fallback check and then by the end of the vector or by a token that
the fallback check recognises, `parseOneOption` performs exactly the writes of `ts` in
order (`writeTokens`), stopping at a write that fails.  The cursor ends on the last
token of `ts` (one further for the long form at the end of the vector), so the token
the main loop dispatches next is the terminating option.  A string sequence without
callback and without declared default then holds its old elements followed by `ts`,
and no error is returned. -/
theorem C5_greedy_consumes (bc : Screw → List Str → Screw × List Str × Option Err)
    (c : Screw) (rs : List Str) (pre : List Str) (tok : Str) (ts rest : List Str)
    (name : Str) (id : Nat) (o : Opt)
    (hlegal : c.legalNames = true)
    (hreg : c.getOption name = some (id, o))
    (hnb : o.pointer.isBool = some false) (hnbs : o.pointer.isBoolSlice = some false)
    (honce : o.once = false) (hgreedy : o.greedy = true)
    (htok : (∃ h, h ≠ '-' ∧ name = [h] ∧ tok = ['-', h])
      ∨ (tok = '-' :: '-' :: name ∧ name.length ≠ 1))
    (hargs : c.args = pre ++ tok :: (ts ++ rest))
    (hts : ∀ t ∈ ts, t ≠ [] ∧ ∀ i, findFallbackOpt c t i = (false, i, none))
    (hrest : rest = [] ∨ ∃ r rest2, rest = r :: rest2
      ∧ ∀ i, findFallbackOpt c r i = (true, i - 1, none)) :
    parseOneOption bc c rs pre.length
        = ((writeTokens id ts pre.length c).1, rs,
            (if tok = '-' :: '-' :: name ∧ (writeTokens id ts pre.length c).2.2 = none
                ∧ rest = [] ∧ ts ≠ []
              then (writeTokens id ts pre.length c).2.1 + 1
              else (writeTokens id ts pre.length c).2.1),
            (writeTokens id ts pre.length c).2.2)
      ∧ ((writeTokens id ts pre.length c).2.2 = none →
          (writeTokens id ts pre.length c).2.1 = pre.length + ts.length
            ∧ ∀ r rest2, rest = r :: rest2 →
              (writeTokens id ts pre.length c).1.args[pre.length + ts.length + 1]? = some r)
      ∧ (∀ xs, o.pointer = .strs xs → o.fn = false → o.showDefValue = [] →
          (writeTokens id ts pre.length c).2.2 = none
            ∧ (writeTokens id ts pre.length c).1.pointerOf name = some (.strs (xs ++ ts))) := by
  have hget : c.args[pre.length]? = some tok := by
    rw [hargs]; exact getElem?_append_cons pre tok _
  have hdrop : c.args.drop (pre.length + 1) = ts ++ rest := by
    rw [hargs]
    simp
  have hkey := getOption_isKey hreg
  refine ⟨?_, ?_, ?_⟩
  · rcases htok with ⟨h, hh, rfl, rfl⟩ | ⟨rfl, hlen⟩
    · have hlt : h.toNat < 128 := (key_byte hlegal hreg).1
      have hnot : ¬ (['-', h] = '-' :: '-' :: [h]) := by simp
      rw [parseOneOption_short bc c rs _ h [] hget hh, getOptionAndSet_short_key c [h] _ hkey,
        parseShort_greedy c h _ id o ts rest hreg hlt hnb hnbs honce hgreedy hdrop hts hrest]
      simp only [hnot, false_and, if_false]
    · rw [parseOneOption_long bc c rs _ name hget, getOptionAndSet_long_key c name _ hkey,
        parseLong_greedy c name _ id o ts rest hreg hlen hnb hnbs honce hgreedy hdrop hts
          hrest]
      by_cases hc : (writeTokens id ts pre.length c).2.2 = none ∧ rest = [] ∧ ts ≠ []
      · rw [if_pos hc, if_pos ⟨rfl, hc⟩, hc.1]
      · have hc2 : ¬ ('-' :: '-' :: name = '-' :: '-' :: name
            ∧ (writeTokens id ts pre.length c).2.2 = none ∧ rest = [] ∧ ts ≠ []) :=
          fun h => hc h.2
        rw [if_neg hc, if_neg hc2]
  · intro hok
    refine ⟨writeTokens_index id ts pre.length c hok, ?_⟩
    rintro r rest2 rfl
    rw [(writeTokens_shape id ts pre.length c).2.1, hargs]
    have : pre.length + ts.length + 1 = (pre ++ tok :: ts).length := by simp; omega
    rw [this]
    have e : pre ++ tok :: (ts ++ r :: rest2) = (pre ++ tok :: ts) ++ r :: rest2 := by simp
    rw [e]
    exact getElem?_append_cons _ r rest2
  · intro xs hp hfn hdef
    obtain ⟨hok, o2, ho2, hp2⟩ := writeTokens_strs id ts pre.length c o xs
      (getOption_get hreg) hp hfn hdef
    refine ⟨hok, ?_⟩
    obtain ⟨o3, hreg3, _⟩ := ctxShape_getOption (writeTokens_shape id ts pre.length c) hreg
    have := getOption_get hreg3
    rw [ho2] at this
    cases this
    simp [Screw.pointerOf, hreg3, hp2]

/-- Witness for C5 as amended: in `-H a b c --other`, the token `-H` writes `a`, `b`,
`c` in that order, the cursor ends on `c`, and the whole vector binds without error. -/
theorem C5_greedy_consumes_witness :
    ((writeTokens 0 ["a".toList, "b".toList, "c".toList] 0
          (exHeader ["-H".toList, "a".toList, "b".toList, "c".toList,
            "--other".toList])).2.2 = none
        ∧ (writeTokens 0 ["a".toList, "b".toList, "c".toList] 0
          (exHeader ["-H".toList, "a".toList, "b".toList, "c".toList,
            "--other".toList])).1.pointerOf "H".toList
          = some (.strs ([] ++ ["a".toList, "b".toList, "c".toList])))
      ∧ (parseOneOption noChild
          (exHeader ["-H".toList, "a".toList, "b".toList, "c".toList, "--other".toList])
          [] 0).2.2 = (3, none)
      ∧ (bindStruct noEnv
          (exHeader ["-H".toList, "a".toList, "b".toList, "c".toList,
            "--other".toList])).2 = none :=
  ⟨(C5_greedy_consumes noChild
      (exHeader ["-H".toList, "a".toList, "b".toList, "c".toList, "--other".toList])
      [] [] "-H".toList ["a".toList, "b".toList, "c".toList] ["--other".toList]
      "H".toList 0 exHeaderOption (by decide) (by decide) rfl rfl rfl rfl
      (Or.inl ⟨'H', by decide, rfl, rfl⟩) rfl
      (by
        intro t ht
        simp only [List.mem_cons, List.mem_singleton, List.not_mem_nil, or_false] at ht
        rcases ht with rfl | rfl | rfl <;> exact ⟨by decide, fun i => rfl⟩)
      (Or.inr ⟨"--other".toList, [], rfl, fun i => rfl⟩)).2.2 [] rfl rfl rfl,
    by decide, by decide⟩

/-- Counterexample to C5 as stated: the greedy boolean sequence `v` followed by the
token `a` takes `true` and leaves `a` unconsumed (it ends in the unparsed list); and
the greedy option registered under the one-character name `H`, given in long form
`--H a`, fails with the unknown-long-option error. -/
theorem C5_counterexample :
    (bindStruct noEnv (exHeader ["-v".toList, "a".toList])).2 = none
      ∧ (bindStruct noEnv (exHeader ["-v".toList, "a".toList])).1.pointerOf "v".toList
          = some (.bools [true])
      ∧ (bindStruct noEnv (exHeader ["-v".toList, "a".toList])).1.unparsedArgs
          = [{ arg := "a".toList, index := 1 }]
      ∧ (bindStruct noEnv (exHeader ["--H".toList, "a".toList])).2
          = some (.unknownOption "H".toList) := by
  decide

/-- Claim C9, as amended: for a descriptor with a declared environment name, if the
variable is set, `setEnvAndArgs` performs exactly the write of its value, with no once
check and whatever the written mark and the unparsed list are; for a boolean
destination the written text is `true` unless the value is exactly `false`.  If the
variable is not set and the descriptor has no positional name, the context is left
unchanged and no error is returned. -/
theorem C9_environment_binding (env : Str → Option Str) (c : Screw) (id : Nat) (o : Opt)
    (hget : c.options[id]? = some o) (henv : o.envName ≠ []) :
    (∀ v, env o.envName = some v →
        setEnvAndArgs env c id
          = c.write id
              (if o.pointer.Kind = .Bool ∧ v ≠ "false".toList then "true".toList else v) 0 0)
      ∧ (env o.envName = none → o.argsName = [] → setEnvAndArgs env c id = (c, none)) := by
  have hl : 0 < o.envName.length := List.length_pos.mpr henv
  constructor
  · intro v hv
    rw [write_eq _ 0 0 hget]
    by_cases hk : o.pointer.Kind = .Bool
    · by_cases hf : v = "false".toList
      · subst hf
        simp [setEnvAndArgs, hget, hl, hv, hk]
      · have hf2 : ¬ v = ['f', 'a', 'l', 's', 'e'] := hf
        simp [setEnvAndArgs, hget, hl, hv, hk, hf2]
    · simp [setEnvAndArgs, hget, hl, hv, hk]
  · intro hv ha
    simp [setEnvAndArgs, hget, hl, hv, ha]

/-- Witness for C9 as amended: with `NAME=envv` in the environment, the environment
step on the descriptor of `name` is the write of `envv`; binding `--name cli` ends with
`envv` in the destination; `DEBUG=` (empty) gives true and `DEBUG=false` gives false;
with nothing set the destinations stay as they are. -/
theorem C9_environment_binding_witness :
    setEnvAndArgs (envOf [("NAME".toList, "envv".toList)])
        (exEnv ["--name".toList, "cli".toList]) 0
        = (exEnv ["--name".toList, "cli".toList]).write 0
            (if (Pointer.str []).Kind = .Bool ∧ "envv".toList ≠ "false".toList
              then "true".toList else "envv".toList) 0 0
      ∧ (bindStruct (envOf [("NAME".toList, "envv".toList)])
          (exEnv ["--name".toList, "cli".toList])).1.pointerOf "name".toList
          = some (.str "envv".toList)
      ∧ (bindStruct (envOf [("DEBUG".toList, [])]) (exEnv [])).1.options.map
          (fun o => o.pointer) = [.str [], .bool true]
      ∧ (bindStruct (envOf [("DEBUG".toList, "false".toList)]) (exEnv [])).1.options.map
          (fun o => o.pointer) = [.str [], .bool false]
      ∧ bindStruct noEnv (exEnv []) = (exEnv [], none) :=
  ⟨(C9_environment_binding (envOf [("NAME".toList, "envv".toList)])
      (exEnv ["--name".toList, "cli".toList]) 0
      { newOption [] (.str []) [] with
        showLong := ["name".toList], envName := "NAME".toList }
      rfl (by decide)).1 "envv".toList (by decide),
    by decide, by decide, by decide,
    rfl⟩

/-- Counterexample to C9 as stated: the descriptor tagged `env=MODE;args=mode` has a
declared environment name, the variable is not set, and binding the vector `x` writes
`x` to its destination, through the positional step of `setEnvAndArgs`. -/
theorem C9_counterexample :
    noEnv "MODE".toList = none
      ∧ (exDual ["x".toList]).options.map (fun o => o.envName) = ["MODE".toList]
      ∧ (bindStruct noEnv (exDual ["x".toList])).2 = none
      ∧ (bindStruct noEnv (exDual ["x".toList])).1.options.map (fun o => o.pointer)
          = [.str "x".toList] := by
  decide

theorem setBase_kind (val : Str) (p : Pointer) : (setBase val p).1.Kind = p.Kind := by
  cases p with
  | invalid => simp [setBase]
  | bool b => cases h : parseBool val <;> simp [setBase, h, Pointer.Kind]
  | str s => simp [setBase, Pointer.Kind]
  | int n => cases h : parseInt val <;> simp [setBase, h, Pointer.Kind]
  | bools xs => cases h : parseBool val <;> simp [setBase, h, Pointer.Kind]
  | strs xs => simp [setBase, Pointer.Kind]
  | ints xs => cases h : parseInt val <;> simp [setBase, h, Pointer.Kind]

theorem resetValue_kind (p : Pointer) : (resetValue p).Kind = p.Kind := by
  cases p <;> simp [resetValue, Pointer.Kind]

theorem onceResetValue_kind (o : Opt) : (onceResetValue o).1.pointer.Kind = o.pointer.Kind := by
  unfold onceResetValue
  split
  · split
    · simp
    · split <;> simp [resetValue_kind]
  · simp

theorem setValueAndIndex_kind (val : Str) (o : Opt) (index low : Nat) :
    (setValueAndIndex val o index low).1.pointer.Kind = o.pointer.Kind := by
  have h1 := onceResetValue_kind o
  unfold setValueAndIndex
  cases hr : onceResetValue o with
  | mk o1 e =>
    rw [hr] at h1
    simp only at h1
    cases e with
    | some e => simpa using h1
    | none =>
      simp only
      split
      · simpa using h1
      · simp [setBase_kind, h1]

theorem setArgsSlice_all :
    ∀ (us : List unparsedArg) (o : Opt), o.pointer.Kind = .Slice →
      (setArgsSlice us o).2 = [] := by
  intro us
  induction us with
  | nil => intro o _; rfl
  | cons u us ih =>
    intro o hk
    simp only [setArgsSlice, hk, if_true]
    exact ih _ (by rw [setValueAndIndex_kind]; exact hk)

theorem setArgsSlice_strs :
    ∀ (us : List unparsedArg) (o : Opt) (xs : List Str), o.pointer = .strs xs →
      o.fn = false → o.showDefValue = [] →
      (setArgsSlice us o).1.pointer = .strs (xs ++ us.map (fun u => u.arg)) := by
  intro us
  induction us with
  | nil => intro o xs hp _ _; simpa [setArgsSlice] using hp
  | cons u us ih =>
    intro o xs hp hfn hdef
    have hk : o.pointer.Kind = .Slice := by rw [hp]; rfl
    simp only [setArgsSlice, hk, if_true, setValueAndIndex_strs u.arg u.index 0 hp hfn hdef]
    have := ih { o with cmdSet := true, index := orderKey u.index 0,
                        pointer := .strs (xs ++ [u.arg]) } (xs ++ [u.arg]) rfl hfn hdef
    simpa using this

/-- Claim C10, as amended: `bindEnvAndArgs` visits the descriptors of `envAndArgs` in
declaration order, stopping at the first error; and for a visited descriptor with a
positional name whose environment step does not apply (no environment name, or the
variable unset): with an empty unparsed list it is left unwritten with no error; a
destination that is not a sequence gets the write of the earliest unparsed entry, which
is removed, and only it, when the write succeeds (a failing write returns its error and
removes nothing); a sequence destination gets the writes of all unparsed entries in
their order, errors of single writes being dropped, and the list is left empty.  A
string then holds that entry, a string sequence without callback and declared default
its old elements followed by all the entries. -/
theorem C10_positional_binding (env : Str → Option Str) (c : Screw) (id : Nat) (o : Opt)
    (hget : c.options[id]? = some o) (hargs : o.argsName ≠ [])
    (hnoenv : o.envName = [] ∨ env o.envName = none) :
    (c.unparsedArgs = [] → setEnvAndArgs env c id = (c, none))
      ∧ (∀ (u : unparsedArg) (rest : List unparsedArg),
          c.unparsedArgs = u :: rest → o.pointer.Kind ≠ .Slice →
          setEnvAndArgs env c id
            = if (setValueAndIndex u.arg o u.index 0).2 = none then
                ({ c.setOpt id (setValueAndIndex u.arg o u.index 0).1 with
                   unparsedArgs := rest }, none)
              else (c.setOpt id (setValueAndIndex u.arg o u.index 0).1,
                    (setValueAndIndex u.arg o u.index 0).2))
      ∧ (∀ (u : unparsedArg) (rest : List unparsedArg),
          c.unparsedArgs = u :: rest → o.pointer.Kind = .Slice →
          setEnvAndArgs env c id
            = ({ c.setOpt id (setArgsSlice (u :: rest) o).1 with unparsedArgs := [] }, none))
      ∧ (∀ (u : unparsedArg) (s : Str), o.pointer = .str s → o.fn = false →
          (setValueAndIndex u.arg o u.index 0).1.pointer = .str u.arg
            ∧ (setValueAndIndex u.arg o u.index 0).2 = none)
      ∧ (∀ (us : List unparsedArg) (xs : List Str),
          o.pointer = .strs xs → o.fn = false → o.showDefValue = [] →
          (setArgsSlice us o).1.pointer = .strs (xs ++ us.map (fun u => u.arg)))
      ∧ (∀ id2 ids c2, bindEnvAndArgsLoop env (id2 :: ids) c2
          = if (setEnvAndArgs env c2 id2).2 = none
              then bindEnvAndArgsLoop env ids (setEnvAndArgs env c2 id2).1
              else setEnvAndArgs env c2 id2) := by
  have hl : 0 < o.argsName.length := List.length_pos.mpr hargs
  have hvia : (if o.envName.length > 0 then env o.envName else none) = none := by
    rcases hnoenv with h | h
    · simp [h]
    · simp [h]
  refine ⟨?_, ?_, ?_, ?_, ?_, ?_⟩
  · intro hu
    simp only [setEnvAndArgs, hget, hvia, hl, if_true, hu]
  · intro u rest hu hk
    simp only [setEnvAndArgs, hget, hvia, hl, if_true, hu, hk, if_false]
    cases hsv : setValueAndIndex u.arg o u.index 0 with
    | mk o2 e => cases e <;> simp
  · intro u rest hu hk
    have hall := setArgsSlice_all (u :: rest) o hk
    simp only [setEnvAndArgs, hget, hvia, hl, if_true, hu, hk]
    cases hs : setArgsSlice (u :: rest) o with
    | mk o2 left =>
      rw [hs] at hall
      simp only at hall
      subst hall
      rfl
  · intro u s hp hfn
    exact setValueAndIndex_str u.arg u.index 0 hp hfn
  · intro us xs hp hfn hdef
    exact setArgsSlice_strs us o xs hp hfn hdef
  · intro id2 ids c2
    simp only [bindEnvAndArgsLoop]
    cases hs : setEnvAndArgs env c2 id2 with
    | mk c3 e => cases e <;> simp

/-- Witness for C10 as amended: with the descriptors `first` (a string) then `rest`
(a string sequence) and the unparsed list `x, y, z`, the step on `first` writes `x` and
removes it, and the whole fallback pass gives `first = x` and `rest = [y, z]` with the
list left empty. -/
theorem C10_positional_binding_witness :
    (setEnvAndArgs noEnv exPositionalXYZ 0).1.unparsedArgs
        = [⟨"y".toList, 1⟩, ⟨"z".toList, 2⟩]
      ∧ (bindEnvAndArgs noEnv exPositionalXYZ).1.options.map (fun o => o.pointer)
          = [.str "x".toList, .strs ["y".toList, "z".toList]]
      ∧ (bindEnvAndArgs noEnv exPositionalXYZ).1.unparsedArgs = []
      ∧ (bindStruct noEnv (exPositional ["x".toList, "y".toList, "z".toList])).1.options.map
          (fun o => o.pointer) = [.str "x".toList, .strs ["y".toList, "z".toList]] :=
  ⟨by
      rw [(C10_positional_binding noEnv exPositionalXYZ 0
        { newOption [] (.str []) [] with argsName := "first".toList }
        rfl (by decide) (Or.inl rfl)).2.1 ⟨"x".toList, 0⟩
        [⟨"y".toList, 1⟩, ⟨"z".toList, 2⟩] rfl (by decide)]
      decide,
    by decide, by decide, by decide⟩

/-- Counterexample to C10 as stated: the descriptor tagged `env=MODE;args=mode` is a
positional descriptor of a string; with `MODE=fast` set and the unparsed list `x`, the
fallback pass writes `fast`, not the earliest unparsed token, and removes nothing.  And
for the integer positional descriptor `count` with the unparsed list `x`, the write is
rejected by the value coercion: the pass returns that error and removes nothing. -/
theorem C10_counterexample :
    (bindEnvAndArgs (envOf [("MODE".toList, "fast".toList)]) exDualX).1.options.map
        (fun o => o.pointer) = [.str "fast".toList]
      ∧ (bindEnvAndArgs (envOf [("MODE".toList, "fast".toList)]) exDualX).1.unparsedArgs
          = [⟨"x".toList, 0⟩]
      ∧ (bindEnvAndArgs (envOf [("MODE".toList, "fast".toList)]) exDualX).2 = none
      ∧ (bindEnvAndArgs noEnv exCountX).2 = some (.coercion "x".toList)
      ∧ (bindEnvAndArgs noEnv exCountX).1.unparsedArgs = [⟨"x".toList, 0⟩] := by
  decide

theorem checkOptionName_legal_iff (name : Str) :
    (checkOptionName name).2 = true ↔ ∀ a ∈ name, isNameByte a = true := by
  constructor
  · exact legal_forall
  · intro h
    induction name with
    | nil => rfl
    | cons a rest ih =>
      have ha : isNameByte a = true := h a (by simp)
      simp only [checkOptionName, ha, if_true]
      exact ih (fun b hb => h b (List.mem_cons_of_mem _ hb))

theorem checkOptionName_first (pre : Str) (a : Char) (post : Str)
    (hpre : ∀ b ∈ pre, isNameByte b = true) (ha : isNameByte a = false) :
    checkOptionName (pre ++ a :: post) = (a, false) := by
  induction pre with
  | nil => simp [checkOptionName, ha]
  | cons b rest ih =>
    have hb : isNameByte b = true := hpre b (by simp)
    simp only [List.cons_append, checkOptionName, hb, if_true]
    exact ih (fun x hx => hpre x (List.mem_cons_of_mem _ hx))

theorem checkOptionName_reject {name : Str} (h : (checkOptionName name).2 = false) :
    ∃ pre a post, name = pre ++ a :: post ∧ (∀ b ∈ pre, isNameByte b = true)
      ∧ isNameByte a = false := by
  induction name with
  | nil => simp [checkOptionName] at h
  | cons a rest ih =>
    by_cases ha : isNameByte a = true
    · simp only [checkOptionName, ha, if_true] at h
      obtain ⟨pre, b, post, he, hp, hb⟩ := ih h
      refine ⟨a :: pre, b, post, by simp [he], ?_, hb⟩
      intro x hx
      rcases List.mem_cons.mp hx with rfl | hx
      · exact ha
      · exact hp x hx
    · exact ⟨[], a, rest, rfl, by simp, by simpa using ha⟩

/-- Claim C13: `checkOptionName` accepts a name exactly when every byte of it passes the
byte test of line 147, that is, lies in `a-z`, `A-Z`, `0-9` or is `-` or `_`; a rejected
name has a first byte outside that set, `checkOptionName` reports exactly that byte, and
`setOption` then returns the illegal-option-name error with the name and that byte and
leaves the context, the registry included, unchanged. -/
theorem C13_checkOptionName_first_illegal (name : Str) (c : Screw) (id : Nat) (long : Bool) :
    ((checkOptionName name).2 = true ↔ ∀ a ∈ name, isNameByte a = true)
      ∧ (∀ a : Char, isNameByte a = true ↔
          ((97 ≤ a.toNat ∧ a.toNat ≤ 122) ∨ (65 ≤ a.toNat ∧ a.toNat ≤ 90)
            ∨ (48 ≤ a.toNat ∧ a.toNat ≤ 57) ∨ a = '-' ∨ a = '_'))
      ∧ ((checkOptionName name).2 = false →
          ∃ pre a post, name = pre ++ a :: post ∧ (∀ b ∈ pre, isNameByte b = true)
            ∧ isNameByte a = false)
      ∧ (∀ pre a post, name = pre ++ a :: post → (∀ b ∈ pre, isNameByte b = true) →
          isNameByte a = false →
          checkOptionName name = (a, false)
            ∧ setOption c name id long = (c, some (.optionName name a))) := by
  refine ⟨checkOptionName_legal_iff name, ?_, checkOptionName_reject, ?_⟩
  · intro a
    have e1 : ∀ x y : Char, x ≤ y ↔ x.toNat ≤ y.toNat := fun x y => Iff.rfl
    simp only [isNameByte, decide_eq_true_eq, e1]
    have h1 : ('a' : Char).toNat = 97 := by decide
    have h2 : ('z' : Char).toNat = 122 := by decide
    have h3 : ('A' : Char).toNat = 65 := by decide
    have h4 : ('Z' : Char).toNat = 90 := by decide
    have h5 : ('0' : Char).toNat = 48 := by decide
    have h6 : ('9' : Char).toNat = 57 := by decide
    rw [h1, h2, h3, h4, h5, h6]
  · intro pre a post hname hpre ha
    have hc := checkOptionName_first pre a post hpre ha
    subst hname
    refine ⟨hc, ?_⟩
    simp [setOption, hc]

theorem setOption_duplicate (c : Screw) (name : Str) (id : Nat) (long : Bool) (j : Nat)
    (o : Opt) (hlegal : (checkOptionName name).2 = true)
    (hreg : c.getOption name = some (j, o)) :
    setOption c name id long
      = (c, some (.duplicateOptions (if long then '-' :: '-' :: name else '-' :: name)
          (showShortAndLong o))) := by
  have hget := getOption_get hreg
  unfold Screw.getOption at hreg
  cases hm : mapGet name c.shortAndLong with
  | none => simp [hm] at hreg
  | some v =>
    simp only [hm] at hreg
    cases ho : c.options[v]? with
    | none => simp [ho] at hreg
    | some o3 =>
      simp only [ho, Option.some.injEq, Prod.mk.injEq] at hreg
      obtain ⟨h1, h2⟩ := hreg
      subst h1 h2
      cases hc : checkOptionName name with
      | mk ch ok =>
        rw [hc] at hlegal
        simp only at hlegal
        subst hlegal
        simp [setOption, hc, hm, ho]

theorem setOption_key_fails (c : Screw) (name : Str) (id : Nat) (long : Bool)
    (hkey : c.isKey name = true) : (setOption c name id long).2 ≠ none := by
  unfold Screw.isKey at hkey
  cases hm : mapGet name c.shortAndLong with
  | none => simp [hm] at hkey
  | some v =>
    cases hc : checkOptionName name with
    | mk ch ok =>
      cases ok with
      | false => simp [setOption, hc]
      | true =>
        cases ho : c.options[v]? <;> simp [setOption, hc, hm, ho]

theorem setOption_keeps_key (c : Screw) (name : Str) (id : Nat) (long : Bool) (n : Str)
    (hkey : c.isKey n = true) : (setOption c name id long).1.isKey n = true := by
  unfold setOption
  cases hc : checkOptionName name with
  | mk ch ok =>
    cases ok with
    | false => simpa using hkey
    | true =>
      simp only
      cases hm : mapGet name c.shortAndLong with
      | some v => cases ho : c.options[v]? <;> simpa [ho] using hkey
      | none =>
        simp only [Screw.isKey, mapGet]
        split
        · rfl
        · exact hkey

theorem modifyOpt_registry (c : Screw) (id : Nat) (g : Opt → Opt) :
    (c.modifyOpt id g).shortAndLong = c.shortAndLong := by
  unfold Screw.modifyOpt
  cases c.options[id]? <;> rfl

theorem modifyOpt_isKey (c : Screw) (id : Nat) (g : Opt → Opt) (n : Str) :
    (c.modifyOpt id g).isKey n = c.isKey n := by
  simp [Screw.isKey, modifyOpt_registry]

theorem tagCallback_keeps_key (id : Nat) (c : Screw) (flags : TagFlags) (opt : Str)
    (n : Str) (hkey : c.isKey n = true) : (tagCallback id c flags opt).1.isKey n = true := by
  unfold tagCallback
  cases c.structAddr with
  | none => exact hkey
  | some methods =>
    simp only
    split
    · exact hkey
    · split
      · exact hkey
      · rw [modifyOpt_isKey]; exact hkey

theorem tagLong_keeps_key (h : Missing) (fieldName : Str) (id : Nat) (c : Screw)
    (flags : TagFlags) (opt : Str) (n : Str) (hkey : c.isKey n = true) :
    (tagLong h fieldName id c flags opt).1.isKey n = true := by
  unfold tagLong
  simp only
  split
  · exact hkey
  · rename_i name _
    have h2 := setOption_keeps_key c name id true n hkey
    cases hs : setOption c name id true with
    | mk c2 e =>
      rw [hs] at h2
      cases e with
      | some e => exact h2
      | none => simp only; rw [modifyOpt_isKey]; exact h2

theorem tagShort_keeps_key (h : Missing) (fieldName : Str) (id : Nat) (c : Screw)
    (flags : TagFlags) (opt : Str) (n : Str) (hkey : c.isKey n = true) :
    (tagShort h fieldName id c flags opt).1.isKey n = true := by
  unfold tagShort
  simp only
  split
  · exact hkey
  · rename_i name _
    have h2 := setOption_keeps_key c name id false n hkey
    cases hs : setOption c name id false with
    | mk c2 e =>
      rw [hs] at h2
      cases e with
      | some e => exact h2
      | none => simp only; rw [modifyOpt_isKey]; exact h2

theorem tagEnv_keeps_key (h : Missing) (fieldName : Str) (id : Nat) (c : Screw)
    (flags : TagFlags) (opt : Str) (n : Str) (hkey : c.isKey n = true) :
    (tagEnv h fieldName id c flags opt).1.isKey n = true := by
  unfold tagEnv
  simp only
  split
  · exact hkey
  · split
    · rw [modifyOpt_isKey]; exact hkey
    · simpa [Screw.isKey, modifyOpt_registry] using hkey

theorem tagArgs_keeps_key (id : Nat) (c : Screw) (flags : TagFlags) (opt : Str)
    (n : Str) (hkey : c.isKey n = true) : (tagArgs id c flags opt).1.isKey n = true := by
  unfold tagArgs
  split
  · exact hkey
  · simp only
    split
    · rw [modifyOpt_isKey]; exact hkey
    · simpa [Screw.isKey, modifyOpt_registry] using hkey

theorem parseTagClause_keeps_key (h : Missing) (tag fieldName : Str) (id : Nat) (c : Screw)
    (flags : TagFlags) (opt : Str) (n : Str) (hkey : c.isKey n = true) :
    (parseTagClause h tag fieldName id c flags opt).1.isKey n = true := by
  rw [parseTagClause]
  by_cases h1 : hasPrefix opt "callback".toList = true
  · rw [if_pos h1]; exact tagCallback_keeps_key id c flags opt n hkey
  rw [if_neg h1]
  by_cases h2 : hasPrefix opt "--".toList = true ∨ hasPrefix opt "long".toList = true
  · rw [if_pos h2]; exact tagLong_keeps_key h fieldName id c flags opt n hkey
  rw [if_neg h2]
  by_cases h3 : hasPrefix opt "-".toList = true ∨ hasPrefix opt "short".toList = true
  · rw [if_pos h3]; exact tagShort_keeps_key h fieldName id c flags opt n hkey
  rw [if_neg h3]
  by_cases h4 : hasPrefix opt "greedy".toList = true
  · rw [if_pos h4]; simp only; rw [modifyOpt_isKey]; exact hkey
  rw [if_neg h4]
  by_cases h5 : hasPrefix opt "once".toList = true
  · rw [if_pos h5]; simp only; rw [modifyOpt_isKey]; exact hkey
  rw [if_neg h5]
  by_cases h6 : opt = "env".toList ∨ hasPrefix opt "env=".toList = true
  · rw [if_pos h6]; exact tagEnv_keeps_key h fieldName id c flags opt n hkey
  rw [if_neg h6]
  by_cases h7 : hasPrefix opt "args=".toList = true
  · rw [if_pos h7]; exact tagArgs_keeps_key id c flags opt n hkey
  rw [if_neg h7]
  exact hkey

theorem parseTagClause_long (h : Missing) (tag fieldName : Str) (id : Nat) (c : Screw)
    (flags : TagFlags) (n : Str) :
    parseTagClause h tag fieldName id c flags ('-' :: '-' :: n)
      = tagLong h fieldName id c flags ('-' :: '-' :: n) := by
  simp [parseTagClause, hasPrefix, List.isPrefixOf]

theorem parseTagClause_short (h : Missing) (tag fieldName : Str) (id : Nat) (c : Screw)
    (flags : TagFlags) (n : Str) (hn : n.head? ≠ some '-') :
    parseTagClause h tag fieldName id c flags ('-' :: n)
      = tagShort h fieldName id c flags ('-' :: n) := by
  cases n with
  | nil => simp [parseTagClause, hasPrefix, List.isPrefixOf]
  | cons a rest =>
    have ha : a ≠ '-' := by
      intro h2
      exact hn (by simp [h2])
    have ha2 : ¬ ('-' = a) := fun h2 => ha h2.symm
    simp [parseTagClause, hasPrefix, List.isPrefixOf, ha, ha2]

theorem tagLong_explicit (h : Missing) (fieldName : Str) (id : Nat) (c : Screw)
    (flags : TagFlags) (n : Str) :
    tagLong h fieldName id c flags ('-' :: '-' :: n)
      = match setOption c n id true with
        | (c2, some e) => (c2, flags, some e)
        | (c2, none) =>
          (c2.modifyOpt id (fun o => { o with showLong := o.showLong ++ [n] }),
            { flags with isShort := true }, illegalDash ('-' :: '-' :: n) n) := by
  simp [tagLong, hasPrefix, List.isPrefixOf]

theorem tagShort_explicit (h : Missing) (fieldName : Str) (id : Nat) (c : Screw)
    (flags : TagFlags) (n : Str) :
    tagShort h fieldName id c flags ('-' :: n)
      = match setOption c n id false with
        | (c2, some e) => (c2, flags, some e)
        | (c2, none) =>
          (c2.modifyOpt id (fun o => { o with showShort := o.showShort ++ [n] }),
            { flags with isLong := true }, illegalDash ('-' :: n) n) := by
  simp [tagShort, hasPrefix, List.isPrefixOf]

theorem parseTagClause_declared_fails (h : Missing) (tag fieldName : Str) (id : Nat)
    (c : Screw) (flags : TagFlags) (opt n : Str) (hkey : c.isKey n = true)
    (hopt : opt = '-' :: '-' :: n ∨ (opt = '-' :: n ∧ n.head? ≠ some '-')) :
    (parseTagClause h tag fieldName id c flags opt).2.2 ≠ none := by
  rcases hopt with rfl | ⟨rfl, hn⟩
  · have hf := setOption_key_fails c n id true hkey
    rw [parseTagClause_long, tagLong_explicit]
    cases hs : setOption c n id true with
    | mk c2 e =>
      rw [hs] at hf
      cases e with
      | none => exact absurd rfl hf
      | some e => simp
  · have hf := setOption_key_fails c n id false hkey
    rw [parseTagClause_short _ _ _ _ _ _ _ hn, tagShort_explicit]
    cases hs : setOption c n id false with
    | mk c2 e =>
      rw [hs] at hf
      cases e with
      | none => exact absurd rfl hf
      | some e => simp

theorem parseTagLoop_declared_fails (h : Missing) (tag fieldName : Str) (id : Nat) (n : Str) :
    ∀ (opts : List Str) (c : Screw) (flags : TagFlags), c.isKey n = true →
      (∃ opt ∈ opts, trimLeftSpace opt = '-' :: '-' :: n
        ∨ (trimLeftSpace opt = '-' :: n ∧ n.head? ≠ some '-')) →
      (parseTagLoop h tag fieldName id opts c flags).2.2 ≠ none := by
  intro opts
  induction opts with
  | nil => intro c flags _ hex; simp at hex
  | cons opt rest ih =>
    intro c flags hkey hex
    obtain ⟨o2, hmem, ho2⟩ := hex
    rw [parseTagLoop]
    by_cases hhere : trimLeftSpace opt = '-' :: '-' :: n
        ∨ (trimLeftSpace opt = '-' :: n ∧ n.head? ≠ some '-')
    · have hne : ¬ ((trimLeftSpace opt).length = 0) := by
        rcases hhere with h1 | ⟨h1, _⟩ <;> simp [h1]
      have hf := parseTagClause_declared_fails h tag fieldName id c flags
        (trimLeftSpace opt) n hkey hhere
      rw [if_neg hne]
      cases hc : parseTagClause h tag fieldName id c flags (trimLeftSpace opt) with
      | mk c2 r =>
        obtain ⟨f2, e⟩ := r
        rw [hc] at hf
        cases e with
        | none => exact absurd rfl hf
        | some e => simp
    · have hrest : ∃ opt ∈ rest, trimLeftSpace opt = '-' :: '-' :: n
          ∨ (trimLeftSpace opt = '-' :: n ∧ n.head? ≠ some '-') := by
        rcases List.mem_cons.mp hmem with rfl | hm
        · exact absurd ho2 hhere
        · exact ⟨o2, hm, ho2⟩
      by_cases hne : (trimLeftSpace opt).length = 0
      · rw [if_pos hne]
        exact ih c flags hkey hrest
      · rw [if_neg hne]
        have hk := parseTagClause_keeps_key h tag fieldName id c flags (trimLeftSpace opt) n
          hkey
        cases hc : parseTagClause h tag fieldName id c flags (trimLeftSpace opt) with
        | mk c2 r =>
          obtain ⟨f2, e⟩ := r
          rw [hc] at hk
          cases e with
          | some e => simp
          | none => exact ih c2 f2 hk hrest

theorem splitOnByte_ne_nil (sep : Char) (s : Str) : splitOnByte sep s ≠ [] := by
  induction s with
  | nil => simp [splitOnByte]
  | cons a rest ih =>
    rw [splitOnByte]
    split
    · simp
    · split <;> simp

theorem splitOnByte_no_sep (sep : Char) (s : Str) (h : sep ∉ s) :
    splitOnByte sep s = [s] := by
  induction s with
  | nil => rfl
  | cons a rest ih =>
    have ha : a ≠ sep := fun e => h (by simp [e])
    have hr : sep ∉ rest := fun e => h (List.mem_cons_of_mem _ e)
    rw [splitOnByte, if_neg ha, ih hr]

theorem isNameByte_ne_semi {a : Char} (h : isNameByte a = true) : a ≠ ';' := by
  rintro rfl
  revert h
  decide

theorem legal_no_semi {name : Str} (h : (checkOptionName name).2 = true) : ';' ∉ name :=
  fun hmem => isNameByte_ne_semi (legal_forall h _ hmem) rfl

theorem getOption_append {c : Screw} {name : Str} {j : Nat} {o : Opt} (extra : List Opt)
    (h : c.getOption name = some (j, o)) :
    ({ c with options := c.options ++ extra } : Screw).getOption name = some (j, o) := by
  have hget := getOption_get h
  have hlt : j < c.options.length := (List.getElem?_eq_some_iff.mp hget).1
  unfold Screw.getOption at h ⊢
  cases hm : mapGet name c.shortAndLong with
  | none => simp [hm] at h
  | some v =>
    simp only [hm] at h
    cases ho : c.options[v]? with
    | none => simp [ho] at h
    | some o3 =>
      simp only [ho, Option.some.injEq, Prod.mk.injEq] at h
      obtain ⟨h1, h2⟩ := h
      subst h1 h2
      simp only [hm]
      rw [List.getElem?_append_left hlt, ho]

/-- Claim C14: for a legal name `n` that is a key of the registry with descriptor `o`,
`setOption` for `n` returns the duplicate-definition error naming the aliases of `o`
and leaves the context unchanged, whether it is called for a short or for a long name
and whatever descriptor is being registered; hence `parseTagAndSetOption` for a later
field fails as soon as one clause of its directive is `--n` or `-n`, and for the
directive that is just that clause the error is the duplicate-definition error and the
registry is left as it was. -/
theorem C14_duplicate_names_rejected (h : Missing) (c : Screw) (n : Str) (j : Nat) (o : Opt)
    (hlegal : (checkOptionName n).2 = true) (hreg : c.getOption n = some (j, o)) :
    (∀ id long, setOption c n id long
        = (c, some (.duplicateOptions (if long then '-' :: '-' :: n else '-' :: n)
            (showShortAndLong o))))
      ∧ (∀ tag usage defVal fieldName v,
          (∃ opt ∈ splitOnByte ';' tag, trimLeftSpace opt = '-' :: '-' :: n
            ∨ (trimLeftSpace opt = '-' :: n ∧ n.head? ≠ some '-')) →
          (parseTagAndSetOption h c tag usage defVal fieldName v).2 ≠ none)
      ∧ (∀ usage defVal fieldName v,
          (parseTagAndSetOption h c ('-' :: '-' :: n) usage defVal fieldName v).2
              = some (.duplicateOptions ('-' :: '-' :: n) (showShortAndLong o))
            ∧ (parseTagAndSetOption h c ('-' :: '-' :: n) usage defVal fieldName
                v).1.shortAndLong = c.shortAndLong)
      ∧ (∀ usage defVal fieldName v, n.head? ≠ some '-' →
          (parseTagAndSetOption h c ('-' :: n) usage defVal fieldName v).2
              = some (.duplicateOptions ('-' :: n) (showShortAndLong o))
            ∧ (parseTagAndSetOption h c ('-' :: n) usage defVal fieldName
                v).1.shortAndLong = c.shortAndLong) := by
  have hsemi := legal_no_semi hlegal
  refine ⟨fun id long => setOption_duplicate c n id long j o hlegal hreg, ?_, ?_, ?_⟩
  · intro tag usage defVal fieldName v hex
    have hkey : ({ c with options := c.options ++ [newOption usage v defVal] } : Screw).isKey n
        = true := getOption_isKey (getOption_append _ hreg)
    have hf := parseTagLoop_declared_fails h tag fieldName c.options.length n
      (splitOnByte ';' tag) _ ⟨false, false, false, false⟩ hkey hex
    unfold parseTagAndSetOption
    simp only
    cases hl : parseTagLoop h tag fieldName c.options.length (splitOnByte ';' tag)
      { c with options := c.options ++ [newOption usage v defVal] }
      ⟨false, false, false, false⟩ with
    | mk c2 r =>
      obtain ⟨f2, e⟩ := r
      rw [hl] at hf
      cases e with
      | none => exact absurd rfl hf
      | some e => simp
  · intro usage defVal fieldName v
    have hsp : splitOnByte ';' ('-' :: '-' :: n) = ['-' :: '-' :: n] :=
      splitOnByte_no_sep _ _ (by simp [hsemi])
    have hdup := setOption_duplicate
      ({ c with options := c.options ++ [newOption usage v defVal] } : Screw) n
      c.options.length true j o hlegal (getOption_append _ hreg)
    simp [parseTagAndSetOption, hsp, parseTagLoop, trimLeftSpace, parseTagClause_long,
      tagLong_explicit, hdup]
  · intro usage defVal fieldName v hn
    have hsp : splitOnByte ';' ('-' :: n) = ['-' :: n] :=
      splitOnByte_no_sep _ _ (by simp [hsemi])
    have hdup := setOption_duplicate
      ({ c with options := c.options ++ [newOption usage v defVal] } : Screw) n
      c.options.length false j o hlegal (getOption_append _ hreg)
    simp [parseTagAndSetOption, hsp, parseTagLoop, trimLeftSpace,
      parseTagClause_short _ _ _ _ _ _ _ hn, tagShort_explicit, hdup]

/-- Witness for C14: after the field tagged `--name` is registered, a second field
tagged `--name` fails with the duplicate-definition error naming `--name` and leaves
the registry unchanged; and of two fields that both declare `n`, one as a short and one
as a long name, the second one fails in either order. -/
theorem C14_duplicate_names_rejected_witness :
    ((parseTagAndSetOption exMissing (register exMissing (New []) exStructName).1
          "--name".toList [] [] "Other".toList (.str [])).2
        = some (.duplicateOptions "--name".toList
            (showShortAndLong { newOption [] (.str []) [] with showLong := ["name".toList] }))
      ∧ (parseTagAndSetOption exMissing (register exMissing (New []) exStructName).1
          "--name".toList [] [] "Other".toList (.str [])).1.shortAndLong
        = (register exMissing (New []) exStructName).1.shortAndLong)
      ∧ (register exMissing (New []) exStructClash).2
          = some (.duplicateOptions "--n".toList "-n".toList)
      ∧ (register exMissing (New []) exStructClashRev).2
          = some (.duplicateOptions "-n".toList "--name,--n".toList) :=
  ⟨(C14_duplicate_names_rejected exMissing (register exMissing (New []) exStructName).1
      "name".toList 0 { newOption [] (.str []) [] with showLong := ["name".toList] }
      (by decide) (by decide)).2.2.1 [] [] "Other".toList (.str []),
    by decide, by decide⟩

theorem splitOnByte_join (cls : List Str) (hne : cls ≠ [])
    (hsemi : ∀ s ∈ cls, ';' ∉ s) : splitOnByte ';' (joinSemi cls) = cls := by
  induction cls with
  | nil => exact absurd rfl hne
  | cons x rest ih =>
    cases rest with
    | nil =>
      simp only [joinSemi]
      exact splitOnByte_no_sep _ _ (hsemi x (by simp))
    | cons y rest2 =>
      have ihr := ih (by simp) (fun s hs => hsemi s (List.mem_cons_of_mem _ hs))
      have hx : ';' ∉ x := hsemi x (by simp)
      simp only [joinSemi]
      clear ih hsemi hne
      induction x with
      | nil =>
        simp only [List.nil_append, splitOnByte, if_true]
        rw [ihr]
      | cons a xs ihx =>
        have ha : a ≠ ';' := fun e => hx (by simp [e])
        have hxs : ';' ∉ xs := fun e => hx (List.mem_cons_of_mem _ e)
        simp only [List.cons_append, splitOnByte, if_neg ha]
        have e := ihx hxs
        simp only [List.append_eq] at e ⊢
        rw [e]

theorem trimLeftSpace_dash (s : Str) : trimLeftSpace ('-' :: s) = '-' :: s := by
  simp [trimLeftSpace]

theorem text_eq (cl : NameClause) :
    cl.text = if cl.long then '-' :: '-' :: cl.name else '-' :: cl.name := rfl

theorem setOption_fresh (c : Screw) (name : Str) (id : Nat) (long : Bool)
    (hlegal : (checkOptionName name).2 = true) (hkey : c.isKey name = false) :
    setOption c name id long = ({ c with shortAndLong := (name, id) :: c.shortAndLong }, none) := by
  unfold Screw.isKey at hkey
  cases hm : mapGet name c.shortAndLong with
  | some v => simp [hm] at hkey
  | none =>
    cases hc : checkOptionName name with
    | mk ch ok =>
      rw [hc] at hlegal
      simp only at hlegal
      subst hlegal
      simp [setOption, hc, hm]

theorem illegalDash_nonempty (opt name : Str) (hn : name ≠ []) : illegalDash opt name = none := by
  cases name with
  | nil => exact absurd rfl hn
  | cons a rest => simp [illegalDash]

theorem wellFormed_parts (cl : NameClause) (hw : cl.wellFormed = true) :
    cl.name ≠ [] ∧ (checkOptionName cl.name).2 = true
      ∧ (cl.long = false → cl.name.head? ≠ some '-') := by
  simp only [NameClause.wellFormed, Bool.and_eq_true, Bool.or_eq_true, decide_eq_true_eq] at hw
  refine ⟨hw.1.1, hw.1.2, ?_⟩
  intro hl
  rcases hw.2 with h1 | h1
  · rw [hl] at h1
    exact absurd h1 (by decide)
  · exact h1

theorem parseTagClause_named (h : Missing) (tag fieldName : Str) (id : Nat) (c : Screw)
    (flags : TagFlags) (cl : NameClause) (o : Opt) (hw : cl.wellFormed = true)
    (hkey : c.isKey cl.name = false) (ho : c.options[id]? = some o) :
    parseTagClause h tag fieldName id c flags cl.text
      = ({ c with shortAndLong := (cl.name, id) :: c.shortAndLong,
                  options := c.options.set id (applyNames [cl] o) },
          applyFlags [cl] flags, none) := by
  obtain ⟨hne, hlegal, hshort⟩ := wellFormed_parts cl hw
  cases hl : cl.long with
  | true =>
    rw [text_eq, hl, if_pos rfl, parseTagClause_long, tagLong_explicit,
      setOption_fresh c cl.name id true hlegal hkey]
    simp [Screw.modifyOpt, ho, Screw.setOpt, illegalDash_nonempty _ _ hne, applyNames,
      applyFlags, hl]
  | false =>
    rw [text_eq, hl, if_neg (by simp), parseTagClause_short _ _ _ _ _ _ _ (hshort hl),
      tagShort_explicit, setOption_fresh c cl.name id false hlegal hkey]
    simp [Screw.modifyOpt, ho, Screw.setOpt, illegalDash_nonempty _ _ hne, applyNames,
      applyFlags, hl]

theorem isKey_cons (c : Screw) (n k : Str) (id : Nat) (hne : n ≠ k)
    (opts : List Opt) :
    Screw.isKey { c with shortAndLong := (n, id) :: c.shortAndLong, options := opts } k
      = c.isKey k := by
  simp [Screw.isKey, mapGet, hne]

theorem parseTagLoop_named (h : Missing) (tag fieldName : Str) (id : Nat) :
    ∀ (cls : List NameClause) (c : Screw) (o : Opt) (flags : TagFlags),
      c.options[id]? = some o →
      (∀ cl ∈ cls, cl.wellFormed = true) →
      (cls.map (fun cl => cl.name)).Nodup →
      (∀ cl ∈ cls, c.isKey cl.name = false) →
      parseTagLoop h tag fieldName id (cls.map NameClause.text) c flags
        = ({ c with shortAndLong := (cls.map (fun cl => (cl.name, id))).reverse ++ c.shortAndLong,
                    options := c.options.set id (applyNames cls o) },
            applyFlags cls flags, none) := by
  intro cls
  induction cls with
  | nil =>
    intro c o flags ho _ _ _
    have e : c.options.set id o = c.options := by
      apply List.ext_getElem?
      intro i
      by_cases hi : id = i
      · subst hi
        have hlt : id < c.options.length := by
          rcases Nat.lt_or_ge id c.options.length with h1 | h1
          · exact h1
          · rw [List.getElem?_eq_none h1] at ho
            exact absurd ho (by simp)
        rw [List.getElem?_set_self hlt, ho]
      · rw [List.getElem?_set_ne hi]
    simp only [List.map_nil, parseTagLoop, applyNames, applyFlags, e, List.reverse_nil,
      List.nil_append]
    cases c
    rfl
  | cons cl rest ih =>
    intro c o flags ho hw hnd hkey
    have hw1 := hw cl (by simp)
    have hk1 := hkey cl (by simp)
    have htext : trimLeftSpace cl.text = cl.text := by
      rw [text_eq]
      split <;> exact trimLeftSpace_dash _
    have hlen : (trimLeftSpace cl.text).length ≠ 0 := by
      rw [htext, text_eq]
      split <;> simp
    rw [List.map_cons, parseTagLoop, if_neg hlen, htext]
    rw [parseTagClause_named h tag fieldName id c flags cl o hw1 hk1 ho]
    simp only
    have hlt : id < c.options.length := by
      rcases Nat.lt_or_ge id c.options.length with h1 | h1
      · exact h1
      · rw [List.getElem?_eq_none h1] at ho
        exact absurd ho (by simp)
    rw [List.map_cons, List.nodup_cons] at hnd
    have hk2 : ∀ x ∈ rest,
        Screw.isKey { c with shortAndLong := (cl.name, id) :: c.shortAndLong,
                             options := c.options.set id (applyNames [cl] o) } x.name
          = false := by
      intro x hx
      have hne : cl.name ≠ x.name := by
        intro e
        exact hnd.1 (by rw [e]; exact List.mem_map_of_mem _ hx)
      rw [isKey_cons c cl.name x.name id hne]
      exact hkey x (List.mem_cons_of_mem _ hx)
    rw [ih { c with shortAndLong := (cl.name, id) :: c.shortAndLong,
                    options := c.options.set id (applyNames [cl] o) }
      (applyNames [cl] o) _ (List.getElem?_set_self hlt)
      (fun x hx => hw x (List.mem_cons_of_mem _ hx)) hnd.2 hk2]
    simp [applyNames, applyFlags, List.set_set]

theorem applyFlags_keeps (cls : List NameClause) :
    ∀ flags : TagFlags, (flags.isShort || flags.isLong) = true →
      ((applyFlags cls flags).isShort || (applyFlags cls flags).isLong) = true := by
  induction cls with
  | nil => intro flags hf; exact hf
  | cons cl rest ih =>
    intro flags hf
    rw [applyFlags]
    apply ih
    split <;> simp_all

theorem applyFlags_set (cls : List NameClause) (hne : cls ≠ []) (flags : TagFlags) :
    ((applyFlags cls flags).isShort || (applyFlags cls flags).isLong) = true := by
  cases cls with
  | nil => exact absurd rfl hne
  | cons cl rest =>
    rw [applyFlags]
    apply applyFlags_keeps
    split <;> simp

theorem text_no_semi (cl : NameClause) (hw : cl.wellFormed = true) : ';' ∉ cl.text := by
  have hl := legal_no_semi (wellFormed_parts cl hw).2.1
  rw [text_eq]
  split
  · intro hmem
    simp only [List.mem_cons] at hmem
    rcases hmem with e | e | e
    · exact absurd e (by decide)
    · exact absurd e (by decide)
    · exact hl e
  · intro hmem
    simp only [List.mem_cons] at hmem
    rcases hmem with e | e
    · exact absurd e (by decide)
    · exact hl e

theorem joinSemi_dash (cls : List NameClause) (hne : cls ≠ []) :
    ∃ rest, joinSemi (cls.map NameClause.text) = '-' :: rest := by
  cases cls with
  | nil => exact absurd rfl hne
  | cons cl rest =>
    cases rest with
    | nil =>
      simp only [List.map_cons, List.map_nil, joinSemi, text_eq]
      split <;> exact ⟨_, rfl⟩
    | cons cl2 rest2 =>
      simp only [List.map_cons, joinSemi, text_eq]
      split <;> exact ⟨_, rfl⟩

theorem parseTagAndSetOption_named (h : Missing) (c : Screw) (cls : List NameClause)
    (usage defVal fieldName : Str) (v : Pointer) (hne : cls ≠ [])
    (hw : ∀ cl ∈ cls, cl.wellFormed = true)
    (hnd : (cls.map (fun cl => cl.name)).Nodup)
    (hkey : ∀ cl ∈ cls, c.isKey cl.name = false) :
    parseTagAndSetOption h c (joinSemi (cls.map NameClause.text)) usage defVal fieldName v
      = ({ c with shortAndLong :=
                    (cls.map (fun cl => (cl.name, c.options.length))).reverse ++ c.shortAndLong,
                  options := c.options ++ [applyNames cls (newOption usage v defVal)] },
          none) := by
  have hsplit : splitOnByte ';' (joinSemi (cls.map NameClause.text)) = cls.map NameClause.text := by
    apply splitOnByte_join
    · simpa using hne
    · intro s hs
      rw [List.mem_map] at hs
      obtain ⟨cl, hcl, rfl⟩ := hs
      exact text_no_semi cl (hw cl hcl)
  have hflags := applyFlags_set cls hne ⟨false, false, false, false⟩
  rw [parseTagAndSetOption]
  simp only [hsplit]
  rw [parseTagLoop_named h _ fieldName c.options.length cls
    { c with options := c.options ++ [newOption usage v defVal] } (newOption usage v defVal)
    _ (by simp) hw hnd (fun cl hcl => by
      have := hkey cl hcl
      simpa [Screw.isKey] using this)]
  simp only
  have hcond : ¬ ((!(applyFlags cls ⟨false, false, false, false⟩).isShort) = true
      ∧ (!(applyFlags cls ⟨false, false, false, false⟩).isLong) = true
      ∧ (!(applyFlags cls ⟨false, false, false, false⟩).isEnv) = true
      ∧ (!(applyFlags cls ⟨false, false, false, false⟩).isArgs) = true) := by
    intro hc
    rcases hc with ⟨h1, h2, _⟩
    simp only [Bool.not_eq_true', Bool.or_eq_true] at h1 h2 hflags
    rw [h1, h2] at hflags
    simp at hflags
  rw [if_neg hcond]
  simp

theorem registerBasic_named (h : Missing) (c : Screw) (f : NamedField)
    (hne : f.clauses ≠ [])
    (hw : ∀ cl ∈ f.clauses, cl.wellFormed = true)
    (hdef : (trimSpace f.defVal).length = 0
      ∨ (h.setDefaultValue (trimSpace f.defVal) f.dest).2 = none)
    (hnd : (f.clauses.map (fun cl => cl.name)).Nodup)
    (hkey : ∀ cl ∈ f.clauses, c.isKey cl.name = false) :
    registerCore h c f.toField.2 f.toField.1
      = ({ c with shortAndLong :=
                    (f.clauses.map (fun cl => (cl.name, c.options.length))).reverse
                      ++ c.shortAndLong,
                  options := c.options ++ [fieldDescriptor h f] }, none) := by
  obtain ⟨rest, htag⟩ := joinSemi_dash f.clauses hne
  have hd : (if (trimSpace f.defVal).length > 0 then
        h.setDefaultValue (trimSpace f.defVal) f.dest else (f.dest, none))
      = (f.registered h, none) := by
    unfold NamedField.registered
    by_cases hz : (trimSpace f.defVal).length > 0
    · rw [if_pos hz, if_pos hz]
      rcases hdef with h0 | h0
      · omega
      · exact Prod.ext rfl h0
    · rw [if_neg hz, if_neg hz]
  simp only [NamedField.toField, registerCore, registerBasic]
  rw [hd]
  simp only
  rw [if_neg (by rw [htag]; simp)]
  rw [if_neg (by rw [htag]; simp [hasPrefix, List.isPrefixOf])]
  rw [if_neg (by rw [htag]; simp [hasPrefix, List.isPrefixOf])]
  rw [if_neg (by rw [htag]; simp)]
  rw [parseTagAndSetOption_named h c f.clauses f.usage (trimSpace f.defVal) f.name
    (f.registered h) hne hw hnd hkey]
  rfl

theorem mapGet_append_not_mem (k : Str) (l m : List (Str × Nat))
    (hk : k ∉ l.map (fun p => p.1)) : mapGet k (l ++ m) = mapGet k m := by
  induction l with
  | nil => rfl
  | cons p rest ih =>
    obtain ⟨a, b⟩ := p
    simp only [List.map_cons, List.mem_cons, not_or] at hk
    have hne : ¬ (a = k) := fun e => hk.1 e.symm
    simp only [List.cons_append, mapGet, if_neg hne]
    exact ih hk.2

theorem mapGet_append_const (k : Str) (v : Nat) (l m : List (Str × Nat))
    (hk : k ∈ l.map (fun p => p.1)) (hv : ∀ p ∈ l, p.2 = v) : mapGet k (l ++ m) = some v := by
  induction l with
  | nil => simp at hk
  | cons p rest ih =>
    obtain ⟨a, b⟩ := p
    simp only [List.cons_append, mapGet]
    by_cases hak : a = k
    · rw [if_pos hak]
      exact congrArg some (hv (a, b) (by simp))
    · rw [if_neg hak]
      simp only [List.map_cons, List.mem_cons] at hk
      rcases hk with e | e
      · exact absurd e.symm hak
      · exact ih e (fun p hp => hv p (List.mem_cons_of_mem _ hp))

theorem registerNamed_options (h : Missing) (fs : List NamedField) :
    ∀ c : Screw, (registerNamed h c fs).options = c.options ++ fs.map (fieldDescriptor h) := by
  induction fs with
  | nil => intro c; simp [registerNamed]
  | cons f rest ih =>
    intro c
    rw [registerNamed, ih]
    simp

theorem registerNamed_other (h : Missing) (fs : List NamedField) :
    ∀ (c : Screw) (k : Str), k ∉ declaredNames fs →
      mapGet k (registerNamed h c fs).shortAndLong = mapGet k c.shortAndLong := by
  induction fs with
  | nil => intro c k _; rfl
  | cons f rest ih =>
    intro c k hk
    simp only [declaredNames, List.mem_append, not_or] at hk
    rw [registerNamed, ih _ k hk.2]
    simp only
    apply mapGet_append_not_mem
    intro hmem
    apply hk.1
    simp only [List.map_reverse, List.map_map, List.mem_reverse] at hmem
    exact hmem

theorem registerNamed_name (h : Missing) (fs : List NamedField) :
    ∀ (c : Screw) (i : Nat) (f : NamedField) (cl : NameClause),
      (declaredNames fs).Nodup → fs[i]? = some f → cl ∈ f.clauses →
      mapGet cl.name (registerNamed h c fs).shortAndLong = some (c.options.length + i) := by
  induction fs with
  | nil => intro c i f cl _ hi; simp at hi
  | cons f0 rest ih =>
    intro c i f cl hnd hi hcl
    rw [declaredNames, List.nodup_append] at hnd
    cases i with
    | zero =>
      simp only [List.getElem?_cons_zero, Option.some.injEq] at hi
      subst hi
      have hmem : cl.name ∈ f0.clauses.map (fun cl => cl.name) := List.mem_map_of_mem _ hcl
      have hnot : cl.name ∉ declaredNames rest := fun hm => hnd.2.2 hmem hm
      rw [registerNamed, registerNamed_other h rest _ cl.name hnot]
      simp only
      apply mapGet_append_const
      · simp only [List.map_reverse, List.map_map, List.mem_reverse]
        exact hmem
      · intro p hp
        simp only [List.mem_reverse, List.mem_map] at hp
        obtain ⟨x, _, rfl⟩ := hp
        rfl
    | succ j =>
      simp only [List.getElem?_cons_succ] at hi
      rw [registerNamed, ih _ j f cl hnd.2.1 hi hcl]
      simp only [List.length_append, List.length_singleton]
      congr 1
      omega

theorem declaredNames_mem (fs : List NamedField) (k : Str) (hk : k ∈ declaredNames fs) :
    ∃ (i : Nat) (f : NamedField) (cl : NameClause),
      fs[i]? = some f ∧ cl ∈ f.clauses ∧ cl.name = k := by
  induction fs with
  | nil => simp [declaredNames] at hk
  | cons f0 rest ih =>
    simp only [declaredNames, List.mem_append, List.mem_map] at hk
    rcases hk with ⟨cl, hcl, rfl⟩ | hk
    · exact ⟨0, f0, cl, by simp, hcl, rfl⟩
    · obtain ⟨i, f, cl, hi, hcl, e⟩ := ih hk
      exact ⟨i + 1, f, cl, by simpa using hi, hcl, e⟩

theorem declaredNames_of_mem (fs : List NamedField) (f : NamedField) (cl : NameClause)
    (hf : f ∈ fs) (hcl : cl ∈ f.clauses) : cl.name ∈ declaredNames fs := by
  induction fs with
  | nil => simp at hf
  | cons f0 rest ih =>
    simp only [declaredNames, List.mem_append]
    rcases List.mem_cons.mp hf with e | e
    · subst e
      exact Or.inl (List.mem_map_of_mem _ hcl)
    · exact Or.inr (ih e)

theorem registerFields_named (h : Missing) (fs : List NamedField) :
    ∀ c : Screw,
      (∀ f ∈ fs, f.clauses ≠ []) →
      (∀ f ∈ fs, ∀ cl ∈ f.clauses, cl.wellFormed = true) →
      (∀ f ∈ fs, (trimSpace f.defVal).length = 0
        ∨ (h.setDefaultValue (trimSpace f.defVal) f.dest).2 = none) →
      (declaredNames fs).Nodup →
      (∀ k ∈ declaredNames fs, c.isKey k = false) →
      registerFields h c (fs.map NamedField.toField) = (registerNamed h c fs, none) := by
  induction fs with
  | nil => intro c _ _ _ _ _; simp [registerFields, registerNamed]
  | cons f rest ih =>
    intro c hne hw hdef hnd hkey
    have hnd2 := hnd
    rw [declaredNames, List.nodup_append] at hnd2
    have hstep := registerBasic_named h c f (hne f (by simp)) (hw f (by simp))
      (hdef f (by simp)) hnd2.1
      (fun cl hcl => hkey _ (declaredNames_of_mem _ f cl (by simp) hcl))
    have hvis : f.toField.1.visited = true := rfl
    rw [List.map_cons]
    have hunf : registerFields h c (f.toField :: rest.map NamedField.toField)
        = (match registerCore h c f.toField.2 f.toField.1 with
           | (c2, some e) => (c2, some e)
           | (c2, none) => registerFields h c2 (rest.map NamedField.toField)) := by
      conv_lhs => rw [show f.toField = (f.toField.1, f.toField.2) from rfl, registerFields]
      simp [hvis]
    rw [hunf, hstep]
    simp only
    rw [registerNamed]
    apply ih
    · exact fun g hg => hne g (List.mem_cons_of_mem _ hg)
    · exact fun g hg => hw g (List.mem_cons_of_mem _ hg)
    · exact fun g hg => hdef g (List.mem_cons_of_mem _ hg)
    · exact hnd2.2.1
    · intro k hk
      have hnot : k ∉ (f.clauses.map (fun cl => (cl.name, c.options.length))).reverse.map
          (fun p => p.1) := by
        intro hmem
        simp only [List.map_reverse, List.map_map, List.mem_reverse] at hmem
        exact hnd2.2.2 hmem hk
      have hc := hkey k (by
        simp only [declaredNames, List.mem_append]
        exact Or.inr hk)
      simp only [Screw.isKey] at hc ⊢
      rw [mapGet_append_not_mem k _ _ hnot]
      exact hc

theorem applyNames_pointer (cls : List NameClause) :
    ∀ o : Opt, (applyNames cls o).pointer = o.pointer := by
  induction cls with
  | nil => intro o; rfl
  | cons cl rest ih =>
    intro o
    rw [applyNames, ih]
    split <;> rfl

theorem register_named (h : Missing) (args : List Str) (methods : List (Str × Nat))
    (fs : List NamedField)
    (hne : ∀ f ∈ fs, f.clauses ≠ [])
    (hw : ∀ f ∈ fs, ∀ cl ∈ f.clauses, cl.wellFormed = true)
    (hdef : ∀ f ∈ fs, (trimSpace f.defVal).length = 0
      ∨ (h.setDefaultValue (trimSpace f.defVal) f.dest).2 = none)
    (hnd : (declaredNames fs).Nodup) :
    register h (New args) (.struct methods (fs.map NamedField.toField))
      = (registerNamed h { New args with structAddr := some methods } fs, none) := by
  have e : register h (New args) (.struct methods (fs.map NamedField.toField))
      = registerFields h { New args with structAddr := some methods }
          (fs.map NamedField.toField) := by
    simp [register, registerCore, emptyField]
  rw [e]
  exact registerFields_named h fs _ hne hw hdef hnd (fun k _ => rfl)

/-- C15 (amended): for every list of fields whose directives consist only of explicit
`--name` and `-name` clauses (at least one per field) with non-empty legal names that
are pairwise distinct across the whole list, and whose declared defaults, if any, are
accepted by `setDefaultValue`, `register` into the empty context `New args` succeeds; a name
is a key of the resulting registry exactly if it is declared; the store holds one
descriptor per field; every name declared on the field at position `i` looks up the
descriptor at position `i`, which carries that field's destination and names; and two
declared names look up the same position exactly if their fields are the same. -/
theorem C15_schema_one_descriptor_per_field (h : Missing) (args : List Str)
    (methods : List (Str × Nat)) (fs : List NamedField)
    (hne : ∀ f ∈ fs, f.clauses ≠ [])
    (hw : ∀ f ∈ fs, ∀ cl ∈ f.clauses, cl.wellFormed = true)
    (hdef : ∀ f ∈ fs, (trimSpace f.defVal).length = 0
      ∨ (h.setDefaultValue (trimSpace f.defVal) f.dest).2 = none)
    (hnd : (declaredNames fs).Nodup) :
    (register h (New args) (.struct methods (fs.map NamedField.toField))).2 = none
      ∧ (∀ k : Str,
          (register h (New args) (.struct methods (fs.map NamedField.toField))).1.isKey k = true
            ↔ k ∈ declaredNames fs)
      ∧ (register h (New args) (.struct methods (fs.map NamedField.toField))).1.options.length
          = fs.length
      ∧ (∀ (i : Nat) (f : NamedField) (cl : NameClause), fs[i]? = some f → cl ∈ f.clauses →
          (register h (New args) (.struct methods (fs.map NamedField.toField))).1.getOption
              cl.name = some (i, fieldDescriptor h f)
            ∧ (fieldDescriptor h f).pointer = f.registered h)
      ∧ (∀ (i j : Nat) (f g : NamedField) (a b : NameClause),
          fs[i]? = some f → fs[j]? = some g → a ∈ f.clauses → b ∈ g.clauses →
          (((register h (New args) (.struct methods (fs.map NamedField.toField))).1.getOption
              a.name).map (fun p => p.1)
            = ((register h (New args) (.struct methods (fs.map NamedField.toField))).1.getOption
              b.name).map (fun p => p.1)
            ↔ i = j)) := by
  rw [register_named h args methods fs hne hw hdef hnd]
  have hget : ∀ (i : Nat) (f : NamedField) (cl : NameClause), fs[i]? = some f →
      cl ∈ f.clauses →
      (registerNamed h { New args with structAddr := some methods } fs).getOption cl.name
        = some (i, fieldDescriptor h f) := by
    intro i f cl hi hcl
    have hm := registerNamed_name h fs { New args with structAddr := some methods } i f cl
      hnd hi hcl
    have ho : (registerNamed h { New args with structAddr := some methods } fs).options[i]?
        = some (fieldDescriptor h f) := by
      rw [registerNamed_options]
      simp [New, List.getElem?_map, hi]
    simp only [New, List.length_nil, Nat.zero_add] at hm
    simp only [Screw.getOption, New, hm]
    simp only [New] at ho
    rw [ho]
  refine ⟨rfl, ?_, ?_, ?_, ?_⟩
  · intro k
    constructor
    · intro hk
      by_contra hnot
      have := registerNamed_other h fs { New args with structAddr := some methods } k hnot
      unfold Screw.isKey at hk
      rw [this] at hk
      exact absurd hk (by simp [New, mapGet])
    · intro hk
      obtain ⟨i, f, cl, hi, hcl, rfl⟩ := declaredNames_mem fs k hk
      have := hget i f cl hi hcl
      exact getOption_isKey this
  · rw [registerNamed_options]
    simp [New]
  · intro i f cl hi hcl
    exact ⟨hget i f cl hi hcl, applyNames_pointer _ _⟩
  · intro i j f g a b hi hj ha hb
    rw [hget i f a hi ha, hget j g b hj hb]
    simp

theorem C15_schema_one_descriptor_per_field_witness :
    (register exMissing (New []) (.struct [] (exNamedFields.map NamedField.toField))).2 = none
      ∧ (register exMissing (New [])
            (.struct [] (exNamedFields.map NamedField.toField))).1.options.length = 2
      ∧ ((register exMissing (New [])
            (.struct [] (exNamedFields.map NamedField.toField))).1.getOption "file".toList).map
              (fun p => (p.1, p.2.pointer))
          = some (0, .str "a.txt".toList)
      ∧ ((register exMissing (New [])
            (.struct [] (exNamedFields.map NamedField.toField))).1.getOption "f".toList).map
              (fun p => (p.1, p.2.pointer))
          = some (0, .str "a.txt".toList)
      ∧ ((register exMissing (New [])
            (.struct [] (exNamedFields.map NamedField.toField))).1.getOption "debug".toList).map
              (fun p => (p.1, p.2.pointer))
          = some (1, .bool false) :=
  ⟨(C15_schema_one_descriptor_per_field exMissing [] [] exNamedFields (by decide) (by decide)
      (by decide) (by decide)).1,
    by decide, by decide, by decide, by decide⟩

theorem exSub_registered (args : List Str) :
    register exMissing (New args) exStructSub = (exSub args, none) := by
  simp [register, registerCore, registerFields, exStructSub, emptyField, field, registerBasic,
    parseTagAndSetOption, trimSpace, dropSpaces, spaceWidth, spaceWidthEnd, trimLeftSpace,
    isSpaceByte, exMissing, hasPrefix,
    splitOnByte, parseTagLoop, parseTagClause, tagLong, tagShort, tagArgs, setOption,
    checkOptionName, isNameByte, mapGet, New, Screw.modifyOpt, Screw.setOpt, illegalDash,
    newOption, parseSubcommandTag, subcommandName, subPut, exSub, exAddChild, exRemoveChild]

theorem exSubPos_registered (args : List Str) :
    register exMissing (New args) exStructSubPos = (exSubPos args, none) := by
  simp [register, registerCore, registerFields, exStructSubPos, emptyField, field,
    registerBasic, parseTagAndSetOption, trimSpace, dropSpaces, spaceWidth, spaceWidthEnd,
    trimLeftSpace, isSpaceByte, exMissing,
    hasPrefix, splitOnByte, parseTagLoop, parseTagClause, tagLong, tagShort, tagArgs,
    setOption, checkOptionName, isNameByte, mapGet, New, Screw.modifyOpt, Screw.setOpt,
    illegalDash, newOption, parseSubcommandTag, subcommandName, subPut, exSub, exSubPos,
    exAddChild, exRemoveChild]

theorem exNameNoExit_registered (args : List Str) :
    { (register exMissing (New args) exStructName).1 with exit := false } = exNameNoExit args
      ∧ (register exMissing (New args) exStructName).2 = none := by
  simp [register, registerCore, registerFields, exStructName, emptyField, field,
    registerBasic, parseTagAndSetOption, trimSpace, dropSpaces, spaceWidth, spaceWidthEnd,
    trimLeftSpace, isSpaceByte, exMissing,
    hasPrefix, splitOnByte, parseTagLoop, parseTagClause, tagLong, setOption,
    checkOptionName, isNameByte, mapGet, New, Screw.modifyOpt, Screw.setOpt, illegalDash,
    newOption, exNameNoExit]

/-- C12 (counterexample): in the context of `exStructSub`, which has two subcommands and
no environment/positional descriptor, the empty token, which does not start with `-`
and is no subcommand name, makes `parseOneOption` return the error `fail option` of the
guard `len(arg) == 0`, not an unknown-subcommand error. -/
theorem C12_counterexample :
    (exSub [[]]).subcommand.length = 2 ∧ (exSub [[]]).envAndArgs = []
      ∧ ([] : Str).head? ≠ some '-' ∧ (subGet [] (exSub [[]]).subcommand).isNone = true
      ∧ (parseOneOption (bindStructDepth noEnv 1) (exSub [[]]) [] 0).2.2.2 = some .failOption
      ∧ (bindStruct noEnv (exSub [[]])).2 = some .failOption := by
  decide

/-- C12 (amended): for every context that has at least one registered subcommand and no
environment/positional descriptors, a non-empty token that does not start with `-` and
matches no registered subcommand name makes `parseOneOption` return the
unknown-subcommand error for that token; the context, with its unparsed list and chosen
subcommands, the chosen-subcommand set of the root and the cursor are unchanged. -/
theorem C12_unknown_subcommand
    (bindChild : Screw → List Str → Screw × List Str × Option Err) (c : Screw)
    (rootSet : List Str) (i : Nat) (arg : Str)
    (harg : c.args[i]? = some arg) (hne : arg ≠ []) (hdash : arg.head? ≠ some '-')
    (hsub : c.subcommand.length > 0) (hea : c.envAndArgs = [])
    (hnone : subGet arg c.subcommand = none) :
    parseOneOption bindChild c rootSet i = (c, rootSet, i, some (.unknownSubcommand arg)) := by
  have hlen : ¬ (arg.length = 0) := by
    cases arg with
    | nil => exact absurd rfl hne
    | cons a rest => simp
  simp [parseOneOption, harg, hlen, hdash, hsub, hnone, hea]

theorem C12_unknown_subcommand_witness :
    parseOneOption (bindStructDepth noEnv 1) (exSub ["list".toList]) [] 0
      = (exSub ["list".toList], [], 0, some (.unknownSubcommand "list".toList)) :=
  C12_unknown_subcommand (bindStructDepth noEnv 1) (exSub ["list".toList]) [] 0 "list".toList
    (by decide) (by decide) (by decide) (by decide) (by decide)
    (by simp [exSub, subGet])

/-- C17 (divergence): in the context of `exStructSubPos`, which has two subcommands and
the positional descriptor `Path`, the token `file.txt`, which does not start with `-`
and is no subcommand name, is recorded as chosen subcommand and then `parseOneOption`
faults on the missing child context (lines 966-971): nothing is appended to the
unparsed list and `bindStruct` ends with the fault. -/
theorem C17_unmatched_token_faults :
    (exSubPos ["file.txt".toList]).subcommand.length = 2
      ∧ (exSubPos ["file.txt".toList]).envAndArgs.length = 1
      ∧ (subGet "file.txt".toList (exSubPos ["file.txt".toList]).subcommand).isNone = true
      ∧ (parseOneOption (bindStructDepth noEnv 1) (exSubPos ["file.txt".toList]) [] 0).2.2.2
          = some .panic
      ∧ (parseOneOption (bindStructDepth noEnv 1) (exSubPos ["file.txt".toList]) []
            0).1.isSetSubcommand = ["file.txt".toList]
      ∧ (parseOneOption (bindStructDepth noEnv 1) (exSubPos ["file.txt".toList]) []
            0).1.unparsedArgs = []
      ∧ (bindStruct noEnv (exSubPos ["file.txt".toList])).2 = some .panic := by
  decide

/-- C18 (divergence): in the context of `exStructSubPos` with the argument vector
`[add, --name, n]`, the token `add` is dispatched to the child of `add`, which binds
`name` to `n`, and is then appended to the unparsed list of the parent (line 981), so
that `bindStruct` binds the positional descriptor `Path` of the parent to `add`. -/
theorem C18_subcommand_name_left_unparsed :
    (exSubPos ["add".toList, "--name".toList, "n".toList]).options[1]?.map
        (fun o => (o.argsName, o.pointer)) = some ("path".toList, .str [])
      ∧ (parseOneOption (bindStructDepth noEnv 3)
            (exSubPos ["add".toList, "--name".toList, "n".toList]) [] 0).2.2.2 = none
      ∧ (parseOneOption (bindStructDepth noEnv 3)
            (exSubPos ["add".toList, "--name".toList, "n".toList]) [] 0).1.unparsedArgs
          = [{ arg := "add".toList, index := 0 }]
      ∧ ((subGet "add".toList (parseOneOption (bindStructDepth noEnv 3)
            (exSubPos ["add".toList, "--name".toList, "n".toList]) [] 0).1.subcommand).bind
              (fun child => child.pointerOf "name".toList)) = some (.str "n".toList)
      ∧ (bindStruct noEnv (exSubPos ["add".toList, "--name".toList, "n".toList])).2 = none
      ∧ (bindStruct noEnv (exSubPos ["add".toList, "--name".toList, "n".toList])).1.options[1]?.map
          (fun o => o.pointer) = some (.str "add".toList) := by
  decide

/-- C20 (divergence): in the context of `exStructName`, whose schema registers only
`name`, with exit-on-help disabled and the argument vector `[-h, -h]`, the first `-h`
is intercepted and renders the help, which registers `h` and `v` (lines 590-601); the
second `-h` is then no longer intercepted but dispatched to `parseShort`, where the
descriptor of `h`, which has no destination, faults.  Likewise `-v` faults after
`--help` has been rendered. -/
theorem C20_second_help_not_intercepted :
    (exNameNoExit ["-h".toList, "-h".toList]).isKey "h".toList = false
      ∧ (exNameNoExit ["-h".toList, "-h".toList]).isKey "v".toList = false
      ∧ (parseOneOption (bindStructDepth noEnv 1)
            (exNameNoExit ["-h".toList, "-h".toList]) [] 0).2.2.2 = none
      ∧ (parseOneOption (bindStructDepth noEnv 1)
            (exNameNoExit ["-h".toList, "-h".toList]) [] 0).1.w = [.help]
      ∧ (parseOneOption (bindStructDepth noEnv 1)
            (exNameNoExit ["-h".toList, "-h".toList]) [] 0).1.isKey "h".toList = true
      ∧ (parseOneOption (bindStructDepth noEnv 1)
            (parseOneOption (bindStructDepth noEnv 1)
              (exNameNoExit ["-h".toList, "-h".toList]) [] 0).1 [] 1).2.2.2
          = (parseShort (parseOneOption (bindStructDepth noEnv 1)
              (exNameNoExit ["-h".toList, "-h".toList]) [] 0).1 "h".toList 1).2.2
      ∧ (parseShort (parseOneOption (bindStructDepth noEnv 1)
              (exNameNoExit ["-h".toList, "-h".toList]) [] 0).1 "h".toList 1).2.2
          = some .panic
      ∧ (bindStruct noEnv (exNameNoExit ["-h".toList, "-h".toList])).2 = some .panic
      ∧ (bindStruct noEnv (exNameNoExit ["-h".toList, "-h".toList])).1.w = [.help]
      ∧ (bindStruct noEnv (exNameNoExit ["--help".toList, "-v".toList])).2 = some .panic
      ∧ (bindStruct noEnv (exNameNoExit ["--help".toList, "-v".toList])).1.w = [.help] := by
  decide

theorem subGet_length {s : Str} {m : List (Str × Screw)} {child : Screw}
    (h : subGet s m = some child) : m.length > 0 := by
  cases m with
  | nil => simp [subGet] at h
  | cons p rest => simp

theorem subGet_subSet (s : Str) (x : Screw) :
    ∀ (m : List (Str × Screw)) (child : Screw), subGet s m = some child →
      subGet s (subSet s x m) = some x := by
  intro m
  induction m with
  | nil => intro child h; simp [subGet] at h
  | cons p rest ih =>
    intro child h
    obtain ⟨k, v⟩ := p
    by_cases hk : k = s
    · simp [subSet, subGet, hk]
    · simp only [subGet, if_neg hk] at h
      simp only [subSet, if_neg hk, subGet]
      exact ih child h

theorem parseOneOption_dispatch
    (B : Screw → List Str → Screw × List Str × Option Err) (c : Screw)
    (rootSet : List Str) (i : Nat) (s : Str) (child : Screw)
    (harg : c.args[i]? = some s) (hne : s ≠ []) (hdash : s.head? ≠ some '-')
    (hsub : subGet s c.subcommand = some child) :
    (parseOneOption B c rootSet i).2.2.2
        = (B { child with args := c.args.drop (i + 1) } (s :: getRootSet c rootSet)).2.2
      ∧ (parseOneOption B c rootSet i).2.2.1 = i
      ∧ (parseOneOption B c rootSet i).1.args = []
      ∧ subGet s (parseOneOption B c rootSet i).1.subcommand
          = some
            (if (B { child with args := c.args.drop (i + 1) } (s :: getRootSet c rootSet)).2.2
                  = none
                ∧ (B { child with args := c.args.drop (i + 1) }
                    (s :: getRootSet c rootSet)).1.subMain = true then
              { (B { child with args := c.args.drop (i + 1) } (s :: getRootSet c rootSet)).1 with
                subMainCalls :=
                  (B { child with args := c.args.drop (i + 1) }
                    (s :: getRootSet c rootSet)).1.subMainCalls + 1 }
             else (B { child with args := c.args.drop (i + 1) } (s :: getRootSet c rootSet)).1)
      ∧ getRootSet (parseOneOption B c rootSet i).1 (parseOneOption B c rootSet i).2.1
          = (B { child with args := c.args.drop (i + 1) } (s :: getRootSet c rootSet)).2.1
      ∧ (c.hasRoot = true → (parseOneOption B c rootSet i).2.1
          = (B { child with args := c.args.drop (i + 1) } (s :: getRootSet c rootSet)).2.1)
      ∧ (c.hasRoot = false → (parseOneOption B c rootSet i).2.1 = rootSet)
      ∧ (parseOneOption B c rootSet i).1.hasRoot = c.hasRoot := by
  have hlen : ¬ (s.length = 0) := by
    cases s with
    | nil => exact absurd rfl hne
    | cons a rest => simp
  have hpos := subGet_length hsub
  have hss := fun x => subGet_subSet s x c.subcommand child hsub
  cases hroot : c.hasRoot with
  | true =>
    simp only [parseOneOption, harg, hlen, if_false, hdash, hpos, hsub, recordSubcommand,
      getRootSet, hroot, if_true, ne_eq, not_false_eq_true, Bool.not_true]
    cases hr : B { child with args := c.args.drop (i + 1) } (s :: rootSet) with
    | mk n rest =>
      cases rest with
      | mk set e =>
        cases e with
        | some e => simp [hr, hroot, hss]
        | none =>
          by_cases hm : n.subMain = true
          · simp [hr, hroot, hss, hm, Screw.appendUnparsed]
          · simp [hr, hroot, hss, hm, Screw.appendUnparsed]
  | false =>
    simp only [parseOneOption, harg, hlen, if_false, hdash, hpos, hsub, recordSubcommand,
      getRootSet, hroot, if_true, ne_eq, not_false_eq_true, Bool.not_false]
    cases hr : B { child with args := c.args.drop (i + 1) } (s :: c.isSetSubcommand) with
    | mk n rest =>
      cases rest with
      | mk set e =>
        cases e with
        | some e => simp [hr, hroot, hss]
        | none =>
          by_cases hm : n.subMain = true
          · simp [hr, hroot, hss, hm, Screw.appendUnparsed]
          · simp [hr, hroot, hss, hm, Screw.appendUnparsed]

theorem findFallbackOpt_registered (c : Screw) (nxt : Str) (index : Nat)
    (hdash : hasDashPrefix nxt = true) (hro : isRegisterOptions c nxt = some true) :
    findFallbackOpt c nxt (index + 1) = (true, index, none) := by
  simp [findFallbackOpt, hdash, hro]

theorem parseLong_fallback (c : Screw) (name nxt : Str) (index id : Nat) (o : Opt)
    (hreg : c.getOption name = some (id, o)) (hlen : name.length ≠ 1)
    (hb : o.pointer.isBool = some false) (hs : o.pointer.isBoolSlice = some false)
    (hnxt : c.args[index + 1]? = some nxt)
    (hfb : findFallbackOpt c nxt (index + 1) = (true, index, none)) :
    parseLong c name index = (c, index, none) := by
  have hlt : index + 1 < c.args.length := (List.getElem?_eq_some_iff.mp hnxt).1
  have hnl : ¬ (c.args.length ≤ index + 1) := by omega
  obtain ⟨n, hn⟩ : ∃ n, c.args.length = n + 1 := ⟨c.args.length - 1, by omega⟩
  have hloop : parseLongLoop name id (n + 1) c index = (c, index, none) := by
    rw [parseLongLoop]
    simp [hnl, hnxt, hfb]
  simp [parseLong, hreg, hlen, setBool_other hb hs, hnl, hn ▸ hloop]

theorem parseShortRange_value_fallback (arg : Str) (cch : Char) (i : Nat) (c : Screw)
    (index : Nat) (find : Bool) (id : Nat) (o : Opt) (t : Str)
    (hdrop : arg.drop i = [cch]) (h128 : cch.toNat < 128)
    (hreg : c.getOption [cch] = some (id, o))
    (hnb : o.pointer.isBool = some false) (hnbs : o.pointer.isBoolSlice = some false)
    (ht : c.args[index + 1]? = some t)
    (hfb : findFallbackOpt c t (index + 1) = (true, index, none)) :
    parseShortRange arg [cch] i c index find = (c, index, none) := by
  have hd2 : ¬ (128 ≤ cch.toNat) := by omega
  have hdrop1 := drop_succ_of_drop hdrop
  have hlt : index + 1 < c.args.length := (List.getElem?_eq_some_iff.mp ht).1
  have hnl : ¬ (c.args.length ≤ index + 1) := by omega
  have hse : shortEqual arg (i + 1) = some (false, i + 1) := by
    simp [shortEqual, hdrop1]
  have hg : getchar id false false (c.args.length + 1) c arg (i + 1) index
      = (c, index, .ret, none) := by
    rw [getchar]
    simp [hdrop1, hnl, ht, hfb]
  rw [parseShortRange]
  simp only [hd2, if_false, hreg, hnb, hnbs, Bool.or_self, Bool.not_false, if_true, hse, hg]

theorem parseShortRange_bundle_fallback (arg : Str) (c0 : Screw) (index : Nat) (cch : Char)
    (idc : Nat) (oc : Opt) (t : Str)
    (hlegal : c0.legalNames = true)
    (hc : c0.getOption [cch] = some (idc, oc))
    (hnb : oc.pointer.isBool = some false) (hnbs : oc.pointer.isBoolSlice = some false)
    (ht : c0.args[index + 1]? = some t)
    (hfb : findFallbackOpt c0 t (index + 1) = (true, index, none)) :
    ∀ (bs : List Char) (i : Nat) (c : Screw) (find : Bool),
      c0.sameShape c → arg.drop i = bs ++ [cch] →
      (∀ b ∈ bs, ∃ id o, c0.getOption [b] = some (id, o)
        ∧ (o.pointer.isBool = some true ∨ o.pointer.isBoolSlice = some true)
        ∧ o.once = false) →
      parseShortRange arg (bs ++ [cch]) i c index find
        = (writeFlags index bs i c, index, none) := by
  intro bs
  induction bs with
  | nil =>
    intro i c find hs hdrop _
    obtain ⟨oc2, hc2, hsh⟩ := ctxShape_getOption hs hc
    obtain ⟨s1, s2, s3, s4⟩ := hsh
    have hfb2 : findFallbackOpt c t (index + 1) = (true, index, none) := by
      rw [findFallbackOpt_congr hs.1]; exact hfb
    have ht2 : c.args[index + 1]? = some t := by rw [hs.2.1]; exact ht
    simpa [writeFlags] using
      parseShortRange_value_fallback arg cch i c index find idc oc2 t (by simpa using hdrop)
        (key_byte hlegal hc).1 hc2 (s3.trans hnb) (s4.trans hnbs) ht2 hfb2
  | cons b bs ih =>
    intro i c find hs hdrop hbs
    obtain ⟨id, o, hb, hflag, hbonce⟩ := hbs b (by simp)
    obtain ⟨o2, hb2, hsh⟩ := ctxShape_getOption hs hb
    obtain ⟨s1, s2, s3, s4⟩ := hsh
    have hflag2 : o2.pointer.isBool = some true ∨ o2.pointer.isBoolSlice = some true := by
      rw [s3, s4]; exact hflag
    have hrest : (bs ++ [cch]).head? ≠ some '=' := by
      cases bs with
      | nil =>
        simp only [List.nil_append, List.head?_cons, ne_eq, Option.some.injEq]
        exact (key_byte hlegal hc).2
      | cons b2 bs2 =>
        obtain ⟨id3, o3, hb3, _, _⟩ := hbs b2 (by simp)
        simp only [List.cons_append, List.head?_cons, ne_eq, Option.some.injEq]
        exact (key_byte hlegal hb3).2
    have hstep := parseShortRange_flag arg b (bs ++ [cch]) i c index find id o2
      (by simpa using hdrop) (by simp) hrest (key_byte hlegal hb).1 (key_byte hlegal hb).2
      hb2 hflag2 (s1.trans hbonce)
    have hdrop2 : arg.drop (i + 1) = bs ++ [cch] :=
      drop_succ_of_drop (by simpa using hdrop)
    rw [List.cons_append, hstep,
      ih (i + 1) _ true (ctxShape_trans hs (ctxShape_write c id _ index i)) hdrop2
        (fun b3 hb3 => hbs b3 (List.mem_cons_of_mem _ hb3))]
    simp [writeFlags, hb2]

theorem registered_ne_dash (c : Screw) (nxt : Str) (hempty : c.isKey [] = false)
    (hro : isRegisterOptions c nxt = some true) : nxt ≠ ['-'] := by
  rintro rfl
  have : isRegisterOptions c ['-'] = some (c.isKey []) := by
    simp [isRegisterOptions, indexEq]
  rw [this, hempty] at hro
  cases hro

theorem parseOneOption_dashed (B : Screw → List Str → Screw × List Str × Option Err)
    (c : Screw) (rs : List Str) (j : Nat) (nxt : Str)
    (hnxt : c.args[j]? = some nxt) (hdash : hasDashPrefix nxt = true)
    (hne : nxt ≠ ['-']) :
    parseOneOption B c rs j
      = ((getOptionAndSet c (nxt.drop (if nxt[1]? = some '-' then 2 else 1)) j
            (if nxt[1]? = some '-' then 2 else 1)).1, rs,
          (getOptionAndSet c (nxt.drop (if nxt[1]? = some '-' then 2 else 1)) j
            (if nxt[1]? = some '-' then 2 else 1)).2) := by
  cases nxt with
  | nil => simp [hasDashPrefix] at hdash
  | cons a rest =>
    have ha : a = '-' := by simpa [hasDashPrefix] using hdash
    subst ha
    have hr : rest ≠ [] := by
      intro e
      exact hne (by rw [e])
    simp [parseOneOption, hnxt, hr]

/-- C19: in a registry of legal names without the empty name, let the token at cursor
`i` be that of a registered option that is neither boolean nor a boolean sequence, in
the long form `--name` (the name not a single character) or the short form `-f`, greedy
or not, once-marked or not, and let the next token start with `-` and be recognised by
`isRegisterOptions`.  Then the fallback check answers true with the cursor rolled back
to `i`; `parseOneOption` returns no error and leaves the whole context, the destination
of the option included, and the cursor `i` unchanged; the main loop goes on with the
cursor `i + 1`, where `parseOneOption` hands the following token to `getOptionAndSet`
as an option.  The same holds for `parseShort` on a bundle of flags that ends in `f`:
only the flags are written, no error is returned and the cursor stays at `i`. -/
theorem C19_fallback_check (B : Screw → List Str → Screw × List Str × Option Err)
    (c : Screw) (rs : List Str) (i : Nat) (tok name nxt : Str) (id : Nat) (o : Opt)
    (hlegal : c.legalNames = true) (hempty : c.isKey [] = false)
    (hreg : c.getOption name = some (id, o))
    (hb : o.pointer.isBool = some false) (hs : o.pointer.isBoolSlice = some false)
    (htok : (tok = '-' :: '-' :: name ∧ name.length ≠ 1)
      ∨ (∃ f, f ≠ '-' ∧ name = [f] ∧ tok = ['-', f]))
    (harg : c.args[i]? = some tok) (hnxt : c.args[i + 1]? = some nxt)
    (hdash : hasDashPrefix nxt = true) (hro : isRegisterOptions c nxt = some true) :
    findFallbackOpt c nxt (i + 1) = (true, i, none)
      ∧ parseOneOption B c rs i = (c, rs, i, none)
      ∧ (∀ fuel : Nat, bindLoop B (fuel + 1) c rs i = bindLoop B fuel c rs (i + 1))
      ∧ parseOneOption B c rs (i + 1)
          = ((getOptionAndSet c (nxt.drop (if nxt[1]? = some '-' then 2 else 1)) (i + 1)
                (if nxt[1]? = some '-' then 2 else 1)).1, rs,
              (getOptionAndSet c (nxt.drop (if nxt[1]? = some '-' then 2 else 1)) (i + 1)
                (if nxt[1]? = some '-' then 2 else 1)).2)
      ∧ (∀ (bs : List Char) (f : Char), name = [f] →
          (∀ b ∈ bs, ∃ idb ob, c.getOption [b] = some (idb, ob)
            ∧ (ob.pointer.isBool = some true ∨ ob.pointer.isBoolSlice = some true)
            ∧ ob.once = false) →
          parseShort c (bs ++ [f]) i = (writeFlags i bs 0 c, i, none)
            ∧ (writeFlags i bs 0 c).options[id]? = some o) := by
  have hfb := findFallbackOpt_registered c nxt i hdash hro
  have hkey := getOption_isKey hreg
  have hone : parseOneOption B c rs i = (c, rs, i, none) := by
    rcases htok with ⟨rfl, hlen⟩ | ⟨f, hf, rfl, rfl⟩
    · rw [parseOneOption_long B c rs _ name harg, getOptionAndSet_long_key c name _ hkey,
        parseLong_fallback c name nxt _ id o hreg hlen hb hs hnxt hfb]
    · have hlt : f.toNat < 128 :=
        isNameByte_lt (legal_forall (isKey_legal hlegal hkey) f (by simp))
      have hps : parseShort c [f] i = (c, i, none) :=
        parseShortRange_value_fallback [f] f 0 c i false id o nxt rfl hlt hreg hb hs hnxt hfb
      rw [parseOneOption_short B c rs _ f [] harg hf, getOptionAndSet_short_key c [f] _ hkey,
        hps]
  refine ⟨hfb, hone, ?_, ?_, ?_⟩
  · intro fuel
    have hlt : i < c.args.length := (List.getElem?_eq_some_iff.mp harg).1
    rw [bindLoop, if_pos hlt, hone]
  · exact parseOneOption_dashed B c rs (i + 1) nxt hnxt hdash
      (registered_ne_dash c nxt hempty hro)
  · intro bs f hname hbs
    subst hname
    refine ⟨?_, ?_⟩
    · exact parseShortRange_bundle_fallback (bs ++ [f]) c i f id o nxt hlegal hreg hb hs hnxt
        hfb bs 0 c false (ctxShape_refl c) rfl hbs
    · rw [writeFlags_frame c i id o (getOption_get hreg) hb hs bs 0 c (ctxShape_refl c) hbs]
      exact getOption_get hreg

theorem C19_fallback_check_witness :
    parseOneOption (bindStructDepth noEnv 3)
        (exNameOther ["--name".toList, "--other".toList, "v".toList]) [] 0
        = (exNameOther ["--name".toList, "--other".toList, "v".toList], [], 0, none)
      ∧ (bindStruct noEnv
            (exNameOther ["--name".toList, "--other".toList, "v".toList])).2 = none
      ∧ (bindStruct noEnv
            (exNameOther ["--name".toList, "--other".toList, "v".toList])).1.pointerOf
              "name".toList = some (.str [])
      ∧ (bindStruct noEnv
            (exNameOther ["--name".toList, "--other".toList, "v".toList])).1.pointerOf
              "other".toList = some (.str "v".toList) :=
  ⟨(C19_fallback_check (bindStructDepth noEnv 3)
      (exNameOther ["--name".toList, "--other".toList, "v".toList]) [] 0
      "--name".toList "name".toList "--other".toList 0
      { newOption [] (.str []) [] with showLong := ["name".toList] }
      (by decide) (by decide) (by decide) rfl rfl (Or.inl ⟨rfl, by decide⟩) (by decide)
      (by decide) (by decide) (by decide)).2.1,
    by decide, by decide, by decide⟩

theorem keeps_refl (id : Nat) (c : Screw) : c.keeps id c :=
  ⟨rfl, fun _ h => h, fun _ _ ob h hf => ⟨ob, h, hf⟩, fun _ h => h⟩

theorem keeps_trans {id : Nat} {c1 c2 c3 : Screw} (h12 : c1.keeps id c2)
    (h23 : c2.keeps id c3) : c1.keeps id c3 := by
  obtain ⟨a1, a2, a3, a4⟩ := h12
  obtain ⟨b1, b2, b3, b4⟩ := h23
  refine ⟨b1.trans a1, fun n h => a2 n (b2 n h), ?_, fun tok h => a4 tok (b4 tok h)⟩
  intro b i ob h hf
  obtain ⟨o1, h1, hf1⟩ := b3 b i ob h hf
  exact a3 b i o1 h1 hf1

theorem getOption_setOpt_inv {c : Screw} {name : Str} {j i : Nat} {o2 ob : Opt}
    (h : (c.setOpt j o2).getOption name = some (i, ob)) :
    ∃ o0, c.getOption name = some (i, o0) ∧ ((i = j ∧ ob = o2) ∨ (i ≠ j ∧ ob = o0)) := by
  unfold Screw.getOption at h ⊢
  simp only [Screw.setOpt] at h
  cases hm : mapGet name c.shortAndLong with
  | none => simp [hm] at h
  | some v =>
    simp only [hm] at h ⊢
    by_cases hv : j = v
    · subst hv
      cases ho : c.options[j]? with
      | none =>
        have hlt : ¬ (j < c.options.length) := by
          intro hlt
          rw [List.getElem?_eq_getElem hlt] at ho
          cases ho
        have : (c.options.set j o2)[j]? = none := by
          rw [List.getElem?_eq_none]
          simpa using hlt
        simp [this] at h
      | some o0 =>
        have hlt : j < c.options.length := (List.getElem?_eq_some_iff.mp ho).1
        rw [List.getElem?_set_self hlt] at h
        simp only [Option.some.injEq, Prod.mk.injEq] at h
        exact ⟨o0, by rw [h.1], Or.inl ⟨h.1.symm, h.2.symm⟩⟩
    · rw [List.getElem?_set_ne hv] at h
      cases ho : c.options[v]? with
      | none => simp [ho] at h
      | some o0 =>
        simp only [ho, Option.some.injEq, Prod.mk.injEq] at h
        refine ⟨o0, by rw [h.1], Or.inr ⟨?_, h.2.symm⟩⟩
        rw [← h.1]
        exact fun e => hv e.symm

theorem keeps_setOpt (id j : Nat) (c : Screw) (oj o2 : Opt) (hne : j ≠ id)
    (hj : c.options[j]? = some oj) (hflag : isFlag o2 = true → isFlag oj = true) :
    c.keeps id (c.setOpt j o2) := by
  refine ⟨?_, fun _ h => h, ?_, fun _ h => h⟩
  · simp [Screw.setOpt, List.getElem?_set_ne hne]
  · intro b i ob h hf
    obtain ⟨o0, h0, hcase⟩ := getOption_setOpt_inv h
    refine ⟨o0, h0, ?_⟩
    rcases hcase with ⟨hi, hob⟩ | ⟨_, hob⟩
    · subst hi
      subst hob
      have := getOption_get h0
      rw [hj] at this
      cases this
      exact hflag hf
    · rw [← hob]
      exact hf

theorem isFlag_shape {o o2 : Opt} (h : o.sameShape o2) : isFlag o2 = isFlag o := by
  obtain ⟨_, _, h3, h4⟩ := h
  simp [isFlag, h3, h4]

theorem keeps_write (id j : Nat) (c : Screw) (oj : Opt) (val : Str) (index low : Nat)
    (hne : j ≠ id) (hj : c.options[j]? = some oj) :
    c.keeps id (c.setOpt j (setValueAndIndex val oj index low).1) :=
  keeps_setOpt id j c oj _ hne hj (fun hf => by
    rw [isFlag_shape (setValueAndIndex_shape val oj index low)] at hf
    exact hf)

theorem shortNames_mono {id : Nat} {c c2 : Screw} (h : c.keeps id c2) :
    ∀ (l : List Char) (n : Str), n ∈ shortNames c2 l → n ∈ shortNames c l := by
  intro l
  induction l with
  | nil => intro n hn; simp [shortNames] at hn
  | cons b rest ih =>
    intro n hn
    simp only [shortNames, List.mem_cons] at hn ⊢
    rcases hn with hn | hn
    · exact Or.inl hn
    · right
      cases h2 : c2.getOption [b] with
      | none => simp [h2] at hn
      | some p =>
        obtain ⟨i, ob⟩ := p
        simp only [h2] at hn
        by_cases hcond : isFlag ob = true ∧ rest.head? ≠ some '='
        · rw [if_pos hcond] at hn
          obtain ⟨o0, h0, hf0⟩ := h.2.2.1 b i ob h2 hcond.1
          simp only [h0]
          rw [if_pos ⟨hf0, hcond.2⟩]
          exact ih n hn
        · rw [if_neg hcond] at hn
          simp at hn

theorem tokenNames_short (c : Screw) (x : Char) (a : Str) (hx : x ≠ '-') :
    tokenNames c ('-' :: x :: a) = shortNames c (x :: a) := by
  unfold tokenNames
  split
  · rename_i heq
    simp only [List.cons.injEq, true_and] at heq
    exact absurd heq.1 hx
  · rename_i heq
    simp only [List.cons.injEq, true_and] at heq
    rw [heq]
  · rename_i h2
    exact absurd rfl (h2 (x :: a))

theorem tokenNames_mono {id : Nat} {c c2 : Screw} (h : c.keeps id c2) (tok n : Str)
    (hn : n ∈ tokenNames c2 tok) : n ∈ tokenNames c tok := by
  cases tok with
  | nil => simp [tokenNames] at hn
  | cons x a =>
    by_cases hx : x = '-'
    · subst hx
      cases a with
      | nil => simp [tokenNames, shortNames] at hn
      | cons y a2 =>
        by_cases hy : y = '-'
        · subst hy
          exact hn
        · rw [tokenNames_short c y a2 hy]
          rw [tokenNames_short c2 y a2 hy] at hn
          exact shortNames_mono h _ n hn
    · have e : tokenNames c2 (x :: a) = [] := by
        unfold tokenNames
        split
        · rename_i heq
          simp only [List.cons.injEq] at heq
          exact absurd heq.1 hx
        · rename_i heq
          simp only [List.cons.injEq] at heq
          exact absurd heq.1 hx
        · rfl
      rw [e] at hn
      simp at hn

theorem noTokenFor_keeps {id : Nat} {c c2 : Screw} (h : c.keeps id c2)
    (hno : c.noTokenFor id) : c2.noTokenFor id := by
  intro tok htok n hn hmap
  exact hno tok (h.2.2.2 tok htok) n (tokenNames_mono h tok n hn) (h.2.1 n hmap)

theorem getOption_mapGet {c : Screw} {name : Str} {j : Nat} {o : Opt}
    (h : c.getOption name = some (j, o)) : mapGet name c.shortAndLong = some j := by
  unfold Screw.getOption at h
  cases hm : mapGet name c.shortAndLong with
  | none => simp [hm] at h
  | some v =>
    simp only [hm] at h
    cases ho : c.options[v]? with
    | none => simp [ho] at h
    | some o3 =>
      simp only [ho, Option.some.injEq, Prod.mk.injEq] at h
      rw [h.1]

theorem keeps_write_eq (id j : Nat) (c : Screw) (oj o : Opt) (e : Option Err) (val : Str)
    (index low : Nat) (hne : j ≠ id) (hj : c.options[j]? = some oj)
    (hsv : setValueAndIndex val oj index low = (o, e)) : c.keeps id (c.setOpt j o) := by
  have hk := keeps_write id j c oj val index low hne hj
  rw [hsv] at hk
  exact hk

theorem parseLongLoop_keeps (arg : Str) (id j : Nat) (hne : j ≠ id) :
    ∀ (fuel : Nat) (c : Screw) (index : Nat),
      c.keeps id (parseLongLoop arg j fuel c index).1 := by
  intro fuel
  induction fuel with
  | zero => intro c index; exact keeps_refl id c
  | succ fuel ih =>
    intro c index
    rw [parseLongLoop]
    simp only
    split
    · exact keeps_refl id c
    · split
      · exact keeps_refl id c
      · exact keeps_refl id c
      · split
        · exact keeps_refl id c
        · rename_i option hopt
          split
          · exact keeps_refl id c
          · split
            · rename_i o e hsv
              have hk := keeps_write_eq id j c option _ _ _ _ _ hne hopt hsv
              exact hk
            · rename_i o hsv
              have hk := keeps_write_eq id j c option _ _ _ _ _ hne hopt hsv
              split
              · exact hk
              · exact keeps_trans hk (ih _ _)

theorem parseLong_keeps (c : Screw) (arg : Str) (index id : Nat)
    (hn1 : mapGet arg c.shortAndLong ≠ some id)
    (hn2 : mapGet (arg.take ((indexEq arg).getD arg.length)) c.shortAndLong ≠ some id) :
    c.keeps id (parseLong c arg index).1 := by
  have hfound : ∀ (value : Str) (j : Nat) (o : Opt),
      (match c.getOption arg with
        | some (id, o) => (Except.ok ([], id, o) : Except Err (Str × Nat × Opt))
        | none => parseEqualValue c arg) = .ok (value, j, o) →
      j ≠ id ∧ c.options[j]? = some o := by
    intro value j o hf
    cases hg : c.getOption arg with
    | some p =>
      obtain ⟨j2, o2⟩ := p
      simp only [hg, Except.ok.injEq, Prod.mk.injEq] at hf
      obtain ⟨_, hj, ho⟩ := hf
      subst hj
      subst ho
      refine ⟨?_, getOption_get hg⟩
      intro e
      exact hn1 (by rw [getOption_mapGet hg, e])
    | none =>
      simp only [hg, parseEqualValue] at hf
      cases hi : indexEq arg with
      | none => simp [hi] at hf
      | some pos =>
        simp only [hi] at hf
        cases hg2 : c.getOption (arg.take pos) with
        | none => simp [hg2] at hf
        | some p =>
          obtain ⟨j2, o2⟩ := p
          simp only [hg2, Except.ok.injEq, Prod.mk.injEq] at hf
          obtain ⟨_, hj, ho⟩ := hf
          subst hj
          subst ho
          refine ⟨?_, getOption_get hg2⟩
          intro e
          apply hn2
          rw [hi]
          simp only [Option.getD_some]
          rw [getOption_mapGet hg2, e]
  unfold parseLong
  simp only
  split
  · exact keeps_refl id c
  · rename_i value j option hf
    obtain ⟨hne, hopt⟩ := hfound value j option hf
    split
    · exact keeps_refl id c
    · split
      · exact keeps_refl id c
      · split
        · split
          · exact keeps_refl id c
          · exact keeps_write id j c option _ index 0 hne hopt
        · split
          · exact keeps_refl id c
          · exact parseLongLoop_keeps arg id j hne _ c index

theorem getchar_keeps (id j : Nat) (isB findEqual : Bool) (hne : j ≠ id) :
    ∀ (fuel : Nat) (c : Screw) (value : Str) (shortIndex index : Nat),
      c.keeps id (getchar j isB findEqual fuel c value shortIndex index).1
        ∧ ((getchar j isB findEqual fuel c value shortIndex index).2.2.1 = .brk →
            isB = true ∧ findEqual = false) := by
  intro fuel
  induction fuel with
  | zero =>
    intro c value shortIndex index
    exact ⟨keeps_refl id c, fun h => by simp [getchar] at h⟩
  | succ fuel ih =>
    intro c value shortIndex index
    have hnext : ∀ c2 : Screw,
        c2.keeps id
            (if index + 1 ≥ c2.args.length then (c2, index, Leave.ret, (none : Option Err))
              else
                match findFallbackOpt c2 (c2.args.getD (index + 1) []) (index + 1) with
                | (_, ix, some e) => (c2, ix, .ret, some e)
                | (true, ix, none) => (c2, ix, .ret, none)
                | (false, ix, none) =>
                  getchar j isB findEqual fuel c2 (c2.args.getD (index + 1) []) 0 ix).1
          ∧ ((if index + 1 ≥ c2.args.length then (c2, index, Leave.ret, (none : Option Err))
              else
                match findFallbackOpt c2 (c2.args.getD (index + 1) []) (index + 1) with
                | (_, ix, some e) => (c2, ix, .ret, some e)
                | (true, ix, none) => (c2, ix, .ret, none)
                | (false, ix, none) =>
                  getchar j isB findEqual fuel c2 (c2.args.getD (index + 1) []) 0
                    ix).2.2.1 = .brk →
              isB = true ∧ findEqual = false) := by
      intro c2
      split
      · exact ⟨keeps_refl id c2, fun h => by simp at h⟩
      · split
        · exact ⟨keeps_refl id c2, fun h => by simp at h⟩
        · exact ⟨keeps_refl id c2, fun h => by simp at h⟩
        · exact ih _ _ _ _
    rw [getchar]
    simp only
    split
    · split
      · exact ⟨keeps_refl id c, fun h => by simp at h⟩
      · rename_i option hopt
        split
        · exact ⟨keeps_refl id c, fun h => by simp at h⟩
        · split
          · rename_i o e hsv
            exact ⟨keeps_write_eq id j c option _ _ _ _ _ hne hopt hsv, fun h => by simp at h⟩
          · rename_i o hsv
            have hk := keeps_write_eq id j c option _ _ _ _ _ hne hopt hsv
            split
            · exact ⟨hk, fun h => by simp at h⟩
            · rename_i hfe
              split
              · rename_i hb
                exact ⟨hk, fun _ => ⟨hb, by simpa using hfe⟩⟩
              · split
                · exact ⟨hk, fun h => by simp at h⟩
                · have hn := hnext (c.setOpt j o)
                  exact ⟨keeps_trans hk hn.1, hn.2⟩
    · exact hnext c

theorem shortEqual_false (arg : Str) (i : Nat) (a : Char) (rest : Str) (si : Nat)
    (hdrop : arg.drop i = a :: rest) (hse : shortEqual arg i = some (false, si)) :
    rest.head? ≠ some '=' := by
  intro hh
  have hdrop1 : arg.drop (i + 1) = rest := drop_succ_of_drop hdrop
  cases rest with
  | nil => simp at hh
  | cons r rest2 =>
    simp only [List.head?_cons, Option.some.injEq] at hh
    subst hh
    by_cases ha : a = '='
    · subst ha
      have hdrop2 : arg.drop (i + 1 + 1) = rest2 := drop_succ_of_drop hdrop1
      cases rest2 with
      | nil => simp [shortEqual, hdrop, hdrop1, hdrop2] at hse
      | cons q rest3 =>
        by_cases hq : q = '='
        · simp [shortEqual, hdrop, hdrop1, hdrop2, hq] at hse
        · simp [shortEqual, hdrop, hdrop1, hdrop2, hq] at hse
    · simp [shortEqual, hdrop, hdrop1, ha] at hse

theorem parseShortRange_keeps (id : Nat) (arg : Str) :
    ∀ (rest : List Char) (i : Nat) (c : Screw) (index : Nat) (find : Bool),
      arg.drop i = rest →
      (∀ n ∈ shortNames c rest, mapGet n c.shortAndLong ≠ some id) →
      c.keeps id (parseShortRange arg rest i c index find).1 := by
  intro rest
  induction rest with
  | nil =>
    intro i c index find _ _
    rw [parseShortRange]
    split <;> exact keeps_refl id c
  | cons a rest ih =>
    intro i c index find hdrop hnames
    rw [parseShortRange]
    split
    · exact keeps_refl id c
    · split
      · exact keeps_refl id c
      · rename_i j option hreg
        have hne : j ≠ id := by
          intro e
          apply hnames [a] (by simp [shortNames])
          rw [getOption_mapGet hreg, e]
        split
        · rename_i isBoolSlice isBool hbs hb
          simp only
          split
          · exact keeps_refl id c
          · rename_i findEqual shortIndex hse
            have hg := getchar_keeps id j (isBoolSlice || isBool) findEqual hne
              (c.args.length + 1) c arg shortIndex index
            split
            · rename_i c2 index2 lv e hgc
              rw [hgc] at hg
              exact hg.1
            · rename_i c2 index2 hgc
              rw [hgc] at hg
              exact hg.1
            · rename_i c2 index2 hgc
              rw [hgc] at hg
              obtain ⟨hB, hfe⟩ := hg.2 rfl
              subst hfe
              have hflag : isFlag option = true := by
                simp only [isFlag, hb, hbs, decide_eq_true_eq, Option.some.injEq]
                simp only [Bool.or_eq_true] at hB
                rcases hB with h1 | h1
                · exact Or.inr h1
                · exact Or.inl h1
              have hsi : (if !(isBoolSlice || isBool) then i + 1 else i) = i := by
                simp [hB]
              rw [hsi] at hse
              have hhead := shortEqual_false arg i a rest shortIndex hdrop hse
              refine keeps_trans hg.1 (ih (i + 1) c2 index2 true (drop_succ_of_drop hdrop) ?_)
              intro n hn hmap
              have hn0 := shortNames_mono hg.1 rest n hn
              refine hnames n ?_ (hg.1.2.1 n hmap)
              simp only [shortNames, hreg, List.mem_cons]
              right
              rw [if_pos ⟨hflag, hhead⟩]
              exact hn0
        · exact keeps_refl id c

theorem keeps_of_fields (id : Nat) (c c2 : Screw) (hopt : c2.options = c.options)
    (hsl : c2.shortAndLong = c.shortAndLong) (hargs : ∀ tok ∈ c2.args, tok ∈ c.args) :
    c.keeps id c2 := by
  refine ⟨by rw [hopt], fun n h => by rw [← hsl]; exact h, ?_, hargs⟩
  intro b i ob h hf
  refine ⟨ob, ?_, hf⟩
  unfold Screw.getOption at h ⊢
  rw [← hsl, ← hopt]
  exact h

theorem keeps_addOption (id : Nat) (c : Screw) (name : Str) (o2 : Opt)
    (hid : id < c.options.length) (hflag : isFlag o2 = false) :
    c.keeps id (c.addOption name o2) := by
  refine ⟨?_, ?_, ?_, fun _ h => h⟩
  · simp only [Screw.addOption]
    rw [List.getElem?_append_left hid]
  · intro n h
    simp only [Screw.addOption, mapGet] at h
    by_cases hn : name = n
    · rw [if_pos hn] at h
      simp only [Option.some.injEq] at h
      omega
    · rw [if_neg hn] at h
      exact h
  · intro b i ob h hf
    unfold Screw.getOption at h ⊢
    simp only [Screw.addOption, mapGet] at h
    by_cases hn : name = [b]
    · rw [if_pos hn] at h
      simp only [List.getElem?_concat_length, Option.some.injEq, Prod.mk.injEq] at h
      rw [← h.2, hflag] at hf
      cases hf
    · rw [if_neg hn] at h
      cases hm : mapGet [b] c.shortAndLong with
      | none => simp [hm] at h
      | some v =>
        simp only [hm] at h ⊢
        rcases Nat.lt_trichotomy v c.options.length with hv | hv | hv
        · rw [List.getElem?_append_left hv] at h
          cases ho : c.options[v]? with
          | none => simp [ho] at h
          | some o0 =>
            simp only [ho, Option.some.injEq, Prod.mk.injEq] at h
            exact ⟨o0, by rw [h.1], by rw [h.2]; exact hf⟩
        · subst hv
          simp only [List.getElem?_concat_length, Option.some.injEq, Prod.mk.injEq] at h
          rw [← h.2, hflag] at hf
          cases hf
        · have : (c.options ++ [o2])[v]? = none := by
            rw [List.getElem?_eq_none]
            simp only [List.length_append, List.length_singleton]
            omega
          simp [this] at h

theorem keeps_maybeAdd (id : Nat) (b : Bool) (c : Screw) (name : Str) (o2 : Opt)
    (hid : id < c.options.length) (hflag : isFlag o2 = false) :
    c.keeps id (if b = true then c.addOption name o2 else c)
      ∧ id < (if b = true then c.addOption name o2 else c).options.length := by
  cases b with
  | true =>
    simp only [if_true]
    refine ⟨keeps_addOption id c name o2 hid hflag, ?_⟩
    simp only [Screw.addOption, List.length_append, List.length_singleton]
    omega
  | false => exact ⟨keeps_refl id c, hid⟩

theorem genHelpMessage_keeps (id : Nat) (c : Screw) (hid : id < c.options.length) :
    c.keeps id (genHelpMessage c) := by
  unfold genHelpMessage
  have h1 := keeps_maybeAdd id
    ((c.getOption "h".toList).isNone && (c.getOption "help".toList).isNone) c "h".toList
    helpOption hid (by decide)
  exact keeps_trans h1.1 (keeps_maybeAdd id _ _ "v".toList versionOption h1.2 (by decide)).1

theorem getOptionAndSet_keeps (id : Nat) (c : Screw) (arg : Str) (index k : Nat)
    (hid : id < c.options.length)
    (hlong : k = 2 → mapGet arg c.shortAndLong ≠ some id
      ∧ mapGet (arg.take ((indexEq arg).getD arg.length)) c.shortAndLong ≠ some id)
    (hshort : k = 1 → ∀ n ∈ shortNames c arg, mapGet n c.shortAndLong ≠ some id) :
    c.keeps id (getOptionAndSet c arg index k).1 := by
  have hprint : c.keeps id (printHelpMessage c) :=
    keeps_trans (genHelpMessage_keeps id c hid)
      (keeps_of_fields id _ _ rfl rfl (fun _ h => h))
  unfold getOptionAndSet
  split
  · simp only [Usage]
    split <;> exact hprint
  · split
    · simp only [showVersion]
      split <;> exact keeps_of_fields id _ _ rfl rfl (fun _ h => h)
    · split
      · rename_i hk
        exact parseLong_keeps c arg index id (hlong hk).1 (hlong hk).2
      · split
        · rename_i hk
          exact parseShortRange_keeps id arg arg 0 c index false rfl (hshort hk)
        · exact keeps_refl id c

theorem recordSubcommand_fields (c : Screw) (rs : List Str) (arg : Str) :
    (recordSubcommand c rs arg).1.options = c.options
      ∧ (recordSubcommand c rs arg).1.shortAndLong = c.shortAndLong
      ∧ (recordSubcommand c rs arg).1.args = c.args := by
  unfold recordSubcommand
  split <;> exact ⟨rfl, rfl, rfl⟩

theorem parseOneOption_keeps (id : Nat)
    (B : Screw → List Str → Screw × List Str × Option Err) (c : Screw) (rs : List Str)
    (index : Nat) (hid : id < c.options.length)
    (hno : ∀ tok, c.args[index]? = some tok →
      ∀ n ∈ tokenNames c tok, mapGet n c.shortAndLong ≠ some id) :
    c.keeps id (parseOneOption B c rs index).1 := by
  cases harg : c.args[index]? with
  | none => simp only [parseOneOption, harg]; exact keeps_refl id c
  | some s =>
    have hno2 := hno s harg
    by_cases hlen : s.length = 0
    · simp only [parseOneOption, harg, hlen, if_true]
      exact keeps_refl id c
    by_cases hdash : s.head? ≠ some '-'
    · by_cases hpos : c.subcommand.length > 0
      · cases hsub : subGet s c.subcommand with
        | none =>
          by_cases hea : c.envAndArgs.length = 0
          · simp only [parseOneOption, harg, hlen, if_false, hdash, ne_eq, not_false_eq_true,
              not_true_eq_false, if_true, hpos, hsub, hea]
            exact keeps_refl id c
          · simp only [parseOneOption, harg, hlen, if_false, hdash, ne_eq, not_false_eq_true,
              not_true_eq_false, if_true, hpos, hsub, hea]
            have hf := recordSubcommand_fields c rs s
            exact keeps_of_fields id _ _ hf.1 hf.2.1 (fun tok h => by rw [hf.2.2] at h; exact h)
        | some child =>
          have hf := recordSubcommand_fields c rs s
          simp only [parseOneOption, harg, hlen, if_false, hdash, ne_eq, not_false_eq_true,
            not_true_eq_false, if_true, hpos, hsub]
          generalize recordSubcommand c rs s = r at hf ⊢
          obtain ⟨c1, rs1⟩ := r
          simp only at hf ⊢
          split
          · apply keeps_of_fields
            · simp only []
              split <;> split <;> simp [hf.1]
            · simp only []
              split <;> split <;> simp [hf.2.1]
            · intro tok h
              simp only [] at h
              split at h <;> split at h <;> simp at h
          · apply keeps_of_fields
            · simp only [Screw.appendUnparsed]
              split <;> split <;> simp [hf.1]
            · simp only [Screw.appendUnparsed]
              split <;> split <;> simp [hf.2.1]
            · intro tok h
              simp only [Screw.appendUnparsed] at h
              split at h <;> split at h <;> simp at h
      · simp only [parseOneOption, harg, hlen, if_false, hdash, ne_eq, not_false_eq_true,
          not_true_eq_false, if_true, hpos]
        exact keeps_of_fields id _ _ rfl rfl (fun _ h => h)
    · have hdash : s.head? = some '-' := by simpa using hdash
      by_cases hone : s = "-".toList
      · simp only [parseOneOption, harg, hlen, if_false, hdash, ne_eq, not_true_eq_false,
          hone, if_true]
        exact keeps_of_fields id _ _ rfl rfl (fun _ h => h)
      · simp only [parseOneOption, harg, hlen, if_false, hdash, ne_eq, not_true_eq_false, hone]
        cases s with
        | nil => simp at hdash
        | cons x a =>
          simp only [List.head?_cons, Option.some.injEq] at hdash
          subst hdash
          cases a with
          | nil => exact absurd rfl hone
          | cons y a2 =>
            by_cases hy : y = '-'
            · subst hy
              apply getOptionAndSet_keeps id c _ index _ hid
              · intro _
                have h1 := hno2 a2 (by simp [tokenNames])
                have h2 := hno2 (a2.take ((indexEq a2).getD a2.length)) (by simp [tokenNames])
                simpa using ⟨h1, h2⟩
              · intro hk
                simp at hk
            · apply getOptionAndSet_keeps id c _ index _ hid
              · intro hk
                simp [hy] at hk
              · intro _
                rw [tokenNames_short c y a2 hy] at hno2
                simpa [hy] using hno2

theorem bindLoop_keeps (id : Nat) (o : Opt)
    (B : Screw → List Str → Screw × List Str × Option Err) :
    ∀ (fuel : Nat) (c : Screw) (rs : List Str) (i : Nat),
      c.options[id]? = some o → c.noTokenFor id →
      c.keeps id (bindLoop B fuel c rs i).1 := by
  intro fuel
  induction fuel with
  | zero =>
    intro c rs i _ _
    rw [bindLoop]
    split <;> exact keeps_refl id c
  | succ fuel ih =>
    intro c rs i hid hno
    rw [bindLoop]
    split
    · have hlt : id < c.options.length := (List.getElem?_eq_some_iff.mp hid).1
      have hk := parseOneOption_keeps id B c rs i hlt (fun tok htok n hn =>
        hno tok (List.mem_iff_getElem?.mpr ⟨i, htok⟩) n hn)
      split
      · rename_i c2 rs2 i2 e hp
        rw [hp] at hk
        exact hk
      · rename_i c2 rs2 i2 hp
        rw [hp] at hk
        exact keeps_trans hk (ih c2 rs2 (i2 + 1) (by rw [hk.1]; exact hid)
          (noTokenFor_keeps hk hno))
    · exact keeps_refl id c

theorem setEnvAndArgs_other (env : Str → Option Str) (c : Screw) (j id : Nat)
    (hne : j ≠ id) : (setEnvAndArgs env c j).1.options[id]? = c.options[id]? := by
  unfold setEnvAndArgs
  split
  · rfl
  · simp only
    split
    · simp [Screw.setOpt, List.getElem?_set_ne hne]
    · split
      · split
        · rfl
        · split
          · simp [Screw.setOpt, List.getElem?_set_ne hne]
          · split
            · simp [Screw.setOpt, List.getElem?_set_ne hne]
            · simp [Screw.setOpt, List.getElem?_set_ne hne]
      · rfl

theorem setEnvAndArgs_self (env : Str → Option Str) (c : Screw) (id : Nat) (o : Opt)
    (hid : c.options[id]? = some o)
    (henv : o.envName.length > 0 → env o.envName = none)
    (hpos : assignedHere env c id = false) : setEnvAndArgs env c id = (c, none) := by
  have hvia : (if o.envName.length > 0 then env o.envName else none) = none := by
    split
    · rename_i h
      exact henv h
    · rfl
  simp only [assignedHere, hid, hvia, Option.isNone_none, Bool.true_and, Bool.and_eq_false_iff,
    decide_eq_false_iff_not, Bool.not_eq_false, List.isEmpty_iff] at hpos
  unfold setEnvAndArgs
  simp only [hid, hvia]
  rcases hpos with h1 | h1
  · rw [if_neg h1]
  · have hu : c.unparsedArgs = [] := by
      cases hu : c.unparsedArgs with
      | nil => rfl
      | cons v r => rw [hu] at h1; simp at h1
    split
    · rw [hu]
    · rfl

theorem bindEnvAndArgsLoop_frame (env : Str → Option Str) (id : Nat) (o : Opt)
    (henv : o.envName.length > 0 → env o.envName = none) :
    ∀ (ids : List Nat) (c : Screw), c.options[id]? = some o →
      assignsPositional env id ids c = false →
      (bindEnvAndArgsLoop env ids c).1.options[id]? = some o := by
  intro ids
  induction ids with
  | nil => intro c hid _; exact hid
  | cons j ids ih =>
    intro c hid hpos
    simp only [assignsPositional, Bool.or_eq_false_iff, Bool.and_eq_false_iff,
      decide_eq_false_iff_not] at hpos
    rw [bindEnvAndArgsLoop]
    by_cases hj : j = id
    · subst hj
      have hhere : assignedHere env c j = false := by
        rcases hpos.1 with h | h
        · exact absurd rfl h
        · exact h
      have hself := setEnvAndArgs_self env c j o hid henv hhere
      rw [hself] at hpos ⊢
      exact ih c hid hpos.2
    · have hother := setEnvAndArgs_other env c j id hj
      cases hr : setEnvAndArgs env c j with
      | mk c2 e =>
        rw [hr] at hother hpos
        simp only at hother
        cases e with
        | some e => simp only; rw [hother]; exact hid
        | none => exact ih c2 (by rw [hother]; exact hid) hpos.2

theorem assignsPositional_noArgs (env : Str → Option Str) (id : Nat) (o : Opt)
    (henv : o.envName.length > 0 → env o.envName = none) (hargs : o.argsName.length = 0) :
    ∀ (ids : List Nat) (c : Screw), c.options[id]? = some o →
      assignsPositional env id ids c = false := by
  intro ids
  induction ids with
  | nil => intro c _; rfl
  | cons j ids ih =>
    intro c hid
    have hhere : assignedHere env c id = false := by
      simp [assignedHere, hid, hargs]
    simp only [assignsPositional, hhere, Bool.and_false, Bool.false_or]
    by_cases hj : j = id
    · subst hj
      rw [setEnvAndArgs_self env c j o hid henv hhere]
      exact ih c hid
    · have hother := setEnvAndArgs_other env c j id hj
      cases hr : setEnvAndArgs env c j with
      | mk c2 e =>
        rw [hr] at hother
        simp only at hother
        cases e with
        | some e => rfl
        | none => exact ih c2 (by rw [hother]; exact hid)

theorem bindStructDepth_frame (env : Str → Option Str) (d : Nat) (c : Screw)
    (rs : List Str) (id : Nat) (o : Opt)
    (hreg : c.options[id]? = some o) (htok : c.noTokenFor id)
    (henv : o.envName.length > 0 → env o.envName = none)
    (hpos : o.argsName.length = 0
      ∨ assignsPositional env id
          (bindLoop (bindStructDepth env d) c.args.length c rs 0).1.envAndArgs
          (bindLoop (bindStructDepth env d) c.args.length c rs 0).1 = false) :
    (bindStructDepth env (d + 1) c rs).1.options[id]? = some o := by
  have hk := bindLoop_keeps id o (bindStructDepth env d) c.args.length c rs 0 hreg htok
  have hid1 : (bindLoop (bindStructDepth env d) c.args.length c rs 0).1.options[id]? = some o := by
    rw [hk.1]; exact hreg
  have hpos2 : assignsPositional env id
      (bindLoop (bindStructDepth env d) c.args.length c rs 0).1.envAndArgs
      (bindLoop (bindStructDepth env d) c.args.length c rs 0).1 = false := by
    rcases hpos with h | h
    · exact assignsPositional_noArgs env id o henv h _ _ hid1
    · exact h
  rw [bindStructDepth]
  cases hr : bindLoop (bindStructDepth env d) c.args.length c rs 0 with
  | mk c1 rest =>
    obtain ⟨rs1, e⟩ := rest
    rw [hr] at hid1 hpos2
    simp only at hid1 hpos2
    cases e with
    | some e => exact hid1
    | none =>
      simp only [bindEnvAndArgs]
      exact bindEnvAndArgsLoop_frame env id o henv _ c1 hid1 hpos2

theorem exDefault_registered (args : List Str) :
    register exMissing (New args) (.struct [] (exNamedFields.map NamedField.toField))
      = (exDefault args, none) := by
  rw [register_named exMissing args [] exNamedFields (by decide) (by decide) (by decide)
    (by decide)]
  have ht : trimSpace ['a', '.', 't', 'x', 't'] = ['a', '.', 't', 'x', 't'] := by decide
  have ht0 : trimSpace [] = [] := by decide
  simp [registerNamed, exNamedFields, fieldDescriptor, applyNames, NamedField.registered,
    ht, ht0, exMissing, setBase, newOption, New, exDefault]

/-- C16: let `o` be the descriptor at position `id` of a context `c` such that no token
of the argument vector can be resolved to `id` (neither `a` nor its part before `=` for
a token `--a`, and no byte that the range loop may look up for a token `-a`, is a name
of `id`), the environment variable of `o`, if it has one, is not set, and `o` has no
positional name or the loop of `bindEnvAndArgs` assigns no unparsed token to `id`.  Then
the bind cycle of `c` leaves the descriptor at `id` exactly as it was: destination, order
key, command-line mark and callback record are those of registration time.  This holds
for the bind cycle of any context, at any nesting depth, and so for `bindStruct`. -/
theorem C16_default_survives (env : Str → Option Str) (d : Nat) (c : Screw)
    (rs : List Str) (id : Nat) (o : Opt)
    (hreg : c.options[id]? = some o) (htok : c.noTokenFor id)
    (henv : o.envName.length > 0 → env o.envName = none)
    (hpos : o.argsName.length = 0
      ∨ assignsPositional env id
          (bindLoop (bindStructDepth env d) c.args.length c rs 0).1.envAndArgs
          (bindLoop (bindStructDepth env d) c.args.length c rs 0).1 = false) :
    (bindStructDepth env (d + 1) c rs).1.options[id]? = some o
      ∧ (d = c.args.length → rs = c.isSetSubcommand →
          (bindStruct env c).1.options[id]? = some o) := by
  have hmain := bindStructDepth_frame env d c rs id o hreg htok henv hpos
  refine ⟨hmain, ?_⟩
  intro hd hrs
  subst hd
  subst hrs
  unfold bindStruct
  exact hmain

theorem C16_default_survives_witness :
    (bindStruct noEnv (exDefault ["--debug".toList])).1.options[0]?
        = some { newOption [] (.str "a.txt".toList) "a.txt".toList with
                 showShort := ["f".toList], showLong := ["file".toList] }
      ∧ (bindStruct noEnv (exDefault ["--debug".toList])).2 = none
      ∧ (bindStruct noEnv (exDefault ["--debug".toList])).1.pointerOf "file".toList
          = some (.str "a.txt".toList)
      ∧ (bindStruct noEnv (exDefault ["--debug".toList])).1.pointerOf "debug".toList
          = some (.bool true) :=
  ⟨(C16_default_survives noEnv 1 (exDefault ["--debug".toList]) [] 0
      { newOption [] (.str "a.txt".toList) "a.txt".toList with
        showShort := ["f".toList], showLong := ["file".toList] }
      (by decide) (by unfold Screw.noTokenFor; decide) (by decide) (Or.inl (by decide))).2
      rfl rfl,
    by decide, by decide, by decide⟩

theorem orderKey_eq (i j : Nat) (hi : i < 2 ^ 31) (hj : j < 2 ^ 31) :
    orderKey i j = i * 2 ^ 31 + j := by
  unfold orderKey
  have h1 : i % 2 ^ 64 = i := Nat.mod_eq_of_lt (by omega)
  have h2 : j % 2 ^ 64 = j := Nat.mod_eq_of_lt (by omega)
  have h3 : (i <<< 31) % 2 ^ 64 = i * 2 ^ 31 := by
    rw [Nat.shiftLeft_eq]
    exact Nat.mod_eq_of_lt (by omega)
  rw [h1, h2, h3, Nat.mul_comm]
  exact (Nat.mul_add_lt_is_or hj i).symm

theorem orderKey_layout (i j : Nat) (hi : i < 2 ^ 31) (hj : j < 2 ^ 31) :
    orderKey i j >>> 32 = i / 2 ∧ orderKey i j % 2 ^ 32 = (i % 2) * 2 ^ 31 + j := by
  rw [orderKey_eq i j hi hj, Nat.shiftRight_eq_div_pow]
  constructor <;> omega

/-- C24 (divergence): `setValueAndIndex` shifts the token position by 31 bits, not by
32 (line 212).  For `-f a.txt` against the field `File string` tagged `-f;--file` the
value is written at token position 1 with sub-position 0, and `GetIndex` returns
`2^31`: the high 4 bytes hold 0, not 1, and the low 4 bytes hold `2^31`, not 0.  Token
position 2 gives `2^32`, whose high 4 bytes hold 1; in a bundle `-abc x` the flag `b`
at token position 0 and sub-position 1 gets the key 1. -/
theorem C24_order_key_shift :
    (bindStruct noEnv (exFile ["-f".toList, "a.txt".toList])).2 = none
      ∧ (bindStruct noEnv (exFile ["-f".toList, "a.txt".toList])).1.pointerOf "f".toList
          = some (.str "a.txt".toList)
      ∧ (bindStruct noEnv (exFile ["-f".toList, "a.txt".toList])).1.GetIndex "f".toList
          = some (2 ^ 31)
      ∧ (2 ^ 31) >>> 32 = 0 ∧ (2 ^ 31) % 2 ^ 32 = 2 ^ 31
      ∧ (setValueAndIndex "a.txt".toList
            { newOption [] (.str []) [] with showShort := ["f".toList] } 1 0).1.index
          = 2 ^ 31
      ∧ orderKey 1 0 >>> 32 = 0 ∧ orderKey 1 0 % 2 ^ 32 = 2 ^ 31
      ∧ orderKey 2 0 >>> 32 = 1 ∧ orderKey 3 5 >>> 32 = 1
      ∧ orderKey 3 5 % 2 ^ 32 = 2 ^ 31 + 5
      ∧ (bindStruct noEnv (exBundle ["-abc".toList, "x".toList])).1.GetIndex "b".toList
          = some 1
      ∧ (bindStruct noEnv (exBundle ["-abc".toList, "x".toList])).1.GetIndex "c".toList
          = some (2 ^ 31) := by
  decide

theorem setBase_err (val : Str) (p : Pointer) (e : Err) (h : (setBase val p).2 = some e) :
    e.fromWrite = true := by
  cases p with
  | invalid => simp [setBase] at h; subst h; rfl
  | bool b => cases hp : parseBool val <;> simp [setBase, hp] at h; subst h; rfl
  | str s => simp [setBase] at h
  | int n => cases hp : parseInt val <;> simp [setBase, hp] at h; subst h; rfl
  | bools xs => cases hp : parseBool val <;> simp [setBase, hp] at h; subst h; rfl
  | strs xs => simp [setBase] at h
  | ints xs => cases hp : parseInt val <;> simp [setBase, hp] at h; subst h; rfl

theorem onceResetValue_err (o : Opt) (e : Err) (h : (onceResetValue o).2 = some e) :
    e = .panic := by
  unfold onceResetValue at h
  split at h
  · split at h
    · simp at h; exact h.symm
    · split at h <;> simp at h
  · simp at h

theorem setValueAndIndex_err (val : Str) (o : Opt) (index low : Nat) (e : Err)
    (h : (setValueAndIndex val o index low).2 = some e) : e.fromWrite = true := by
  unfold setValueAndIndex at h
  cases hr : onceResetValue o with
  | mk o1 e1 =>
    have h1 := onceResetValue_err o
    rw [hr] at h h1
    cases e1 with
    | some e2 =>
      simp only [Option.some.injEq] at h
      subst h
      rw [h1 e2 rfl]
      rfl
    | none =>
      simp only at h
      split at h
      · simp at h
      · exact setBase_err _ _ e h

theorem checkOnce_err (arg : Str) (o : Opt) (e : Err) (h : checkOnce arg o = some e) :
    e.fromWrite = true := by
  unfold checkOnce at h
  split at h
  · split at h
    · simp at h; subst h; rfl
    · split at h
      · simp at h; subst h; rfl
      · simp at h
  · simp at h

theorem findFallbackOpt_cases (c : Screw) (value : Str) (k : Nat) :
    findFallbackOpt c value k = (false, k, some .panic)
      ∨ findFallbackOpt c value k = (true, k - 1, none)
      ∨ findFallbackOpt c value k = (false, k, none) := by
  unfold findFallbackOpt
  split
  · split
    · exact Or.inl rfl
    · exact Or.inr (Or.inl rfl)
    · exact Or.inr (Or.inr rfl)
  · exact Or.inr (Or.inr rfl)

theorem parseLongLoop_total (arg : Str) (id : Nat) :
    ∀ (fuel : Nat) (c : Screw) (index : Nat),
      c.args.length ≤ index + fuel → 0 < fuel →
      (∀ e, (parseLongLoop arg id fuel c index).2.2 = some e → e.fromWrite = true)
        ∧ index ≤ (parseLongLoop arg id fuel c index).2.1
        ∧ (parseLongLoop arg id fuel c index).1.args = c.args := by
  intro fuel
  induction fuel with
  | zero => intro c index _ h; omega
  | succ fuel ih =>
    intro c index hlen _
    rw [parseLongLoop]
    simp only
    split
    · exact ⟨fun e h => by simp at h, by simp, rfl⟩
    · rename_i hge
      rcases findFallbackOpt_cases c (c.args.getD (index + 1) []) (index + 1) with hf | hf | hf
      · rw [hf]
        exact ⟨fun e h => by simp at h; subst h; rfl, by simp, rfl⟩
      · rw [hf]
        exact ⟨fun e h => by simp at h, by simp, rfl⟩
      · rw [hf]
        simp only
        split
        · exact ⟨fun e h => by simp at h; subst h; rfl, by simp, rfl⟩
        · rename_i option hopt
          split
          · rename_i e1 hco
            exact ⟨fun e h => by
              simp at h; subst h; exact checkOnce_err _ _ _ hco, by simp, rfl⟩
          · split
            · rename_i o e1 hsv
              refine ⟨fun e h => ?_, by simp, rfl⟩
              simp only [Option.some.injEq] at h
              subst h
              exact setValueAndIndex_err _ _ _ _ _ (by rw [hsv])
            · rename_i o hsv
              split
              · exact ⟨fun e h => by simp at h, by simp, rfl⟩
              · have hi := ih (c.setOpt id o) (index + 1)
                  (by simp only [Screw.setOpt]; omega)
                  (by simp only [ge_iff_le, not_le] at hge; omega)
                exact ⟨hi.1, by have := hi.2.1; omega, hi.2.2⟩

theorem fromWrite_ne_fuel {e : Err} (h : e.fromWrite = true) : e ≠ .outOfFuel := by
  rintro rfl
  cases h

theorem parseLong_total (c : Screw) (arg : Str) (index : Nat) :
    (parseLong c arg index).2.2 ≠ some .outOfFuel
      ∧ index ≤ (parseLong c arg index).2.1
      ∧ (parseLong c arg index).1.args = c.args := by
  unfold parseLong
  simp only
  split
  · rename_i e hf
    refine ⟨?_, Nat.le_refl _, rfl⟩
    intro h
    simp only [Option.some.injEq] at h
    subst h
    split at hf
    · cases hf
    · simp only [parseEqualValue] at hf
      split at hf
      · cases hf
      · split at hf <;> cases hf
  · rename_i value j option hfound
    split
    · exact ⟨by simp, Nat.le_refl _, rfl⟩
    · split
      · exact ⟨by simp, Nat.le_refl _, rfl⟩
      · split
        · split
          · rename_i e1 hco
            refine ⟨?_, Nat.le_refl _, rfl⟩
            intro h
            simp only [Option.some.injEq] at h
            exact fromWrite_ne_fuel (checkOnce_err _ _ _ hco) h
          · refine ⟨?_, Nat.le_refl _, rfl⟩
            intro h
            exact fromWrite_ne_fuel (setValueAndIndex_err _ _ _ _ _ h) rfl
        · split
          · exact ⟨by simp, Nat.le_refl _, rfl⟩
          · rename_i hlt
            have hl := parseLongLoop_total arg j c.args.length c index (by omega)
              (by simp only [ge_iff_le, not_le] at hlt; omega)
            refine ⟨?_, hl.2.1, hl.2.2⟩
            intro h
            exact fromWrite_ne_fuel (hl.1 _ h) rfl

theorem getchar_total (id : Nat) (isB findEqual : Bool) :
    ∀ (fuel : Nat) (c : Screw) (value : Str) (shortIndex index : Nat),
      c.args.length ≤ index + fuel → 0 < fuel →
      (∀ e, (getchar id isB findEqual fuel c value shortIndex index).2.2.2 = some e →
          e.fromWrite = true)
        ∧ index ≤ (getchar id isB findEqual fuel c value shortIndex index).2.1
        ∧ (getchar id isB findEqual fuel c value shortIndex index).1.args = c.args := by
  intro fuel
  induction fuel with
  | zero => intro c value shortIndex index _ h; omega
  | succ fuel ih =>
    intro c value shortIndex index hlen _
    have hnext : ∀ c2 : Screw, c2.args = c.args →
        (∀ e,
          (if index + 1 ≥ c2.args.length then (c2, index, Leave.ret, (none : Option Err))
            else
              match findFallbackOpt c2 (c2.args.getD (index + 1) []) (index + 1) with
              | (_, ix, some e) => (c2, ix, .ret, some e)
              | (true, ix, none) => (c2, ix, .ret, none)
              | (false, ix, none) =>
                getchar id isB findEqual fuel c2 (c2.args.getD (index + 1) []) 0 ix).2.2.2
            = some e → e.fromWrite = true)
        ∧ index ≤
          (if index + 1 ≥ c2.args.length then (c2, index, Leave.ret, (none : Option Err))
            else
              match findFallbackOpt c2 (c2.args.getD (index + 1) []) (index + 1) with
              | (_, ix, some e) => (c2, ix, .ret, some e)
              | (true, ix, none) => (c2, ix, .ret, none)
              | (false, ix, none) =>
                getchar id isB findEqual fuel c2 (c2.args.getD (index + 1) []) 0 ix).2.1
        ∧ (if index + 1 ≥ c2.args.length then (c2, index, Leave.ret, (none : Option Err))
            else
              match findFallbackOpt c2 (c2.args.getD (index + 1) []) (index + 1) with
              | (_, ix, some e) => (c2, ix, .ret, some e)
              | (true, ix, none) => (c2, ix, .ret, none)
              | (false, ix, none) =>
                getchar id isB findEqual fuel c2 (c2.args.getD (index + 1) []) 0 ix).1.args
            = c.args := by
      intro c2 hargs
      split
      · exact ⟨fun e h => by simp at h, by simp, hargs⟩
      · rename_i hge
        rcases findFallbackOpt_cases c2 (c2.args.getD (index + 1) []) (index + 1)
          with hf | hf | hf
        · rw [hf]
          exact ⟨fun e h => by simp at h; subst h; rfl, by simp, hargs⟩
        · rw [hf]
          exact ⟨fun e h => by simp at h, by simp, hargs⟩
        · rw [hf]
          simp only
          have hi := ih c2 (c2.args.getD (index + 1) []) 0 (index + 1)
            (by rw [hargs]; omega)
            (by rw [hargs] at hge; simp only [ge_iff_le, not_le] at hge; omega)
          exact ⟨hi.1, by have := hi.2.1; omega, hi.2.2.trans hargs⟩
    rw [getchar]
    simp only
    split
    · split
      · exact ⟨fun e h => by simp at h; subst h; rfl, by simp, rfl⟩
      · rename_i option hopt
        split
        · rename_i e1 hco
          exact ⟨fun e h => by
            simp at h; subst h; exact checkOnce_err _ _ _ hco, by simp, rfl⟩
        · split
          · rename_i o e1 hsv
            refine ⟨fun e h => ?_, by simp, rfl⟩
            simp only [Option.some.injEq] at h
            subst h
            exact setValueAndIndex_err _ _ _ _ _ (by rw [hsv])
          · rename_i o hsv
            split
            · exact ⟨fun e h => by simp at h, by simp, rfl⟩
            · split
              · exact ⟨fun e h => by simp at h, by simp, rfl⟩
              · split
                · exact ⟨fun e h => by simp at h, by simp, rfl⟩
                · exact hnext (c.setOpt id o) rfl
    · exact hnext c rfl

theorem parseShortRange_total (arg : Str) :
    ∀ (rest : List Char) (i : Nat) (c : Screw) (index : Nat) (find : Bool),
      (parseShortRange arg rest i c index find).2.2 ≠ some .outOfFuel
        ∧ index ≤ (parseShortRange arg rest i c index find).2.1
        ∧ (parseShortRange arg rest i c index find).1.args = c.args := by
  intro rest
  induction rest with
  | nil =>
    intro i c index find
    rw [parseShortRange]
    split
    · exact ⟨by simp, Nat.le_refl _, rfl⟩
    · exact ⟨by simp, Nat.le_refl _, rfl⟩
  | cons a rest ih =>
    intro i c index find
    rw [parseShortRange]
    split
    · exact ⟨by simp, Nat.le_refl _, rfl⟩
    · split
      · exact ⟨by simp, Nat.le_refl _, rfl⟩
      · rename_i j option hreg
        split
        · rename_i isBoolSlice isBool hbs hb
          simp only
          split
          · exact ⟨by simp, Nat.le_refl _, rfl⟩
          · rename_i findEqual shortIndex hse
            have hg := getchar_total j (isBoolSlice || isBool) findEqual
              (c.args.length + 1) c arg shortIndex index (by omega) (by omega)
            split
            · rename_i c2 index2 lv e hgc
              rw [hgc] at hg
              refine ⟨?_, hg.2.1, hg.2.2⟩
              intro h
              simp only [Option.some.injEq] at h
              exact fromWrite_ne_fuel (hg.1 e rfl) h
            · rename_i c2 index2 hgc
              rw [hgc] at hg
              exact ⟨by simp, hg.2.1, hg.2.2⟩
            · rename_i c2 index2 hgc
              rw [hgc] at hg
              have hi := ih (i + 1) c2 index2 true
              exact ⟨hi.1, Nat.le_trans hg.2.1 hi.2.1, hi.2.2.trans hg.2.2⟩
        · exact ⟨by simp, Nat.le_refl _, rfl⟩

theorem genHelpMessage_args (c : Screw) : (genHelpMessage c).args = c.args := by
  unfold genHelpMessage
  simp only
  split <;> split <;> rfl

theorem getOptionAndSet_total (c : Screw) (arg : Str) (index k : Nat) :
    (getOptionAndSet c arg index k).2.2 ≠ some .outOfFuel
      ∧ index ≤ (getOptionAndSet c arg index k).2.1
      ∧ (getOptionAndSet c arg index k).1.args = c.args := by
  unfold getOptionAndSet
  split
  · simp only [Usage, printHelpMessage]
    split
    · exact ⟨by simp, Nat.le_refl _, genHelpMessage_args c⟩
    · exact ⟨by simp, Nat.le_refl _, genHelpMessage_args c⟩
  · split
    · simp only [showVersion]
      split
      · exact ⟨by simp, Nat.le_refl _, rfl⟩
      · exact ⟨by simp, Nat.le_refl _, rfl⟩
    · split
      · exact parseLong_total c arg index
      · split
        · exact parseShortRange_total arg arg 0 c index false
        · exact ⟨by simp, Nat.le_refl _, rfl⟩

theorem parseOneOption_total
    (B : Screw → List Str → Screw × List Str × Option Err) (c : Screw) (rs : List Str)
    (index : Nat) :
    index ≤ (parseOneOption B c rs index).2.2.1
      ∧ (parseOneOption B c rs index).1.args.length ≤ c.args.length
      ∧ ((∀ (child : Screw) (rs2 : List Str), child.args.length < c.args.length →
            (B child rs2).2.2 ≠ some .outOfFuel) →
          (parseOneOption B c rs index).2.2.2 ≠ some .outOfFuel) := by
  cases harg : c.args[index]? with
  | none =>
    simp only [parseOneOption, harg]
    exact ⟨Nat.le_refl _, Nat.le_refl _, fun _ => by simp⟩
  | some s =>
    have hlt : index < c.args.length := (List.getElem?_eq_some_iff.mp harg).1
    by_cases hlen : s.length = 0
    · simp only [parseOneOption, harg, hlen, if_true]
      exact ⟨Nat.le_refl _, Nat.le_refl _, fun _ => by simp⟩
    by_cases hdash : s.head? ≠ some '-'
    · by_cases hpos : c.subcommand.length > 0
      · cases hsub : subGet s c.subcommand with
        | none =>
          by_cases hea : c.envAndArgs.length = 0
          · simp only [parseOneOption, harg, hlen, if_false, hdash, ne_eq, not_false_eq_true,
              not_true_eq_false, if_true, hpos, hsub, hea]
            exact ⟨Nat.le_refl _, Nat.le_refl _, fun _ => by simp⟩
          · simp only [parseOneOption, harg, hlen, if_false, hdash, ne_eq, not_false_eq_true,
              not_true_eq_false, if_true, hpos, hsub, hea]
            have hf := recordSubcommand_fields c rs s
            exact ⟨Nat.le_refl _, by rw [hf.2.2], fun _ => by simp⟩
        | some child =>
          have hne : s ≠ [] := by
            intro e
            exact hlen (by simp [e])
          have hd := parseOneOption_dispatch B c rs index s child harg hne hdash hsub
          refine ⟨by rw [hd.2.1], by rw [hd.2.2.1]; simp, ?_⟩
          intro hB
          rw [hd.1]
          apply hB
          simp only [List.length_drop]
          omega
      · simp only [parseOneOption, harg, hlen, if_false, hdash, ne_eq, not_false_eq_true,
          not_true_eq_false, if_true, hpos]
        exact ⟨Nat.le_refl _, Nat.le_refl _, fun _ => by simp⟩
    · have hdash : s.head? = some '-' := by simpa using hdash
      by_cases hone : s = "-".toList
      · simp only [parseOneOption, harg, hlen, if_false, hdash, ne_eq, not_true_eq_false,
          hone, if_true]
        exact ⟨Nat.le_refl _, Nat.le_refl _, fun _ => by simp⟩
      · simp only [parseOneOption, harg, hlen, if_false, hdash, ne_eq, not_true_eq_false, hone]
        have hg := getOptionAndSet_total c (s.drop (if s[1]? = some '-' then 2 else 1)) index
          (if s[1]? = some '-' then 2 else 1)
        exact ⟨hg.2.1, by rw [hg.2.2], fun _ => hg.1⟩

theorem bindLoop_total (B : Screw → List Str → Screw × List Str × Option Err) (n : Nat)
    (hB : ∀ (child : Screw) (rs2 : List Str), child.args.length < n →
      (B child rs2).2.2 ≠ some .outOfFuel) :
    ∀ (fuel : Nat) (c : Screw) (rs : List Str) (i : Nat),
      c.args.length ≤ n → c.args.length ≤ i + fuel →
      (bindLoop B fuel c rs i).2.2 ≠ some .outOfFuel := by
  intro fuel
  induction fuel with
  | zero =>
    intro c rs i _ hlen
    rw [bindLoop]
    have : ¬ (i < c.args.length) := by omega
    rw [if_neg this]
    simp
  | succ fuel ih =>
    intro c rs i hn hlen
    rw [bindLoop]
    split
    · have hp := parseOneOption_total B c rs i
      split
      · rename_i c2 rs2 i2 e hr
        rw [hr] at hp
        exact hp.2.2 (fun child rs3 h => hB child rs3 (by omega))
      · rename_i c2 rs2 i2 hr
        rw [hr] at hp
        simp only at hp
        exact ih c2 rs2 (i2 + 1) (by omega) (by omega)
    · simp

theorem setEnvAndArgs_nofuel (env : Str → Option Str) (c : Screw) (id : Nat) :
    (setEnvAndArgs env c id).2 ≠ some .outOfFuel := by
  unfold setEnvAndArgs
  split
  · simp
  · simp only
    split
    · intro h
      exact fromWrite_ne_fuel (setValueAndIndex_err _ _ _ _ _ h) rfl
    · split
      · split
        · simp
        · split
          · simp
          · split
            · rename_i o e hsv
              intro h
              simp only [Option.some.injEq] at h
              exact fromWrite_ne_fuel (setValueAndIndex_err _ _ _ _ e (by rw [hsv])) h
            · simp
      · simp

theorem bindEnvAndArgsLoop_nofuel (env : Str → Option Str) :
    ∀ (ids : List Nat) (c : Screw), (bindEnvAndArgsLoop env ids c).2 ≠ some .outOfFuel := by
  intro ids
  induction ids with
  | nil => intro c; simp [bindEnvAndArgsLoop]
  | cons j ids ih =>
    intro c
    rw [bindEnvAndArgsLoop]
    have hs := setEnvAndArgs_nofuel env c j
    split
    · rename_i c2 e hr
      rw [hr] at hs
      exact hs
    · exact ih _

theorem bindStructDepth_total (env : Str → Option Str) :
    ∀ (d : Nat) (c : Screw) (rs : List Str), c.args.length < d →
      (bindStructDepth env d c rs).2.2 ≠ some .outOfFuel := by
  intro d
  induction d with
  | zero => intro c rs h; omega
  | succ d ih =>
    intro c rs hlen
    rw [bindStructDepth]
    have hl := bindLoop_total (bindStructDepth env d) c.args.length
      (fun child rs2 h => ih child rs2 (by omega)) c.args.length c rs 0 (Nat.le_refl _)
      (by omega)
    split
    · rename_i c2 rs2 e hr
      rw [hr] at hl
      exact hl
    · simp only [bindEnvAndArgs]
      exact bindEnvAndArgsLoop_nofuel env _ _

theorem bindStruct_total (env : Str → Option Str) (c : Screw) :
    (bindStruct env c).2 ≠ some .outOfFuel := by
  unfold bindStruct
  have h := bindStructDepth_total env (c.args.length + 1) c c.isSetSubcommand (by omega)
  split
  rename_i c2 rs2 e hr
  rw [hr] at h
  exact h

/-- C25: binding terminates on every argument vector and every registry.  The model
loops carry the iteration bounds that the source loops respect, and no bound is ever
reached: `bindStruct` never ends with the bound error, nor does the bind cycle of any
context whose nesting bound exceeds the length of its vector; the main loop needs no
more iterations than tokens remain.  `parseOneOption` returns a cursor that is not
smaller than on entry and an argument vector that is not longer (`findFallbackOpt`, called
after an advance to `k + 1`, returns at least `k`), whatever the child binder does; the
loops of `parseLong` and of `parseShort` need at most one iteration per remaining token
and return a cursor that is not smaller than on entry; and the vector handed to a
subcommand is strictly shorter than the vector of the dispatching context. -/
theorem C25_binding_terminates (env : Str → Option Str)
    (B : Screw → List Str → Screw × List Str × Option Err) (c : Screw) (rs : List Str)
    (i : Nat) :
    (bindStruct env c).2 ≠ some .outOfFuel
      ∧ (∀ d : Nat, c.args.length < d → (bindStructDepth env d c rs).2.2 ≠ some .outOfFuel)
      ∧ (∀ fuel : Nat, c.args.length ≤ i + fuel →
          (bindLoop (bindStructDepth env c.args.length) fuel c rs i).2.2 ≠ some .outOfFuel)
      ∧ i ≤ (parseOneOption B c rs i).2.2.1
      ∧ (parseOneOption B c rs i).1.args.length ≤ c.args.length
      ∧ (∀ (value : Str) (k : Nat), k ≤ (findFallbackOpt c value (k + 1)).2.1)
      ∧ (∀ (arg : Str) (id fuel : Nat), c.args.length ≤ i + fuel → 0 < fuel →
          (parseLongLoop arg id fuel c i).2.2 ≠ some .outOfFuel
            ∧ i ≤ (parseLongLoop arg id fuel c i).2.1)
      ∧ (∀ arg : Str, (parseLong c arg i).2.2 ≠ some .outOfFuel
            ∧ i ≤ (parseLong c arg i).2.1)
      ∧ (∀ (id : Nat) (isB findEqual : Bool) (fuel : Nat) (value : Str) (shortIndex : Nat),
          c.args.length ≤ i + fuel → 0 < fuel →
          (getchar id isB findEqual fuel c value shortIndex i).2.2.2 ≠ some .outOfFuel
            ∧ i ≤ (getchar id isB findEqual fuel c value shortIndex i).2.1)
      ∧ (∀ arg : Str, (parseShort c arg i).2.2 ≠ some .outOfFuel
            ∧ i ≤ (parseShort c arg i).2.1)
      ∧ (∀ s : Str, c.args[i]? = some s → (c.args.drop (i + 1)).length < c.args.length) := by
  refine ⟨bindStruct_total env c, fun d hd => bindStructDepth_total env d c rs hd, ?_,
    (parseOneOption_total B c rs i).1, (parseOneOption_total B c rs i).2.1, ?_, ?_, ?_, ?_,
    ?_, ?_⟩
  · intro fuel hf
    exact bindLoop_total (bindStructDepth env c.args.length) c.args.length
      (fun child rs2 h => bindStructDepth_total env _ child rs2 h) fuel c rs i
      (Nat.le_refl _) hf
  · intro value k
    rcases findFallbackOpt_cases c value (k + 1) with h | h | h <;> rw [h] <;> simp
  · intro arg id fuel hf hpos
    have h := parseLongLoop_total arg id fuel c i hf hpos
    exact ⟨fun he => fromWrite_ne_fuel (h.1 _ he) rfl, h.2.1⟩
  · intro arg
    exact ⟨(parseLong_total c arg i).1, (parseLong_total c arg i).2.1⟩
  · intro id isB findEqual fuel value shortIndex hf hpos
    have h := getchar_total id isB findEqual fuel c value shortIndex i hf hpos
    exact ⟨fun he => fromWrite_ne_fuel (h.1 _ he) rfl, h.2.1⟩
  · intro arg
    exact ⟨(parseShortRange_total arg arg 0 c i false).1,
      (parseShortRange_total arg arg 0 c i false).2.1⟩
  · intro s hs
    have hlt : i < c.args.length := (List.getElem?_eq_some_iff.mp hs).1
    simp only [List.length_drop]
    omega

theorem take_indexEq (s : Str) :
    s.take ((indexEq s).getD s.length) = s.takeWhile (fun a => a ≠ '=') := by
  induction s with
  | nil => rfl
  | cons a rest ih =>
    by_cases ha : a = '='
    · simp [indexEq, ha]
    · cases hi : indexEq rest with
      | none =>
        rw [hi] at ih
        simp only [Option.getD_none] at ih
        simp [indexEq, ha, hi, List.takeWhile_cons, ih]
      | some k =>
        rw [hi] at ih
        simp only [Option.getD_some] at ih
        simp [indexEq, ha, hi, List.takeWhile_cons, ih]

theorem indexEq_le (s : Str) : (indexEq s).getD s.length ≤ s.length := by
  induction s with
  | nil => simp [indexEq]
  | cons a rest ih =>
    by_cases ha : a = '='
    · simp [indexEq, ha]
    · cases hi : indexEq rest with
      | none => simp [indexEq, ha, hi]
      | some k =>
        rw [hi] at ih
        simp only [Option.getD_some] at ih
        simp [indexEq, ha, hi]
        omega

theorem isRegisterOptions_dash (c : Screw) (tok : Str) (hdash : hasDashPrefix tok = true) :
    isRegisterOptions c tok = some (c.isKey (fallbackName tok)) := by
  cases tok with
  | nil => simp [hasDashPrefix] at hdash
  | cons a r =>
    have ha : a = '-' := by simpa [hasDashPrefix] using hdash
    subst ha
    have h1 := take_indexEq r
    have hle := indexEq_le r
    cases r with
    | nil => simp [isRegisterOptions, indexEq, fallbackName, stripDashes]
    | cons b r2 =>
      by_cases hb : b = '-'
      · subst hb
        have h2 := take_indexEq r2
        have hle2 := indexEq_le r2
        cases hi : indexEq r2 with
        | none =>
          rw [hi] at h2
          simp only [Option.getD_none] at h2
          have hfn : fallbackName ('-' :: '-' :: r2) = r2.take r2.length := h2.symm
          rw [hfn]
          simp [isRegisterOptions, indexEq, hi]
        | some k =>
          rw [hi] at h2 hle2
          simp only [Option.getD_some] at h2 hle2
          have hfn : fallbackName ('-' :: '-' :: r2) = r2.take k := h2.symm
          rw [hfn]
          simp [isRegisterOptions, indexEq, hi]
      · have hs : stripDashes ('-' :: b :: r2) = b :: r2 := by
          unfold stripDashes
          split
          · rename_i heq
            simp only [List.cons.injEq, true_and] at heq
            exact absurd heq.1 hb
          · rename_i heq
            simp only [List.cons.injEq, true_and] at heq
            rw [heq]
          · rename_i h3
            exact absurd rfl (h3 (b :: r2))
        have hb2 : ¬ ('-' = b) := fun e => hb e.symm
        cases hi : indexEq (b :: r2) with
        | none =>
          rw [hi] at h1
          simp only [Option.getD_none] at h1
          have e1 : indexEq ('-' :: b :: r2) = none := by
            rw [indexEq]
            simp [hi]
          simp only [fallbackName, hs, ← h1]
          simp [isRegisterOptions, e1, hb, hb2]
        | some k =>
          rw [hi] at h1 hle
          simp only [Option.getD_some] at h1 hle
          have e1 : indexEq ('-' :: b :: r2) = some (k + 1) := by
            rw [indexEq]
            simp [hi]
          simp only [fallbackName, hs, ← h1]
          simp [isRegisterOptions, e1, hb, hb2]

theorem findFallbackOpt_dash (c : Screw) (tok : Str) (k : Nat)
    (hdash : hasDashPrefix tok = true) :
    findFallbackOpt c tok k
      = (c.isKey (fallbackName tok), if c.isKey (fallbackName tok) = true then k - 1 else k,
          none) := by
  unfold findFallbackOpt
  rw [if_pos hdash, isRegisterOptions_dash c tok hdash]
  cases c.isKey (fallbackName tok) <;> simp

theorem findFallbackOpt_plain (c : Screw) (tok : Str) (k : Nat)
    (h : hasDashPrefix tok = true → c.isKey (fallbackName tok) = false) :
    findFallbackOpt c tok k = (false, k, none) := by
  by_cases hdash : hasDashPrefix tok = true
  · rw [findFallbackOpt_dash c tok k hdash, h hdash]
    simp
  · simp [findFallbackOpt, hdash]

theorem parseLong_value_step (c : Screw) (name tok : Str) (i id : Nat) (o : Opt)
    (hreg : c.getOption name = some (id, o)) (hlen : name.length ≠ 1)
    (hnb : o.pointer.isBool = some false) (hnbs : o.pointer.isBoolSlice = some false)
    (hgreedy : o.greedy = false)
    (ht : c.args[i + 1]? = some tok)
    (hfb : findFallbackOpt c tok (i + 1) = (false, i + 1, none)) :
    parseLong c name i
      = match checkOnce name o with
        | some e => (c, i + 1, some e)
        | none => ((c.write id tok (i + 1) 0).1, i + 1, (c.write id tok (i + 1) 0).2) := by
  have hlt : i + 1 < c.args.length := (List.getElem?_eq_some_iff.mp ht).1
  have hnl : ¬ (c.args.length ≤ i + 1) := by omega
  have hget := getOption_get hreg
  obtain ⟨n, hn⟩ : ∃ n, c.args.length = n + 1 := ⟨c.args.length - 1, by omega⟩
  have hsh := (setValueAndIndex_shape tok o (i + 1) 0).2.1
  have hloop : parseLongLoop name id (n + 1) c i
      = match checkOnce name o with
        | some e => (c, i + 1, some e)
        | none => ((c.write id tok (i + 1) 0).1, i + 1, (c.write id tok (i + 1) 0).2) := by
    rw [parseLongLoop, write_eq tok (i + 1) 0 hget]
    cases hco : checkOnce name o with
    | some e => simp [hnl, ht, hfb, hget, hco]
    | none =>
      cases hsv : setValueAndIndex tok o (i + 1) 0 with
      | mk o2 e =>
        rw [hsv] at hsh
        simp only at hsh
        cases e <;> simp [hnl, ht, hfb, hget, hco, hsv, hsh, hgreedy]
  simp only [parseLong, hreg, hlen, if_false, setBool_other hnb hnbs, List.length_nil,
    gt_iff_lt, Nat.lt_irrefl, ge_iff_le, hnl, hn ▸ hloop]

theorem parseShort_value_step (c : Screw) (f : Char) (tok : Str) (i id : Nat) (o : Opt)
    (hreg : c.getOption [f] = some (id, o)) (h128 : f.toNat < 128)
    (hnb : o.pointer.isBool = some false) (hnbs : o.pointer.isBoolSlice = some false)
    (hgreedy : o.greedy = false)
    (ht : c.args[i + 1]? = some tok) (htne : tok ≠ [])
    (hfb : findFallbackOpt c tok (i + 1) = (false, i + 1, none)) :
    parseShort c [f] i
      = match checkOnce tok o with
        | some e => (c, i + 1, some e)
        | none => ((c.write id tok (i + 1) 0).1, i + 1, (c.write id tok (i + 1) 0).2) := by
  have hd2 : ¬ (128 ≤ f.toNat) := by omega
  have hget := getOption_get hreg
  have hlt : i + 1 < c.args.length := (List.getElem?_eq_some_iff.mp ht).1
  obtain ⟨n, hn⟩ : ∃ n, c.args.length = n + 1 := ⟨c.args.length - 1, by omega⟩
  have hse : shortEqual [f] 1 = some (false, 1) := by
    simp [shortEqual]
  have hl : 0 < tok.length := List.length_pos.mpr htne
  have hsh := (setValueAndIndex_shape tok o (i + 1) 0).2.1
  have hg : getchar id false false (c.args.length + 1) c [f] 1 i
      = match checkOnce tok o with
        | some e => (c, i + 1, .ret, some e)
        | none => ((c.write id tok (i + 1) 0).1, i + 1, .ret, (c.write id tok (i + 1) 0).2) := by
    rw [getchar_next id false false _ c [f] 1 i tok rfl ht hfb, hn,
      write_eq tok (i + 1) 0 hget, getchar]
    cases hco : checkOnce tok o with
    | some e => simp [hl, hget, hco]
    | none =>
      cases hsv : setValueAndIndex tok o (i + 1) 0 with
      | mk o2 e =>
        rw [hsv] at hsh
        simp only at hsh
        cases e <;> simp [hl, hget, hco, hsv, hsh, hgreedy]
  unfold parseShort
  rw [parseShortRange]
  simp only [ge_iff_le, hd2, if_false, hreg, hnb, hnbs, Bool.or_self, Bool.not_false, if_true,
    Nat.zero_add, hse, hg]
  cases hco : checkOnce tok o with
  | some e => rfl
  | none =>
    simp only
    cases (c.write id tok (i + 1) 0).2 <;> rfl

/-- C27: for every token that starts with `-`, `isRegisterOptions` takes a slice
within bounds (it never faults) and answers whether the whole text between the at most
two leading dashes and the first `=` is a key of the registry; `findFallbackOpt` then
never faults either, and rolls the cursor back by one exactly if the answer is yes.
Hence a dash-prefixed token whose text is no key (a bundle such as `-ab` without a key
`ab`, an attached value such as `-ofile`) that follows a registered option which is
neither boolean nor greedy, given as `--name` (not a single character) or `-f`, is not
rolled back: after the once check it is written to that option and the cursor ends on
it.  A greedy option that is not once-marked writes every such token of its run. -/
theorem C27_fallback_whole_text (c : Screw) (tok : Str) (i : Nat)
    (hdash : hasDashPrefix tok = true) :
    isRegisterOptions c tok = some (c.isKey (fallbackName tok))
      ∧ (∀ k : Nat, findFallbackOpt c tok k
          = (c.isKey (fallbackName tok),
              if c.isKey (fallbackName tok) = true then k - 1 else k, none))
      ∧ (c.isKey (fallbackName tok) = false → c.args[i + 1]? = some tok →
          (∀ (name : Str) (id : Nat) (o : Opt), c.getOption name = some (id, o) →
            o.pointer.isBool = some false → o.pointer.isBoolSlice = some false →
            o.greedy = false →
            (name.length ≠ 1 →
              parseLong c name i
                = (match checkOnce name o with
                   | some e => (c, i + 1, some e)
                   | none =>
                     ((c.write id tok (i + 1) 0).1, i + 1, (c.write id tok (i + 1) 0).2)))
            ∧ (∀ f : Char, name = [f] → f.toNat < 128 →
              parseShort c [f] i
                = (match checkOnce tok o with
                   | some e => (c, i + 1, some e)
                   | none =>
                     ((c.write id tok (i + 1) 0).1, i + 1, (c.write id tok (i + 1) 0).2)))))
      ∧ (∀ (ts : List Str) (f : Char) (id : Nat) (o : Opt),
          c.getOption [f] = some (id, o) → f.toNat < 128 →
          o.pointer.isBool = some false → o.pointer.isBoolSlice = some false →
          o.once = false → o.greedy = true →
          c.args.drop (i + 1) = ts →
          (∀ t ∈ ts, t ≠ [] ∧ (hasDashPrefix t = true → c.isKey (fallbackName t) = false)) →
          parseShort c [f] i = writeTokens id ts i c) := by
  refine ⟨isRegisterOptions_dash c tok hdash, fun k => findFallbackOpt_dash c tok k hdash,
    ?_, ?_⟩
  · intro hkey ht name id o hreg hnb hnbs hgreedy
    have hfb := findFallbackOpt_plain c tok (i + 1) (fun _ => hkey)
    have htne : tok ≠ [] := by
      intro e
      rw [e] at hdash
      simp [hasDashPrefix] at hdash
    refine ⟨fun hlen => parseLong_value_step c name tok i id o hreg hlen hnb hnbs hgreedy ht
      hfb, ?_⟩
    intro f hname h128
    subst hname
    exact parseShort_value_step c f tok i id o hreg h128 hnb hnbs hgreedy ht htne hfb
  · intro ts f id o hreg h128 hnb hnbs honce hgreedy hargs hts
    exact parseShort_greedy c f i id o ts [] hreg h128 hnb hnbs honce hgreedy
      (by simpa using hargs)
      (fun t ht => ⟨(hts t ht).1, fun k => findFallbackOpt_plain c t k (hts t ht).2⟩)
      (Or.inl rfl)

theorem C27_fallback_whole_text_witness :
    isRegisterOptions (exBundle ["-c".toList, "-ab".toList]) "-ab".toList = some false
      ∧ (bindStruct noEnv (exBundle ["-c".toList, "-ab".toList])).2 = none
      ∧ (bindStruct noEnv (exBundle ["-c".toList, "-ab".toList])).1.pointerOf "c".toList
          = some (.str "-ab".toList)
      ∧ (bindStruct noEnv (exBundle ["-c".toList, "-ab".toList])).1.pointerOf "a".toList
          = some (.bool false)
      ∧ (bindStruct noEnv (exBundle ["-c".toList, "-cfile".toList])).1.pointerOf "c".toList
          = some (.str "-cfile".toList)
      ∧ (bindStruct noEnv (exBundle ["-c".toList, "-a".toList])).1.pointerOf "c".toList
          = some (.str [])
      ∧ (bindStruct noEnv (exBundle ["-c".toList, "-a".toList])).1.pointerOf "a".toList
          = some (.bool true) :=
  ⟨(C27_fallback_whole_text (exBundle ["-c".toList, "-ab".toList]) "-ab".toList 0
      (by decide)).1,
    by decide, by decide, by decide, by decide, by decide, by decide⟩

/-- C21 (divergence): `parseTagAndSetOption` keeps a positional name off a descriptor
only when the `args=` clause comes after a short or long clause (lines 821-823).  The
directive `--name;args=x` registers `name` alone; but `args=x;--name` registers
successfully with the long name `name` and the positional name `x` on the same
descriptor, which is in the registry and in the env/positional list, and `--name;env=X`
likewise with the long name and the environment name `X`.  With `args=x;--name` the
vector `[--name, a, b]` writes `a` through the long name and then `b` as positional
value. -/
theorem C21_names_coexist :
    (parseTagAndSetOption exMissing (New []) "--name;args=x".toList [] [] "Name".toList
        (.str [])).2 = none
      ∧ (parseTagAndSetOption exMissing (New []) "--name;args=x".toList [] [] "Name".toList
          (.str [])).1.options.map (fun o => (o.showLong, o.argsName, o.envName))
          = [(["name".toList], [], [])]
      ∧ (parseTagAndSetOption exMissing (New []) "--name;args=x".toList [] [] "Name".toList
          (.str [])).1.envAndArgs = []
      ∧ (parseTagAndSetOption exMissing (New []) "args=x;--name".toList [] [] "Name".toList
          (.str [])).2 = none
      ∧ (parseTagAndSetOption exMissing (New []) "args=x;--name".toList [] [] "Name".toList
          (.str [])).1.options.map (fun o => (o.showLong, o.argsName, o.envName))
          = [(["name".toList], "x".toList, [])]
      ∧ (parseTagAndSetOption exMissing (New []) "args=x;--name".toList [] [] "Name".toList
          (.str [])).1.shortAndLong = [("name".toList, 0)]
      ∧ (parseTagAndSetOption exMissing (New []) "args=x;--name".toList [] [] "Name".toList
          (.str [])).1.envAndArgs = [0]
      ∧ (parseTagAndSetOption exMissing (New []) "--name;env=X".toList [] [] "Name".toList
          (.str [])).2 = none
      ∧ (parseTagAndSetOption exMissing (New []) "--name;env=X".toList [] [] "Name".toList
          (.str [])).1.options.map (fun o => (o.showLong, o.argsName, o.envName))
          = [(["name".toList], [], "X".toList)]
      ∧ (parseTagAndSetOption exMissing (New []) "--name;env=X".toList [] [] "Name".toList
          (.str [])).1.shortAndLong = [("name".toList, 0)]
      ∧ (parseTagAndSetOption exMissing (New []) "--name;env=X".toList [] [] "Name".toList
          (.str [])).1.envAndArgs = [0]
      ∧ (bindStruct noEnv (exArgsThenName ["--name".toList, "a".toList, "b".toList])).2 = none
      ∧ (bindStruct noEnv
            (exArgsThenName ["--name".toList, "a".toList, "b".toList])).1.pointerOf
              "name".toList = some (.str "b".toList) := by
  refine ⟨by decide, by decide, by decide, by decide, by decide, by decide, by decide,
    by decide, by decide, by decide, by decide, by decide, by decide⟩

theorem onceResetValue_mark (o : Opt) :
    (o.cmdSet = true → (onceResetValue o).1.cmdSet = true)
      ∧ ((onceResetValue o).2 = none → (onceResetValue o).1.cmdSet = true) := by
  unfold onceResetValue
  split
  · split
    · exact ⟨fun h => h, fun h => by simp at h⟩
    · split <;> exact ⟨fun _ => rfl, fun _ => rfl⟩
  · exact ⟨fun _ => rfl, fun _ => rfl⟩

theorem setValueAndIndex_mark (val : Str) (o : Opt) (index low : Nat) :
    (o.cmdSet = true → (setValueAndIndex val o index low).1.cmdSet = true)
      ∧ ((setValueAndIndex val o index low).2 = none →
          (setValueAndIndex val o index low).1.cmdSet = true) := by
  have h1 := onceResetValue_mark o
  unfold setValueAndIndex
  cases hr : onceResetValue o with
  | mk o1 e1 =>
    rw [hr] at h1
    simp only at h1
    cases e1 with
    | some e2 => exact ⟨h1.1, fun h => by simp at h⟩
    | none =>
      have hm : o1.cmdSet = true := h1.2 rfl
      simp only
      split
      · exact ⟨fun _ => hm, fun _ => hm⟩
      · exact ⟨fun _ => hm, fun _ => hm⟩

theorem marks_refl (c : Screw) : c.marksKept c :=
  fun _ o h => ⟨o, h, fun hm => hm⟩

theorem marks_trans {c1 c2 c3 : Screw} (h12 : c1.marksKept c2) (h23 : c2.marksKept c3) :
    c1.marksKept c3 := by
  intro id o h
  obtain ⟨o2, h2, m2⟩ := h12 id o h
  obtain ⟨o3, h3, m3⟩ := h23 id o2 h2
  exact ⟨o3, h3, fun hm => m3 (m2 hm)⟩

theorem marks_of_options (c c2 : Screw) (hopt : c2.options = c.options) : c.marksKept c2 := by
  intro id o h
  exact ⟨o, by rw [hopt]; exact h, fun hm => hm⟩

theorem marks_setOpt (j : Nat) (c : Screw) (oj o2 : Opt) (hj : c.options[j]? = some oj)
    (hm : oj.cmdSet = true → o2.cmdSet = true) : c.marksKept (c.setOpt j o2) := by
  intro id o h
  have hlt : j < c.options.length := (List.getElem?_eq_some_iff.mp hj).1
  by_cases hid : j = id
  · subst hid
    rw [hj] at h
    cases h
    exact ⟨o2, by simp [Screw.setOpt, List.getElem?_set_self hlt], hm⟩
  · exact ⟨o, by simp [Screw.setOpt, List.getElem?_set_ne hid, h], fun hm2 => hm2⟩

theorem marks_write_eq (j : Nat) (c : Screw) (oj o : Opt) (e : Option Err) (val : Str)
    (index low : Nat) (hj : c.options[j]? = some oj)
    (hsv : setValueAndIndex val oj index low = (o, e)) : c.marksKept (c.setOpt j o) := by
  have hm := (setValueAndIndex_mark val oj index low).1
  rw [hsv] at hm
  exact marks_setOpt j c oj o hj hm

theorem marks_write (j : Nat) (c : Screw) (oj : Opt) (val : Str) (index low : Nat)
    (hj : c.options[j]? = some oj) :
    c.marksKept (c.setOpt j (setValueAndIndex val oj index low).1) :=
  marks_setOpt j c oj _ hj (setValueAndIndex_mark val oj index low).1

theorem marks_addOption (c : Screw) (name : Str) (o2 : Opt) :
    c.marksKept (c.addOption name o2) := by
  intro id o h
  have hlt : id < c.options.length := (List.getElem?_eq_some_iff.mp h).1
  refine ⟨o, ?_, fun hm => hm⟩
  simp only [Screw.addOption]
  rw [List.getElem?_append_left hlt]
  exact h

theorem marks_maybeAdd (b : Bool) (c : Screw) (name : Str) (o2 : Opt) :
    c.marksKept (if b = true then c.addOption name o2 else c) := by
  cases b with
  | true => exact marks_addOption c name o2
  | false => exact marks_refl c

theorem genHelpMessage_marks (c : Screw) : c.marksKept (genHelpMessage c) := by
  unfold genHelpMessage
  exact marks_trans
    (marks_maybeAdd ((c.getOption "h".toList).isNone && (c.getOption "help".toList).isNone)
      c "h".toList helpOption)
    (marks_maybeAdd _ _ "v".toList versionOption)

theorem parseLongLoop_marks (arg : Str) (j : Nat) :
    ∀ (fuel : Nat) (c : Screw) (index : Nat),
      c.marksKept (parseLongLoop arg j fuel c index).1 := by
  intro fuel
  induction fuel with
  | zero => intro c index; exact marks_refl c
  | succ fuel ih =>
    intro c index
    rw [parseLongLoop]
    simp only
    split
    · exact marks_refl c
    · split
      · exact marks_refl c
      · exact marks_refl c
      · split
        · exact marks_refl c
        · rename_i option hopt
          split
          · exact marks_refl c
          · split
            · rename_i o e hsv
              exact marks_write_eq j c option _ _ _ _ _ hopt hsv
            · rename_i o hsv
              have hk := marks_write_eq j c option _ _ _ _ _ hopt hsv
              split
              · exact hk
              · exact marks_trans hk (ih _ _)

theorem parseLong_marks (c : Screw) (arg : Str) (index : Nat) :
    c.marksKept (parseLong c arg index).1 := by
  have hfound : ∀ (value : Str) (j : Nat) (o : Opt),
      (match c.getOption arg with
        | some (id, o) => (Except.ok ([], id, o) : Except Err (Str × Nat × Opt))
        | none => parseEqualValue c arg) = .ok (value, j, o) →
      c.options[j]? = some o := by
    intro value j o hf
    cases hg : c.getOption arg with
    | some p =>
      obtain ⟨j2, o2⟩ := p
      simp only [hg, Except.ok.injEq, Prod.mk.injEq] at hf
      obtain ⟨_, hj, ho⟩ := hf
      subst hj
      subst ho
      exact getOption_get hg
    | none =>
      simp only [hg, parseEqualValue] at hf
      cases hi : indexEq arg with
      | none => simp [hi] at hf
      | some pos =>
        simp only [hi] at hf
        cases hg2 : c.getOption (arg.take pos) with
        | none => simp [hg2] at hf
        | some p =>
          obtain ⟨j2, o2⟩ := p
          simp only [hg2, Except.ok.injEq, Prod.mk.injEq] at hf
          obtain ⟨_, hj, ho⟩ := hf
          subst hj
          subst ho
          exact getOption_get hg2
  unfold parseLong
  simp only
  split
  · exact marks_refl c
  · rename_i value j option hf
    have hopt := hfound value j option hf
    split
    · exact marks_refl c
    · split
      · exact marks_refl c
      · split
        · split
          · exact marks_refl c
          · exact marks_write j c option _ index 0 hopt
        · split
          · exact marks_refl c
          · exact parseLongLoop_marks arg j _ c index

theorem getchar_marks (j : Nat) (isB findEqual : Bool) :
    ∀ (fuel : Nat) (c : Screw) (value : Str) (shortIndex index : Nat),
      c.marksKept (getchar j isB findEqual fuel c value shortIndex index).1 := by
  intro fuel
  induction fuel with
  | zero => intro c value shortIndex index; exact marks_refl c
  | succ fuel ih =>
    intro c value shortIndex index
    have hnext : ∀ c2 : Screw,
        c2.marksKept
            (if index + 1 ≥ c2.args.length then (c2, index, Leave.ret, (none : Option Err))
              else
                match findFallbackOpt c2 (c2.args.getD (index + 1) []) (index + 1) with
                | (_, ix, some e) => (c2, ix, .ret, some e)
                | (true, ix, none) => (c2, ix, .ret, none)
                | (false, ix, none) =>
                  getchar j isB findEqual fuel c2 (c2.args.getD (index + 1) []) 0 ix).1 := by
      intro c2
      split
      · exact marks_refl c2
      · split
        · exact marks_refl c2
        · exact marks_refl c2
        · exact ih _ _ _ _
    rw [getchar]
    simp only
    split
    · split
      · exact marks_refl c
      · rename_i option hopt
        split
        · exact marks_refl c
        · split
          · rename_i o e hsv
            exact marks_write_eq j c option _ _ _ _ _ hopt hsv
          · rename_i o hsv
            have hk := marks_write_eq j c option _ _ _ _ _ hopt hsv
            split
            · exact hk
            · split
              · exact hk
              · split
                · exact hk
                · exact marks_trans hk (hnext (c.setOpt j o))
    · exact hnext c

theorem parseShortRange_marks (arg : Str) :
    ∀ (rest : List Char) (i : Nat) (c : Screw) (index : Nat) (find : Bool),
      c.marksKept (parseShortRange arg rest i c index find).1 := by
  intro rest
  induction rest with
  | nil =>
    intro i c index find
    rw [parseShortRange]
    split <;> exact marks_refl c
  | cons a rest ih =>
    intro i c index find
    rw [parseShortRange]
    split
    · exact marks_refl c
    · split
      · exact marks_refl c
      · rename_i j option hreg
        split
        · rename_i isBoolSlice isBool hbs hb
          simp only
          split
          · exact marks_refl c
          · rename_i findEqual shortIndex hse
            have hg := getchar_marks j (isBoolSlice || isBool) findEqual
              (c.args.length + 1) c arg shortIndex index
            split
            · rename_i c2 index2 lv e hgc
              rw [hgc] at hg
              exact hg
            · rename_i c2 index2 hgc
              rw [hgc] at hg
              exact hg
            · rename_i c2 index2 hgc
              rw [hgc] at hg
              exact marks_trans hg (ih (i + 1) c2 index2 true)
        · exact marks_refl c

theorem getOptionAndSet_marks (c : Screw) (arg : Str) (index k : Nat) :
    c.marksKept (getOptionAndSet c arg index k).1 := by
  have hprint : c.marksKept (printHelpMessage c) :=
    marks_trans (genHelpMessage_marks c) (marks_of_options _ _ rfl)
  unfold getOptionAndSet
  split
  · simp only [Usage]
    split <;> exact hprint
  · split
    · simp only [showVersion]
      split <;> exact marks_of_options _ _ rfl
    · split
      · exact parseLong_marks c arg index
      · split
        · exact parseShortRange_marks arg arg 0 c index false
        · exact marks_refl c

theorem parseOneOption_marks
    (B : Screw → List Str → Screw × List Str × Option Err) (c : Screw) (rs : List Str)
    (index : Nat) : c.marksKept (parseOneOption B c rs index).1 := by
  cases harg : c.args[index]? with
  | none => simp only [parseOneOption, harg]; exact marks_refl c
  | some s =>
    by_cases hlen : s.length = 0
    · simp only [parseOneOption, harg, hlen, if_true]
      exact marks_refl c
    by_cases hdash : s.head? ≠ some '-'
    · by_cases hpos : c.subcommand.length > 0
      · cases hsub : subGet s c.subcommand with
        | none =>
          by_cases hea : c.envAndArgs.length = 0
          · simp only [parseOneOption, harg, hlen, if_false, hdash, ne_eq, not_false_eq_true,
              not_true_eq_false, if_true, hpos, hsub, hea]
            exact marks_refl c
          · simp only [parseOneOption, harg, hlen, if_false, hdash, ne_eq, not_false_eq_true,
              not_true_eq_false, if_true, hpos, hsub, hea]
            exact marks_of_options _ _ (recordSubcommand_fields c rs s).1
        | some child =>
          have hf := recordSubcommand_fields c rs s
          simp only [parseOneOption, harg, hlen, if_false, hdash, ne_eq, not_false_eq_true,
            not_true_eq_false, if_true, hpos, hsub]
          generalize recordSubcommand c rs s = r at hf ⊢
          obtain ⟨c1, rs1⟩ := r
          simp only at hf ⊢
          split
          · apply marks_of_options
            simp only []
            split <;> split <;> simp [hf.1]
          · apply marks_of_options
            simp only [Screw.appendUnparsed]
            split <;> split <;> simp [hf.1]
      · simp only [parseOneOption, harg, hlen, if_false, hdash, ne_eq, not_false_eq_true,
          not_true_eq_false, if_true, hpos]
        exact marks_of_options _ _ rfl
    · have hdash : s.head? = some '-' := by simpa using hdash
      by_cases hone : s = "-".toList
      · simp only [parseOneOption, harg, hlen, if_false, hdash, ne_eq, not_true_eq_false,
          hone, if_true]
        exact marks_of_options _ _ rfl
      · simp only [parseOneOption, harg, hlen, if_false, hdash, ne_eq, not_true_eq_false, hone]
        exact getOptionAndSet_marks c _ index _

theorem bindLoop_marks (B : Screw → List Str → Screw × List Str × Option Err) :
    ∀ (fuel : Nat) (c : Screw) (rs : List Str) (i : Nat),
      c.marksKept (bindLoop B fuel c rs i).1 := by
  intro fuel
  induction fuel with
  | zero =>
    intro c rs i
    rw [bindLoop]
    split <;> exact marks_refl c
  | succ fuel ih =>
    intro c rs i
    rw [bindLoop]
    split
    · have hk := parseOneOption_marks B c rs i
      split
      · rename_i c2 rs2 i2 e hp
        rw [hp] at hk
        exact hk
      · rename_i c2 rs2 i2 hp
        rw [hp] at hk
        exact marks_trans hk (ih c2 rs2 (i2 + 1))
    · exact marks_refl c

theorem setArgsSlice_mark :
    ∀ (l : List unparsedArg) (o : Opt), o.cmdSet = true → (setArgsSlice l o).1.cmdSet = true := by
  intro l
  induction l with
  | nil => intro o h; exact h
  | cons v rest ih =>
    intro o h
    rw [setArgsSlice]
    split
    · exact ih _ ((setValueAndIndex_mark v.arg o v.index 0).1 h)
    · exact h

theorem setEnvAndArgs_marks (env : Str → Option Str) (c : Screw) (id : Nat) :
    c.marksKept (setEnvAndArgs env c id).1 := by
  unfold setEnvAndArgs
  split
  · exact marks_refl c
  · rename_i o hopt
    simp only
    split
    · exact marks_write id c o _ 0 0 hopt
    · split
      · split
        · exact marks_refl c
        · rename_i value rest hu
          split
          · exact marks_trans (marks_setOpt id c o _ hopt (setArgsSlice_mark _ o))
              (marks_of_options _ _ rfl)
          · split
            · rename_i o2 e hsv
              exact marks_write_eq id c o _ _ _ _ _ hopt hsv
            · rename_i o2 hsv
              exact marks_trans (marks_write_eq id c o _ _ _ _ _ hopt hsv)
                (marks_of_options _ _ rfl)
      · exact marks_refl c

theorem bindEnvAndArgsLoop_marks (env : Str → Option Str) :
    ∀ (ids : List Nat) (c : Screw), c.marksKept (bindEnvAndArgsLoop env ids c).1 := by
  intro ids
  induction ids with
  | nil => intro c; exact marks_refl c
  | cons j ids ih =>
    intro c
    rw [bindEnvAndArgsLoop]
    have hs := setEnvAndArgs_marks env c j
    split
    · rename_i c2 e hr
      rw [hr] at hs
      exact hs
    · rename_i c2 hr
      rw [hr] at hs
      exact marks_trans hs (ih c2)

theorem bindStructDepth_marks (env : Str → Option Str) (d : Nat) (c : Screw)
    (rs : List Str) : c.marksKept (bindStructDepth env d c rs).1 := by
  cases d with
  | zero => exact marks_refl c
  | succ d =>
    rw [bindStructDepth]
    have hl := bindLoop_marks (bindStructDepth env d) c.args.length c rs 0
    split
    · rename_i c2 rs2 e hr
      rw [hr] at hl
      exact hl
    · rename_i c2 rs2 hr
      rw [hr] at hl
      simp only [bindEnvAndArgs]
      exact marks_trans hl (bindEnvAndArgsLoop_marks env _ c2)

theorem bindStruct_marks (env : Str → Option Str) (c : Screw) :
    c.marksKept (bindStruct env c).1 := by
  unfold bindStruct
  have h := bindStructDepth_marks env (c.args.length + 1) c c.isSetSubcommand
  split
  rename_i c2 rs2 e hr
  rw [hr] at h
  exact h

theorem setValueAndIndex_first (val : Str) (o : Opt) (index low : Nat)
    (hdef : o.showDefValue ≠ []) (hz : o.pointer.IsZero = some false)
    (hset : o.cmdSet = false) :
    setValueAndIndex val o index low
      = if o.fn = true then
          ({ o with pointer := resetValue o.pointer, cmdSet := true,
                    index := orderKey index low, fnCalls := o.fnCalls ++ [val] }, none)
        else
          ({ o with pointer := (setBase val (resetValue o.pointer)).1, cmdSet := true,
                    index := orderKey index low }, (setBase val (resetValue o.pointer)).2) := by
  have hl : o.showDefValue.length > 0 := List.length_pos.mpr hdef
  cases hfn : o.fn <;> simp [setValueAndIndex, onceResetValue, hl, hz, hset, hfn]

theorem onceResetValue_marked (o : Opt) (hset : o.cmdSet = true) :
    onceResetValue o
      = (o, if o.showDefValue.length > 0 ∧ o.pointer.IsZero = none then some .panic else none) := by
  cases o with
  | mk pointer fn fnCalls usage showDefValue index envName argsName greedy once cmdSet
      showShort showLong =>
    simp only at hset
    subst hset
    unfold onceResetValue
    simp only
    by_cases hl : showDefValue.length > 0
    · cases hz : pointer.IsZero <;> simp [hl, hz]
    · simp [hl]

theorem setValueAndIndex_later (val : Str) (o : Opt) (index low : Nat)
    (hset : o.cmdSet = true) :
    (setValueAndIndex val o index low).1.cmdSet = true
      ∧ (setValueAndIndex val o index low).1.pointer
          = (if o.fn = true then o.pointer else (setBase val o.pointer).1)
      ∧ (o.pointer ≠ .invalid →
          (setValueAndIndex val o index low).2
            = (if o.fn = true then none else (setBase val o.pointer).2)) := by
  refine ⟨(setValueAndIndex_mark val o index low).1 hset, ?_, ?_⟩
  · unfold setValueAndIndex
    rw [onceResetValue_marked o hset]
    by_cases hp : o.showDefValue.length > 0 ∧ o.pointer.IsZero = none
    · have hinv : o.pointer = .invalid := by
        cases hq : o.pointer <;> simp [hq, Pointer.IsZero] at hp
        rfl
      rw [if_pos hp]
      cases hfn : o.fn <;> simp [hfn, hinv, setBase]
    · rw [if_neg hp]
      cases hfn : o.fn <;> simp [hfn]
  · intro hne
    unfold setValueAndIndex
    rw [onceResetValue_marked o hset]
    have hp : ¬ (o.showDefValue.length > 0 ∧ o.pointer.IsZero = none) := by
      intro h
      apply hne
      cases hq : o.pointer <;> simp [hq, Pointer.IsZero] at h
      rfl
    rw [if_neg hp]
    cases hfn : o.fn <;> simp [hfn]
theorem setValueAndIndex_seq_strs (val : Str) (o : Opt) (index low : Nat) (d : List Str)
    (hfn : o.fn = false) (hp : o.pointer = .strs d) :
    setValueAndIndex val o index low
      = ({ o with
           pointer := .strs ((if o.showDefValue ≠ [] ∧ d ≠ [] ∧ o.cmdSet = false then []
                              else d) ++ [val]),
           cmdSet := true, index := orderKey index low }, none) := by
  have hl : o.showDefValue.length > 0 ↔ o.showDefValue ≠ [] := List.length_pos
  by_cases hdef : o.showDefValue ≠ []
  · cases hd : d with
    | nil =>
      simp [setValueAndIndex, onceResetValue, hl.mpr hdef, hp, hd, Pointer.IsZero, hfn, setBase]
    | cons a d2 =>
      cases hset : o.cmdSet <;>
        simp [setValueAndIndex, onceResetValue, hl.mpr hdef, hp, hd, Pointer.IsZero, hfn,
          setBase, hset, resetValue, hdef]
  · have hl2 : ¬ (o.showDefValue.length > 0) := fun h => hdef (hl.mp h)
    simp [setValueAndIndex, onceResetValue, hl2, hp, hfn, setBase, hdef]

theorem writeAll_strs_later :
    ∀ (vs : List (Str × Nat × Nat)) (o : Opt) (d : List Str),
      o.fn = false → o.cmdSet = true → o.pointer = .strs d →
      (writeAll vs o).2 = none
        ∧ (writeAll vs o).1.pointer = .strs (d ++ vs.map (fun v => v.1)) := by
  intro vs
  induction vs with
  | nil => intro o d _ _ hp; simp [writeAll, hp]
  | cons v rest ih =>
    intro o d hfn hset hp
    rw [writeAll, setValueAndIndex_seq_strs v.1 o v.2.1 v.2.2 d hfn hp]
    simp only
    have h := ih { o with
        pointer := .strs ((if o.showDefValue ≠ [] ∧ d ≠ [] ∧ o.cmdSet = false then []
                              else d) ++ [v.1]),
        cmdSet := true, index := orderKey v.2.1 v.2.2 } (d ++ [v.1]) hfn rfl
      (by simp [hset])
    simpa using h

theorem writeAll_strs (vs : List (Str × Nat × Nat)) (o : Opt) (d : List Str)
    (hfn : o.fn = false) (hdef : o.showDefValue ≠ []) (hset : o.cmdSet = false)
    (hvs : vs ≠ []) (hp : o.pointer = .strs d) :
    (writeAll vs o).2 = none ∧ (writeAll vs o).1.pointer = .strs (vs.map (fun v => v.1)) := by
  cases vs with
  | nil => exact absurd rfl hvs
  | cons v rest =>
    rw [writeAll, setValueAndIndex_seq_strs v.1 o v.2.1 v.2.2 d hfn hp]
    simp only
    have h := writeAll_strs_later rest { o with
        pointer := .strs ((if o.showDefValue ≠ [] ∧ d ≠ [] ∧ o.cmdSet = false then []
                              else d) ++ [v.1]),
        cmdSet := true, index := orderKey v.2.1 v.2.2 } [v.1] hfn rfl
      (by by_cases hd : d = [] <;> simp [hset, hdef, hd])
    simpa using h
theorem setValueAndIndex_seq_ints (val : Str) (o : Opt) (index low : Nat) (d : List Int)
    (n : Int) (hfn : o.fn = false) (hp : o.pointer = .ints d) (hv : parseInt val = some n) :
    setValueAndIndex val o index low
      = ({ o with
           pointer := .ints ((if o.showDefValue ≠ [] ∧ d ≠ [] ∧ o.cmdSet = false then []
                              else d) ++ [n]),
           cmdSet := true, index := orderKey index low }, none) := by
  have hl : o.showDefValue.length > 0 ↔ o.showDefValue ≠ [] := List.length_pos
  by_cases hdef : o.showDefValue ≠ []
  · cases hd : d with
    | nil =>
      simp [setValueAndIndex, onceResetValue, hl.mpr hdef, hp, hd, Pointer.IsZero, hfn, setBase,
        hv]
    | cons a d2 =>
      cases hset : o.cmdSet <;>
        simp [setValueAndIndex, onceResetValue, hl.mpr hdef, hp, hd, Pointer.IsZero, hfn,
          setBase, hset, resetValue, hdef, hv]
  · have hl2 : ¬ (o.showDefValue.length > 0) := fun h => hdef (hl.mp h)
    simp [setValueAndIndex, onceResetValue, hl2, hp, hfn, setBase, hdef, hv]

theorem writeAll_ints_later :
    ∀ (vs : List (Str × Nat × Nat)) (o : Opt) (d : List Int),
      o.fn = false → o.cmdSet = true → o.pointer = .ints d →
      (∀ v ∈ vs, (parseInt v.1).isSome = true) →
      (writeAll vs o).2 = none
        ∧ (writeAll vs o).1.pointer = .ints (d ++ vs.filterMap (fun v => parseInt v.1)) := by
  intro vs
  induction vs with
  | nil => intro o d _ _ hp _; simp [writeAll, hp]
  | cons v rest ih =>
    intro o d hfn hset hp hall
    obtain ⟨n, hn⟩ := Option.isSome_iff_exists.mp (hall v (List.mem_cons_self v rest))
    rw [writeAll, setValueAndIndex_seq_ints v.1 o v.2.1 v.2.2 d n hfn hp hn]
    simp only
    have h := ih { o with
        pointer := .ints ((if o.showDefValue ≠ [] ∧ d ≠ [] ∧ o.cmdSet = false then []
                              else d) ++ [n]),
        cmdSet := true, index := orderKey v.2.1 v.2.2 } (d ++ [n]) hfn rfl
      (by simp [hset]) (fun w hw => hall w (List.mem_cons_of_mem v hw))
    simpa [List.filterMap_cons, hn] using h

theorem writeAll_ints (vs : List (Str × Nat × Nat)) (o : Opt) (d : List Int)
    (hfn : o.fn = false) (hdef : o.showDefValue ≠ []) (hset : o.cmdSet = false)
    (hvs : vs ≠ []) (hp : o.pointer = .ints d)
    (hall : ∀ v ∈ vs, (parseInt v.1).isSome = true) :
    (writeAll vs o).2 = none
      ∧ (writeAll vs o).1.pointer = .ints (vs.filterMap (fun v => parseInt v.1)) := by
  cases vs with
  | nil => exact absurd rfl hvs
  | cons v rest =>
    obtain ⟨n, hn⟩ := Option.isSome_iff_exists.mp (hall v (List.mem_cons_self v rest))
    rw [writeAll, setValueAndIndex_seq_ints v.1 o v.2.1 v.2.2 d n hfn hp hn]
    simp only
    have h := writeAll_ints_later rest { o with
        pointer := .ints ((if o.showDefValue ≠ [] ∧ d ≠ [] ∧ o.cmdSet = false then []
                              else d) ++ [n]),
        cmdSet := true, index := orderKey v.2.1 v.2.2 } [n] hfn rfl
      (by by_cases hd : d = [] <;> simp [hset, hdef, hd])
      (fun w hw => hall w (List.mem_cons_of_mem v hw))
    simpa [List.filterMap_cons, hn] using h

theorem setValueAndIndex_seq_bools (val : Str) (o : Opt) (index low : Nat) (d : List Bool)
    (n : Bool) (hfn : o.fn = false) (hp : o.pointer = .bools d) (hv : parseBool val = some n) :
    setValueAndIndex val o index low
      = ({ o with
           pointer := .bools ((if o.showDefValue ≠ [] ∧ d ≠ [] ∧ o.cmdSet = false then []
                              else d) ++ [n]),
           cmdSet := true, index := orderKey index low }, none) := by
  have hl : o.showDefValue.length > 0 ↔ o.showDefValue ≠ [] := List.length_pos
  by_cases hdef : o.showDefValue ≠ []
  · cases hd : d with
    | nil =>
      simp [setValueAndIndex, onceResetValue, hl.mpr hdef, hp, hd, Pointer.IsZero, hfn, setBase,
        hv]
    | cons a d2 =>
      cases hset : o.cmdSet <;>
        simp [setValueAndIndex, onceResetValue, hl.mpr hdef, hp, hd, Pointer.IsZero, hfn,
          setBase, hset, resetValue, hdef, hv]
  · have hl2 : ¬ (o.showDefValue.length > 0) := fun h => hdef (hl.mp h)
    simp [setValueAndIndex, onceResetValue, hl2, hp, hfn, setBase, hdef, hv]

theorem writeAll_bools_later :
    ∀ (vs : List (Str × Nat × Nat)) (o : Opt) (d : List Bool),
      o.fn = false → o.cmdSet = true → o.pointer = .bools d →
      (∀ v ∈ vs, (parseBool v.1).isSome = true) →
      (writeAll vs o).2 = none
        ∧ (writeAll vs o).1.pointer = .bools (d ++ vs.filterMap (fun v => parseBool v.1)) := by
  intro vs
  induction vs with
  | nil => intro o d _ _ hp _; simp [writeAll, hp]
  | cons v rest ih =>
    intro o d hfn hset hp hall
    obtain ⟨n, hn⟩ := Option.isSome_iff_exists.mp (hall v (List.mem_cons_self v rest))
    rw [writeAll, setValueAndIndex_seq_bools v.1 o v.2.1 v.2.2 d n hfn hp hn]
    simp only
    have h := ih { o with
        pointer := .bools ((if o.showDefValue ≠ [] ∧ d ≠ [] ∧ o.cmdSet = false then []
                              else d) ++ [n]),
        cmdSet := true, index := orderKey v.2.1 v.2.2 } (d ++ [n]) hfn rfl
      (by simp [hset]) (fun w hw => hall w (List.mem_cons_of_mem v hw))
    simpa [List.filterMap_cons, hn] using h

theorem writeAll_bools (vs : List (Str × Nat × Nat)) (o : Opt) (d : List Bool)
    (hfn : o.fn = false) (hdef : o.showDefValue ≠ []) (hset : o.cmdSet = false)
    (hvs : vs ≠ []) (hp : o.pointer = .bools d)
    (hall : ∀ v ∈ vs, (parseBool v.1).isSome = true) :
    (writeAll vs o).2 = none
      ∧ (writeAll vs o).1.pointer = .bools (vs.filterMap (fun v => parseBool v.1)) := by
  cases vs with
  | nil => exact absurd rfl hvs
  | cons v rest =>
    obtain ⟨n, hn⟩ := Option.isSome_iff_exists.mp (hall v (List.mem_cons_self v rest))
    rw [writeAll, setValueAndIndex_seq_bools v.1 o v.2.1 v.2.2 d n hfn hp hn]
    simp only
    have h := writeAll_bools_later rest { o with
        pointer := .bools ((if o.showDefValue ≠ [] ∧ d ≠ [] ∧ o.cmdSet = false then []
                              else d) ++ [n]),
        cmdSet := true, index := orderKey v.2.1 v.2.2 } [n] hfn rfl
      (by by_cases hd : d = [] <;> simp [hset, hdef, hd])
      (fun w hw => hall w (List.mem_cons_of_mem v hw))
    simpa [List.filterMap_cons, hn] using h

theorem setValueAndIndex_callback (val : Str) (o : Opt) (index low : Nat)
    (hfn : o.fn = true) (hset : o.cmdSet = true) (hp : o.pointer ≠ .invalid) :
    setValueAndIndex val o index low
      = ({ o with index := orderKey index low, fnCalls := o.fnCalls ++ [val] }, none) := by
  have hq : ¬ (o.showDefValue.length > 0 ∧ o.pointer.IsZero = none) := by
    intro h
    apply hp
    cases hq : o.pointer <;> simp [hq, Pointer.IsZero] at h
    rfl
  unfold setValueAndIndex
  rw [onceResetValue_marked o hset, if_neg hq]
  simp [hfn]

theorem writeAll_callback_later :
    ∀ (vs : List (Str × Nat × Nat)) (o : Opt),
      o.fn = true → o.cmdSet = true → o.pointer ≠ .invalid →
      (writeAll vs o).2 = none ∧ (writeAll vs o).1.pointer = o.pointer
        ∧ (writeAll vs o).1.fnCalls = o.fnCalls ++ vs.map (fun v => v.1) := by
  intro vs
  induction vs with
  | nil => intro o _ _ _; simp [writeAll]
  | cons v rest ih =>
    intro o hfn hset hp
    rw [writeAll, setValueAndIndex_callback v.1 o v.2.1 v.2.2 hfn hset hp]
    simp only
    have h := ih { o with index := orderKey v.2.1 v.2.2, fnCalls := o.fnCalls ++ [v.1] }
      hfn hset hp
    simpa using h

theorem writeAll_callback (vs : List (Str × Nat × Nat)) (o : Opt)
    (hfn : o.fn = true) (hdef : o.showDefValue ≠ []) (hset : o.cmdSet = false)
    (hvs : vs ≠ []) (hz : o.pointer.IsZero = some false) :
    (writeAll vs o).2 = none ∧ (writeAll vs o).1.pointer = resetValue o.pointer
      ∧ (writeAll vs o).1.fnCalls = o.fnCalls ++ vs.map (fun v => v.1) := by
  cases vs with
  | nil => exact absurd rfl hvs
  | cons v rest =>
    rw [writeAll, setValueAndIndex_first v.1 o v.2.1 v.2.2 hdef hz hset, if_pos hfn]
    simp only
    have hne : resetValue o.pointer ≠ .invalid := by
      cases hq : o.pointer <;> simp [hq, Pointer.IsZero, resetValue] at hz ⊢
    have h := writeAll_callback_later rest { o with
        pointer := resetValue o.pointer, cmdSet := true, index := orderKey v.2.1 v.2.2,
        fnCalls := o.fnCalls ++ [v.1] } hfn rfl hne
    simpa using h

/-- Counterexample to C23 as stated: the field `Header []string` holds its declared
default `x`.  With the directive `-H;--header;callback`, binding `-H a --header b`
returns no error, resets the destination at the first write and hands `a` and `b` to the
callback: the destination ends empty, not as `[a, b]`.  With the directive `-H;env=HDR`
and the variable `HDR` set to `e`, binding `-H a -H b` leaves `[a, b, e]`: the write of
the environment value follows those of the command line. -/
theorem C23_counterexample :
    (exHeadersCallback []).options.map (fun o => (o.showDefValue, o.pointer, o.fn, o.cmdSet))
        = [("x".toList, .strs ["x".toList], true, false)]
      ∧ (bindStruct noEnv (exHeadersCallback
            ["-H".toList, "a".toList, "--header".toList, "b".toList])).2 = none
      ∧ (bindStruct noEnv (exHeadersCallback
            ["-H".toList, "a".toList, "--header".toList, "b".toList])).1.options.map
          (fun o => (o.pointer, o.fnCalls, o.cmdSet))
          = [(.strs [], ["a".toList, "b".toList], true)]
      ∧ (exHeadersEnv []).options.map
          (fun o => (o.showDefValue, o.pointer, o.fn, o.cmdSet, o.envName))
          = [("x".toList, .strs ["x".toList], false, false, "HDR".toList)]
      ∧ (bindStruct (envOf [("HDR".toList, "e".toList)]) (exHeadersEnv
            ["-H".toList, "a".toList, "-H".toList, "b".toList])).2 = none
      ∧ (bindStruct (envOf [("HDR".toList, "e".toList)]) (exHeadersEnv
            ["-H".toList, "a".toList, "-H".toList, "b".toList])).1.options.map
          (fun o => o.pointer) = [.strs ["a".toList, "b".toList, "e".toList]] :=
  ⟨by decide, by decide, by decide, by decide, by decide, by decide⟩

theorem spaceWidth_le (s : Str) : spaceWidth s ≤ s.length := by
  unfold spaceWidth
  split
  · simp
  · split
    · simp
    · split
      · simp
      · split
        · simp
        · split
          · simp
          · split <;> simp

theorem spaceWidthEnd_le (s : Str) : spaceWidthEnd s ≤ s.length := by
  unfold spaceWidthEnd
  split
  · simp
  · split
    · simp
    · split
      · simp
      · split
        · simp
        · split
          · simp
          · split <;> simp

theorem dropSpaces_done (width : Str → Nat) (hw : ∀ t, width t ≤ t.length) :
    ∀ (fuel : Nat) (s : Str), s.length ≤ fuel → width (dropSpaces width fuel s) = 0 := by
  intro fuel
  induction fuel with
  | zero =>
    intro s hs
    have := hw s
    simp only [dropSpaces]
    omega
  | succ fuel ih =>
    intro s hs
    rw [dropSpaces]
    split
    · assumption
    · rename_i hne
      apply ih
      simp only [List.length_drop]
      omega

theorem dropSpaces_length (width : Str → Nat) :
    ∀ (fuel : Nat) (s : Str), (dropSpaces width fuel s).length ≤ s.length := by
  intro fuel
  induction fuel with
  | zero => intro s; exact Nat.le_refl _
  | succ fuel ih =>
    intro s
    rw [dropSpaces]
    split
    · exact Nat.le_refl _
    · exact Nat.le_trans (ih _) (by simp)

theorem trimSpace_done (s : Str) :
    spaceWidthEnd (trimSpace s).reverse = 0 := by
  unfold trimSpace
  rw [List.reverse_reverse]
  exact dropSpaces_done spaceWidthEnd spaceWidthEnd_le _ _
    (by simpa using dropSpaces_length spaceWidth s.length s)

theorem registerCore_default_rejected (h : Missing) (c : Screw) (p : Pointer)
    (sf : StructField) (e : Err) (hlen : (trimSpace sf.defVal).length > 0)
    (hrej : (h.setDefaultValue (trimSpace sf.defVal) p).2 = some e) :
    registerCore h c (.basic p) sf = (c, some e) := by
  simp only [registerCore, registerBasic, hlen, if_true]
  cases hr : h.setDefaultValue (trimSpace sf.defVal) p with
  | mk p2 e2 =>
    rw [hr] at hrej
    simp only at hrej
    subst hrej
    rfl

/-- Counterexample to C15 as stated: the single field `N int` with the directive `-n`
declares one non-empty legal name, yet with the default `abc` schema construction into
the empty context fails: the default is applied before any name is registered (lines
870-876), the coercion rejects it, and the registry stays empty.  Whatever
`setDefaultValue` is, a default that it rejects makes `registerCore` return that error
with the context unchanged. -/
theorem C15_counterexample :
    (∀ f ∈ exBadDefault, f.clauses ≠ [])
      ∧ (∀ f ∈ exBadDefault, ∀ cl ∈ f.clauses, cl.wellFormed = true)
      ∧ (declaredNames exBadDefault).Nodup
      ∧ (exBadDefault.map NamedField.toField).map (fun p => (p.1.tag, p.1.defVal))
          = [("-n".toList, "abc".toList)]
      ∧ (register exMissing (New []) (.struct [] (exBadDefault.map NamedField.toField))).2
          = some (.coercion "abc".toList)
      ∧ (register exMissing (New [])
            (.struct [] (exBadDefault.map NamedField.toField))).1.shortAndLong = []
      ∧ (register exMissing (New [])
            (.struct [] (exBadDefault.map NamedField.toField))).1.options = []
      ∧ (∀ (h : Missing) (c : Screw) (e : Err),
          (h.setDefaultValue "abc".toList (.int 0)).2 = some e →
          registerCore h c (.basic (.int 0))
              { name := "N".toList, tag := "-n".toList, usage := [], defVal := "abc".toList,
                visited := true } = (c, some e)) := by
  refine ⟨by decide, by decide, by decide, by decide, by decide, by decide, by decide, ?_⟩
  intro h c e he
  have ht : trimSpace "abc".toList = "abc".toList := by decide
  exact registerCore_default_rejected h c (.int 0) _ e (by simp only [ht]; decide)
    (by simp only [ht]; exact he)

theorem setValueAndIndex_bool_calls {o : Opt} {b : Bool} (val : Str) (index low : Nat)
    (hp : o.pointer = .bool b) (hfn : o.fn = true) :
    (setValueAndIndex val o index low).1.fnCalls = o.fnCalls ++ [val] := by
  unfold setValueAndIndex onceResetValue
  by_cases hd : o.showDefValue.length > 0 <;> by_cases hz : (b && !o.cmdSet) = true <;>
    simp [hd, hp, Pointer.IsZero, hz, hfn]

theorem boolWritten_setOpt (c : Screw) (name : Str) (id : Nat) (o : Opt) (b v : Bool)
    (val : Str) (index low : Nat)
    (hreg : c.getOption name = some (id, o)) (hp : o.pointer = .bool b)
    (hval : parseBool val = some v) :
    c.boolWritten (c.setOpt id (setValueAndIndex val o index low).1) name id o val v := by
  refine ⟨rfl, rfl, ?_, ?_, ?_⟩
  · intro j hj
    simp [Screw.setOpt, List.getElem?_set_ne (Ne.symm hj)]
  · intro hfn
    simp [Screw.pointerOf, getOption_setOpt hreg,
      (setValueAndIndex_bool (o := o) (b := b) (v := v) val index low hp hval).2 hfn]
  · intro hfn
    simp [getOption_setOpt hreg, setValueAndIndex_bool_calls val index low hp hfn]

/-- Claim C2: in a registry of legal names, let `name` be registered for the boolean
descriptor `o` that is not once-marked.  If `name` is the single character `d` (other
than `-`), `parseOneOption` on the token `-d` performs exactly the write of `true` and
on the token `-d=false` exactly the write of `false`; if `name` has two or more
characters, `parseOneOption` on the token `--name` performs exactly the write of `true`
and on the token `--name=false` exactly the write of `false`.  In all four cases no
error is returned, the cursor stays on the token and the argument vector is unchanged,
so that the token that follows is not consumed, whatever it is; the destination found
under `name` in the returned context holds `true`, respectively `false` (with a
callback, the callback has received the text instead); and no other descriptor is
touched. -/
theorem C2_boolean_own_token (bc : Screw → List Str → Screw × List Str × Option Err)
    (c : Screw) (rs : List Str) (index : Nat) (name : Str) (id : Nat) (o : Opt) (b : Bool)
    (hlegal : c.legalNames = true) (hreg : c.getOption name = some (id, o))
    (hp : o.pointer = .bool b) (honce : o.once = false) :
    (∀ d : Char, name = [d] → d ≠ '-' →
        (c.args[index]? = some ['-', d] →
          parseOneOption bc c rs index
              = (c.setOpt id (setValueAndIndex "true".toList o index 0).1, rs, index, none)
            ∧ c.boolWritten (parseOneOption bc c rs index).1 name id o "true".toList true)
        ∧ (c.args[index]? = some ('-' :: d :: "=false".toList) →
          parseOneOption bc c rs index
              = (c.setOpt id (setValueAndIndex "false".toList o index 2).1, rs, index, none)
            ∧ c.boolWritten (parseOneOption bc c rs index).1 name id o "false".toList false))
      ∧ (2 ≤ name.length →
        (c.args[index]? = some ('-' :: '-' :: name) →
          parseOneOption bc c rs index
              = (c.setOpt id (setValueAndIndex "true".toList o index 0).1, rs, index, none)
            ∧ c.boolWritten (parseOneOption bc c rs index).1 name id o "true".toList true)
        ∧ (c.args[index]? = some ('-' :: '-' :: (name ++ "=false".toList)) →
          parseOneOption bc c rs index
              = (c.setOpt id (setValueAndIndex "false".toList o index 0).1, rs, index, none)
            ∧ c.boolWritten (parseOneOption bc c rs index).1 name id o "false".toList
                false)) := by
  have hkey := getOption_isKey hreg
  have efalse : "=false".toList = '=' :: "false".toList := rfl
  rw [efalse]
  have hobs : ∀ (val : Str) (v : Bool) (low : Nat), parseBool val = some v →
      parseOneOption bc c rs index
          = (c.setOpt id (setValueAndIndex val o index low).1, rs, index, none) →
      parseOneOption bc c rs index
          = (c.setOpt id (setValueAndIndex val o index low).1, rs, index, none)
        ∧ c.boolWritten (parseOneOption bc c rs index).1 name id o val v := by
    intro val v low hval he
    refine ⟨he, ?_⟩
    rw [he]
    exact boolWritten_setOpt c name id o b v val index low hreg hp hval
  constructor
  · intro d hname hd
    subst hname
    have hdb : isNameByte d = true := legal_forall (isKey_legal hlegal hkey) d (by simp)
    have hlt : d.toNat < 128 := isNameByte_lt hdb
    have hde : d ≠ '=' := isNameByte_ne_eq hdb
    constructor
    · intro h
      apply hobs _ true 0 (by decide)
      rw [parseOneOption_short bc c rs index d [] h hd, getOptionAndSet_short_key c [d] _ hkey,
        parseShort_bool_bare c d index id o b hreg hlt hp honce]
    · intro h
      apply hobs _ false 2 (by decide)
      rw [parseOneOption_short bc c rs index d _ h hd,
        getOptionAndSet_short_eq c _ _ (by simp),
        parseShort_bool_eq c d "false".toList index id o b hreg hlt hde (by decide) hp honce,
        (setValueAndIndex_bool (o := o) (v := false) "false".toList index 2 hp
          (by decide)).1]
  · intro hlen
    have hfl : name.length ≠ 1 := by omega
    have hneq : '=' ∉ name := legal_no_eq (isKey_legal hlegal hkey)
    constructor
    · intro h
      apply hobs _ true 0 (by decide)
      rw [parseOneOption_long bc c rs index name h, getOptionAndSet_long_key c name _ hkey,
        parseLong_bool_bare c name index id o b hreg hfl hp honce]
    · intro h
      apply hobs _ false 0 (by decide)
      have honce2 : ∀ id2 o2, c.getOption name = some (id2, o2) → o2.once = false := by
        intro id2 o2 hr
        rw [hreg] at hr
        cases hr
        exact honce
      rw [parseOneOption_long bc c rs index _ h,
        getOptionAndSet_long_eq c _ _ (by simp),
        parseLong_eq_write c name "false".toList index hlegal hneq (by decide) honce2]
      simp only [hreg, write_eq _ index 0 (getOption_get hreg),
        (setValueAndIndex_bool (o := o) (v := false) "false".toList index 0 hp
          (by decide)).1]

/-- Witness for C2: the four forms on registries whose destination holds the other
value.  In `exBundle`, which has one-character names only, the token `-a` before `x`
sets `a` and leaves the cursor on the token; in `exDebug` the token `--debug` before
`x` sets the flag; in `exDebugOn`, where the destination holds its default `true`, the
tokens `-d=false` and `--debug=false` leave `false`. -/
theorem C2_boolean_own_token_witness :
    ((parseOneOption noChild (exBundle ["-a".toList, "x".toList]) [] 0).2 = ([], 0, none)
        ∧ (parseOneOption noChild (exBundle ["-a".toList, "x".toList]) [] 0).1.pointerOf
            "a".toList = some (.bool true))
      ∧ ((parseOneOption noChild (exDebug ["--debug".toList, "x".toList]) [] 0).2
            = ([], 0, none)
        ∧ (parseOneOption noChild (exDebug ["--debug".toList, "x".toList]) [] 0).1.pointerOf
            "debug".toList = some (.bool true))
      ∧ ((parseOneOption noChild (exDebugOn ["-d=false".toList, "x".toList]) [] 0).2
            = ([], 0, none)
        ∧ (parseOneOption noChild (exDebugOn ["-d=false".toList, "x".toList]) [] 0).1.pointerOf
            "d".toList = some (.bool false))
      ∧ ((parseOneOption noChild (exDebugOn ["y".toList, "--debug=false".toList]) [] 1).2
            = ([], 1, none)
        ∧ (parseOneOption noChild
            (exDebugOn ["y".toList, "--debug=false".toList]) [] 1).1.pointerOf
            "debug".toList = some (.bool false))
      ∧ (bindStruct noEnv (exBundle ["-a".toList, "x".toList])).1.options.map
          (fun o => o.pointer) = [.bool true, .bool false, .str []]
      ∧ (bindStruct noEnv (exDebugOn ["--debug=false".toList, "x".toList])).1.options.map
          (fun o => o.pointer) = [.bool false] :=
  ⟨(fun h => ⟨congrArg Prod.snd h.1, h.2.2.2.2.1 rfl⟩)
      (((C2_boolean_own_token noChild (exBundle ["-a".toList, "x".toList]) [] 0 "a".toList 0
        { newOption [] (.bool false) [] with showShort := ["a".toList] } false
        (by decide) (by decide) rfl rfl).1 'a' rfl (by decide)).1 (by decide)),
    (fun h => ⟨congrArg Prod.snd h.1, h.2.2.2.2.1 rfl⟩)
      (((C2_boolean_own_token noChild (exDebug ["--debug".toList, "x".toList]) [] 0
        "debug".toList 0 exDebugOption false
        (by decide) (by decide) rfl rfl).2 (by decide)).1 (by decide)),
    (fun h => ⟨congrArg Prod.snd h.1, h.2.2.2.2.1 rfl⟩)
      (((C2_boolean_own_token noChild (exDebugOn ["-d=false".toList, "x".toList]) [] 0
        "d".toList 0
        { newOption [] (.bool true) "true".toList with
          showShort := ["d".toList], showLong := ["debug".toList] } true
        (by decide) (by decide) rfl rfl).1 'd' rfl (by decide)).2 (by decide)),
    (fun h => ⟨congrArg Prod.snd h.1, h.2.2.2.2.1 rfl⟩)
      (((C2_boolean_own_token noChild (exDebugOn ["y".toList, "--debug=false".toList]) [] 1
        "debug".toList 0
        { newOption [] (.bool true) "true".toList with
          showShort := ["d".toList], showLong := ["debug".toList] } true
        (by decide) (by decide) rfl rfl).2 (by decide)).2 (by decide)),
    by decide, by decide⟩

theorem occ_ok_cases (c : Screw) (occ : Occ) (hok : occ.ok c = true) :
    ∃ j o, c.getOption occ.name = some (j, o) ∧ o.once = false
      ∧ (∀ n v, occ = .inline n v → v ≠ [])
      ∧ (∀ n v, occ = .long n v →
          n.length ≠ 1 ∧ o.greedy = false ∧ o.pointer.isBool = some false
            ∧ o.pointer.isBoolSlice = some false ∧ c.isValueToken v = true)
      ∧ (∀ x v, occ = .short x v →
          x ≠ '-' ∧ v ≠ [] ∧ o.greedy = false ∧ o.pointer.isBool = some false
            ∧ o.pointer.isBoolSlice = some false ∧ c.isValueToken v = true) := by
  unfold Occ.ok at hok
  cases hg : c.getOption occ.name with
  | none => simp [hg] at hok
  | some p =>
    obtain ⟨j, o⟩ := p
    simp only [hg, Bool.and_eq_true, Bool.not_eq_true', decide_eq_true_eq, beq_iff_eq] at hok
    refine ⟨j, o, rfl, hok.1, ?_, ?_, ?_⟩
    · intro n v he
      subst he
      simpa using hok.2
    · intro n v he
      subst he
      have h2 := hok.2
      simp only [Bool.and_eq_true, Bool.not_eq_true', decide_eq_true_eq, beq_iff_eq] at h2
      exact ⟨h2.1.1.1.1, h2.1.1.1.2, h2.1.1.2, h2.1.2, h2.2⟩
    · intro x v he
      subst he
      have h2 := hok.2
      simp only [Bool.and_eq_true, Bool.not_eq_true', decide_eq_true_eq, beq_iff_eq] at h2
      exact ⟨h2.1.1.1.1.1, h2.1.1.1.1.2, h2.1.1.1.2, h2.1.1.2, h2.1.2, h2.2⟩

theorem isValueToken_fallback (c : Screw) (v : Str) (k : Nat)
    (h : c.isValueToken v = true) : findFallbackOpt c v k = (false, k, none) := by
  apply findFallbackOpt_plain
  intro hd
  simpa [Screw.isValueToken, hd] using h

theorem parseOneOption_occ (B : Screw → List Str → Screw × List Str × Option Err)
    (c : Screw) (rs : List Str) (i : Nat) (occ : Occ) (rest : List Str)
    (hlegal : c.legalNames = true) (hok : occ.ok c = true)
    (hargs : c.args.drop i = occ.tokens ++ rest) :
    ∃ j o, c.getOption occ.name = some (j, o)
      ∧ parseOneOption B c rs i
          = ((c.write j occ.value (occ.valueAt i) 0).1, rs, occ.valueAt i,
              (c.write j occ.value (occ.valueAt i) 0).2) := by
  obtain ⟨j, o, hreg, honce, hin, hlong, hshort⟩ := occ_ok_cases c occ hok
  refine ⟨j, o, hreg, ?_⟩
  have hkey := getOption_isKey hreg
  have h0 : ∀ t ts, occ.tokens = t :: ts → c.args[i]? = some t := by
    intro t ts ht
    have := congrArg List.head? hargs
    simpa [List.head?_drop, ht] using this
  have h1 : ∀ t u ts, occ.tokens = t :: u :: ts → c.args[i + 1]? = some u := by
    intro t u ts ht
    have := congrArg (fun l => l[1]?) hargs
    simpa [ht, List.getElem?_drop] using this
  cases occ with
  | inline n v =>
    have hv := hin n v rfl
    have hn : '=' ∉ n := legal_no_eq (isKey_legal hlegal hkey)
    have htok := h0 _ [] rfl
    simp only [Occ.name] at hreg
    have hk := parseLong_eq_write c n v i hlegal hn hv
      (fun id2 o2 h2 => by rw [hreg] at h2; cases h2; exact honce)
    rw [hreg] at hk
    simp only [inlineToken] at htok
    rw [parseOneOption_long B c rs i _ htok, getOptionAndSet_long_eq c _ _ (by simp), hk]
    rfl
  | long n v =>
    obtain ⟨hlen, hgreedy, hnb, hnbs, hval⟩ := hlong n v rfl
    have htok := h0 _ _ rfl
    have hnext := h1 _ _ _ rfl
    simp only [Occ.name] at hreg hkey
    rw [parseOneOption_long B c rs i n htok, getOptionAndSet_long_key c n _ hkey,
      parseLong_value_step c n v i j o hreg hlen hnb hnbs hgreedy hnext
        (isValueToken_fallback c v _ hval), checkOnce_not_once _ honce]
    rfl
  | short x v =>
    obtain ⟨hx, hv, hgreedy, hnb, hnbs, hval⟩ := hshort x v rfl
    have htok := h0 _ _ rfl
    have hnext := h1 _ _ _ rfl
    simp only [Occ.name] at hreg hkey
    rw [parseOneOption_short B c rs i x [] htok hx, getOptionAndSet_short_key c [x] _ hkey,
      parseShort_value_step c x v i j o hreg (key_byte hlegal hreg).1 hnb hnbs hgreedy hnext
        hv (isValueToken_fallback c v _ hval), checkOnce_not_once _ honce]
    rfl
theorem occ_ok_shape {c c2 : Screw} (hs : c.sameShape c2) (occ : Occ)
    (hok : occ.ok c = true) :
    occ.ok c2 = true
      ∧ (c2.getOption occ.name).map (fun p => p.1) = (c.getOption occ.name).map (fun p => p.1) := by
  have hkeyeq : ∀ n, c2.isKey n = c.isKey n := by
    intro n
    simp [Screw.isKey, hs.1]
  unfold Occ.ok at hok ⊢
  cases hg : c.getOption occ.name with
  | none => simp [hg] at hok
  | some p =>
    obtain ⟨j, o⟩ := p
    obtain ⟨o2, hg2, hsh⟩ := ctxShape_getOption hs hg
    simp only [hg] at hok
    simp only [hg2, Option.map_some', and_true]
    obtain ⟨h1, h2, h3, h4⟩ := hsh
    simpa [h1, h2, h3, h4, Screw.isValueToken, hkeyeq] using hok

theorem occWrites_shape {c c2 : Screw} (hs : c.sameShape c2) :
    ∀ (occs : List Occ) (i : Nat), (∀ occ ∈ occs, occ.ok c = true) →
      occWrites c2 occs i = occWrites c occs i := by
  intro occs
  induction occs with
  | nil => intro i _; rfl
  | cons occ occs ih =>
    intro i hok
    have h := (occ_ok_shape hs occ (hok occ (List.mem_cons_self occ occs))).2
    have hrest := ih (i + occ.tokens.length) (fun w hw => hok w (List.mem_cons_of_mem occ hw))
    simp only [occWrites]
    cases hg : c.getOption occ.name with
    | none =>
      cases hg2 : c2.getOption occ.name with
      | none => simpa using hrest
      | some p => simp [hg, hg2] at h
    | some p =>
      cases hg2 : c2.getOption occ.name with
      | none => simp [hg, hg2] at h
      | some p2 =>
        obtain ⟨j, o⟩ := p
        obtain ⟨j2, o2⟩ := p2
        simp only [hg, hg2, Option.map_some', Option.some.injEq] at h
        subst h
        simp [hrest]

theorem occ_tokens_pos (occ : Occ) : 0 < occ.tokens.length := by
  cases occ <;> simp [Occ.tokens]

theorem occ_valueAt (occ : Occ) (i : Nat) : occ.valueAt i + 1 = i + occ.tokens.length := by
  cases occ <;> simp [Occ.valueAt, Occ.tokens]

theorem bindLoop_occs (B : Screw → List Str → Screw × List Str × Option Err) :
    ∀ (occs : List Occ) (fuel : Nat) (c : Screw) (rs : List Str) (i : Nat),
      c.legalNames = true → (∀ occ ∈ occs, occ.ok c = true) →
      c.args.drop i = (occs.map Occ.tokens).flatten → occs.length ≤ fuel →
      bindLoop B fuel c rs i
        = ((writeSeq (occWrites c occs i) c).1, rs, (writeSeq (occWrites c occs i) c).2) := by
  intro occs
  induction occs with
  | nil =>
    intro fuel c rs i _ _ hargs _
    have hge : ¬ (i < c.args.length) := by
      intro h
      have := List.drop_eq_nil_iff.mp (by simpa using hargs)
      omega
    cases fuel <;> simp [bindLoop, hge, writeSeq, occWrites]
  | cons occ occs ih =>
    intro fuel c rs i hlegal hok hargs hfuel
    have hargs2 : c.args.drop i = occ.tokens ++ (occs.map Occ.tokens).flatten := by
      simpa using hargs
    have hpos := occ_tokens_pos occ
    have hlt : i < c.args.length := by
      by_contra h
      have : c.args.drop i = [] := List.drop_eq_nil_iff.mpr (by omega)
      rw [this] at hargs2
      have := congrArg List.length hargs2
      simp at this
      omega
    obtain ⟨j, o, hreg, hstep⟩ := parseOneOption_occ B c rs i occ _ hlegal
      (hok occ (List.mem_cons_self occ occs)) hargs2
    cases fuel with
    | zero => simp at hfuel
    | succ fuel =>
      rw [bindLoop, if_pos hlt, hstep]
      simp only [occWrites, hreg, writeSeq]
      have hsh := ctxShape_write c j occ.value (occ.valueAt i) 0
      have hwa := write_args c j occ.value (occ.valueAt i) 0
      cases hw : c.write j occ.value (occ.valueAt i) 0 with
      | mk c2 e =>
        rw [hw] at hsh hwa
        simp only at hsh hwa
        cases e with
        | some e2 => rfl
        | none =>
          simp only
          have hrest : c2.args.drop (occ.valueAt i + 1) = (occs.map Occ.tokens).flatten := by
            rw [hwa, occ_valueAt, ← List.drop_drop, hargs2, List.drop_left]
          have hok2 : ∀ w ∈ occs, w.ok c2 = true := fun w hw2 =>
            (occ_ok_shape hsh w (hok w (List.mem_cons_of_mem occ hw2))).1
          have h := ih fuel c2 rs (occ.valueAt i + 1)
            (by simpa [Screw.legalNames, hsh.1] using hlegal) hok2 hrest (by simpa using hfuel)
          rw [h, occ_valueAt, occWrites_shape hsh occs _
            (fun w hw2 => hok w (List.mem_cons_of_mem occ hw2))]
theorem write_fields (c : Screw) (id : Nat) (val : Str) (index low : Nat) :
    (c.write id val index low).1.unparsedArgs = c.unparsedArgs
      ∧ (c.write id val index low).1.envAndArgs = c.envAndArgs := by
  unfold Screw.write
  cases c.options[id]? <;> simp [Screw.setOpt]

theorem writeSeq_fields :
    ∀ (ws : List (Nat × Str × Nat × Nat)) (c : Screw),
      (writeSeq ws c).1.unparsedArgs = c.unparsedArgs
        ∧ (writeSeq ws c).1.envAndArgs = c.envAndArgs
        ∧ (writeSeq ws c).1.args = c.args := by
  intro ws
  induction ws with
  | nil => intro c; exact ⟨rfl, rfl, rfl⟩
  | cons w ws ih =>
    intro c
    rw [writeSeq]
    have hf := write_fields c w.1 w.2.1 w.2.2.1 w.2.2.2
    have ha := write_args c w.1 w.2.1 w.2.2.1 w.2.2.2
    cases hw : c.write w.1 w.2.1 w.2.2.1 w.2.2.2 with
    | mk c2 e =>
      rw [hw] at hf ha
      simp only at hf ha
      cases e with
      | some e2 => exact ⟨hf.1, hf.2, ha⟩
      | none =>
        simp only
        have h := ih c2
        exact ⟨h.1.trans hf.1, h.2.1.trans hf.2, h.2.2.trans ha⟩

theorem writeSeq_at (id : Nat) :
    ∀ (ws : List (Nat × Str × Nat × Nat)) (c : Screw) (o : Opt),
      c.options[id]? = some o → (writeSeq ws c).2 = none →
      (writeSeq ws c).1.options[id]? = some (writeAll (writesTo id ws) o).1
        ∧ (writeAll (writesTo id ws) o).2 = none := by
  intro ws
  induction ws with
  | nil => intro c o ho _; exact ⟨ho, rfl⟩
  | cons w ws ih =>
    intro c o ho hnone
    rw [writeSeq] at hnone ⊢
    by_cases hj : w.1 = id
    · have hwe := write_eq w.2.1 w.2.2.1 w.2.2.2 (hj ▸ ho)
      rw [hwe, hj] at hnone ⊢
      have hwt : writesTo id (w :: ws) = w.2 :: writesTo id ws := by
        simp [writesTo, hj]
      rw [hwt, writeAll]
      have hlt : id < c.options.length := (List.getElem?_eq_some_iff.mp ho).1
      cases hsv : setValueAndIndex w.2.1 o w.2.2.1 w.2.2.2 with
      | mk o2 e =>
        rw [hsv] at hnone
        cases e with
        | some e2 => simp at hnone
        | none =>
          simp only at hnone ⊢
          exact ih (c.setOpt id o2) o2
            (by simp [Screw.setOpt, List.getElem?_set_self hlt]) hnone
    · have hfr := write_frame c w.1 id w.2.1 w.2.2.1 w.2.2.2 hj
      have hwt : writesTo id (w :: ws) = writesTo id ws := by
        simp [writesTo, hj]
      rw [hwt]
      cases hw : c.write w.1 w.2.1 w.2.2.1 w.2.2.2 with
      | mk c2 e =>
        rw [hw] at hnone hfr
        cases e with
        | some e2 => simp at hnone
        | none =>
          simp only at hnone hfr ⊢
          exact ih c2 o (hfr.trans ho) hnone

theorem writeSeq_only (id : Nat) :
    ∀ (ws : List (Nat × Str × Nat × Nat)) (c : Screw) (o : Opt),
      c.options[id]? = some o → (∀ w ∈ ws, w.1 = id) →
      (writeAll (writesTo id ws) o).2 = none → (writeSeq ws c).2 = none := by
  intro ws
  induction ws with
  | nil => intro c o _ _ _; rfl
  | cons w ws ih =>
    intro c o ho hall hnone
    have hj : w.1 = id := hall w (List.mem_cons_self w ws)
    have hwe := write_eq w.2.1 w.2.2.1 w.2.2.2 (hj ▸ ho)
    have hwt : writesTo id (w :: ws) = w.2 :: writesTo id ws := by
      simp [writesTo, hj]
    rw [hwt, writeAll] at hnone
    rw [writeSeq, hwe, hj]
    have hlt : id < c.options.length := (List.getElem?_eq_some_iff.mp ho).1
    cases hsv : setValueAndIndex w.2.1 o w.2.2.1 w.2.2.2 with
    | mk o2 e =>
      rw [hsv] at hnone
      cases e with
      | some e2 => simp at hnone
      | none =>
        simp only at hnone ⊢
        exact ih (c.setOpt id o2) o2 (by simp [Screw.setOpt, List.getElem?_set_self hlt])
          (fun w2 hw2 => hall w2 (List.mem_cons_of_mem w hw2)) hnone

theorem occs_length_le (occs : List Occ) :
    occs.length ≤ ((occs.map Occ.tokens).flatten).length := by
  induction occs with
  | nil => simp
  | cons occ occs ih =>
    have := occ_tokens_pos occ
    simp only [List.map_cons, List.flatten_cons, List.length_append, List.length_cons]
    omega

theorem bindStruct_occs (env : Str → Option Str) (c : Screw) (occs : List Occ)
    (hlegal : c.legalNames = true) (hok : ∀ occ ∈ occs, occ.ok c = true)
    (hargs : c.args = (occs.map Occ.tokens).flatten) :
    bindStruct env c
      = (match writeSeq (occWrites c occs 0) c with
         | (c1, some e) => (c1, some e)
         | (c1, none) => bindEnvAndArgs env c1) := by
  have hl := bindLoop_occs (bindStructDepth env c.args.length) occs c.args.length c
    c.isSetSubcommand 0 hlegal hok (by simpa using hargs)
    (by rw [hargs]; exact occs_length_le occs)
  unfold bindStruct
  rw [bindStructDepth, hl]
  cases hw : writeSeq (occWrites c occs 0) c with
  | mk c1 e =>
    cases e with
    | some e2 => rfl
    | none =>
      cases bindEnvAndArgs env c1
      rfl
theorem onceResetValue_envName (o : Opt) : (onceResetValue o).1.envName = o.envName := by
  unfold onceResetValue
  split
  · split
    · rfl
    · split <;> rfl
  · rfl

theorem setValueAndIndex_envName (val : Str) (o : Opt) (index low : Nat) :
    (setValueAndIndex val o index low).1.envName = o.envName := by
  have h1 := onceResetValue_envName o
  unfold setValueAndIndex
  cases hr : onceResetValue o with
  | mk o1 e1 =>
    rw [hr] at h1
    simp only at h1
    cases e1 with
    | some e2 => exact h1
    | none =>
      simp only
      split <;> exact h1

theorem envWrites_write (env : Str → Option Str) (val : Str) (o : Opt) (index low : Nat)
    (ids : List Nat) (id : Nat) :
    envWrites env (setValueAndIndex val o index low).1 ids id = envWrites env o ids id := by
  simp only [envWrites, setValueAndIndex_envName, setValueAndIndex_kind]

theorem envWrites_writeAll (env : Str → Option Str) (ids : List Nat) (id : Nat) :
    ∀ (ws : List (Str × Nat × Nat)) (o : Opt),
      envWrites env (writeAll ws o).1 ids id = envWrites env o ids id := by
  intro ws
  induction ws with
  | nil => intro o; rfl
  | cons w ws ih =>
    intro o
    rw [writeAll]
    have h := envWrites_write env w.1 o w.2.1 w.2.2 ids id
    cases hsv : setValueAndIndex w.1 o w.2.1 w.2.2 with
    | mk o2 e =>
      rw [hsv] at h
      simp only at h
      cases e with
      | some e2 => exact h
      | none => exact (ih o2).trans h

theorem writeAll_append :
    ∀ (ws ws2 : List (Str × Nat × Nat)) (o : Opt), (writeAll ws o).2 = none →
      writeAll (ws ++ ws2) o = writeAll ws2 (writeAll ws o).1 := by
  intro ws
  induction ws with
  | nil => intro ws2 o _; rfl
  | cons w ws ih =>
    intro ws2 o hnone
    rw [List.cons_append, writeAll]
    rw [writeAll] at hnone ⊢
    cases hsv : setValueAndIndex w.1 o w.2.1 w.2.2 with
    | mk o2 e =>
      rw [hsv] at hnone
      cases e with
      | some e2 => simp at hnone
      | none => exact ih ws2 o2 hnone

theorem setEnvAndArgs_at (env : Str → Option Str) (c : Screw) (id : Nat) (o : Opt)
    (ho : c.options[id]? = some o) (hu : c.unparsedArgs = []) :
    setEnvAndArgs env c id
      = (match envWrites env o [id] id with
         | [] => (c, none)
         | w :: _ =>
           (c.setOpt id (setValueAndIndex w.1 o 0 0).1, (setValueAndIndex w.1 o 0 0).2)) := by
  unfold setEnvAndArgs envWrites
  simp only [ho, List.count_singleton_self, List.replicate_one]
  by_cases hl : o.envName.length > 0
  · cases hv : env o.envName with
    | some v => simp [hl, hv]
    | none => simp [hl, hv, hu]
  · simp [hl, hu]

theorem setEnvAndArgs_unparsed (env : Str → Option Str) (c : Screw) (j : Nat)
    (hu : c.unparsedArgs = []) : (setEnvAndArgs env c j).1.unparsedArgs = [] := by
  unfold setEnvAndArgs
  split
  · exact hu
  · simp only
    split
    · simpa [Screw.setOpt] using hu
    · simp [hu]

theorem envWrites_cons_self (env : Str → Option Str) (o : Opt) (ids : List Nat) (id : Nat) :
    envWrites env o (id :: ids) id = envWrites env o [id] id ++ envWrites env o ids id := by
  unfold envWrites
  by_cases hl : o.envName.length > 0
  · cases hv : env o.envName with
    | some v =>
      simp only [hl, if_true, List.count_cons_self, List.count_singleton_self,
        List.replicate_one, List.count_nil]
      rw [List.replicate_succ]
      rfl
    | none => simp [hl]
  · simp [hl]

theorem envWrites_cons_other (env : Str → Option Str) (o : Opt) (ids : List Nat) (j id : Nat)
    (hne : j ≠ id) : envWrites env o (j :: ids) id = envWrites env o ids id := by
  unfold envWrites
  rw [List.count_cons_of_ne (Ne.symm hne)]

theorem envWrites_single (env : Str → Option Str) (o : Opt) (id : Nat) :
    envWrites env o [id] id = []
      ∨ ∃ v : Str, envWrites env o [id] id = [(v, 0, 0)] := by
  unfold envWrites
  by_cases hl : o.envName.length > 0
  · cases hv : env o.envName with
    | some v =>
      right
      refine ⟨if o.pointer.Kind = .Bool then
        (if v ≠ "false".toList then "true".toList else v) else v, ?_⟩
      simp only [hl, if_true, List.count_singleton_self, List.replicate_one]
    | none => left; simp [hl]
  · left; simp [hl]

theorem bindEnvAndArgsLoop_at (env : Str → Option Str) (id : Nat) :
    ∀ (ids : List Nat) (c : Screw) (o : Opt),
      c.options[id]? = some o → c.unparsedArgs = [] →
      (bindEnvAndArgsLoop env ids c).2 = none →
      (bindEnvAndArgsLoop env ids c).1.options[id]?
          = some (writeAll (envWrites env o ids id) o).1
        ∧ (writeAll (envWrites env o ids id) o).2 = none := by
  intro ids
  induction ids with
  | nil =>
    intro c o ho _ _
    have : envWrites env o [] id = [] := by
      unfold envWrites
      split
      · split <;> simp
      · rfl
    rw [this]
    exact ⟨ho, rfl⟩
  | cons j ids ih =>
    intro c o ho hu hnone
    rw [bindEnvAndArgsLoop] at hnone ⊢
    have hu2 := setEnvAndArgs_unparsed env c j hu
    by_cases hj : j = id
    · subst hj
      have hat := setEnvAndArgs_at env c j o ho hu
      have hlt : j < c.options.length := (List.getElem?_eq_some_iff.mp ho).1
      rw [envWrites_cons_self]
      rcases envWrites_single env o j with h0 | ⟨w, hw⟩
      · rw [h0] at hat ⊢
        simp only at hat
        rw [hat] at hnone ⊢
        simp only [List.nil_append] at hnone ⊢
        exact ih c o ho hu hnone
      · rw [hw] at hat ⊢
        simp only at hat
        rw [hat] at hnone ⊢
        rw [hat] at hu2
        simp only [List.singleton_append, writeAll]
        have hew := envWrites_write env w o 0 0 ids j
        cases hsv : setValueAndIndex w o 0 0 with
        | mk o2 e =>
          rw [hsv] at hnone hew hu2
          cases e with
          | some e2 => simp at hnone
          | none =>
            simp only at hnone hew hu2 ⊢
            have h := ih (c.setOpt j o2) o2
              (by simp [Screw.setOpt, List.getElem?_set_self hlt]) hu2 hnone
            rw [hew] at h
            exact h
    · rw [envWrites_cons_other env o ids j id hj]
      have hother := setEnvAndArgs_other env c j id hj
      cases hs : setEnvAndArgs env c j with
      | mk c2 e =>
        rw [hs] at hnone hother hu2
        cases e with
        | some e2 => simp at hnone
        | none =>
          simp only at hnone hother hu2 ⊢
          exact ih c2 o (hother.trans ho) hu2 hnone
theorem writeAll_append_none :
    ∀ (ws ws2 : List (Str × Nat × Nat)) (o : Opt), (writeAll (ws ++ ws2) o).2 = none →
      (writeAll ws o).2 = none := by
  intro ws
  induction ws with
  | nil => intro ws2 o _; rfl
  | cons w ws ih =>
    intro ws2 o hnone
    rw [List.cons_append, writeAll] at hnone
    rw [writeAll]
    cases hsv : setValueAndIndex w.1 o w.2.1 w.2.2 with
    | mk o2 e =>
      rw [hsv] at hnone
      cases e with
      | some e2 => simp at hnone
      | none => exact ih ws2 o2 hnone

theorem bindEnvAndArgsLoop_only (env : Str → Option Str) (id : Nat) :
    ∀ (ids : List Nat) (c : Screw) (o : Opt),
      c.options[id]? = some o → c.unparsedArgs = [] → (∀ j ∈ ids, j = id) →
      (writeAll (envWrites env o ids id) o).2 = none →
      (bindEnvAndArgsLoop env ids c).2 = none := by
  intro ids
  induction ids with
  | nil => intro c o _ _ _ _; rfl
  | cons j ids ih =>
    intro c o ho hu hall hnone
    have hj : j = id := hall j (List.mem_cons_self j ids)
    subst hj
    have hall2 : ∀ k ∈ ids, k = j := fun k hk => hall k (List.mem_cons_of_mem j hk)
    have hat := setEnvAndArgs_at env c j o ho hu
    have hu2 := setEnvAndArgs_unparsed env c j hu
    have hlt : j < c.options.length := (List.getElem?_eq_some_iff.mp ho).1
    rw [envWrites_cons_self] at hnone
    rw [bindEnvAndArgsLoop]
    rcases envWrites_single env o j with h0 | ⟨w, hw⟩
    · rw [h0] at hat hnone
      simp only at hat
      rw [hat]
      simp only [List.nil_append] at hnone ⊢
      exact ih c o ho hu hall2 hnone
    · rw [hw] at hat hnone
      simp only at hat
      rw [hat] at hu2 ⊢
      simp only [List.singleton_append, writeAll] at hnone
      have hew := envWrites_write env w o 0 0 ids j
      cases hsv : setValueAndIndex w o 0 0 with
      | mk o2 e =>
        rw [hsv] at hnone hew hu2
        cases e with
        | some e2 => simp at hnone
        | none =>
          simp only at hnone hew hu2 ⊢
          rw [← hew] at hnone
          exact ih (c.setOpt j o2) o2 (by simp [Screw.setOpt, List.getElem?_set_self hlt]) hu2
            hall2 hnone

theorem bindStruct_occs_at (env : Str → Option Str) (c : Screw) (id : Nat) (o : Opt)
    (occs : List Occ)
    (hlegal : c.legalNames = true) (ho : c.options[id]? = some o)
    (hu : c.unparsedArgs = []) (hok : ∀ occ ∈ occs, occ.ok c = true)
    (hargs : c.args = (occs.map Occ.tokens).flatten)
    (hnone : (bindStruct env c).2 = none) :
    (bindStruct env c).1.options[id]?
        = some (writeAll
            (writesTo id (occWrites c occs 0) ++ envWrites env o c.envAndArgs id) o).1
      ∧ (writeAll
          (writesTo id (occWrites c occs 0) ++ envWrites env o c.envAndArgs id) o).2
          = none := by
  rw [bindStruct_occs env c occs hlegal hok hargs] at hnone ⊢
  have hf := writeSeq_fields (occWrites c occs 0) c
  have hat := writeSeq_at id (occWrites c occs 0) c o ho
  cases hw : writeSeq (occWrites c occs 0) c with
  | mk c1 e =>
    rw [hw] at hnone hf hat
    cases e with
    | some e2 => simp at hnone
    | none =>
      simp only at hnone hf hat ⊢
      obtain ⟨h1, h1n⟩ := hat trivial
      have hl := bindEnvAndArgsLoop_at env id c1.envAndArgs c1 _ h1 (hf.1.trans hu)
        (by simpa [bindEnvAndArgs] using hnone)
      rw [envWrites_writeAll, hf.2.1] at hl
      rw [writeAll_append _ _ _ h1n]
      simp only [bindEnvAndArgs, hf.2.1]
      exact hl

theorem occWrites_only (c : Screw) (id : Nat) :
    ∀ (occs : List Occ) (i : Nat),
      (∀ occ ∈ occs, (c.getOption occ.name).map (fun p => p.1) = some id) →
      (∀ w ∈ occWrites c occs i, w.1 = id)
        ∧ (writesTo id (occWrites c occs i)).map (fun w => w.1) = occs.map Occ.value := by
  intro occs
  induction occs with
  | nil => intro i _; simp [occWrites, writesTo]
  | cons occ occs ih =>
    intro i hall
    have h := hall occ (List.mem_cons_self occ occs)
    have hrest := ih (i + occ.tokens.length) (fun w hw => hall w (List.mem_cons_of_mem occ hw))
    cases hg : c.getOption occ.name with
    | none => simp [hg] at h
    | some p =>
      obtain ⟨j, oj⟩ := p
      simp only [hg, Option.map_some', Option.some.injEq] at h
      subst h
      simp only [occWrites, hg]
      constructor
      · intro w hw
        rcases List.mem_cons.mp hw with rfl | hw2
        · rfl
        · exact hrest.1 w hw2
      · have := hrest.2
        simp only [writesTo] at this ⊢
        simp [this]

theorem bindStruct_occs_ok (env : Str → Option Str) (c : Screw) (id : Nat) (o : Opt)
    (occs : List Occ)
    (hlegal : c.legalNames = true) (ho : c.options[id]? = some o)
    (hu : c.unparsedArgs = []) (hok : ∀ occ ∈ occs, occ.ok c = true)
    (hargs : c.args = (occs.map Occ.tokens).flatten)
    (hall : ∀ occ ∈ occs, (c.getOption occ.name).map (fun p => p.1) = some id)
    (henv : ∀ j ∈ c.envAndArgs, j = id)
    (hw : (writeAll
      (writesTo id (occWrites c occs 0) ++ envWrites env o c.envAndArgs id) o).2 = none) :
    (bindStruct env c).2 = none := by
  rw [bindStruct_occs env c occs hlegal hok hargs]
  have hf := writeSeq_fields (occWrites c occs 0) c
  have h1n := writeAll_append_none _ _ _ hw
  have hs := writeSeq_only id (occWrites c occs 0) c o ho (occWrites_only c id occs 0 hall).1 h1n
  have hat := writeSeq_at id (occWrites c occs 0) c o ho hs
  rw [writeAll_append _ _ _ h1n] at hw
  cases hwq : writeSeq (occWrites c occs 0) c with
  | mk c1 e =>
    rw [hwq] at hs hf hat
    simp only at hs hf hat
    subst hs
    simp only [bindEnvAndArgs]
    apply bindEnvAndArgsLoop_only env id c1.envAndArgs c1 _ hat.1 (hf.1.trans hu)
    · rw [hf.2.1]; exact henv
    · rw [envWrites_writeAll, hf.2.1]; exact hw
theorem envWrites_unset (env : Str → Option Str) (o : Opt) (ids : List Nat) (id : Nat)
    (h : o.envName = [] ∨ env o.envName = none) : envWrites env o ids id = [] := by
  unfold envWrites
  rcases h with h | h
  · simp [h]
  · simp [h]

/-- C23 (amended): let `o` be a descriptor with a declared default that is not yet
marked written, and `ws` a list of `n ≥ 1` writes.  If the destination of `o` is
non-zero, a write through `setValueAndIndex` resets it, then applies the new value
(through the callback if `o` has one, the destination staying reset, and through the
value coercion otherwise) and marks `o` written.  A write to a marked descriptor keeps
the mark and does not reset, and no bind pass, at any nesting depth, clears a mark.
Hence the writes `ws` to `o` without callback leave a string sequence as exactly the
values written, and an integer or boolean sequence, the coercion accepting every
value, as exactly their conversions, without the elements of the default; with a
callback and a non-zero destination they leave the destination reset and hand the
values to the callback.  On the command line: let the registry have legal names, the
unparsed list be empty, and the vector consist of occurrences `--name=v`, `--name v`
and `-x v` of registered options that are not once-marked (`Occ.ok`).  Then the main
loop performs exactly the writes of the occurrences, in order, and the environment step
follows; and if `ws` lists the writes of the occurrences that address `o` followed by
the write of the value of the environment variable of `o` (if `o` has an environment
name whose variable is set), once for every entry of `o` in the environment/positional
list, a bind pass that returns no error leaves `o` as the writes `ws` leave it.  If
every occurrence addresses `o` and the environment/positional list has no entry of
another descriptor, a string sequence without callback ends without error as exactly
`[v1, ..., vn]` followed by the environment value (once per entry), and as exactly
`[v1, ..., vn]` if no environment value is set. -/
theorem C23_write_semantics (o : Opt) (ws : List (Str × Nat × Nat))
    (hdef : o.showDefValue ≠ []) (hset : o.cmdSet = false) (hws : ws ≠ []) :
    (∀ (val : Str) (index low : Nat), o.pointer.IsZero = some false →
        setValueAndIndex val o index low
          = if o.fn = true then
              ({ o with pointer := resetValue o.pointer, cmdSet := true,
                        index := orderKey index low, fnCalls := o.fnCalls ++ [val] }, none)
            else
              ({ o with pointer := (setBase val (resetValue o.pointer)).1, cmdSet := true,
                        index := orderKey index low },
                (setBase val (resetValue o.pointer)).2))
      ∧ (∀ (val : Str) (index low : Nat) (o2 : Opt), o2.cmdSet = true →
          (setValueAndIndex val o2 index low).1.cmdSet = true
            ∧ (setValueAndIndex val o2 index low).1.pointer
                = (if o2.fn = true then o2.pointer else (setBase val o2.pointer).1))
      ∧ (∀ (env : Str → Option Str) (d : Nat) (c : Screw) (rs : List Str),
          c.marksKept (bindStructDepth env d c rs).1)
      ∧ (∀ (env : Str → Option Str) (c : Screw), c.marksKept (bindStruct env c).1)
      ∧ (o.fn = false →
          (∀ d, o.pointer = .strs d →
            (writeAll ws o).2 = none
              ∧ (writeAll ws o).1.pointer = .strs (ws.map (fun v => v.1)))
          ∧ (∀ d, o.pointer = .ints d → (∀ v ∈ ws, (parseInt v.1).isSome = true) →
            (writeAll ws o).2 = none
              ∧ (writeAll ws o).1.pointer = .ints (ws.filterMap (fun v => parseInt v.1)))
          ∧ (∀ d, o.pointer = .bools d → (∀ v ∈ ws, (parseBool v.1).isSome = true) →
            (writeAll ws o).2 = none
              ∧ (writeAll ws o).1.pointer = .bools (ws.filterMap (fun v => parseBool v.1))))
      ∧ (o.fn = true → o.pointer.IsZero = some false →
          (writeAll ws o).2 = none ∧ (writeAll ws o).1.pointer = resetValue o.pointer
            ∧ (writeAll ws o).1.fnCalls = o.fnCalls ++ ws.map (fun v => v.1))
      ∧ (∀ (env : Str → Option Str) (c : Screw) (id : Nat) (occs : List Occ),
          c.legalNames = true → c.options[id]? = some o → c.unparsedArgs = [] →
          (∀ occ ∈ occs, occ.ok c = true) → c.args = (occs.map Occ.tokens).flatten →
          ws = writesTo id (occWrites c occs 0) ++ envWrites env o c.envAndArgs id →
          (∀ (B : Screw → List Str → Screw × List Str × Option Err) (rs : List Str),
              bindLoop B c.args.length c rs 0
                = ((writeSeq (occWrites c occs 0) c).1, rs,
                    (writeSeq (occWrites c occs 0) c).2))
            ∧ bindStruct env c
                = (match writeSeq (occWrites c occs 0) c with
                   | (c1, some e) => (c1, some e)
                   | (c1, none) => bindEnvAndArgs env c1)
            ∧ ((bindStruct env c).2 = none →
                (bindStruct env c).1.options[id]? = some (writeAll ws o).1
                  ∧ (writeAll ws o).2 = none)
            ∧ ((∀ occ ∈ occs, (c.getOption occ.name).map (fun p => p.1) = some id) →
                (∀ j ∈ c.envAndArgs, j = id) → o.fn = false → ∀ d, o.pointer = .strs d →
                (bindStruct env c).2 = none
                  ∧ ((bindStruct env c).1.options[id]?).map (fun o2 => o2.pointer)
                      = some (.strs (occs.map Occ.value
                          ++ (envWrites env o c.envAndArgs id).map (fun w => w.1)))
                  ∧ ((o.envName = [] ∨ env o.envName = none) →
                      ((bindStruct env c).1.options[id]?).map (fun o2 => o2.pointer)
                        = some (.strs (occs.map Occ.value))))) := by
  refine ⟨fun val index low hz => setValueAndIndex_first val o index low hdef hz hset,
    fun val index low o2 h2 =>
      ⟨(setValueAndIndex_later val o2 index low h2).1,
        (setValueAndIndex_later val o2 index low h2).2.1⟩,
    fun env d c rs => bindStructDepth_marks env d c rs,
    fun env c => bindStruct_marks env c,
    fun hfn =>
      ⟨fun d hp => writeAll_strs ws o d hfn hdef hset hws hp,
        fun d hp hall => writeAll_ints ws o d hfn hdef hset hws hp hall,
        fun d hp hall => writeAll_bools ws o d hfn hdef hset hws hp hall⟩,
    fun hfn hz => writeAll_callback ws o hfn hdef hset hws hz, ?_⟩
  intro env c id occs hlegal ho hu hok hargs hwseq
  refine ⟨?_, bindStruct_occs env c occs hlegal hok hargs, ?_, ?_⟩
  · intro B rs
    exact bindLoop_occs B occs c.args.length c rs 0 hlegal hok (by simpa using hargs)
      (by rw [hargs]; exact occs_length_le occs)
  · intro hnone
    rw [hwseq]
    exact bindStruct_occs_at env c id o occs hlegal ho hu hok hargs hnone
  · intro hall henv hfn d hp
    have hw := writeAll_strs ws o d hfn hdef hset hws hp
    have hnone : (bindStruct env c).2 = none :=
      bindStruct_occs_ok env c id o occs hlegal ho hu hok hargs hall henv
        (by rw [← hwseq]; exact hw.1)
    have hat := bindStruct_occs_at env c id o occs hlegal ho hu hok hargs hnone
    rw [← hwseq] at hat
    have hvals : ws.map (fun v => v.1)
        = occs.map Occ.value ++ (envWrites env o c.envAndArgs id).map (fun w => w.1) := by
      rw [hwseq, List.map_append, (occWrites_only c id occs 0 hall).2]
    have hfin : ((bindStruct env c).1.options[id]?).map (fun o2 => o2.pointer)
        = some (.strs (occs.map Occ.value
            ++ (envWrites env o c.envAndArgs id).map (fun w => w.1))) := by
      rw [hat.1, Option.map_some', hw.2, hvals]
    refine ⟨hnone, hfin, ?_⟩
    intro hunset
    rw [hfin, envWrites_unset env o _ id hunset]
    simp

theorem C23_write_semantics_witness :
    (exHeaderOpt.showDefValue ≠ [] ∧ exHeaderOpt.cmdSet = false
        ∧ exHeaderOpt.pointer = .strs ["x".toList])
      ∧ (writeAll [("a".toList, 1, 0), ("b".toList, 2, 0), ("c".toList, 4, 0)]
          exHeaderOpt).1.pointer = .strs ["a".toList, "b".toList, "c".toList]
      ∧ ((bindStruct noEnv (exHeaders ["-H".toList, "a".toList, "--header=b".toList,
            "--header".toList, "c".toList])).2 = none
        ∧ ((bindStruct noEnv (exHeaders ["-H".toList, "a".toList, "--header=b".toList,
            "--header".toList, "c".toList])).1.options[0]?).map (fun o2 => o2.pointer)
            = some (.strs ["a".toList, "b".toList, "c".toList]))
      ∧ ((bindStruct (envOf [("HDR".toList, "e".toList)])
            (exHeadersEnv ["-H".toList, "a".toList, "-H".toList, "b".toList])).2 = none
        ∧ ((bindStruct (envOf [("HDR".toList, "e".toList)])
            (exHeadersEnv ["-H".toList, "a".toList, "-H".toList, "b".toList])).1.options[0]?).map
            (fun o2 => o2.pointer) = some (.strs ["a".toList, "b".toList, "e".toList]))
      ∧ (bindStruct noEnv (exHeaders [])).1.options.map (fun o2 => (o2.pointer, o2.cmdSet))
          = [(.strs ["x".toList], false)] :=
  ⟨⟨by decide, by decide, by decide⟩,
    ((C23_write_semantics exHeaderOpt
      [("a".toList, 1, 0), ("b".toList, 2, 0), ("c".toList, 4, 0)] (by decide)
      (by decide) (by decide)).2.2.2.2.1 (by decide)).1 ["x".toList] (by decide) |>.2,
    (fun h => ⟨h.1, h.2.2 (Or.inl (by decide))⟩)
      (((C23_write_semantics exHeaderOpt
          [("a".toList, 1, 0), ("b".toList, 2, 0), ("c".toList, 4, 0)] (by decide)
          (by decide) (by decide)).2.2.2.2.2.2 noEnv
        (exHeaders ["-H".toList, "a".toList, "--header=b".toList, "--header".toList,
          "c".toList]) 0
        [.short 'H' "a".toList, .inline "header".toList "b".toList,
          .long "header".toList "c".toList]
        (by decide) (by decide) (by decide) (by decide) (by decide) (by decide)).2.2.2
        (by decide) (by decide) (by decide) ["x".toList] (by decide)),
    (fun h => ⟨h.1, h.2.1⟩)
      (((C23_write_semantics exHeaderEnvOpt
          [("a".toList, 1, 0), ("b".toList, 3, 0), ("e".toList, 0, 0)] (by decide)
          (by decide) (by decide)).2.2.2.2.2.2 (envOf [("HDR".toList, "e".toList)])
        (exHeadersEnv ["-H".toList, "a".toList, "-H".toList, "b".toList]) 0
        [.short 'H' "a".toList, .short 'H' "b".toList]
        (by decide) (by decide) (by decide) (by decide) (by decide) (by decide)).2.2.2
        (by decide) (by decide) (by decide) ["x".toList] (by decide)),
    by decide⟩

end screw
